import Mathlib

/-!
MiniSQL storage core: B+ tree index, index scan executor

A shallow embedding of `src/index/b_plus_tree.cpp`,
`src/page/b_plus_tree_internal_page.cpp` and
`src/executor/index_scan_executor.cpp`.

Conventions of the embedding

* A page pointer of the C++ code is a page id; every access through the
  pointer reads or writes the page table of the buffer pool at that id.
* An operation returns `none` where the C++ code has no defined result:
  a page is fetched that the pool does not hold, a page is used through a
  pointer of the wrong page type, an uninitialised variable is read, or a
  loop does not terminate (a descent longer than the number of pages).
* The data area `data_` of an internal page is a sequence of bytes; bytes
  never written read as zero (a new page is a zeroed frame).
* Sizes are natural numbers; page ids are integers, `-1` is invalid.
-/

namespace MiniSQL

/-! ## Bytes -/

/-- Read `n` bytes of `d` starting at byte offset `off`. -/
def memRead (d : List Nat) (off n : Nat) : List Nat :=
  (List.range n).map fun i => d.getD (off + i) 0

/-- The effect of `memcpy(d + off, bs, bs.length)`. -/
def memWrite (d : List Nat) (off : Nat) (bs : List Nat) : List Nat :=
  d.take off ++ List.replicate (off - d.length) 0 ++ bs ++ d.drop (off + bs.length)

/-- Little-endian bytes of a 32-bit two-complement integer (`page_id_t`). -/
def encode32 (v : Int) : List Nat :=
  let n := (v % 4294967296).toNat
  [n % 256, n / 256 % 256, n / 65536 % 256, n / 16777216 % 256]

/-- The 32-bit signed integer stored in the first four bytes of `bs`. -/
def decode32 (bs : List Nat) : Int :=
  let n := bs.getD 0 0 + 256 * bs.getD 1 0 + 65536 * bs.getD 2 0 + 16777216 * bs.getD 3 0
  if n < 2147483648 then (n : Int) else (n : Int) - 4294967296

def INVALID_PAGE_ID : Int := -1

def INDEX_ROOTS_PAGE_ID : Int := 0

/-! ## Keys and row ids -/

/-- Modelled from the spec: `RowId` of the missing `common/rowid.h`, a pair
`(page_id: u32, slot: u32)`. -/
structure RowId where
  page_id_ : Nat
  slot_num_ : Nat
deriving DecidableEq, Repr

/-- Modelled from the spec: the 64-bit packed form of a `RowId`, used to order
row ids (`RowId::Get`). -/
def RowId.Get (r : RowId) : Nat := r.page_id_ * 4294967296 + r.slot_num_

/-- The `KeyManager` of the missing `index/generic_key.h`, taken as a
parameter: the key width in bytes and the caller-supplied comparison, whose
result is negative, zero or positive. A `GenericKey` is its `key_size_` bytes. -/
structure KeyManager where
  key_size_ : Nat
  CompareKeys : List Nat → List Nat → Int

def KeyManager.GetKeySize (KM : KeyManager) : Nat := KM.key_size_

/-! ## Internal pages (`b_plus_tree_internal_page.cpp`) -/

/-- Header fields and data area of an internal page. -/
structure InternalPage where
  page_id_ : Int
  parent_page_id_ : Int
  size_ : Nat
  max_size_ : Nat
  key_size_ : Nat
  data_ : List Nat
deriving DecidableEq, Repr

namespace InternalPage

/-- The size of a pair, `pair_size`: `GetKeySize() + sizeof(page_id_t)`. -/
def pair_size (p : InternalPage) : Nat := p.key_size_ + 4

def GetSize (p : InternalPage) : Nat := p.size_

def GetMaxSize (p : InternalPage) : Nat := p.max_size_

/-- Modelled from the spec: `BPlusTreePage::GetMinSize` of the missing
`b_plus_tree_page.cpp`, `min_size = ⌈max_size / 2⌉`. -/
def GetMinSize (p : InternalPage) : Nat := (p.max_size_ + 1) / 2

/-- Modelled from the spec: `BPlusTreePage::IsRootPage`, the page has no parent. -/
def IsRootPage (p : InternalPage) : Bool := p.parent_page_id_ == INVALID_PAGE_ID

def Init (page_id parent_id : Int) (key_size max_size : Nat) : InternalPage :=
  { page_id_ := page_id, parent_page_id_ := parent_id, size_ := 0,
    max_size_ := max_size, key_size_ := key_size, data_ := [] }

/-- The key bytes at `pairs_off + index * pair_size + key_off`. -/
def KeyAt (p : InternalPage) (index : Nat) : List Nat :=
  memRead p.data_ (index * p.pair_size) p.key_size_

/-- Copies `GetKeySize()` bytes from `key` into pair `index`. -/
def SetKeyAt (p : InternalPage) (index : Nat) (key : List Nat) : InternalPage :=
  { p with data_ := memWrite p.data_ (index * p.pair_size) (memRead key 0 p.key_size_) }

def ValueAt (p : InternalPage) (index : Nat) : Int :=
  decode32 (memRead p.data_ (index * p.pair_size + p.key_size_) 4)

def SetValueAt (p : InternalPage) (index : Nat) (value : Int) : InternalPage :=
  { p with data_ := memWrite p.data_ (index * p.pair_size + p.key_size_) (encode32 value) }

/-- The loop of `ValueIndex`, from index `i` over the next `n` indices. -/
def ValueIndex.loop (p : InternalPage) (value : Int) : Nat → Nat → Int
  | 0, _ => -1
  | n + 1, i => if p.ValueAt i = value then (i : Int) else ValueIndex.loop p value n (i + 1)

/-- The first index whose child is `value`, or `-1`. -/
def ValueIndex (p : InternalPage) (value : Int) : Int :=
  ValueIndex.loop p value p.size_ 0

/-- The loop of `Lookup`: the first `i` in `[i, i + n)` with `key < KeyAt(i)`
gives `ValueAt(i - 1)`; when the loop runs out, `i == size` gives the last child. -/
def Lookup.loop (p : InternalPage) (key : List Nat) (KM : KeyManager) : Nat → Nat → Int
  | 0, i => p.ValueAt (i - 1)
  | n + 1, i =>
    if KM.CompareKeys key (p.KeyAt i) < 0 then p.ValueAt (i - 1)
    else Lookup.loop p key KM n (i + 1)

/-- The child to descend into for `key`. With `size == 0` neither the loop body
nor the test `i == size` assigns `result`, which is then read uninitialised. -/
def Lookup (p : InternalPage) (key : List Nat) (KM : KeyManager) : Option Int :=
  if p.size_ = 0 then none else some (Lookup.loop p key KM (p.size_ - 1) 1)

def PopulateNewRoot (p : InternalPage) (old_value : Int) (new_key : List Nat)
    (new_value : Int) : InternalPage :=
  { ((p.SetValueAt 0 old_value).SetKeyAt 1 new_key).SetValueAt 1 new_value with size_ := 2 }

/-- The shifting loop of `InsertNodeAfter`: for `i` from `lo + n - 1` down to
`lo`, pair `i` is copied to pair `i + 1`. -/
def InsertNodeAfter.shift (lo : Nat) : Nat → InternalPage → InternalPage
  | 0, p => p
  | n + 1, p =>
    let i := lo + n
    InsertNodeAfter.shift lo n ((p.SetKeyAt (i + 1) (p.KeyAt i)).SetValueAt (i + 1) (p.ValueAt i))

/-- Inserts the pair after the pair whose child is `old_value`; returns the page
and the new size. When `old_value` is absent `old_location` is `-1` and the pair
goes to index 0. -/
def InsertNodeAfter (p : InternalPage) (old_value : Int) (new_key : List Nat)
    (new_value : Int) : InternalPage × Nat :=
  let size := p.GetSize
  let old_location := p.ValueIndex old_value
  let at_ := (old_location + 1).toNat
  let p1 := InsertNodeAfter.shift at_ (size - at_) p
  let p2 := (p1.SetKeyAt at_ new_key).SetValueAt at_ new_value
  ({ p2 with size_ := p2.size_ + 1 }, p2.size_ + 1)

/-- The shifting loop of `Remove`: for `i` from `i` upwards over `n` indices,
pair `i` is copied to pair `i - 1`. -/
def Remove.shift : Nat → Nat → InternalPage → InternalPage
  | 0, _, p => p
  | n + 1, i, p =>
    Remove.shift n (i + 1) ((p.SetKeyAt (i - 1) (p.KeyAt i)).SetValueAt (i - 1) (p.ValueAt i))

/-- Removes the pair at `index`; an index outside `[0, size)` changes nothing. -/
def Remove (p : InternalPage) (index : Int) : InternalPage :=
  let size := p.GetSize
  if 0 ≤ index ∧ index < size then
    let p1 := Remove.shift (size - (index.toNat + 1)) (index.toNat + 1) p
    { p1 with size_ := p1.size_ - 1 }
  else p

/-- Sets the size to 0 and returns `ValueAt(0)`. -/
def RemoveAndReturnOnlyChild (p : InternalPage) : InternalPage × Int :=
  let p1 := { p with size_ := 0 }
  (p1, p1.ValueAt 0)

end InternalPage

/-! ## Leaf pages

`b_plus_tree_leaf_page.cpp` is not among the sources; the leaf operations the
tree calls are modelled from the specification: a leaf stores `size` pairs
`(key[i], rid[i])`, keys strictly ascending and unique. -/

/-- Modelled from the spec: a leaf page of the missing
`b_plus_tree_leaf_page.cpp`: the header with `next_page_id` and the stored
pairs; the size is the number of pairs. -/
structure LeafPage where
  page_id_ : Int
  parent_page_id_ : Int
  next_page_id_ : Int
  max_size_ : Nat
  key_size_ : Nat
  entries_ : List (List Nat × RowId)
deriving DecidableEq, Repr

namespace LeafPage

def GetSize (p : LeafPage) : Nat := p.entries_.length

def GetMaxSize (p : LeafPage) : Nat := p.max_size_

/-- Modelled from the spec: `BPlusTreePage::GetMinSize`, `min_size = ⌈max_size / 2⌉`. -/
def GetMinSize (p : LeafPage) : Nat := (p.max_size_ + 1) / 2

/-- Modelled from the spec: `BPlusTreePage::IsRootPage`, the page has no parent. -/
def IsRootPage (p : LeafPage) : Bool := p.parent_page_id_ == INVALID_PAGE_ID

/-- Modelled from the spec: `LeafPage::Init`, an empty leaf; the tree sets the
next page id after it. -/
def Init (page_id parent_id : Int) (key_size max_size : Nat) : LeafPage :=
  { page_id_ := page_id, parent_page_id_ := parent_id, next_page_id_ := INVALID_PAGE_ID,
    max_size_ := max_size, key_size_ := key_size, entries_ := [] }

/-- Modelled from the spec: `LeafPage::KeyAt`, the key of pair `index`; a slot
at or beyond the size holds no modelled value. -/
def KeyAt (p : LeafPage) (index : Nat) : Option (List Nat) :=
  (p.entries_.get? index).map Prod.fst

/-- Modelled from the spec: `LeafPage::KeyIndex`, the index of the first stored
key that is not below `key` (the size when there is none); for a stored key
this is its index. -/
def KeyIndex (p : LeafPage) (key : List Nat) (KM : KeyManager) : Nat :=
  (p.entries_.takeWhile fun e => decide (KM.CompareKeys e.1 key < 0)).length

/-- Modelled from the spec: `LeafPage::Lookup`, the rid stored with `key`, if any. -/
def Lookup (p : LeafPage) (key : List Nat) (KM : KeyManager) : Option RowId :=
  (p.entries_.find? fun e => decide (KM.CompareKeys e.1 key = 0)).map Prod.snd

/-- Insertion of a pair in key order into a list of pairs. -/
def insertEntry (KM : KeyManager) (key : List Nat) (value : RowId) :
    List (List Nat × RowId) → List (List Nat × RowId)
  | [] => [(key, value)]
  | e :: es =>
    if KM.CompareKeys e.1 key < 0 then e :: insertEntry KM key value es
    else (key, value) :: e :: es

/-- Modelled from the spec: `LeafPage::Insert`, insert in key order ("Insert
in-order"); returns the page and the new size. The caller has excluded a
duplicate. -/
def Insert (p : LeafPage) (key : List Nat) (value : RowId) (KM : KeyManager) : LeafPage × Nat :=
  let es := insertEntry KM key value p.entries_
  ({ p with entries_ := es }, es.length)

/-- Modelled from the spec: `LeafPage::RemoveAndDeleteRecord`, delete the pair
of `key` if it is stored; returns the page and the size afterwards. -/
def RemoveAndDeleteRecord (p : LeafPage) (key : List Nat) (KM : KeyManager) : LeafPage × Nat :=
  let es := p.entries_.filter fun e => !decide (KM.CompareKeys e.1 key = 0)
  ({ p with entries_ := es }, es.length)

/-- Modelled from the spec: `LeafPage::MoveHalfTo`, "copy upper half of `L`" into
the new leaf: the last `⌊size / 2⌋` pairs go to the (empty) recipient, so that
five pairs split after the third. Returns (this page, recipient). -/
def MoveHalfTo (p recipient : LeafPage) : LeafPage × LeafPage :=
  let keep := p.entries_.length - p.entries_.length / 2
  ({ p with entries_ := p.entries_.take keep },
   { recipient with entries_ := recipient.entries_ ++ p.entries_.drop keep })

/-- Modelled from the spec: `LeafPage::MoveAllTo`, all pairs are appended to the
recipient, which also takes over the next page id; this page is left empty.
Returns (this page, recipient). -/
def MoveAllTo (p recipient : LeafPage) : LeafPage × LeafPage :=
  ({ p with entries_ := [] },
   { recipient with entries_ := recipient.entries_ ++ p.entries_,
                    next_page_id_ := p.next_page_id_ })

/-- Modelled from the spec: `LeafPage::MoveFirstToEndOf`, the first pair of this
page moves to the end of the recipient. Returns (this page, recipient). -/
def MoveFirstToEndOf (p recipient : LeafPage) : LeafPage × LeafPage :=
  ({ p with entries_ := p.entries_.drop 1 },
   { recipient with entries_ := recipient.entries_ ++ p.entries_.take 1 })

/-- Modelled from the spec: `LeafPage::MoveLastToFrontOf`, "move its last pair
to front of `N`". Returns (this page, recipient). -/
def MoveLastToFrontOf (p recipient : LeafPage) : LeafPage × LeafPage :=
  ({ p with entries_ := p.entries_.take (p.entries_.length - 1) },
   { recipient with entries_ := p.entries_.drop (p.entries_.length - 1) ++ recipient.entries_ })

end LeafPage

/-! ## The index-roots directory (page 0) -/

/-- Modelled from the spec: the index-roots page of the missing
`page/index_roots_page.cpp`, a sequence of `(index_id, root_page_id)` records
with `Insert/Update/Delete` by linear search. -/
structure IndexRootsPage where
  roots_ : List (Nat × Int)
deriving DecidableEq, Repr

namespace IndexRootsPage

/-- Modelled from the spec: `GetRootId`, linear search for the record of `index_id`. -/
def GetRootId (p : IndexRootsPage) (index_id : Nat) : Option Int :=
  (p.roots_.find? fun r => r.1 == index_id).map Prod.snd

/-- Modelled from the spec: `Insert` adds a record for an index id that has
none; the linear search finding a record of that id, nothing is inserted. -/
def Insert (p : IndexRootsPage) (index_id : Nat) (root_id : Int) : IndexRootsPage :=
  if (p.GetRootId index_id).isSome then p else { roots_ := p.roots_ ++ [(index_id, root_id)] }

/-- Modelled from the spec: `Update` overwrites the root id in the record of
`index_id`; without such a record nothing changes. -/
def Update (p : IndexRootsPage) (index_id : Nat) (root_id : Int) : IndexRootsPage :=
  { roots_ := p.roots_.map fun r => if r.1 == index_id then (r.1, root_id) else r }

end IndexRootsPage

/-! ## The buffer pool -/

/-- Modelled from the spec: the table metadata of the missing `catalog/table.h`,
`\x7btable_id, name, first_heap_page, schema\x7d`; a schema is the list of its
column names. -/
structure TableMetadata where
  table_id_ : Nat
  table_name_ : String
  root_page_id_ : Int
  schema_ : List String
deriving DecidableEq, Repr

/-- Modelled from the spec: the index metadata of the missing `catalog/indexes.h`,
`\x7bindex_id, name, table_id, key_column_indices[]\x7d`. -/
structure IndexMetadata where
  index_id_ : Nat
  index_name_ : String
  table_id_ : Nat
  key_map_ : List Nat
deriving DecidableEq, Repr

/-- The content of a page frame, by the page type it was initialised as: the tree
pages and the index-roots page, the bytes of the catalog meta page, the pages
holding a serialized `TableMetadata` or `IndexMetadata`, and a table heap page. -/
inductive Page where
  | leaf (p : LeafPage)
  | internal (p : InternalPage)
  | index_roots (p : IndexRootsPage)
  | catalog_meta (data : List Nat)
  | table_meta (m : TableMetadata)
  | index_meta (m : IndexMetadata)
  | table_page
deriving DecidableEq, Repr

/-- Modelled from the spec: the buffer pool of the missing
`buffer/buffer_pool_manager.cpp` as the page table, the pin counters of the
resident pages and the next fresh page id of the disk manager. The pool is
taken large enough that no frame is evicted; dirty flags are not modelled. -/
structure BufferPoolManager where
  pages_ : List (Int × Page)
  pins_ : List (Int × Nat)
  next_page_id_ : Int
deriving DecidableEq, Repr

namespace BufferPoolManager

def pageAt (b : BufferPoolManager) (pid : Int) : Option Page :=
  (b.pages_.find? fun e => e.1 == pid).map Prod.snd

def pinCount (b : BufferPoolManager) (pid : Int) : Nat :=
  ((b.pins_.find? fun e => e.1 == pid).map Prod.snd).getD 0

def setPin (b : BufferPoolManager) (pid : Int) (n : Nat) : BufferPoolManager :=
  { b with pins_ := (pid, n) :: b.pins_.filter fun e => !(e.1 == pid) }

/-- Writes the content of page `pid` (through a pointer into its frame). -/
def put (b : BufferPoolManager) (pid : Int) (pg : Page) : BufferPoolManager :=
  if (b.pageAt pid).isSome then
    { b with pages_ := b.pages_.map fun e => if e.1 == pid then (pid, pg) else e }
  else { b with pages_ := b.pages_ ++ [(pid, pg)] }

/-- Modelled from the spec: `FetchPage` pins and returns the frame of `pid`;
a page the pool does not hold gives no result. -/
def FetchPage (b : BufferPoolManager) (pid : Int) : Option (Page × BufferPoolManager) :=
  match b.pageAt pid with
  | none => none
  | some pg => some (pg, b.setPin pid (b.pinCount pid + 1))

/-- Modelled from the spec: `NewPage` allocates a fresh page id and returns a
pinned frame; the caller initialises the frame with `put`. -/
def NewPage (b : BufferPoolManager) : Int × BufferPoolManager :=
  (b.next_page_id_, { b.setPin b.next_page_id_ 1 with next_page_id_ := b.next_page_id_ + 1 })

/-- Modelled from the spec: `UnpinPage` decrements the pin count and fails
silently if it is already 0. -/
def UnpinPage (b : BufferPoolManager) (pid : Int) : BufferPoolManager :=
  if b.pinCount pid = 0 then b else b.setPin pid (b.pinCount pid - 1)

/-- Modelled from the spec: `DeletePage` fails if `pin_count > 0`; otherwise the
page leaves the frame table. -/
def DeletePage (b : BufferPoolManager) (pid : Int) : BufferPoolManager :=
  if b.pinCount pid > 0 then b
  else { b with pages_ := b.pages_.filter (fun e => !(e.1 == pid)),
                pins_ := b.pins_.filter (fun e => !(e.1 == pid)) }

/-- Modelled from the spec: `CheckAllUnpinned`, true iff every resident frame
has `pin_count == 0`. -/
def CheckAllUnpinned (b : BufferPoolManager) : Bool :=
  b.pins_.all fun e => e.2 == 0

def leafAt (b : BufferPoolManager) (pid : Int) : Option LeafPage :=
  match b.pageAt pid with
  | some (Page.leaf p) => some p
  | _ => none

def internalAt (b : BufferPoolManager) (pid : Int) : Option InternalPage :=
  match b.pageAt pid with
  | some (Page.internal p) => some p
  | _ => none

/-- The header field `parent_page_id_` of the tree page `pid`. -/
def GetParentPageId (b : BufferPoolManager) (pid : Int) : Option Int :=
  match b.pageAt pid with
  | some (Page.leaf p) => some p.parent_page_id_
  | some (Page.internal p) => some p.parent_page_id_
  | _ => none

/-- The call `SetParentPageId(parent)` on the tree page `pid`. -/
def SetParentPageId (b : BufferPoolManager) (pid parent : Int) : Option BufferPoolManager :=
  match b.pageAt pid with
  | some (Page.leaf p) => some (b.put pid (Page.leaf { p with parent_page_id_ := parent }))
  | some (Page.internal p) => some (b.put pid (Page.internal { p with parent_page_id_ := parent }))
  | _ => none

end BufferPoolManager

/-! ## Internal page operations that go through the buffer pool -/

namespace InternalPage

/-- The loop of `CopyNFrom`: each child named by the pairs `i, i + 1, ...` (`n` of
them) of page `self` is fetched, adopted (`SetParentPageId(GetPageId())`) and
unpinned. -/
def CopyNFrom.loop (self : Int) : Nat → Nat → BufferPoolManager → Option BufferPoolManager
  | 0, _, b => some b
  | n + 1, i, b => do
    let r ← b.internalAt self
    let child := r.ValueAt i
    let (_, b1) ← b.FetchPage child
    let b2 ← b1.SetParentPageId child r.page_id_
    CopyNFrom.loop self n (i + 1) (b2.UnpinPage child)

/-- The call `CopyNFrom(src, size, bpm)` on page `self`, where `src` points
`src_off` bytes into the data area of page `src_page`: `size` pairs of bytes are
copied to `PairPtrAt(GetSize())`, the children they name are adopted, and the
size grows by `size`. -/
def CopyNFrom (b : BufferPoolManager) (self src_page : Int) (src_off size : Nat) :
    Option BufferPoolManager := do
  let r ← b.internalAt self
  let s ← b.internalAt src_page
  let bytes := memRead s.data_ src_off (size * r.pair_size)
  let r1 := { r with data_ := memWrite r.data_ (r.GetSize * r.pair_size) bytes }
  let b1 ← CopyNFrom.loop self size r1.GetSize (b.put self (Page.internal r1))
  let r2 ← b1.internalAt self
  some (b1.put self (Page.internal { r2 with size_ := r2.size_ + size }))

/-- The call `MoveHalfTo(recipient, bpm)` on page `self`. The source pointer
passed to `CopyNFrom` is `pairs_off + GetMaxSize() / 2`, that is `GetMaxSize() / 2`
bytes into the data area; `length = size - start` pairs are copied and the size is
set to `GetMinSize()`. -/
def MoveHalfTo (b : BufferPoolManager) (self recipient : Int) : Option BufferPoolManager := do
  let p ← b.internalAt self
  let size := p.GetSize
  let start := p.GetMaxSize / 2
  if size < start then none
  else
    let length := size - start
    let b1 ← CopyNFrom b recipient self (p.GetMaxSize / 2) length
    let p1 ← b1.internalAt self
    some (b1.put self (Page.internal { p1 with size_ := p1.GetMinSize }))

/-- The call `MoveAllTo(recipient, middle_key, bpm)` on page `self`. -/
def MoveAllTo (b : BufferPoolManager) (self recipient : Int) (middle_key : List Nat) :
    Option BufferPoolManager := do
  let p ← b.internalAt self
  let size := p.GetSize
  let b1 := b.put self (Page.internal (p.SetKeyAt 0 middle_key))
  let b2 ← CopyNFrom b1 recipient self 0 size
  let p2 ← b2.internalAt self
  some (b2.put self (Page.internal { p2 with size_ := 0 }))

/-- The call `MoveFirstToEndOf(recipient, middle_key, bpm)` on page `self`; its
body is that of `MoveAllTo`. -/
def MoveFirstToEndOf (b : BufferPoolManager) (self recipient : Int) (middle_key : List Nat) :
    Option BufferPoolManager := do
  let p ← b.internalAt self
  let size := p.GetSize
  let b1 := b.put self (Page.internal (p.SetKeyAt 0 middle_key))
  let b2 ← CopyNFrom b1 recipient self 0 size
  let p2 ← b2.internalAt self
  some (b2.put self (Page.internal { p2 with size_ := 0 }))

/-- The call `CopyLastFrom(key, value, bpm)` on page `self`, where `key` points
`src_off` bytes into the data area of page `src_page`: one pair of bytes is
copied from `key` to `PairPtrAt(size)`, the child it names is adopted and the
size grows by one. The parameter `value` is not used by the body. -/
def CopyLastFrom (b : BufferPoolManager) (self src_page : Int) (src_off : Nat) :
    Option BufferPoolManager := do
  let r ← b.internalAt self
  let s ← b.internalAt src_page
  let size := r.GetSize
  let r1 := { r with data_ := memWrite r.data_ (size * r.pair_size) (memRead s.data_ src_off r.pair_size) }
  let child := r1.ValueAt size
  let (_, b1) ← (b.put self (Page.internal r1)).FetchPage child
  let b2 ← b1.SetParentPageId child r1.page_id_
  let b3 := b2.UnpinPage child
  let r3 ← b3.internalAt self
  some (b3.put self (Page.internal { r3 with size_ := r3.size_ + 1 }))

/-- The call `MoveLastToFrontOf(recipient, middle_key, bpm)` on page `self`: the
recipient gets `middle_key` as key 0 and then `CopyLastFrom` of the last pair of
this page, whose size drops by one. With size 0 the pair `size - 1` lies before
the data area. -/
def MoveLastToFrontOf (b : BufferPoolManager) (self recipient : Int) (middle_key : List Nat) :
    Option BufferPoolManager := do
  let p ← b.internalAt self
  let size := p.GetSize
  let r ← b.internalAt recipient
  let b1 := b.put recipient (Page.internal (r.SetKeyAt 0 middle_key))
  if size = 0 then none
  else
    let b2 ← CopyLastFrom b1 recipient self ((size - 1) * p.pair_size)
    let p2 ← b2.internalAt self
    some (b2.put self (Page.internal { p2 with size_ := p2.size_ - 1 }))

end InternalPage

/-! ## The B+ tree (`b_plus_tree.cpp`) -/

/-- The tree handle with the buffer pool it works on. The `KeyManager`
`processor_` is passed to the operations as a parameter. -/
structure BPlusTree where
  index_id_ : Nat
  root_page_id_ : Int
  leaf_max_size_ : Nat
  internal_max_size_ : Nat
  buffer_pool_manager_ : BufferPoolManager
deriving DecidableEq, Repr

/-- Modelled from the spec: the pool of a new database file: page 0 is the
empty index-roots directory, and the disk manager allocates from page id 2. -/
def BufferPoolManager.fresh : BufferPoolManager :=
  { pages_ := [(INDEX_ROOTS_PAGE_ID, Page.index_roots { roots_ := [] })], pins_ := [],
    next_page_id_ := 2 }

namespace BPlusTree

/-- The constructor with both maximum sizes given: the root id is read from the
index-roots page, `INVALID_PAGE_ID` when the index has no record. -/
def new (index_id : Nat) (b : BufferPoolManager) (leaf_max_size internal_max_size : Nat) :
    Option BPlusTree := do
  let (pg, b1) ← b.FetchPage INDEX_ROOTS_PAGE_ID
  match pg with
  | Page.index_roots rootPage =>
    some { index_id_ := index_id,
           root_page_id_ := (rootPage.GetRootId index_id).getD INVALID_PAGE_ID,
           leaf_max_size_ := leaf_max_size, internal_max_size_ := internal_max_size,
           buffer_pool_manager_ := b1.UnpinPage INDEX_ROOTS_PAGE_ID }
  | _ => none

def IsEmpty (t : BPlusTree) : Bool := t.root_page_id_ == INVALID_PAGE_ID

/-- The descent loop of `FindLeafPage` from the pinned page `node`. -/
def FindLeafPage.loop (key : List Nat) (leftMost : Bool) (KM : KeyManager) :
    Nat → Int → BufferPoolManager → Option (Int × BufferPoolManager)
  | 0, _, _ => none
  | fuel + 1, node, b =>
    match b.pageAt node with
    | some (Page.leaf _) => some (node, b)
    | some (Page.internal internal_node) =>
      match (if leftMost then some (internal_node.ValueAt 0) else internal_node.Lookup key KM) with
      | none => none
      | some next_page_id =>
        match b.FetchPage next_page_id with
        | none => none
        | some (_, b1) =>
          FindLeafPage.loop key leftMost KM fuel next_page_id (b1.UnpinPage internal_node.page_id_)
    | _ => none

/-- Returns the id of the leaf for `key` (the leftmost leaf with `leftMost`),
pinned. On an empty tree the result is `nullptr`, which every caller
dereferences. -/
def FindLeafPage (t : BPlusTree) (key : List Nat) (page_id : Int) (leftMost : Bool)
    (KM : KeyManager) : Option (Int × BufferPoolManager) :=
  if t.IsEmpty then none
  else
    let start := if page_id == INVALID_PAGE_ID then t.root_page_id_ else page_id
    match t.buffer_pool_manager_.FetchPage start with
    | none => none
    | some (_, b) => FindLeafPage.loop key leftMost KM (b.pages_.length + 1) start b

/-- Returns the flag, the result vector and the tree afterwards. -/
def GetValue (t : BPlusTree) (key : List Nat) (result : List RowId) (KM : KeyManager) :
    Option (Bool × List RowId × BPlusTree) :=
  if t.IsEmpty then some (false, result, t)
  else
    match t.FindLeafPage key t.root_page_id_ false KM with
    | none => none
    | some (leaf_id, b) =>
      match b.leafAt leaf_id with
      | none => none
      | some leaf =>
        match leaf.Lookup key KM with
        | some value =>
          some (true, result ++ [value],
            { t with buffer_pool_manager_ := b.UnpinPage leaf.page_id_ })
        | none =>
          some (false, result, { t with buffer_pool_manager_ := b.UnpinPage leaf.page_id_ })

def UpdateRootPageId (t : BPlusTree) (insert_record : Bool) : Option BPlusTree := do
  let (pg, b) ← t.buffer_pool_manager_.FetchPage INDEX_ROOTS_PAGE_ID
  match pg with
  | Page.index_roots root_page =>
    let root_page1 := if insert_record then root_page.Insert t.index_id_ t.root_page_id_
      else root_page.Update t.index_id_ t.root_page_id_
    some { t with buffer_pool_manager_ :=
      (b.put INDEX_ROOTS_PAGE_ID (Page.index_roots root_page1)).UnpinPage INDEX_ROOTS_PAGE_ID }
  | _ => none

def StartNewTree (t : BPlusTree) (key : List Nat) (value : RowId) (KM : KeyManager) :
    Option BPlusTree :=
  let (newPageId, b) := t.buffer_pool_manager_.NewPage
  let newLeaf := LeafPage.Init newPageId INVALID_PAGE_ID KM.GetKeySize t.leaf_max_size_
  let newLeaf1 := (newLeaf.Insert key value KM).1
  let newLeaf2 := { newLeaf1 with next_page_id_ := INVALID_PAGE_ID }
  let b1 := (b.put newPageId (Page.leaf newLeaf2)).UnpinPage newPageId
  UpdateRootPageId { t with root_page_id_ := newPageId, buffer_pool_manager_ := b1 } true

/-- The overload `Split(InternalPage *node)`; returns the id of the new page. -/
def SplitInternal (t : BPlusTree) (node_id : Int) : Option (Int × BPlusTree) := do
  let node ← t.buffer_pool_manager_.internalAt node_id
  let (newPageId, b) := t.buffer_pool_manager_.NewPage
  let new_node := InternalPage.Init newPageId node.parent_page_id_ node.key_size_ t.internal_max_size_
  let b1 ← InternalPage.MoveHalfTo (b.put newPageId (Page.internal new_node)) node_id newPageId
  some (newPageId, { t with buffer_pool_manager_ := b1.UnpinPage newPageId })

/-- The overload `Split(LeafPage *node)`; returns the id of the new page. -/
def SplitLeaf (t : BPlusTree) (node_id : Int) (KM : KeyManager) : Option (Int × BPlusTree) := do
  let node ← t.buffer_pool_manager_.leafAt node_id
  let (newPageId, b) := t.buffer_pool_manager_.NewPage
  let new_node := LeafPage.Init newPageId node.parent_page_id_ KM.GetKeySize t.leaf_max_size_
  let new_node1 := { new_node with next_page_id_ := node.next_page_id_ }
  let node1 := { node with next_page_id_ := newPageId }
  let (node2, new_node2) := node1.MoveHalfTo new_node1
  let b1 := (b.put newPageId (Page.leaf new_node2)).put node_id (Page.leaf node2)
  some (newPageId, { t with buffer_pool_manager_ := b1.UnpinPage newPageId })

/-- The recursion of `InsertIntoParent(old_node, key, new_node)`, bounded by `fuel`. -/
def InsertIntoParent (KM : KeyManager) :
    Nat → BPlusTree → Int → List Nat → Int → Option BPlusTree
  | 0, _, _, _, _ => none
  | fuel + 1, t, old_node, key, new_node => do
    let old_parent ← t.buffer_pool_manager_.GetParentPageId old_node
    if old_parent == INVALID_PAGE_ID then
      let (newRootPageId, b) := t.buffer_pool_manager_.NewPage
      let new_root := (InternalPage.Init newRootPageId INVALID_PAGE_ID KM.GetKeySize
        t.internal_max_size_).PopulateNewRoot old_node key new_node
      let b1 ← (b.put newRootPageId (Page.internal new_root)).SetParentPageId old_node newRootPageId
      let b2 ← b1.SetParentPageId new_node newRootPageId
      let t1 ← UpdateRootPageId
        { t with root_page_id_ := newRootPageId, buffer_pool_manager_ := b2 } false
      some { t1 with buffer_pool_manager_ :=
        ((t1.buffer_pool_manager_.UnpinPage newRootPageId).UnpinPage old_node).UnpinPage new_node }
    else do
      let (_, b) ← t.buffer_pool_manager_.FetchPage old_parent
      let parent ← b.internalAt old_parent
      let (parent1, n) := parent.InsertNodeAfter old_node key new_node
      let b1 := b.put old_parent (Page.internal parent1)
      if n ≤ parent1.GetMaxSize then
        let b2 ← b1.SetParentPageId new_node parent1.page_id_
        some { t with buffer_pool_manager_ :=
          ((b2.UnpinPage old_node).UnpinPage new_node).UnpinPage parent1.page_id_ }
      else do
        let (parent_new_sibling, t1) ← SplitInternal { t with buffer_pool_manager_ := b1 } old_parent
        let sibling ← t1.buffer_pool_manager_.internalAt parent_new_sibling
        let t2 ← InsertIntoParent KM fuel t1 old_parent (sibling.KeyAt 0) parent_new_sibling
        some { t2 with buffer_pool_manager_ :=
          (((t2.buffer_pool_manager_.UnpinPage old_node).UnpinPage new_node).UnpinPage
            parent_new_sibling).UnpinPage parent1.page_id_ }

/-- Returns the flag (false for a duplicate key) and the tree afterwards. -/
def InsertIntoLeaf (t : BPlusTree) (key : List Nat) (value : RowId) (KM : KeyManager) :
    Option (Bool × BPlusTree) :=
  match t.FindLeafPage key t.root_page_id_ false KM with
  | none => none
  | some (leaf_id, b) =>
    match b.leafAt leaf_id with
    | none => none
    | some leaf =>
      match leaf.Lookup key KM with
      | some _ => some (false, { t with buffer_pool_manager_ := b.UnpinPage leaf.page_id_ })
      | none =>
        let b1 := b.put leaf_id (Page.leaf (leaf.Insert key value KM).1)
        if (leaf.Insert key value KM).2 ≤ (leaf.Insert key value KM).1.GetMaxSize then
          some (true, { t with buffer_pool_manager_ := b1.UnpinPage leaf.page_id_ })
        else
          match SplitLeaf { t with buffer_pool_manager_ := b1 } leaf_id KM with
          | none => none
          | some (new_leaf_id, t1) =>
            match (t1.buffer_pool_manager_.leafAt new_leaf_id).bind fun p => p.KeyAt 0 with
            | none => none
            | some key0 =>
              match InsertIntoParent KM (t1.buffer_pool_manager_.pages_.length + 1) t1 leaf_id
                key0 new_leaf_id with
              | none => none
              | some t2 =>
                some (true, { t2 with buffer_pool_manager_ :=
                  (t2.buffer_pool_manager_.UnpinPage leaf.page_id_).UnpinPage new_leaf_id })

/-- Returns the flag and the tree afterwards. -/
def Insert (t : BPlusTree) (key : List Nat) (value : RowId) (KM : KeyManager) :
    Option (Bool × BPlusTree) :=
  if t.IsEmpty then (t.StartNewTree key value KM).map fun t1 => (true, t1)
  else t.InsertIntoLeaf key value KM

/-- The walk of `Remove` over the ancestors, `while(index==0)`, with the page
pointer `parent_page` and the leaf `leaf`. -/
def Remove.walk (leaf_id : Int) : Nat → Int → Int → BufferPoolManager → Option BufferPoolManager
  | 0, _, _, _ => none
  | fuel + 1, index, parent_page, b =>
    if index ≠ 0 then some b
    else do
      let parent ← b.internalAt parent_page
      let leaf ← b.leafAt leaf_id
      let index1 := parent.ValueIndex leaf.page_id_
      if index1 = -1 then some b
      else if index1 ≠ 0 then do
        let key0 ← leaf.KeyAt 0
        let b1 := b.put parent_page (Page.internal (parent.SetKeyAt index1.toNat key0))
        Remove.walk leaf_id fuel index1 parent_page (b1.UnpinPage parent.page_id_)
      else if !parent.IsRootPage then do
        let (_, b1) ← b.FetchPage parent.parent_page_id_
        Remove.walk leaf_id fuel index1 parent.parent_page_id_ b1
      else some b

/-- Returns the flag and the tree afterwards. A leaf of size 1 reaches the
second branch, where `static_cast<InternalPage *>` reads it through the layout
of an internal page: no result is modelled for it. -/
def AdjustRoot (t : BPlusTree) (old_root_node : Int) : Option (Bool × BPlusTree) :=
  match t.buffer_pool_manager_.pageAt old_root_node with
  | some (Page.leaf p) =>
    if p.GetSize = 0 then do
      let t1 ← UpdateRootPageId { t with root_page_id_ := INVALID_PAGE_ID } false
      some (true, { t1 with buffer_pool_manager_ :=
        (t1.buffer_pool_manager_.UnpinPage p.page_id_).DeletePage p.page_id_ })
    else if p.GetSize = 1 then none
    else some (false, t)
  | some (Page.internal old_root) =>
    if old_root.GetSize = 1 then do
      let (old_root1, child) := old_root.RemoveAndReturnOnlyChild
      let b := t.buffer_pool_manager_.put old_root_node (Page.internal old_root1)
      let t1 ← UpdateRootPageId { t with root_page_id_ := child, buffer_pool_manager_ := b } false
      let (_, b1) ← t1.buffer_pool_manager_.FetchPage t1.root_page_id_
      let b2 ← b1.SetParentPageId t1.root_page_id_ INVALID_PAGE_ID
      let b3 := (b2.UnpinPage t1.root_page_id_).UnpinPage old_root1.page_id_
      some (true, { t1 with buffer_pool_manager_ := b3.DeletePage old_root1.page_id_ })
    else some (false, t)
  | _ => none

/-- The overload `Redistribute(LeafPage *neighbor_node, LeafPage *node, int index)`. -/
def RedistributeLeaf (b : BufferPoolManager) (neighbor_node node : Int) (index : Int) :
    Option BufferPoolManager := do
  let nd ← b.leafAt node
  let parentId := nd.parent_page_id_
  let (_, b1) ← b.FetchPage parentId
  let parent ← b1.internalAt parentId
  let nb ← b1.leafAt neighbor_node
  if index = 0 then do
    let (nb1, nd1) := nb.MoveFirstToEndOf nd
    let key0 ← nb1.KeyAt 0
    let b2 := (b1.put node (Page.leaf nd1)).put neighbor_node (Page.leaf nb1)
    some (b2.put parentId (Page.internal (parent.SetKeyAt (index + 1).toNat key0)))
  else do
    let (nb1, nd1) := nb.MoveLastToFrontOf nd
    let key0 ← nd1.KeyAt 0
    let b2 := (b1.put node (Page.leaf nd1)).put neighbor_node (Page.leaf nb1)
    some (b2.put parentId (Page.internal (parent.SetKeyAt index.toNat key0)))

/-- The overload `Redistribute(InternalPage *neighbor_node, InternalPage *node, int index)`. -/
def RedistributeInternal (b : BufferPoolManager) (neighbor_node node : Int) (index : Int) :
    Option BufferPoolManager := do
  let nd ← b.internalAt node
  let parentId := nd.parent_page_id_
  let (_, b1) ← b.FetchPage parentId
  let parent ← b1.internalAt parentId
  if index = 0 then do
    let nb ← b1.internalAt neighbor_node
    let page_index := parent.ValueIndex nb.page_id_
    if page_index < 0 then none
    else do
      let key := parent.KeyAt page_index.toNat
      let b2 ← InternalPage.MoveFirstToEndOf b1 neighbor_node node key
      let parent2 ← b2.internalAt parentId
      let nb2 ← b2.internalAt neighbor_node
      some (b2.put parentId (Page.internal (parent2.SetKeyAt page_index.toNat (nb2.KeyAt 0))))
  else do
    let page_index := parent.ValueIndex nd.page_id_
    if page_index < 0 then none
    else do
      let key := parent.KeyAt page_index.toNat
      let b2 ← InternalPage.MoveLastToFrontOf b1 neighbor_node node key
      let parent2 ← b2.internalAt parentId
      let nd2 ← b2.internalAt node
      some (b2.put parentId (Page.internal (parent2.SetKeyAt page_index.toNat (nd2.KeyAt 0))))

/-- The template `CoalesceOrRedistribute<N>(node)` with both overloads of
`Coalesce` inlined, `N` being `LeafPage` when `isLeaf` and `InternalPage`
otherwise; the mutual recursion is bounded by `fuel`. Returns the flag and the
tree afterwards. The assertions hold at every call in `b_plus_tree.cpp` and are
not modelled. -/
def CoalesceOrRedistribute : Nat → Bool → BPlusTree → Int → Option (Bool × BPlusTree)
  | 0, _, _, _ => none
  | fuel + 1, isLeaf, t, node => do
    let b := t.buffer_pool_manager_
    let (node_parent, node_size, node_max) ←
      (if isLeaf then (b.leafAt node).map fun p => (p.parent_page_id_, p.GetSize, p.GetMaxSize)
       else (b.internalAt node).map fun p => (p.parent_page_id_, p.GetSize, p.GetMaxSize))
    if node_parent == INVALID_PAGE_ID then AdjustRoot t node
    else do
      let (_, b1) ← b.FetchPage node
      let (_, b2) ← b1.FetchPage node_parent
      let parent ← b2.internalAt node_parent
      let node_index_in_parent := parent.ValueIndex node
      let sibling_index : Int :=
        if node_index_in_parent = 0 then node_index_in_parent + 1 else node_index_in_parent - 1
      if sibling_index < 0 then none
      else do
        let sibling := parent.ValueAt sibling_index.toNat
        let (_, b3) ← b2.FetchPage sibling
        let sibling_size ←
          (if isLeaf then (b3.leafAt sibling).map fun p => p.GetSize
           else (b3.internalAt sibling).map fun p => p.GetSize)
        if node_size + sibling_size > node_max then do
          let b4 ← (if isLeaf then RedistributeLeaf b3 sibling node node_index_in_parent
                    else RedistributeInternal b3 sibling node node_index_in_parent)
          some (false, { t with buffer_pool_manager_ :=
            ((b4.UnpinPage node).UnpinPage node_parent).UnpinPage sibling })
        else do
          let index := node_index_in_parent
          let b4 ←
            (if index ≠ 0 then do
              let b5 ← (if isLeaf then do
                          let nd ← b3.leafAt node
                          let nb ← b3.leafAt sibling
                          let (nd1, nb1) := nd.MoveAllTo nb
                          some ((b3.put sibling (Page.leaf nb1)).put node (Page.leaf nd1))
                        else InternalPage.MoveAllTo b3 node sibling (parent.KeyAt index.toNat))
              let parent5 ← b5.internalAt node_parent
              some ((((b5.UnpinPage node).DeletePage node).UnpinPage sibling).put node_parent
                (Page.internal (parent5.Remove index)))
            else do
              let b5 ← (if isLeaf then do
                          let nd ← b3.leafAt node
                          let nb ← b3.leafAt sibling
                          let (nb1, nd1) := nb.MoveAllTo nd
                          some ((b3.put node (Page.leaf nd1)).put sibling (Page.leaf nb1))
                        else InternalPage.MoveAllTo b3 sibling node
                          (parent.KeyAt (index + 1).toNat))
              let parent5 ← b5.internalAt node_parent
              some ((((b5.UnpinPage node).UnpinPage sibling).DeletePage sibling).put node_parent
                (Page.internal (parent5.Remove (index + 1)))))
          let parent6 ← b4.internalAt node_parent
          if parent6.GetSize < parent6.GetMinSize then do
            let (_, t1) ← CoalesceOrRedistribute fuel false
              { t with buffer_pool_manager_ := b4 } node_parent
            some (true, t1)
          else some (true, { t with buffer_pool_manager_ := b4 })

/-- Returns the tree afterwards. -/
def Remove (t : BPlusTree) (key : List Nat) (KM : KeyManager) : Option BPlusTree :=
  if t.IsEmpty then some t
  else do
    let (leaf_id, b) ← t.FindLeafPage key t.root_page_id_ false KM
    let leaf ← b.leafAt leaf_id
    let index : Int := leaf.KeyIndex key KM
    let (leaf1, size_after_delete) := leaf.RemoveAndDeleteRecord key KM
    let b1 := b.put leaf_id (Page.leaf leaf1)
    let b2 ←
      (if !leaf1.IsRootPage then do
        let (_, b3) ← b1.FetchPage leaf1.parent_page_id_
        Remove.walk leaf_id (b3.pages_.length + 1) index leaf1.parent_page_id_ b3
      else some b1)
    if size_after_delete < leaf1.GetMinSize then do
      let (_, t1) ← CoalesceOrRedistribute (b2.pages_.length + 1) true
        { t with buffer_pool_manager_ := b2 } leaf_id
      some t1
    else some { t with buffer_pool_manager_ := b2 }

/-- The method `Destroy(current_page_id)`: the page is fetched; a leaf is
unpinned and deleted; for an internal page the method first runs on each child
`ValueAt(i)`, `i` from 0 to size - 1. The recursion is bounded by `fuel`; the
internal page is pinned while the loop runs and no call writes to it, so the
loop reads the size and the children that the page had when it was fetched. A
page that is no tree page gives no result. -/
def Destroy : Nat → Int → BufferPoolManager → Option BufferPoolManager
  | 0, _, _ => none
  | fuel + 1, current_page_id, b =>
    match b.FetchPage current_page_id with
    | some (Page.leaf _, b1) =>
      some ((b1.UnpinPage current_page_id).DeletePage current_page_id)
    | some (Page.internal inter, b1) =>
      match (List.range inter.GetSize).foldlM
          (fun acc i => Destroy fuel (inter.ValueAt i) acc) b1 with
      | none => none
      | some b2 => some ((b2.UnpinPage current_page_id).DeletePage current_page_id)
    | _ => none

end BPlusTree

/-! ## The index scan executor (`index_scan_executor.cpp`) -/

/-- Modelled from the spec: a `Row` of the missing `record/row.h`, a row id and
the field values (integers here). -/
structure Row where
  rid_ : RowId
  fields_ : List Int
deriving DecidableEq, Repr

/-- The comparison operators of a `ComparisonExpression`. -/
inductive ComparisonType where
  | eq | lt | le | gt | ge | ne
deriving DecidableEq, Repr

/-- The predicate tree of the plan: a `LogicExpression` with its children, a
`ComparisonExpression` whose child 0 is the column `col_idx` and whose child 1
evaluates to `constant`, or an expression node of any other type. -/
inductive Expression where
  | LogicExpression (children : List Expression)
  | ComparisonExpression (col_idx : Nat) (op : ComparisonType) (constant : Int)
  | OtherExpression

/-- One comparison `col OP const` collected by `dfs`. -/
structure Comparison where
  col_idx : Nat
  op : ComparisonType
  constant : Int
deriving DecidableEq, Repr

mutual
/-- The function `dfs`: the comparisons below `curr` are appended to `vec` in
depth-first order; `none` is the `throw`. -/
def dfs (vec : List Comparison) : Expression → Option (List Comparison)
  | Expression.LogicExpression children => dfsChildren vec children
  | Expression.ComparisonExpression c o k => some (vec ++ [⟨c, o, k⟩])
  | Expression.OtherExpression => none
/-- The loop of `dfs` over the children of a logic node. -/
def dfsChildren (vec : List Comparison) : List Expression → Option (List Comparison)
  | [] => some vec
  | child :: rest =>
    match dfs vec child with
    | none => none
    | some vec1 => dfsChildren vec1 rest
end

/-- The comparison `cmp` of row ids: `A.Get() < B.Get()`. -/
def cmp (A B : RowId) : Bool := decide (A.Get < B.Get)

/-- Insertion of `x` into a list sorted by `cmp`, after the elements not above it. -/
def sortInsert (x : RowId) : List RowId → List RowId
  | [] => [x]
  | y :: ys => if cmp x y then x :: y :: ys else y :: sortInsert x ys

/-- The call `std::sort(first, last, cmp)`, as the sorted permutation of the range. -/
def sort (xs : List RowId) : List RowId := xs.foldr sortInsert []

/-- The algorithm `std::set_intersection(first1, last1, first2, last2, out, cmp)`
on two sorted ranges; `fuel` bounds the number of steps. -/
def set_intersection.loop : Nat → List RowId → List RowId → List RowId
  | 0, _, _ => []
  | _ + 1, [], _ => []
  | _ + 1, _, [] => []
  | fuel + 1, a :: as, b :: bs =>
    if cmp a b then set_intersection.loop fuel as (b :: bs)
    else if cmp b a then set_intersection.loop fuel (a :: as) bs
    else a :: set_intersection.loop fuel as bs

def set_intersection (xs ys : List RowId) : List RowId :=
  set_intersection.loop (xs.length + ys.length) xs ys

/-- An entry of `plan_->indexes_`: `table_ind` is
`GetIndexKeySchema()->GetColumn(0)->GetTableInd()` and `ScanKey` the scan of the
index, which is not among the sources and is taken as a parameter. -/
structure IndexInfo where
  table_ind : Nat
  ScanKey : Int → ComparisonType → List RowId

/-- The plan node with what `Init` reads through the execution context: the
tuples of the table heap and the evaluation of the whole predicate on a row
(`Evaluate(&row).CompareEquals(Field(kTypeInt, 1)) == kTrue`), both taken as
parameters. -/
structure IndexScanPlanNode where
  indexes_ : List IndexInfo
  predicate : Expression
  need_filter_ : Bool
  GetTuple : RowId → Row
  EvaluateTrue : Row → Bool

structure IndexScanExecutor where
  result_rid : List RowId
  result_row : List Row
  cursor_ : Nat
deriving DecidableEq, Repr

namespace IndexScanExecutor

/-- The constructor clears both vectors; the cursor starts at 0. -/
def new : IndexScanExecutor := { result_rid := [], result_row := [], cursor_ := 0 }

/-- The body of the loop over `plan_->indexes_` for one predicate. The column id
`GetTableInd() - 1` is computed in `uint32_t`. -/
def Init.indexes (predicate : Comparison) : List IndexInfo → List RowId → List RowId
  | [], result_rid => result_rid
  | index :: rest, result_rid =>
    let col_id := (index.table_ind + 4294967295) % 4294967296
    if predicate.col_idx = col_id then
      let result_temp := index.ScanKey predicate.constant predicate.op
      let temp := set_intersection (sort result_rid) (sort result_temp)
      Init.indexes predicate rest temp
    else Init.indexes predicate rest result_rid

/-- The loop over the flattened predicates. -/
def Init.predicates (indexes : List IndexInfo) : List Comparison → List RowId → List RowId
  | [], result_rid => result_rid
  | predicate :: rest, result_rid =>
    Init.predicates indexes rest (Init.indexes predicate indexes result_rid)

/-- The final loop of `Init`: each surviving rid is fetched from the heap and
kept unless the filter rejects it. Returns (result_row, temp). -/
def Init.fetch (plan : IndexScanPlanNode) : List RowId → List Row × List RowId
  | [] => ([], [])
  | r :: rest =>
    let row := plan.GetTuple r
    let tail := Init.fetch plan rest
    if !plan.need_filter_ || plan.EvaluateTrue row then (row :: tail.1, r :: tail.2) else tail

/-- The method `Init`; `none` is the exception thrown by `dfs`. -/
def Init (e : IndexScanExecutor) (plan : IndexScanPlanNode) : Option IndexScanExecutor :=
  match dfs [] plan.predicate with
  | none => none
  | some predicates =>
    let result_rid := Init.predicates plan.indexes_ predicates e.result_rid
    let out := Init.fetch plan result_rid
    some { e with result_row := e.result_row ++ out.1, result_rid := out.2 }

/-- The method `Next(Row *row, RowId *rid)`: returns the flag, the two outputs and
the executor afterwards. -/
def Next (e : IndexScanExecutor) (row : Row) (rid : RowId) :
    Bool × Row × RowId × IndexScanExecutor :=
  if e.cursor_ < e.result_rid.length then
    (false, e.result_row.getD e.cursor_ row, e.result_rid.getD e.cursor_ rid,
      { e with cursor_ := e.cursor_ + 1 })
  else (false, row, rid, e)

end IndexScanExecutor

/-! ## Concrete instances used in the examples -/

/-- A key manager for keys of `key_size` bytes whose first four bytes hold a
number in little-endian order; keys compare as these numbers. -/
def numKM (key_size : Nat) : KeyManager :=
  { key_size_ := key_size, CompareKeys := fun a b => decode32 a - decode32 b }

/-- The four-byte key holding the number `n`. -/
def numKey (n : Nat) : List Nat := encode32 n

/-- The tree handle that the constructor returns on a new database file. -/
def emptyTree (leaf_max_size internal_max_size : Nat) : BPlusTree :=
  { index_id_ := 0, root_page_id_ := INVALID_PAGE_ID, leaf_max_size_ := leaf_max_size,
    internal_max_size_ := internal_max_size,
    buffer_pool_manager_ := { BufferPoolManager.fresh with pins_ := [(INDEX_ROOTS_PAGE_ID, 0)] } }

/-- A top-level call on the tree: `Insert(key, value)` or `Remove(key)`. -/
inductive Op where
  | Insert (key : Nat) (value : RowId)
  | Remove (key : Nat)
deriving DecidableEq, Repr

/-- The tree after the call `op` has returned. -/
def Op.apply (KM : KeyManager) (t : BPlusTree) : Op → Option BPlusTree
  | Op.Insert key value => (t.Insert (numKey key) value KM).map Prod.snd
  | Op.Remove key => t.Remove (numKey key) KM

/-- The tree after the calls `ops` have returned one after the other. -/
def runOps (KM : KeyManager) : List Op → BPlusTree → Option BPlusTree
  | [], t => some t
  | op :: ops, t => (op.apply KM t).bind (runOps KM ops)

/-- The parent, the keys (as numbers) and the children of a tree page: for a
leaf its stored keys, for an internal page the keys 1 to size - 1 and the
children 0 to size - 1. -/
structure NodeView where
  parent : Int
  keys : List Int
  children : List Int
deriving DecidableEq, Repr

/-- The view of the tree page `pid`. -/
def view (t : BPlusTree) (pid : Int) : Option NodeView :=
  match t.buffer_pool_manager_.pageAt pid with
  | some (Page.leaf p) => some ⟨p.parent_page_id_, p.entries_.map fun e => decode32 e.1, []⟩
  | some (Page.internal p) =>
    some ⟨p.parent_page_id_, (List.range (p.size_ - 1)).map fun i => decode32 (p.KeyAt (i + 1)),
      (List.range p.size_).map p.ValueAt⟩
  | _ => none

/-- The flag and the result vector of `GetValue(key)` on a tree state. -/
def lookup (KM : KeyManager) (key : Nat) (t : BPlusTree) : Option (Bool × List RowId) :=
  (t.GetValue (numKey key) [] KM).map fun r => (r.1, r.2.1)

/-- Insert calls for the given keys, each with the row id `(key, 0)`. -/
def insertAll (keys : List Nat) : List Op := keys.map fun k => Op.Insert k ⟨k, 0⟩

/-- The root leaf page of `leafTree keys`. -/
def leafPage (keys : List Nat) : LeafPage :=
  { page_id_ := 2, parent_page_id_ := -1, next_page_id_ := -1, max_size_ := 4, key_size_ := 4,
    entries_ := keys.map fun k => (numKey k, ⟨k, 0⟩) }

/-- The tree whose root is the leaf page 2 holding `keys` (each with the row id
`(key, 0)`), with `leaf_max_size = internal_max_size = 4`: the state after the
keys have been inserted into the empty tree while they fit into one leaf. -/
def leafTree (keys : List Nat) : BPlusTree :=
  { index_id_ := 0, root_page_id_ := 2, leaf_max_size_ := 4, internal_max_size_ := 4,
    buffer_pool_manager_ :=
      { pages_ := [(0, Page.index_roots { roots_ := [(0, 2)] }),
                   (2, Page.leaf (leafPage keys))],
        pins_ := [(2, 0), (0, 0)], next_page_id_ := 3 } }

/-- The keys whose insertion, in this order, fills sixteen leaves of capacity two
under one root. -/
def keysC1 : List Nat :=
  [1000, 990, 980, 970, 960, 950, 940, 930, 920, 910, 900, 890, 880, 870, 860, 850, 840, 1010]

/-- The calls that lead to the state of C2: eighteen leaves under a root with
three internal children, then five calls around the leaves of 860, 870 and 880. -/
def opsC2 : List Op :=
  insertAll (keysC1 ++ [1020]) ++
  insertAll [950, 941, 949, 948, 947, 946, 945, 944, 943] ++
  insertAll [845, 842] ++
  [Op.Remove 885, Op.Remove 870, Op.Insert 870 ⟨870, 0⟩, Op.Remove 875, Op.Remove 860]

/-- The rows of the table of scenario S6, columns `(a, b)`, with their row ids. -/
def rowsS6 : List Row :=
  [⟨⟨2, 0⟩, [3, 7]⟩, ⟨⟨2, 1⟩, [3, 8]⟩, ⟨⟨2, 2⟩, [4, 7]⟩]

/-- The truth of `value OP constant`. -/
def ComparisonType.holds (op : ComparisonType) (value constant : Int) : Bool :=
  match op with
  | ComparisonType.eq => value == constant
  | ComparisonType.lt => decide (value < constant)
  | ComparisonType.le => decide (value ≤ constant)
  | ComparisonType.gt => decide (value > constant)
  | ComparisonType.ge => decide (value ≥ constant)
  | ComparisonType.ne => value != constant

/-- An index on column `col` of `rowsS6` whose scan returns exactly the rids of
the rows whose key satisfies the comparison. -/
def indexS6 (col : Nat) : IndexInfo :=
  { table_ind := col + 1,
    ScanKey := fun constant op =>
      (rowsS6.filter fun r => op.holds (r.fields_.getD col 0) constant).map Row.rid_ }

/-- The plan of scenario S6: indexes on `a` and `b`, predicate `a = 3 AND b = 7`. -/
def planS6 : IndexScanPlanNode :=
  { indexes_ := [indexS6 0, indexS6 1],
    predicate := Expression.LogicExpression
      [Expression.ComparisonExpression 0 ComparisonType.eq 3,
       Expression.ComparisonExpression 1 ComparisonType.eq 7],
    need_filter_ := false,
    GetTuple := fun rid => (rowsS6.find? fun r => r.rid_ == rid).getD ⟨rid, []⟩,
    EvaluateTrue := fun r => r.fields_.getD 0 0 == 3 && r.fields_.getD 1 0 == 7 }

/-- The calls of C7: a leaf split, a coalesce that leaves the root with one
child, and three removals from the remaining leaf. -/
def opsC7 : List Op :=
  insertAll [10, 20, 30, 40, 50] ++ [Op.Remove 50, Op.Remove 10, Op.Remove 20, Op.Remove 30]

/-- The root id recorded for the index of `t` in the index-roots page. -/
def recordedRoot (t : BPlusTree) : Option Int :=
  match t.buffer_pool_manager_.pageAt INDEX_ROOTS_PAGE_ID with
  | some (Page.index_roots p) => p.GetRootId t.index_id_
  | _ => none

/-- The outcome of a root leaf split as C10 states it, for the tree `t1` reached
from a tree whose root is the leaf `L` by inserting `(key, value)`: the root of
`t1` is an internal page `N` of size 2 without parent; its children 0 and 1 are
leaves `left` (the page of `L`) and `right` with `left.next = right`, both with
parent `N`; key 1 of `N` is the first key of `right`; both leaves are non-empty;
`left ++ right` is the insertion of the pair into the pairs of `L` in key order,
and is ascending. -/
def IsRootLeafSplit (KM : KeyManager) (rootBefore : Int) (L : LeafPage) (key : List Nat)
    (value : RowId) (t1 : BPlusTree) : Prop :=
  ∃ N left right,
    t1.buffer_pool_manager_.pageAt t1.root_page_id_ = some (Page.internal N) ∧
    N.IsRootPage = true ∧ N.GetSize = 2 ∧
    N.ValueAt 0 = rootBefore ∧
    t1.buffer_pool_manager_.pageAt (N.ValueAt 0) = some (Page.leaf left) ∧
    t1.buffer_pool_manager_.pageAt (N.ValueAt 1) = some (Page.leaf right) ∧
    left.next_page_id_ = N.ValueAt 1 ∧
    left.parent_page_id_ = t1.root_page_id_ ∧ right.parent_page_id_ = t1.root_page_id_ ∧
    right.KeyAt 0 = some (N.KeyAt 1) ∧
    left.entries_ ≠ [] ∧ right.entries_ ≠ [] ∧
    left.entries_ ++ right.entries_ = LeafPage.insertEntry KM key value L.entries_ ∧
    (left.entries_ ++ right.entries_).Pairwise (fun a b => KM.CompareKeys a.1 b.1 < 0)

/-! ## The LRU-K replacer (`buffer/lru_k_replacer.cpp`) -/

/-- The replacer. The maps are read with `operator[]`, which gives the default
value (0, `false`) for a frame without an entry, hence total functions. The two
iterator maps are modelled by their key sets: every entry is written right
after the `push_front` of its frame, so the iterator stored for a frame is the
one of its front-most occurrence in the list. `access_time_` holds
`unsigned int` counters and `k_` a `size_t`. -/
structure LRUKReplacer where
  access_time_ : Int → Nat
  history_list_ : List Int
  cache_list_ : List Int
  history_map_ : Int → Bool
  cache_map_ : Int → Bool
  is_evictable_ : Int → Bool
  k_ : Nat

namespace LRUKReplacer

/-- The constructor `LRUKReplacer(num_pages)`, which initialises `k_(num_pages)`. -/
def new (num_pages : Nat) : LRUKReplacer :=
  { access_time_ := fun _ => 0, history_list_ := [], cache_list_ := [],
    history_map_ := fun _ => false, cache_map_ := fun _ => false,
    is_evictable_ := fun _ => false, k_ := num_pages }

/-- One of the two loops of `Victim`: the first entry of the list, front to
back, with `is_evictable_[frame]`, together with the list after `erase(it)`. -/
def Victim.scan (is_evictable_ : Int → Bool) : List Int → Option (Int × List Int)
  | [] => none
  | frame :: rest =>
    if is_evictable_ frame then some (frame, rest)
    else
      match Victim.scan is_evictable_ rest with
      | some (found, rest1) => some (found, frame :: rest1)
      | none => none

/-- The method `Victim(frame_id_t *frame_id)`: `some frame` is the result `true`
with `*frame_id = frame`, `none` the result `false`. -/
def Victim (r : LRUKReplacer) : Option Int × LRUKReplacer :=
  match Victim.scan r.is_evictable_ r.history_list_ with
  | some (frame, rest) =>
    (some frame,
      { r with access_time_ := Function.update r.access_time_ frame 0,
               history_list_ := rest,
               history_map_ := Function.update r.history_map_ frame false,
               is_evictable_ := Function.update r.is_evictable_ frame false })
  | none =>
    match Victim.scan r.is_evictable_ r.cache_list_ with
    | some (frame, rest) =>
      (some frame,
        { r with access_time_ := Function.update r.access_time_ frame 0,
                 cache_list_ := rest,
                 cache_map_ := Function.update r.cache_map_ frame false,
                 is_evictable_ := Function.update r.is_evictable_ frame false })
    | none => (none, r)

/-- The method `Pin(frame_id)`. -/
def Pin (r : LRUKReplacer) (frame_id : Int) : LRUKReplacer :=
  if r.access_time_ frame_id = 0 then r
  else { r with is_evictable_ := Function.update r.is_evictable_ frame_id false }

/-- The method `Unpin(frame_id)`. The counter is incremented in `unsigned int`.
In the branch `access_time_[frame_id] == k_` the iterator `history_map_[frame_id]`
is erased without a test: for a frame without an entry this erases a
default-constructed iterator, which has no defined result (`none`). -/
def Unpin (r : LRUKReplacer) (frame_id : Int) : Option LRUKReplacer :=
  let access := (r.access_time_ frame_id + 1) % 4294967296
  let r1 := { r with access_time_ := Function.update r.access_time_ frame_id access,
                     is_evictable_ := Function.update r.is_evictable_ frame_id true }
  if access = r1.k_ then
    if r1.history_map_ frame_id then
      some { r1 with history_list_ := r1.history_list_.erase frame_id,
                     history_map_ := Function.update r1.history_map_ frame_id false,
                     cache_list_ := frame_id :: r1.cache_list_,
                     cache_map_ := Function.update r1.cache_map_ frame_id true }
    else none
  else if access > r1.k_ then
    let cache_list := if r1.cache_map_ frame_id then r1.cache_list_.erase frame_id
                      else r1.cache_list_
    some { r1 with cache_list_ := frame_id :: cache_list,
                   cache_map_ := Function.update r1.cache_map_ frame_id true }
  else
    if r1.history_map_ frame_id then some r1
    else some { r1 with history_list_ := frame_id :: r1.history_list_,
                        history_map_ := Function.update r1.history_map_ frame_id true }

/-- The method `Size()`. -/
def Size (r : LRUKReplacer) : Nat := r.cache_list_.length + r.history_list_.length

/-- A call on the replacer. -/
inductive Op where
  | Pin (frame_id : Int)
  | Unpin (frame_id : Int)
  | Victim
deriving DecidableEq, Repr

/-- The replacer after the call `op` has returned. -/
def Op.apply (r : LRUKReplacer) : Op → Option LRUKReplacer
  | Op.Pin frame_id => some (r.Pin frame_id)
  | Op.Unpin frame_id => r.Unpin frame_id
  | Op.Victim => some r.Victim.2

/-- The replacer after the calls `ops` have returned one after the other. -/
def runOps : List Op → LRUKReplacer → Option LRUKReplacer
  | [], r => some r
  | op :: ops, r => (op.apply r).bind (runOps ops)

/-- The counter of `f` has not wrapped: it is at most `n`, and positive while `f`
is evictable. -/
def Counted (f : Int) (n : Nat) (r : LRUKReplacer) : Prop :=
  r.access_time_ f ≤ n ∧ (r.is_evictable_ f = true → 0 < r.access_time_ f)

/-- The state in which frame 0 is the only tracked frame of a replacer with
`k_ = 2` and has been returned `n` times, `n` at least 2: it is in the cache list. -/
def Hot (n : Nat) (r : LRUKReplacer) : Prop :=
  r.k_ = 2 ∧ r.access_time_ 0 = n ∧ r.cache_map_ 0 = true ∧ r.history_map_ 0 = false ∧
  r.history_list_ = [] ∧ r.cache_list_ = [0]

end LRUKReplacer

/-! ## The catalog (`catalog/catalog.cpp`) -/

def CATALOG_META_PAGE_ID : Int := 1

def PAGE_SIZE : Nat := 4096

/-- Modelled from the spec: the magic constant of the catalog meta page, "a
fixed `u32` value" declared in the missing `catalog/catalog.h`; 89849 stands
for it. -/
def CATALOG_METADATA_MAGIC_NUM : Nat := 89849

/-- The error codes of `common/dberr.h` that the catalog returns. -/
inductive dberr_t where
  | DB_SUCCESS
  | DB_FAILED
  | DB_TABLE_ALREADY_EXIST
  | DB_TABLE_NOT_EXIST
  | DB_INDEX_ALREADY_EXIST
  | DB_INDEX_NOT_FOUND
  | DB_COLUMN_NAME_NOT_EXIST
  | DB_KEY_NOT_FOUND
  | DB_QUIT
deriving DecidableEq, Repr

/-- Modelled from the spec: `DeletePage` "fails" when `pin_count > 0`; this is
the flag that the call returns. -/
def BufferPoolManager.DeletePage.ok (b : BufferPoolManager) (pid : Int) : Bool :=
  !(b.pinCount pid > 0)

namespace Map

/-- The maps of the standard library that the catalog uses, as lists of (key,
value) entries: `find(k)`, with `none` for `end()`. -/
def find {κ ν : Type} [BEq κ] (m : List (κ × ν)) (k : κ) : Option ν :=
  (m.find? fun e => e.1 == k).map Prod.snd

/-- The assignment `m[k] = v`. -/
def assign {κ ν : Type} [BEq κ] (m : List (κ × ν)) (k : κ) (v : ν) : List (κ × ν) :=
  if (find m k).isSome then m.map fun e => if e.1 == k then (k, v) else e
  else m ++ [(k, v)]

/-- The call `m.erase(k)`. -/
def erase {κ ν : Type} [BEq κ] (m : List (κ × ν)) (k : κ) : List (κ × ν) :=
  m.filter fun e => !(e.1 == k)

/-- The read access `m[k]`, which first inserts the default value `d` for a key
without an entry: the map afterwards. -/
def touch {κ ν : Type} [BEq κ] (m : List (κ × ν)) (k : κ) (d : ν) : List (κ × ν) :=
  if (find m k).isSome then m else m ++ [(k, d)]

/-- The call `m.emplace(k, v)`: nothing is inserted for a key that has an entry. -/
def emplace {κ ν : Type} [BEq κ] (m : List (κ × ν)) (k : κ) (v : ν) : List (κ × ν) :=
  if (find m k).isSome then m else m ++ [(k, v)]

end Map

/-- The unsigned 32-bit integer stored in the first four bytes of `bs`
(`MACH_READ_UINT32`). -/
def decodeU32 (bs : List Nat) : Nat :=
  bs.getD 0 0 + 256 * bs.getD 1 0 + 65536 * bs.getD 2 0 + 16777216 * bs.getD 3 0

/-- The catalog meta: `table_id -> meta page` and `index_id -> meta page`. -/
structure CatalogMeta where
  table_meta_pages_ : List (Nat × Int)
  index_meta_pages_ : List (Nat × Int)
deriving DecidableEq, Repr

namespace CatalogMeta

/-- The method `GetSerializedSize()`, a `uint32_t`. -/
def GetSerializedSize (m : CatalogMeta) : Nat :=
  (12 + 8 * (m.table_meta_pages_.length + m.index_meta_pages_.length)) % 4294967296

/-- One of the two loops of `SerializeTo`: each entry is written as two 4-byte
values at `buf`, which advances by 8. Returns the buffer and the offset reached. -/
def SerializeTo.entries : List (Nat × Int) → List Nat → Nat → List Nat × Nat
  | [], data, off => (data, off)
  | iter :: rest, data, off =>
    SerializeTo.entries rest
      (memWrite (memWrite data off (encode32 iter.1)) (off + 4) (encode32 iter.2)) (off + 8)

/-- The method `SerializeTo(buf)` on the bytes `data` of a page; `none` is the
failure of the `ASSERT` on the serialized size. -/
def SerializeTo (m : CatalogMeta) (data : List Nat) : Option (List Nat) :=
  if m.GetSerializedSize ≤ PAGE_SIZE then
    let data1 := memWrite data 0 (encode32 CATALOG_METADATA_MAGIC_NUM)
    let data2 := memWrite data1 4 (encode32 m.table_meta_pages_.length)
    let data3 := memWrite data2 8 (encode32 m.index_meta_pages_.length)
    let r := SerializeTo.entries m.table_meta_pages_ data3 12
    some (SerializeTo.entries m.index_meta_pages_ r.1 r.2).1
  else none

/-- One of the two loops of `DeserializeFrom`: `n` entries are read at `buf`,
which advances by 8 for each, and passed to `emplace`. Returns the map and the
offset reached. -/
def DeserializeFrom.entries (data : List Nat) :
    Nat → Nat → List (Nat × Int) → List (Nat × Int) × Nat
  | 0, off, pages => (pages, off)
  | n + 1, off, pages =>
    let id := decodeU32 (memRead data off 4)
    let page_id := decode32 (memRead data (off + 4) 4)
    DeserializeFrom.entries data n (off + 8) (Map.emplace pages id page_id)

/-- The method `DeserializeFrom(buf)` on the bytes `data` of a page; `none` is
the failure of the `ASSERT` on the magic number. -/
def DeserializeFrom (data : List Nat) : Option CatalogMeta :=
  let magic_num := decodeU32 (memRead data 0 4)
  if magic_num = CATALOG_METADATA_MAGIC_NUM then
    let table_nums := decodeU32 (memRead data 4 4)
    let index_nums := decodeU32 (memRead data 8 4)
    let r := DeserializeFrom.entries data table_nums 12 []
    let r2 := DeserializeFrom.entries data index_nums r.2 []
    some { table_meta_pages_ := r.1, index_meta_pages_ := r2.1 }
  else none

end CatalogMeta

namespace Catalog

/-- Modelled from the spec: the heap of a table, of which the catalog uses the
id of the first page only. -/
structure TableHeap where
  first_page_id_ : Int
deriving DecidableEq, Repr

/-- Modelled from the spec: "create empty heap", the missing `TableHeap::Create`
with a schema: the first page of the heap is allocated and unpinned. -/
def TableHeap.Create (b : BufferPoolManager) : TableHeap × BufferPoolManager :=
  let (first_page_id, b1) := b.NewPage
  ({ first_page_id_ := first_page_id },
    (b1.put first_page_id Page.table_page).UnpinPage first_page_id)

/-- Modelled from the spec: the `TableInfo` of the missing `catalog/table.h`, the
metadata (with the schema and the first page id) and the heap handle; both are
null between `TableInfo::Create()` and `Init`. -/
structure TableInfo where
  table_meta_ : Option TableMetadata
  table_heap_ : Option TableHeap
deriving DecidableEq, Repr

namespace TableInfo

def Create : TableInfo := { table_meta_ := none, table_heap_ := none }

def Init (_ : TableInfo) (table_meta : TableMetadata) (table_heap : TableHeap) : TableInfo :=
  { table_meta_ := some table_meta, table_heap_ := some table_heap }

/-- The getter `GetSchema()`; `none` is the access through a null pointer. -/
def GetSchema (t : TableInfo) : Option (List String) := t.table_meta_.map fun m => m.schema_

/-- The getter `GetRootPageId()`, the first page of the heap. -/
def GetRootPageId (t : TableInfo) : Option Int := t.table_meta_.map fun m => m.root_page_id_

def GetTableName (t : TableInfo) : Option String := t.table_meta_.map fun m => m.table_name_

end TableInfo

/-- Modelled from the spec: `Schema::GetColumnIndex(name, index)`, the index of
the column of that name; `none` is `DB_COLUMN_NAME_NOT_EXIST`. -/
def GetColumnIndex (schema : List String) (col_name : String) : Option Nat :=
  if schema.indexOf col_name < schema.length then some (schema.indexOf col_name) else none

/-- Modelled from the spec: the B+ tree handle that an `IndexInfo` owns, by the
index id and the root page id of its `BPlusTree`; the pool is the one of the
catalog. -/
structure BPlusTreeIndex where
  index_id_ : Nat
  root_page_id_ : Int
deriving DecidableEq, Repr

/-- Modelled from the spec: `Destroy()` of the index handle, of the missing
`index/b_plus_tree_index.cpp`: "destroy tree (recursive page free)", the method
`BPlusTree::Destroy` from the root page on; an empty tree has no page. -/
def BPlusTreeIndex.Destroy (index : BPlusTreeIndex) (b : BufferPoolManager) :
    Option BufferPoolManager :=
  if index.root_page_id_ = INVALID_PAGE_ID then some b
  else BPlusTree.Destroy (b.pages_.length + 1) index.root_page_id_ b

/-- Modelled from the spec: the `IndexInfo` of the missing `catalog/indexes.h`,
the index metadata, the table it belongs to and the tree handle; all are null
between `IndexInfo::Create()` and `Init`. -/
structure IndexInfo where
  meta_data_ : Option IndexMetadata
  table_info_ : Option TableInfo
  index_ : Option BPlusTreeIndex
deriving DecidableEq, Repr

namespace IndexInfo

def Create : IndexInfo := { meta_data_ := none, table_info_ := none, index_ := none }

/-- Modelled from the spec: `Init` "builds an empty B+ tree", that is, it runs the
constructor of `BPlusTree` for the index id, which reads the root id from the
index-roots page. The maximum sizes of the tree are not kept. -/
def Init (_ : IndexInfo) (meta_data : IndexMetadata) (table_info : TableInfo)
    (b : BufferPoolManager) : Option (IndexInfo × BufferPoolManager) :=
  match BPlusTree.new meta_data.index_id_ b 0 0 with
  | none => none
  | some t =>
    some ({ meta_data_ := some meta_data, table_info_ := some table_info,
            index_ := some { index_id_ := t.index_id_, root_page_id_ := t.root_page_id_ } },
          t.buffer_pool_manager_)

end IndexInfo

/-- The catalog manager: the pool, the catalog meta, the two id counters (of the
32-bit types `table_id_t` and `index_id_t`) and the four maps. -/
structure CatalogManager where
  buffer_pool_manager_ : BufferPoolManager
  catalog_meta_ : CatalogMeta
  next_table_id_ : Nat
  next_index_id_ : Nat
  table_names_ : List (String × Nat)
  tables_ : List (Nat × TableInfo)
  index_names_ : List (String × List (String × Nat))
  indexes_ : List (Nat × IndexInfo)
deriving DecidableEq, Repr

namespace CatalogManager

/-- The method `FlushCatalogMetaPage()`: the catalog meta is serialized into
page 1; `none` is the failure of an `ASSERT`. Writing the page to the disk has
no effect on the pool. -/
def FlushCatalogMetaPage (cm : CatalogManager) : Option CatalogManager :=
  match cm.buffer_pool_manager_.FetchPage CATALOG_META_PAGE_ID with
  | some (Page.catalog_meta data, b) =>
    match cm.catalog_meta_.SerializeTo data with
    | none => none
    | some data1 =>
      some { cm with buffer_pool_manager_ :=
        (b.put CATALOG_META_PAGE_ID (Page.catalog_meta data1)).UnpinPage CATALOG_META_PAGE_ID }
  | _ => none

/-- The method `GetTables(tables)`. -/
def GetTables (cm : CatalogManager) (tables : List TableInfo) : dberr_t × List TableInfo :=
  (dberr_t.DB_SUCCESS, tables ++ cm.tables_.map Prod.snd)

/-- The method `CreateTable(table_name, schema, txn, table_info)`: the result
code, the catalog and the output parameter `table_info` afterwards. -/
def CreateTable (cm : CatalogManager) (table_name : String) (schema : List String)
    (table_info : Option TableInfo) : Option (dberr_t × CatalogManager × Option TableInfo) :=
  if (Map.find cm.table_names_ table_name).isSome then
    some (dberr_t.DB_TABLE_ALREADY_EXIST, cm, table_info)
  else
    let table_id := cm.next_table_id_
    let (table_heap, b1) := TableHeap.Create cm.buffer_pool_manager_
    let meta_data : TableMetadata :=
      { table_id_ := table_id, table_name_ := table_name,
        root_page_id_ := table_heap.first_page_id_, schema_ := schema }
    let info := TableInfo.Create.Init meta_data table_heap
    let (meta_data_page_id, b2) := b1.NewPage
    let b3 := (b2.put meta_data_page_id (Page.table_meta meta_data)).UnpinPage meta_data_page_id
    let cm1 : CatalogManager :=
      { cm with
        buffer_pool_manager_ := b3
        next_table_id_ := (cm.next_table_id_ + 1) % 4294967296
        table_names_ := Map.assign cm.table_names_ table_name table_id
        tables_ := Map.assign cm.tables_ table_id info
        catalog_meta_ :=
          { cm.catalog_meta_ with
            table_meta_pages_ :=
              Map.assign cm.catalog_meta_.table_meta_pages_ table_id meta_data_page_id } }
    match cm1.FlushCatalogMetaPage with
    | none => none
    | some cm2 => some (dberr_t.DB_SUCCESS, cm2, some info)

/-- The loop of `CreateIndex` over `index_keys`; `none` is the return of
`DB_COLUMN_NAME_NOT_EXIST`. -/
def CreateIndex.key_map (schema : List String) : List String → Option (List Nat)
  | [] => some []
  | index_key_name :: rest =>
    match GetColumnIndex schema index_key_name with
    | none => none
    | some key_index => (CreateIndex.key_map schema rest).map fun m => key_index :: m

/-- The method `CreateIndex(table_name, index_name, index_keys, txn, index_info,
index_type)`. The test for an existing index reads `index_names_[table_name]`,
which gives a table without an entry an empty map. -/
def CreateIndex (cm : CatalogManager) (table_name index_name : String)
    (index_keys : List String) (index_info : Option IndexInfo) :
    Option (dberr_t × CatalogManager × Option IndexInfo) :=
  match Map.find cm.table_names_ table_name with
  | none => some (dberr_t.DB_TABLE_NOT_EXIST, cm, index_info)
  | some table_id =>
    let index_names1 := Map.touch cm.index_names_ table_name []
    let names := (Map.find index_names1 table_name).getD []
    if (Map.find names index_name).isSome then
      some (dberr_t.DB_INDEX_ALREADY_EXIST, { cm with index_names_ := index_names1 }, index_info)
    else
      let index_id := cm.next_index_id_
      let cm1 : CatalogManager :=
        { cm with index_names_ := index_names1
                  next_index_id_ := (cm.next_index_id_ + 1) % 4294967296 }
      match Map.find cm.tables_ table_id with
      | none => none
      | some table_info =>
        match table_info.GetSchema with
        | none => none
        | some schema =>
          match CreateIndex.key_map schema index_keys with
          | none => some (dberr_t.DB_COLUMN_NAME_NOT_EXIST, cm1, some IndexInfo.Create)
          | some key_map =>
            let meta_data : IndexMetadata :=
              { index_id_ := index_id, index_name_ := index_name, table_id_ := table_id,
                key_map_ := key_map }
            match IndexInfo.Create.Init meta_data table_info cm.buffer_pool_manager_ with
            | none => none
            | some (info, b1) =>
              let (meta_data_page_id, b2) := b1.NewPage
              let b3 := (b2.put meta_data_page_id (Page.index_meta meta_data)).UnpinPage
                meta_data_page_id
              let index_names2 :=
                match Map.find index_names1 table_name with
                | none => Map.assign index_names1 table_name [(index_name, index_id)]
                | some names1 =>
                  Map.assign index_names1 table_name (Map.assign names1 index_name index_id)
              let cm2 : CatalogManager :=
                { cm1 with
                  buffer_pool_manager_ := b3
                  index_names_ := index_names2
                  indexes_ := Map.assign cm.indexes_ index_id info
                  catalog_meta_ :=
                    { cm.catalog_meta_ with
                      index_meta_pages_ := Map.assign cm.catalog_meta_.index_meta_pages_
                        index_id meta_data_page_id } }
              match cm2.FlushCatalogMetaPage with
              | none => none
              | some cm3 => some (dberr_t.DB_SUCCESS, cm3, some info)

/-- The method `GetIndex(table_name, index_name, index_info)`. -/
def GetIndex (cm : CatalogManager) (table_name index_name : String)
    (index_info : Option IndexInfo) : dberr_t × Option IndexInfo :=
  match Map.find cm.table_names_ table_name with
  | none => (dberr_t.DB_TABLE_NOT_EXIST, index_info)
  | some _ =>
    match Map.find cm.index_names_ table_name with
    | none => (dberr_t.DB_INDEX_NOT_FOUND, index_info)
    | some names =>
      match Map.find names index_name with
      | none => (dberr_t.DB_INDEX_NOT_FOUND, index_info)
      | some index_id =>
        match Map.find cm.indexes_ index_id with
        | none => (dberr_t.DB_FAILED, index_info)
        | some info => (dberr_t.DB_SUCCESS, some info)

/-- The loop of `GetTableIndexes` over the indexes of the table. -/
def GetTableIndexes.loop (indexes_ : List (Nat × IndexInfo)) :
    List (String × Nat) → List IndexInfo → dberr_t × List IndexInfo
  | [], indexes => (dberr_t.DB_SUCCESS, indexes)
  | index_map :: rest, indexes =>
    match Map.find indexes_ index_map.2 with
    | none => (dberr_t.DB_FAILED, indexes)
    | some info => GetTableIndexes.loop indexes_ rest (indexes ++ [info])

/-- The method `GetTableIndexes(table_name, indexes)`. -/
def GetTableIndexes (cm : CatalogManager) (table_name : String) (indexes : List IndexInfo) :
    dberr_t × List IndexInfo :=
  match Map.find cm.table_names_ table_name with
  | none => (dberr_t.DB_TABLE_NOT_EXIST, indexes)
  | some _ =>
    match Map.find cm.index_names_ table_name with
    | none => (dberr_t.DB_SUCCESS, indexes)
    | some names => GetTableIndexes.loop cm.indexes_ names indexes

/-- The loop of `DropTable` over the indexes of the table: the entries of each
index id are erased from `index_meta_pages_` and from `indexes_`. -/
def DropTable.indexes :
    List (String × Nat) → List (Nat × Int) → List (Nat × IndexInfo) →
      List (Nat × Int) × List (Nat × IndexInfo)
  | [], index_meta_pages, indexes => (index_meta_pages, indexes)
  | index_pair :: rest, index_meta_pages, indexes =>
    DropTable.indexes rest (Map.erase index_meta_pages index_pair.2)
      (Map.erase indexes index_pair.2)

/-- The method `DropTable(table_name)`. `tables_[table_id]` is dereferenced, which
has no defined result (`none`) for a table without `TableInfo`, and
`table_meta_pages_[table_id]` gives an id without an entry the page id 0. -/
def DropTable (cm : CatalogManager) (table_name : String) : Option (dberr_t × CatalogManager) :=
  match Map.find cm.table_names_ table_name with
  | none => some (dberr_t.DB_TABLE_NOT_EXIST, cm)
  | some table_id =>
    match (Map.find cm.tables_ table_id).bind TableInfo.GetRootPageId with
    | none => none
    | some root_page_id =>
      if !(BufferPoolManager.DeletePage.ok cm.buffer_pool_manager_ root_page_id) then
        some (dberr_t.DB_FAILED, cm)
      else
        let b1 := cm.buffer_pool_manager_.DeletePage root_page_id
        let table_meta_pages1 := Map.touch cm.catalog_meta_.table_meta_pages_ table_id 0
        let meta_page := (Map.find table_meta_pages1 table_id).getD 0
        if !(BufferPoolManager.DeletePage.ok b1 meta_page) then
          some (dberr_t.DB_FAILED,
            { cm with buffer_pool_manager_ := b1
                      catalog_meta_ :=
                        { cm.catalog_meta_ with table_meta_pages_ := table_meta_pages1 } })
        else
          let b2 := b1.DeletePage meta_page
          let dropped :=
            match Map.find cm.index_names_ table_name with
            | some names =>
              DropTable.indexes names cm.catalog_meta_.index_meta_pages_ cm.indexes_
            | none => (cm.catalog_meta_.index_meta_pages_, cm.indexes_)
          let cm1 : CatalogManager :=
            { cm with
              buffer_pool_manager_ := b2
              tables_ := Map.erase cm.tables_ table_id
              table_names_ := Map.erase cm.table_names_ table_name
              index_names_ := Map.erase cm.index_names_ table_name
              indexes_ := dropped.2
              catalog_meta_ :=
                { table_meta_pages_ := Map.erase table_meta_pages1 table_id
                  index_meta_pages_ := dropped.1 } }
          match cm1.FlushCatalogMetaPage with
          | none => none
          | some cm2 => some (dberr_t.DB_SUCCESS, cm2)

/-- The method `DropIndex(table_name, index_name)`. `indexes_[index_id]` is
dereferenced, which has no defined result (`none`) for an id without
`IndexInfo`, and `index_meta_pages_[index_id]` gives an id without an entry the
page id 0. -/
def DropIndex (cm : CatalogManager) (table_name index_name : String) :
    Option (dberr_t × CatalogManager) :=
  match Map.find cm.table_names_ table_name with
  | none => some (dberr_t.DB_TABLE_NOT_EXIST, cm)
  | some _ =>
    match Map.find cm.index_names_ table_name with
    | none => some (dberr_t.DB_INDEX_NOT_FOUND, cm)
    | some names =>
      match Map.find names index_name with
      | none => some (dberr_t.DB_INDEX_NOT_FOUND, cm)
      | some index_id =>
        match (Map.find cm.indexes_ index_id).bind fun index_info => index_info.index_ with
        | none => none
        | some index =>
          match index.Destroy cm.buffer_pool_manager_ with
          | none => none
          | some b1 =>
            let index_meta_pages1 := Map.touch cm.catalog_meta_.index_meta_pages_ index_id 0
            let meta_page := (Map.find index_meta_pages1 index_id).getD 0
            if !(BufferPoolManager.DeletePage.ok b1 meta_page) then
              some (dberr_t.DB_FAILED,
                { cm with buffer_pool_manager_ := b1
                          catalog_meta_ :=
                            { cm.catalog_meta_ with index_meta_pages_ := index_meta_pages1 } })
            else
              let b2 := b1.DeletePage meta_page
              let index_names1 :=
                if names.length = 1 then Map.erase cm.index_names_ table_name
                else Map.assign cm.index_names_ table_name (Map.erase names index_name)
              let cm1 : CatalogManager :=
                { cm with
                  buffer_pool_manager_ := b2
                  index_names_ := index_names1
                  indexes_ := Map.erase cm.indexes_ index_id
                  catalog_meta_ :=
                    { cm.catalog_meta_ with
                      index_meta_pages_ := Map.erase index_meta_pages1 index_id } }
              match cm1.FlushCatalogMetaPage with
              | none => none
              | some cm2 => some (dberr_t.DB_SUCCESS, cm2)

end CatalogManager

end Catalog

/-- The result code of `CreateIndex` in the words of the specification: the
table is absent; otherwise the table has an index of that name; otherwise some
key column name is not in the schema of the table; otherwise success. -/
def Catalog.CatalogManager.CreateIndex.expected (cm : Catalog.CatalogManager)
    (table_name index_name : String) (index_keys : List String) : dberr_t :=
  match Map.find cm.table_names_ table_name with
  | none => dberr_t.DB_TABLE_NOT_EXIST
  | some table_id =>
    if ((Map.find cm.index_names_ table_name).bind fun names =>
        Map.find names index_name).isSome then
      dberr_t.DB_INDEX_ALREADY_EXIST
    else if index_keys.all fun key =>
        (((Map.find cm.tables_ table_id).bind Catalog.TableInfo.GetSchema).getD []).contains key
    then dberr_t.DB_SUCCESS
    else dberr_t.DB_COLUMN_NAME_NOT_EXIST

/-- The comparison that decides in `InsertIntoParent` whether the parent is
split, for the call `Insert(key, value)` on a tree whose leaf for `key` is not
the root and overflows: the page id of the parent, the size that
`parent->InsertNodeAfter(...)` returns after the leaf was split, and
`parent->GetMaxSize()`. `Split(parent)` is called when the size is larger.
`none` when the insertion does not split a non-root leaf. -/
def parentSizeAfterLeafSplit (KM : KeyManager) (t : BPlusTree) (key : Nat) (value : RowId) :
    Option (Int × Nat × Nat) :=
  match t.FindLeafPage (numKey key) t.root_page_id_ false KM with
  | none => none
  | some (leaf_id, b) =>
    match b.leafAt leaf_id with
    | none => none
    | some leaf =>
      let b1 := b.put leaf_id (Page.leaf (leaf.Insert (numKey key) value KM).1)
      if (leaf.Insert (numKey key) value KM).2 ≤ (leaf.Insert (numKey key) value KM).1.GetMaxSize
      then none
      else
        match BPlusTree.SplitLeaf { t with buffer_pool_manager_ := b1 } leaf_id KM with
        | none => none
        | some (new_leaf_id, t1) =>
          match (t1.buffer_pool_manager_.leafAt new_leaf_id).bind fun p => p.KeyAt 0,
            t1.buffer_pool_manager_.GetParentPageId leaf_id with
          | some key0, some old_parent =>
            match t1.buffer_pool_manager_.internalAt old_parent with
            | some parent =>
              some (old_parent, (parent.InsertNodeAfter leaf_id key0 new_leaf_id).2,
                parent.GetMaxSize)
            | none => none
          | _, _ => none

/-- The views of the pages `pids` of the tree that the calls `ops` build from the
empty tree of 4-byte keys, with the root page id. -/
def treeAfter (leaf_max_size internal_max_size : Nat) (ops : List Op) (pids : List Int) :
    Option (Int × List (Option NodeView)) :=
  (runOps (numKM 4) ops (emptyTree leaf_max_size internal_max_size)).map fun t =>
    (t.root_page_id_, pids.map (view t))

/-- The results of `GetValue` for `keys` on the tree that the calls `ops` build
from the empty tree of 4-byte keys. -/
def lookupsAfter (leaf_max_size internal_max_size : Nat) (ops : List Op) (keys : List Nat) :
    Option (List (Option (Bool × List RowId))) :=
  (runOps (numKM 4) ops (emptyTree leaf_max_size internal_max_size)).map fun t =>
    keys.map fun k => lookup (numKM 4) k t

/-- A catalog without tables, on the pool of a new database: page 0 is the empty
index-roots directory, page 1 the catalog meta page (all bytes 0), page ids are
allocated from 2 on, the maps are empty and both id counters are 0. -/
def emptyCatalog : Catalog.CatalogManager :=
  { buffer_pool_manager_ :=
      { pages_ := [(INDEX_ROOTS_PAGE_ID, Page.index_roots { roots_ := [] }),
                   (CATALOG_META_PAGE_ID, Page.catalog_meta (List.replicate PAGE_SIZE 0))],
        pins_ := [], next_page_id_ := 2 },
    catalog_meta_ := { table_meta_pages_ := [], index_meta_pages_ := [] },
    next_table_id_ := 0, next_index_id_ := 0, table_names_ := [], tables_ := [],
    index_names_ := [], indexes_ := [] }

/-- A call on the catalog. -/
inductive Catalog.Call where
  | CreateTable (table_name : String) (schema : List String)
  | CreateIndex (table_name index_name : String) (index_keys : List String)
  | DropTable (table_name : String)
  | DropIndex (table_name index_name : String)
deriving DecidableEq, Repr

/-- The result code of the call and the catalog after it has returned. -/
def Catalog.Call.apply (cm : Catalog.CatalogManager) :
    Catalog.Call → Option (dberr_t × Catalog.CatalogManager)
  | Catalog.Call.CreateTable table_name schema =>
    (cm.CreateTable table_name schema none).map fun r => (r.1, r.2.1)
  | Catalog.Call.CreateIndex table_name index_name index_keys =>
    (cm.CreateIndex table_name index_name index_keys none).map fun r => (r.1, r.2.1)
  | Catalog.Call.DropTable table_name => cm.DropTable table_name
  | Catalog.Call.DropIndex table_name index_name => cm.DropIndex table_name index_name

/-- The result codes of the calls `calls`, one after the other, and the catalog
after the last one. -/
def Catalog.runCalls :
    List Catalog.Call → Catalog.CatalogManager → Option (List dberr_t × Catalog.CatalogManager)
  | [], cm => some ([], cm)
  | call :: calls, cm =>
    (call.apply cm).bind fun r =>
      (Catalog.runCalls calls r.2).map fun rs => (r.1 :: rs.1, rs.2)

/-- The catalog with the table `t` of the columns `(a, b)`: the state after
`CreateTable("t", (a, b))` on the new catalog. -/
def catalogT : Catalog.CatalogManager :=
  ((Catalog.runCalls [Catalog.Call.CreateTable "t" ["a", "b"]] emptyCatalog).map
    Prod.snd).getD emptyCatalog

/-- The catalog with the tables `t` (columns `a`, `b`, index `i` on `a`) and `u`
(column `c`, index `j` on `c`), created in this order on the new catalog. -/
def catalogTU : Catalog.CatalogManager :=
  ((Catalog.runCalls
    [Catalog.Call.CreateTable "t" ["a", "b"], Catalog.Call.CreateIndex "t" "i" ["a"],
     Catalog.Call.CreateTable "u" ["c"], Catalog.Call.CreateIndex "u" "j" ["c"]]
    emptyCatalog).map Prod.snd).getD emptyCatalog

/-- The catalog with the table `t` and its index `i` on the column `a`, after the
key 7 has been inserted into the B+ tree of the index (through a tree handle
for the index id 0 with both maximum sizes 4): the tree consists of the root
leaf page 5, which the index-roots page records. -/
def catalogTIK : Catalog.CatalogManager :=
  match (Catalog.runCalls
    [Catalog.Call.CreateTable "t" ["a", "b"], Catalog.Call.CreateIndex "t" "i" ["a"]]
    emptyCatalog) with
  | none => emptyCatalog
  | some (_, cm) =>
    match (BPlusTree.new 0 cm.buffer_pool_manager_ 4 4).bind fun t =>
        t.Insert (numKey 7) ⟨2, 0⟩ (numKM 4) with
    | some (_, t1) => { cm with buffer_pool_manager_ := t1.buffer_pool_manager_ }
    | none => emptyCatalog

/-- The bytes of a list of map entries in the words of the specification:
`(id, meta_page)` for each entry, 4 bytes each. -/
def CatalogMeta.layout.entries (pages : List (Nat × Int)) : List Nat :=
  pages.flatMap fun e => encode32 e.1 ++ encode32 e.2

/-- The serialized catalog meta in the words of the specification: `magic`,
`n_tables`, `n_indexes`, the `(table_id, meta_page)` entries and the
`(index_id, meta_page)` entries. -/
def CatalogMeta.layout (m : CatalogMeta) : List Nat :=
  encode32 CATALOG_METADATA_MAGIC_NUM ++ encode32 m.table_meta_pages_.length ++
    encode32 m.index_meta_pages_.length ++ CatalogMeta.layout.entries m.table_meta_pages_ ++
    CatalogMeta.layout.entries m.index_meta_pages_

/-- The map is one of the 32-bit types of the catalog meta: no key has two
entries, the ids are `uint32_t` and the page ids are `int32_t` values. -/
def CatalogMeta.WellTyped (pages : List (Nat × Int)) : Prop :=
  (pages.map Prod.fst).Nodup ∧
  ∀ e ∈ pages, e.1 < 4294967296 ∧ -2147483648 ≤ e.2 ∧ e.2 < 2147483648

/-- The bytes held for the catalog meta page are the serialized catalog meta of
the catalog: page 1 is in the pool and `SerializeTo` of the catalog meta into its
bytes gives these bytes again. -/
def Catalog.CatalogManager.MetaPageCurrent (cm : Catalog.CatalogManager) : Bool :=
  match cm.buffer_pool_manager_.pageAt CATALOG_META_PAGE_ID with
  | some (Page.catalog_meta data) => decide (cm.catalog_meta_.SerializeTo data = some data)
  | _ => false

/-- The ids that the name maps list have an entry in the catalog meta, and no
table heap begins at the catalog meta page. -/
def Catalog.CatalogManager.Listed (cm : Catalog.CatalogManager) : Prop :=
  (∀ e ∈ cm.table_names_, (Map.find cm.catalog_meta_.table_meta_pages_ e.2).isSome) ∧
  (∀ e ∈ cm.index_names_, ∀ i ∈ e.2,
    (Map.find cm.catalog_meta_.index_meta_pages_ i.2).isSome) ∧
  (∀ e ∈ cm.tables_, e.2.GetRootPageId ≠ some CATALOG_META_PAGE_ID)

/-- The internal page `page_id` of 4-byte keys that holds the pairs `pairs` of a
key (as a number) and a child page id; the key of pair 0 is the unused one. -/
def internalPage (page_id parent_id : Int) (max_size : Nat) (pairs : List (Nat × Int)) :
    InternalPage :=
  { page_id_ := page_id, parent_page_id_ := parent_id, size_ := pairs.length,
    max_size_ := max_size, key_size_ := 4,
    data_ := pairs.flatMap fun p => numKey p.1 ++ encode32 p.2 }

/-- The pairs 0 to size - 1 of an internal page of 4-byte keys: the key as a
number and the child page id. -/
def InternalPage.pairs (p : InternalPage) : List (Int × Int) :=
  (List.range p.size_).map fun i => (decode32 (p.KeyAt i), p.ValueAt i)

/-- A pool that holds the internal pages `nodes` and, for every child page id
that one of them names, an empty leaf page whose parent is that internal page. -/
def poolOf (nodes : List InternalPage) : BufferPoolManager :=
  { pages_ :=
      nodes.map (fun p => (p.page_id_, Page.internal p)) ++
      nodes.flatMap fun p =>
        p.pairs.map fun c => (c.2, Page.leaf (LeafPage.Init c.2 p.page_id_ 4 4)),
    pins_ := [], next_page_id_ := 100 }

/-- The pairs of the internal page `pid` in the pool, with its size. -/
def pairsAt (b : BufferPoolManager) (pid : Int) : Option (Nat × List (Int × Int)) :=
  (b.internalAt pid).map fun p => (p.size_, p.pairs)

/-- The header fields `parent_page_id_` of the pages `pids`. -/
def parentsAt (b : BufferPoolManager) (pids : List Int) : List (Option Int) :=
  pids.map b.GetParentPageId

/-- An internal page with `max_size = 16` that holds 17 pairs: the children 10 to
26, with the keys 110 to 260 between them. -/
def fullPage : InternalPage :=
  internalPage 2 (-1) 16
    [(0, 10), (110, 11), (120, 12), (130, 13), (140, 14), (150, 15), (160, 16), (170, 17),
     (180, 18), (190, 19), (200, 20), (210, 21), (220, 22), (230, 23), (240, 24), (250, 25),
     (260, 26)]

/-- A right sibling with three pairs, for the redistribution and the merge of
internal pages: the children 20, 21, 22 under the parent page 1. -/
def donorRight : InternalPage := internalPage 3 1 4 [(0, 20), (30, 21), (40, 22)]

/-- The left neighbour of `donorRight` with two pairs: the children 10 and 11. -/
def recipientLeft : InternalPage := internalPage 2 1 4 [(0, 10), (10, 11)]

/-- A left sibling with three pairs: the children 10, 11, 12 under the parent
page 1. -/
def donorLeft : InternalPage := internalPage 2 1 4 [(0, 10), (10, 11), (20, 12)]

/-- The right neighbour of `donorLeft` with two pairs: the children 20 and 21. -/
def recipientRight : InternalPage := internalPage 3 1 4 [(0, 20), (40, 21)]

/-- A leaf page of 4-byte keys with `max_size = 4` that holds `keys`, each with
the row id `(key, 0)`. -/
def leafOf (page_id parent_id next_page_id : Int) (keys : List Nat) : LeafPage :=
  { page_id_ := page_id, parent_page_id_ := parent_id, next_page_id_ := next_page_id,
    max_size_ := 4, key_size_ := 4, entries_ := keys.map fun k => (numKey k, ⟨k, 0⟩) }

/-- A tree of height 3 with `leaf_max_size = internal_max_size = 4`: the root
page 2 has the children 3 and 4 with the separator 50; page 3 has the leaves
5 = [10, 20] and 6 = [30, 40] with the separator 30; page 4 has the leaves
7 = [50, 60, 70] and 8 = [80, 90] with the separator 80. -/
def treeOfHeight3 : BPlusTree :=
  { index_id_ := 0, root_page_id_ := 2, leaf_max_size_ := 4, internal_max_size_ := 4,
    buffer_pool_manager_ :=
      { pages_ := [(0, Page.index_roots { roots_ := [(0, 2)] }),
                   (2, Page.internal (internalPage 2 (-1) 4 [(0, 3), (50, 4)])),
                   (3, Page.internal (internalPage 3 2 4 [(0, 5), (30, 6)])),
                   (4, Page.internal (internalPage 4 2 4 [(0, 7), (80, 8)])),
                   (5, Page.leaf (leafOf 5 3 6 [10, 20])),
                   (6, Page.leaf (leafOf 6 3 7 [30, 40])),
                   (7, Page.leaf (leafOf 7 4 8 [50, 60, 70])),
                   (8, Page.leaf (leafOf 8 4 (-1) [80, 90]))],
        pins_ := [], next_page_id_ := 9 } }

/-- A right sibling with two pairs, which fit into `recipientLeft`: the children
20 and 21. -/
def donorSmall : InternalPage := internalPage 3 1 4 [(0, 20), (30, 21)]

/-- The catalog `catalogTIK` with the root page 5 in the tree handle of the
index `i`, as the handle has it through which the key was inserted. -/
def catalogTIKOpen : Catalog.CatalogManager :=
  { catalogTIK with
    indexes_ := catalogTIK.indexes_.map fun e => (e.1, { e.2 with index_ := some ⟨0, 5⟩ }) }

/-! ## Internal pages, siblings, replacer states and predicate trees of the later claims -/

/-- An internal page with `max_size = 17` that holds 18 pairs: the children 10 to
27, with the keys 110 to 270 between them. -/
def oddPage : InternalPage :=
  internalPage 2 (-1) 17
    [(0, 10), (110, 11), (120, 12), (130, 13), (140, 14), (150, 15), (160, 16), (170, 17),
     (180, 18), (190, 19), (200, 20), (210, 21), (220, 22), (230, 23), (240, 24), (250, 25),
     (260, 26), (270, 27)]

/-- The size and the children of the internal page `pid` in the pool. -/
def childrenAt (b : BufferPoolManager) (pid : Int) : Option (Nat × List Int) :=
  (b.internalAt pid).map fun p => (p.size_, (List.range p.size_).map p.ValueAt)

/-- An internal page with three children: 10 for the keys below 30, 11 for the
keys from 30 on and below 50, 12 for the keys from 50 on. -/
def routingPage : InternalPage := internalPage 2 (-1) 4 [(0, 10), (30, 11), (50, 12)]

namespace LRUKReplacer

/-- The two lists agree with the counters of a replacer with `k_ = k ≥ 2` none
of whose counters exceeds `n`: `history_list_` holds the frames with
`1 ≤ access_time_ < k_`, `cache_list_` those with `access_time_ ≥ k_`, neither
list repeats a frame, and the keys of the two maps are the members of their
lists. -/
def Tracked (k n : Nat) (r : LRUKReplacer) : Prop :=
  r.k_ = k ∧ 2 ≤ r.k_ ∧ (∀ f, r.access_time_ f ≤ n) ∧
  (∀ f, f ∈ r.history_list_ ↔ 1 ≤ r.access_time_ f ∧ r.access_time_ f < r.k_) ∧
  (∀ f, f ∈ r.cache_list_ ↔ r.k_ ≤ r.access_time_ f) ∧
  r.history_list_.Nodup ∧ r.cache_list_.Nodup ∧
  (∀ f, r.history_map_ f = true ↔ f ∈ r.history_list_) ∧
  (∀ f, r.cache_map_ f = true ↔ f ∈ r.cache_list_)

/-- The replacer with `k_ = 2` after `Unpin(1)` and `Unpin(2)`. -/
def returnedOnce : LRUKReplacer :=
  (runOps [Op.Unpin 1, Op.Unpin 2] (new 2)).getD (new 2)

/-- Six calls on three frames. -/
def exampleCalls : List Op :=
  [Op.Unpin 1, Op.Unpin 2, Op.Unpin 1, Op.Pin 2, Op.Unpin 3, Op.Victim]

end LRUKReplacer

namespace BPlusTree

/-- The header fields `parent_page_id_`, `size` and `max_size` that
`CoalesceOrRedistribute<N>` reads from the page `pid` through `N *`. -/
def header (isLeaf : Bool) (b : BufferPoolManager) (pid : Int) : Option (Int × Nat × Nat) :=
  if isLeaf then (b.leafAt pid).map fun p => (p.parent_page_id_, p.GetSize, p.GetMaxSize)
  else (b.internalAt pid).map fun p => (p.parent_page_id_, p.GetSize, p.GetMaxSize)

/-- The two overloads of `Coalesce(neighbor_node, node, parent, index)`, for
`LeafPage` when `isLeaf` and for `InternalPage` otherwise, on the pool of `t`.
Returns the flag, which is that of `CoalesceOrRedistribute(parent)` when the
parent has fallen below its minimum size and `false` otherwise, and the tree
afterwards. -/
def Coalesce (fuel : Nat) (isLeaf : Bool) (t : BPlusTree) (neighbor_node node parent : Int)
    (index : Int) : Option (Bool × BPlusTree) := do
  let b := t.buffer_pool_manager_
  let parent0 ← b.internalAt parent
  let b4 ←
    (if index ≠ 0 then do
      let b5 ← (if isLeaf then do
                  let nd ← b.leafAt node
                  let nb ← b.leafAt neighbor_node
                  let (nd1, nb1) := nd.MoveAllTo nb
                  some ((b.put neighbor_node (Page.leaf nb1)).put node (Page.leaf nd1))
                else InternalPage.MoveAllTo b node neighbor_node (parent0.KeyAt index.toNat))
      let parent5 ← b5.internalAt parent
      some ((((b5.UnpinPage node).DeletePage node).UnpinPage neighbor_node).put parent
        (Page.internal (parent5.Remove index)))
    else do
      let b5 ← (if isLeaf then do
                  let nd ← b.leafAt node
                  let nb ← b.leafAt neighbor_node
                  let (nb1, nd1) := nb.MoveAllTo nd
                  some ((b.put node (Page.leaf nd1)).put neighbor_node (Page.leaf nb1))
                else InternalPage.MoveAllTo b neighbor_node node
                  (parent0.KeyAt (index + 1).toNat))
      let parent5 ← b5.internalAt parent
      some ((((b5.UnpinPage node).UnpinPage neighbor_node).DeletePage neighbor_node).put parent
        (Page.internal (parent5.Remove (index + 1)))))
  let parent6 ← b4.internalAt parent
  if parent6.GetSize < parent6.GetMinSize then
    CoalesceOrRedistribute fuel false { t with buffer_pool_manager_ := b4 } parent
  else some (false, { t with buffer_pool_manager_ := b4 })

end BPlusTree

/-- A tree of height 2 with `leaf_max_size = internal_max_size = 4`: the root
page 2 has the leaves 3, 4 and 5 with the separators 30 and 50, which hold the
given keys. -/
def siblingsTree (keys3 keys4 keys5 : List Nat) : BPlusTree :=
  { index_id_ := 0, root_page_id_ := 2, leaf_max_size_ := 4, internal_max_size_ := 4,
    buffer_pool_manager_ :=
      { pages_ := [(0, Page.index_roots { roots_ := [(0, 2)] }),
                   (2, Page.internal (internalPage 2 (-1) 4 [(0, 3), (30, 4), (50, 5)])),
                   (3, Page.leaf (leafOf 3 2 4 keys3)),
                   (4, Page.leaf (leafOf 4 2 5 keys4)),
                   (5, Page.leaf (leafOf 5 2 (-1) keys5))],
        pins_ := [], next_page_id_ := 6 } }

/-- The flag of `CoalesceOrRedistribute` on the leaf `node` of `t` and the views
of the pages 2 to 5 afterwards. -/
def rebalanced (t : BPlusTree) (node : Int) : Option (Bool × List (Option NodeView)) :=
  (t.CoalesceOrRedistribute 8 true node).map fun r =>
    (r.1, [2, 3, 4, 5].map fun pid => view r.2 pid)

/-- A predicate tree with the operator of each logic node. The type `τ` of the
operators is declared outside `index_scan_executor.cpp` and is a parameter. -/
inductive Predicate (τ : Type) where
  | LogicExpression (logic_type : τ) (children : List (Predicate τ))
  | ComparisonExpression (col_idx : Nat) (op : ComparisonType) (constant : Int)
  | OtherExpression

mutual
/-- What `dfs` reads of a predicate tree: `GetType()` and `GetChildren()` of each
node, and the comparison at a `ComparisonExpression`. -/
def Predicate.toExpression {τ : Type} : Predicate τ → Expression
  | Predicate.LogicExpression _ children =>
    Expression.LogicExpression (Predicate.toExpressions children)
  | Predicate.ComparisonExpression c o k => Expression.ComparisonExpression c o k
  | Predicate.OtherExpression => Expression.OtherExpression
/-- The children of a logic node as `dfs` reads them. -/
def Predicate.toExpressions {τ : Type} : List (Predicate τ) → List Expression
  | [] => []
  | child :: rest => child.toExpression :: Predicate.toExpressions rest
end

mutual
/-- The comparison leaves of a predicate tree in left-to-right depth-first
order. -/
def Predicate.comparisons {τ : Type} : Predicate τ → List Comparison
  | Predicate.LogicExpression _ children => Predicate.comparisonsOfList children
  | Predicate.ComparisonExpression c o k => [⟨c, o, k⟩]
  | Predicate.OtherExpression => []
/-- The comparison leaves of a list of predicate trees, from left to right. -/
def Predicate.comparisonsOfList {τ : Type} : List (Predicate τ) → List Comparison
  | [] => []
  | child :: rest => child.comparisons ++ Predicate.comparisonsOfList rest
end

mutual
/-- The predicate tree in the words of the specification: every internal node is
an `AND` node, that is, a logic node whose operator satisfies `isAnd`, and every
leaf is a comparison. -/
def Predicate.isConjunction {τ : Type} (isAnd : τ → Bool) : Predicate τ → Bool
  | Predicate.LogicExpression logic_type children =>
    isAnd logic_type && Predicate.areConjunctions isAnd children
  | Predicate.ComparisonExpression _ _ _ => true
  | Predicate.OtherExpression => false
/-- Every tree of the list is a tree of `AND` nodes and comparisons. -/
def Predicate.areConjunctions {τ : Type} (isAnd : τ → Bool) : List (Predicate τ) → Bool
  | [] => true
  | child :: rest => child.isConjunction isAnd && Predicate.areConjunctions isAnd rest
end

mutual
/-- Every node of the tree is a logic node, of whatever operator, or a
comparison. -/
def Predicate.isLogicTree {τ : Type} : Predicate τ → Bool
  | Predicate.LogicExpression _ children => Predicate.areLogicTrees children
  | Predicate.ComparisonExpression _ _ _ => true
  | Predicate.OtherExpression => false
/-- Every tree of the list consists of logic nodes and comparisons. -/
def Predicate.areLogicTrees {τ : Type} : List (Predicate τ) → Bool
  | [] => true
  | child :: rest => child.isLogicTree && Predicate.areLogicTrees rest
end

/-- Two operators of a logic node, one of them other than `AND`. -/
inductive LogicType where
  | And
  | Or
deriving DecidableEq, Repr

/-- The predicate `a = 3 OR b = 7` on the columns 0 and 1. -/
def disjunction : Predicate LogicType :=
  Predicate.LogicExpression LogicType.Or
    [Predicate.ComparisonExpression 0 ComparisonType.eq 3,
     Predicate.ComparisonExpression 1 ComparisonType.eq 7]

/-- The predicate `(a = 3 AND b = 7) AND a < 9` on the columns 0 and 1. -/
def conjunction : Predicate LogicType :=
  Predicate.LogicExpression LogicType.And
    [Predicate.LogicExpression LogicType.And
      [Predicate.ComparisonExpression 0 ComparisonType.eq 3,
     Predicate.ComparisonExpression 1 ComparisonType.eq 7],
     Predicate.ComparisonExpression 0 ComparisonType.lt 9]

/-! ## The ids of the catalog below the wrap of its counters -/

/-- The table ids of `table_names_` were handed out by the counter `next`: each
is below `next`, and no two names have the same id. -/
def Catalog.TableIds (next : Nat) (table_names : List (String × Nat)) : Prop :=
  (∀ t id, Map.find table_names t = some id → id < next) ∧
  (∀ t1 t2 id, Map.find table_names t1 = some id → Map.find table_names t2 = some id →
    t1 = t2)

/-- The index ids of `index_names_` were handed out by the counter `next`: each
is below `next`, and no two indexes, of one table or of two, have the same id. -/
def Catalog.IndexIds (next : Nat) (index_names : List (String × List (String × Nat))) : Prop :=
  (∀ t names, Map.find index_names t = some names → ∀ e ∈ names, e.2 < next) ∧
  (∀ t1 names1 t2 names2, Map.find index_names t1 = some names1 →
    Map.find index_names t2 = some names2 →
    ∀ e1 ∈ names1, ∀ e2 ∈ names2, e1.2 = e2.2 → t1 = t2 ∧ e1.1 = e2.1)

/-- Neither id counter of the catalog exceeds `n`, and the ids of its tables and
indexes were handed out by the counters. -/
def Catalog.CatalogManager.Numbered (n : Nat) (cm : Catalog.CatalogManager) : Prop :=
  cm.next_table_id_ ≤ n ∧ cm.next_index_id_ ≤ n ∧
  Catalog.TableIds cm.next_table_id_ cm.table_names_ ∧
  Catalog.IndexIds cm.next_index_id_ cm.index_names_

/-- The info of the table `t` of the columns `(a, b)` that is created first on
the new catalog: table id 0 and the heap page 2. -/
def tableT : Catalog.TableInfo := ⟨some ⟨0, "t", 2, ["a", "b"]⟩, some ⟨2⟩⟩

/-- The catalog with the table `t` of the columns `(a, b)` and its index `i` on
the column `a`, created in this order on the new catalog. -/
def catalogTI : Catalog.CatalogManager :=
  ((Catalog.runCalls
    [Catalog.Call.CreateTable "t" ["a", "b"], Catalog.Call.CreateIndex "t" "i" ["a"]]
    emptyCatalog).map Prod.snd).getD emptyCatalog

/-- The catalog `catalogTI` with the index id counter at `next`. -/
def catalogTIAt (next : Nat) : Catalog.CatalogManager :=
  { catalogTI with next_index_id_ := next }

/-! ## Theorems -/

theorem emptyTree_eq_new (l m : Nat) :
    BPlusTree.new 0 BufferPoolManager.fresh l m = some (emptyTree l m) := rfl

theorem leafTree_reached_3 :
    runOps (numKM 4) (insertAll [10, 20, 30]) (emptyTree 4 4) = some (leafTree [10, 20, 30]) := by
  decide

theorem leafTree_reached_4 :
    runOps (numKM 4) (insertAll [10, 20, 30, 40]) (emptyTree 4 4)
      = some (leafTree [10, 20, 30, 40]) := by
  decide

/-! ### Lookups do not change the page table -/

namespace BufferPoolManager

theorem setPin_pages (b : BufferPoolManager) (pid : Int) (n : Nat) :
    (b.setPin pid n).pages_ = b.pages_ := rfl

theorem UnpinPage_pages (b : BufferPoolManager) (pid : Int) :
    (b.UnpinPage pid).pages_ = b.pages_ := by
  unfold UnpinPage
  split <;> rfl

theorem pageAt_congr {b c : BufferPoolManager} (h : b.pages_ = c.pages_) (pid : Int) :
    b.pageAt pid = c.pageAt pid := by
  unfold pageAt
  rw [h]

theorem leafAt_congr {b c : BufferPoolManager} (h : b.pages_ = c.pages_) (pid : Int) :
    b.leafAt pid = c.leafAt pid := by
  unfold leafAt
  rw [pageAt_congr h]

theorem FetchPage_eq_some {b b1 : BufferPoolManager} {pid : Int} {pg : Page}
    (h : b.FetchPage pid = some (pg, b1)) :
    b.pageAt pid = some pg ∧ b1 = b.setPin pid (b.pinCount pid + 1) := by
  unfold FetchPage at h
  cases hp : b.pageAt pid with
  | none => rw [hp] at h; cases h
  | some pg0 =>
    rw [hp] at h
    simp only [Option.some.injEq, Prod.mk.injEq] at h
    exact ⟨by rw [h.1], h.2.symm⟩

theorem FetchPage_pages {b b1 : BufferPoolManager} {pid : Int} {pg : Page}
    (h : b.FetchPage pid = some (pg, b1)) : b1.pages_ = b.pages_ := by
  rw [(FetchPage_eq_some h).2]
  rfl

theorem FetchPage_congr {b c b1 : BufferPoolManager} (hbc : b.pages_ = c.pages_) {pid : Int}
    {pg : Page} (h : b.FetchPage pid = some (pg, b1)) :
    ∃ c1, c.FetchPage pid = some (pg, c1) ∧ c1.pages_ = b1.pages_ := by
  obtain ⟨hp, hb1⟩ := FetchPage_eq_some h
  refine ⟨c.setPin pid (c.pinCount pid + 1), ?_, ?_⟩
  · unfold FetchPage
    rw [← pageAt_congr hbc, hp]
  · rw [hb1, setPin_pages, setPin_pages, hbc]

end BufferPoolManager

namespace BPlusTree

theorem FindLeafPage.loop_pages (key : List Nat) (leftMost : Bool) (KM : KeyManager) :
    ∀ (fuel : Nat) (node : Int) (b : BufferPoolManager) (leaf : Int) (b1 : BufferPoolManager),
      FindLeafPage.loop key leftMost KM fuel node b = some (leaf, b1) → b1.pages_ = b.pages_ := by
  intro fuel
  induction fuel with
  | zero => intro node b leaf b1 h; simp [FindLeafPage.loop] at h
  | succ n ih =>
    intro node b leaf b1 h
    unfold FindLeafPage.loop at h
    cases hp : b.pageAt node with
    | none => rw [hp] at h; cases h
    | some pg =>
      rw [hp] at h
      cases pg with
      | leaf p => simp only [Option.some.injEq, Prod.mk.injEq] at h; rw [← h.2]
      | index_roots p => cases h
      | catalog_meta d => cases h
      | table_meta m => cases h
      | index_meta m => cases h
      | table_page => cases h
      | internal p =>
        simp only at h
        cases hn : (if leftMost = true then some (p.ValueAt 0) else p.Lookup key KM) with
        | none => rw [hn] at h; cases h
        | some next =>
          rw [hn] at h
          simp only at h
          cases hf : b.FetchPage next with
          | none => rw [hf] at h; cases h
          | some r =>
            obtain ⟨pg, b2⟩ := r
            rw [hf] at h
            simp only at h
            rw [ih _ _ _ _ h, BufferPoolManager.UnpinPage_pages,
              BufferPoolManager.FetchPage_pages hf]

theorem FindLeafPage.loop_congr (key : List Nat) (leftMost : Bool) (KM : KeyManager) :
    ∀ (fuel : Nat) (node : Int) (b c : BufferPoolManager) (leaf : Int) (b1 : BufferPoolManager),
      b.pages_ = c.pages_ →
      FindLeafPage.loop key leftMost KM fuel node b = some (leaf, b1) →
      ∃ c1, FindLeafPage.loop key leftMost KM fuel node c = some (leaf, c1) ∧
        c1.pages_ = b1.pages_ := by
  intro fuel
  induction fuel with
  | zero => intro node b c leaf b1 _ h; simp [FindLeafPage.loop] at h
  | succ n ih =>
    intro node b c leaf b1 hbc h
    unfold FindLeafPage.loop at h ⊢
    rw [← BufferPoolManager.pageAt_congr hbc]
    cases hp : b.pageAt node with
    | none => rw [hp] at h; cases h
    | some pg =>
      rw [hp] at h
      cases pg with
      | leaf p =>
        simp only [Option.some.injEq, Prod.mk.injEq] at h
        exact ⟨c, by simp [h.1], by rw [← h.2, hbc]⟩
      | index_roots p => cases h
      | catalog_meta d => cases h
      | table_meta m => cases h
      | index_meta m => cases h
      | table_page => cases h
      | internal p =>
        simp only at h ⊢
        cases hn : (if leftMost = true then some (p.ValueAt 0) else p.Lookup key KM) with
        | none => rw [hn] at h; cases h
        | some next =>
          rw [hn] at h
          simp only at h ⊢
          cases hf : b.FetchPage next with
          | none => rw [hf] at h; cases h
          | some r =>
            obtain ⟨pg, b2⟩ := r
            rw [hf] at h
            simp only at h
            obtain ⟨c2, hc2, hc2p⟩ := BufferPoolManager.FetchPage_congr hbc hf
            rw [hc2]
            simp only
            have hu : (b2.UnpinPage p.page_id_).pages_ = (c2.UnpinPage p.page_id_).pages_ := by
              rw [BufferPoolManager.UnpinPage_pages, BufferPoolManager.UnpinPage_pages, hc2p]
            exact ih _ _ _ _ _ hu h

theorem FindLeafPage_pages {t : BPlusTree} {key : List Nat} {pid : Int} {lm : Bool}
    {KM : KeyManager} {leaf : Int} {b1 : BufferPoolManager}
    (h : t.FindLeafPage key pid lm KM = some (leaf, b1)) :
    b1.pages_ = t.buffer_pool_manager_.pages_ := by
  unfold FindLeafPage at h
  split at h
  · cases h
  · simp only at h
    split at h
    · cases h
    · rename_i pg b hf
      rw [FindLeafPage.loop_pages _ _ _ _ _ _ _ _ h, BufferPoolManager.FetchPage_pages hf]

theorem FindLeafPage_congr {t u : BPlusTree} {key : List Nat} {pid : Int} {lm : Bool}
    {KM : KeyManager} {leaf : Int} {b1 : BufferPoolManager}
    (hroot : u.root_page_id_ = t.root_page_id_)
    (hpages : u.buffer_pool_manager_.pages_ = t.buffer_pool_manager_.pages_)
    (h : t.FindLeafPage key pid lm KM = some (leaf, b1)) :
    ∃ c1, u.FindLeafPage key pid lm KM = some (leaf, c1) ∧ c1.pages_ = b1.pages_ := by
  unfold FindLeafPage IsEmpty at h ⊢
  rw [hroot]
  split at h
  · cases h
  · rename_i hne
    rw [if_neg hne]
    simp only at h ⊢
    split at h
    · cases h
    · rename_i pg b hf
      obtain ⟨c, hc, hcp⟩ := BufferPoolManager.FetchPage_congr hpages.symm hf
      rw [hc]
      simp only
      rw [hcp]
      exact FindLeafPage.loop_congr _ _ _ _ _ _ _ _ _ hcp.symm h

end BPlusTree

/-! ### Reading pages after writes -/

namespace BufferPoolManager

theorem find_map_put (pid : Int) (pg : Page) (q : Int) :
    ∀ l : List (Int × Page),
      ((l.map fun e => if e.1 == pid then (pid, pg) else e).find? fun e => e.1 == q) =
        if q = pid then (l.find? fun e => e.1 == pid).map (fun _ => (pid, pg))
        else l.find? fun e => e.1 == q := by
  intro l
  induction l with
  | nil => simp
  | cons e es ih =>
    simp only [List.map_cons, List.find?_cons]
    rw [ih]
    by_cases he : e.1 = pid
    · by_cases hq : q = pid
      · simp [he, hq]
      · have hb : (pid == q) = false := by
          simpa using fun h : pid = q => hq h.symm
        simp [he, hq, hb]
    · by_cases hq : q = pid
      · subst hq
        have hb : (e.1 == q) = false := by simpa using he
        simp [he, hb]
      · by_cases heq : e.1 = q
        · simp [he, hq, heq]
        · have hb : (e.1 == q) = false := by simpa using heq
          simp [he, hq, hb]

theorem pageAt_put (b : BufferPoolManager) (pid : Int) (pg : Page) (q : Int) :
    (b.put pid pg).pageAt q = if q = pid then some pg else b.pageAt q := by
  unfold put
  by_cases hs : (b.pageAt pid).isSome = true
  · rw [if_pos hs]
    unfold pageAt at hs ⊢
    simp only
    rw [find_map_put]
    by_cases hq : q = pid
    · rw [if_pos hq, if_pos hq]
      cases hf : b.pages_.find? fun e => e.1 == pid with
      | none => rw [hf] at hs; simp at hs
      | some e => simp
    · rw [if_neg hq, if_neg hq]
  · rw [if_neg hs]
    unfold pageAt at hs ⊢
    simp only [Option.isSome_map', Bool.not_eq_true, Option.not_isSome,
      Option.isNone_iff_eq_none, Option.isSome_map] at hs
    simp only [List.find?_append, hs]
    by_cases hq : q = pid
    · subst hq
      simp [hs]
    · have : ¬ pid = q := fun h => hq h.symm
      simp [hq, this]

theorem pageAt_setPin (b : BufferPoolManager) (pid : Int) (n : Nat) (q : Int) :
    (b.setPin pid n).pageAt q = b.pageAt q := rfl

theorem pageAt_UnpinPage (b : BufferPoolManager) (pid q : Int) :
    (b.UnpinPage pid).pageAt q = b.pageAt q :=
  pageAt_congr (UnpinPage_pages b pid) q

theorem pageAt_NewPage (b : BufferPoolManager) (q : Int) :
    b.NewPage.2.pageAt q = b.pageAt q := rfl

end BufferPoolManager

/-! ### Bytes of a new root -/

theorem encode32_length (v : Int) : (encode32 v).length = 4 := rfl

theorem memRead_length (d : List Nat) (off n : Nat) : (memRead d off n).length = n := by
  simp [memRead]

theorem memRead_append_right (a b : List Nat) (off n : Nat) :
    memRead (a ++ b) (a.length + off) n = memRead b off n := by
  unfold memRead
  apply List.map_congr_left
  intro i _
  rw [List.getD_append_right _ _ _ _ (by omega)]
  congr 1
  omega

theorem memRead_append_left (a b : List Nat) (n : Nat) (h : n ≤ a.length) :
    memRead (a ++ b) 0 n = memRead a 0 n := by
  unfold memRead
  apply List.map_congr_left
  intro i hi
  rw [List.mem_range] at hi
  rw [List.getD_append _ _ _ _ (by omega)]

theorem memRead_self (a : List Nat) : memRead a 0 a.length = a := by
  unfold memRead
  apply List.ext_getElem
  · simp
  · intro i h1 h2
    simp [List.getD_eq_getElem?_getD, List.getElem?_eq_getElem h2]

theorem decode32_encode32 (v : Int) (h1 : -2147483648 ≤ v) (h2 : v < 2147483648) :
    decode32 (encode32 v) = v := by
  unfold decode32 encode32
  simp only [List.getD_cons_zero, List.getD_cons_succ]
  split <;> omega

theorem memWrite_at_end (d : List Nat) (bs : List Nat) :
    memWrite d d.length bs = d ++ bs := by
  simp [memWrite]

namespace InternalPage

theorem PopulateNewRoot_data (id par : Int) (ks m : Nat) (old : Int) (key : List Nat)
    (new : Int) :
    ((Init id par ks m).PopulateNewRoot old key new).data_ =
      List.replicate ks 0 ++ encode32 old ++ memRead key 0 ks ++ encode32 new := by
  have h1 : memWrite [] (0 * (ks + 4) + ks) (encode32 old) = List.replicate ks 0 ++ encode32 old := by
    simp [memWrite]
  have h2 : 1 * (ks + 4) = (List.replicate ks 0 ++ encode32 old).length := by
    simp [encode32_length]
  have h3 : 1 * (ks + 4) + ks =
      (List.replicate ks 0 ++ encode32 old ++ memRead key 0 ks).length := by
    simp [encode32_length, memRead_length]
    omega
  simp only [PopulateNewRoot, SetValueAt, SetKeyAt, Init, pair_size]
  rw [h1, h2, memWrite_at_end, ← h2, h3, memWrite_at_end]

theorem PopulateNewRoot_ValueAt_zero (id par : Int) (ks m : Nat) (old : Int) (key : List Nat)
    (new : Int) (h1 : -2147483648 ≤ old) (h2 : old < 2147483648) :
    ((Init id par ks m).PopulateNewRoot old key new).ValueAt 0 = old := by
  have hk : (0 * (ks + 4) + ks) = (List.replicate ks (0 : Nat)).length + 0 := by simp
  have h4 : (4 : Nat) ≤ (encode32 old).length := by simp [encode32_length]
  unfold ValueAt
  rw [PopulateNewRoot_data]
  have hks : ((Init id par ks m).PopulateNewRoot old key new).key_size_ = ks := rfl
  simp only [pair_size, hks]
  rw [hk, List.append_assoc, List.append_assoc, memRead_append_right, memRead_append_left _ _ _ h4]
  have : memRead (encode32 old) 0 4 = encode32 old := memRead_self (encode32 old)
  rw [this, decode32_encode32 _ h1 h2]

theorem PopulateNewRoot_ValueAt_one (id par : Int) (ks m : Nat) (old : Int) (key : List Nat)
    (new : Int) (h1 : -2147483648 ≤ new) (h2 : new < 2147483648) :
    ((Init id par ks m).PopulateNewRoot old key new).ValueAt 1 = new := by
  have hk : (1 * (ks + 4) + ks) =
      (List.replicate ks (0 : Nat) ++ encode32 old ++ memRead key 0 ks).length + 0 := by
    simp [encode32_length, memRead_length]
    omega
  unfold ValueAt
  rw [PopulateNewRoot_data]
  have hks : ((Init id par ks m).PopulateNewRoot old key new).key_size_ = ks := rfl
  simp only [pair_size, hks]
  rw [hk, memRead_append_right]
  have : memRead (encode32 new) 0 4 = encode32 new := memRead_self (encode32 new)
  rw [this, decode32_encode32 _ h1 h2]

theorem PopulateNewRoot_KeyAt_one (id par : Int) (ks m : Nat) (old : Int) (key : List Nat)
    (new : Int) (hlen : key.length = ks) :
    ((Init id par ks m).PopulateNewRoot old key new).KeyAt 1 = key := by
  have hk : (1 * (ks + 4)) = (List.replicate ks (0 : Nat) ++ encode32 old).length + 0 := by
    simp [encode32_length]
  have hkey : memRead key 0 ks = key := by rw [← hlen]; exact memRead_self key
  unfold KeyAt
  rw [PopulateNewRoot_data]
  have hks : ((Init id par ks m).PopulateNewRoot old key new).key_size_ = ks := rfl
  simp only [pair_size, hks]
  rw [hk, List.append_assoc, memRead_append_right, hkey, memRead_append_left _ _ _ (by omega),
    ← hlen, memRead_self]

end InternalPage

namespace BufferPoolManager

theorem put_next (b : BufferPoolManager) (pid : Int) (pg : Page) :
    (b.put pid pg).next_page_id_ = b.next_page_id_ := by
  unfold put
  split <;> rfl

theorem UnpinPage_next (b : BufferPoolManager) (pid : Int) :
    (b.UnpinPage pid).next_page_id_ = b.next_page_id_ := by
  unfold UnpinPage
  split <;> rfl

theorem SetParentPageId_leaf {b : BufferPoolManager} {pid : Int} {p : LeafPage} (parent : Int)
    (h : b.pageAt pid = some (Page.leaf p)) :
    b.SetParentPageId pid parent
      = some (b.put pid (Page.leaf { p with parent_page_id_ := parent })) := by
  unfold SetParentPageId
  rw [h]

theorem FetchPage_of_pageAt {b : BufferPoolManager} {pid : Int} {pg : Page}
    (h : b.pageAt pid = some pg) :
    b.FetchPage pid = some (pg, b.setPin pid (b.pinCount pid + 1)) := by
  unfold FetchPage
  rw [h]

end BufferPoolManager

namespace BPlusTree

theorem FindLeafPage_root_leaf (t : BPlusTree) (key : List Nat) (KM : KeyManager) (L : LeafPage)
    (hroot : t.root_page_id_ ≠ INVALID_PAGE_ID)
    (hL : t.buffer_pool_manager_.pageAt t.root_page_id_ = some (Page.leaf L)) :
    t.FindLeafPage key t.root_page_id_ false KM
      = some (t.root_page_id_, t.buffer_pool_manager_.setPin t.root_page_id_
          (t.buffer_pool_manager_.pinCount t.root_page_id_ + 1)) := by
  have he : ¬ t.IsEmpty = true := by
    unfold IsEmpty
    simpa using hroot
  unfold FindLeafPage
  rw [if_neg he]
  simp only [ite_self]
  rw [BufferPoolManager.FetchPage_of_pageAt hL]
  simp only
  unfold FindLeafPage.loop
  rw [BufferPoolManager.pageAt_setPin, hL]

theorem UpdateRootPageId_spec (t : BPlusTree) (insert_record : Bool) (rp : IndexRootsPage)
    (h : t.buffer_pool_manager_.pageAt INDEX_ROOTS_PAGE_ID = some (Page.index_roots rp)) :
    ∃ t1, t.UpdateRootPageId insert_record = some t1 ∧
      t1.root_page_id_ = t.root_page_id_ ∧
      (∀ q, q ≠ INDEX_ROOTS_PAGE_ID →
        t1.buffer_pool_manager_.pageAt q = t.buffer_pool_manager_.pageAt q) := by
  unfold UpdateRootPageId
  rw [BufferPoolManager.FetchPage_of_pageAt h]
  refine ⟨_, rfl, rfl, ?_⟩
  intro q hq
  simp only
  rw [BufferPoolManager.pageAt_UnpinPage, BufferPoolManager.pageAt_put, if_neg hq,
    BufferPoolManager.pageAt_setPin]

end BPlusTree

namespace BPlusTree

theorem InsertIntoParent_root (KM : KeyManager) (fuel : Nat) (t : BPlusTree) (old new : Int)
    (key : List Nat) (oldp newp : LeafPage) (rp : IndexRootsPage)
    (hold : t.buffer_pool_manager_.pageAt old = some (Page.leaf oldp))
    (hnew : t.buffer_pool_manager_.pageAt new = some (Page.leaf newp))
    (hpar : oldp.parent_page_id_ = INVALID_PAGE_ID)
    (hrp : t.buffer_pool_manager_.pageAt INDEX_ROOTS_PAGE_ID = some (Page.index_roots rp))
    (hfresh : t.buffer_pool_manager_.pageAt t.buffer_pool_manager_.next_page_id_ = none)
    (hne : old ≠ new) :
    ∃ t2, InsertIntoParent KM (fuel + 1) t old key new = some t2 ∧
      t2.root_page_id_ = t.buffer_pool_manager_.next_page_id_ ∧
      t2.buffer_pool_manager_.pageAt t.buffer_pool_manager_.next_page_id_ =
        some (Page.internal ((InternalPage.Init t.buffer_pool_manager_.next_page_id_
          INVALID_PAGE_ID KM.GetKeySize t.internal_max_size_).PopulateNewRoot old key new)) ∧
      t2.buffer_pool_manager_.pageAt old = some (Page.leaf
        { oldp with parent_page_id_ := t.buffer_pool_manager_.next_page_id_ }) ∧
      t2.buffer_pool_manager_.pageAt new = some (Page.leaf
        { newp with parent_page_id_ := t.buffer_pool_manager_.next_page_id_ }) := by
  have hn1_old : old ≠ t.buffer_pool_manager_.next_page_id_ := by
    intro h; rw [h, hfresh] at hold; cases hold
  have hn1_new : new ≠ t.buffer_pool_manager_.next_page_id_ := by
    intro h; rw [h, hfresh] at hnew; cases hnew
  have hn1_zero : t.buffer_pool_manager_.next_page_id_ ≠ INDEX_ROOTS_PAGE_ID := by
    intro h; rw [h, hrp] at hfresh; cases hfresh
  have hold_zero : old ≠ INDEX_ROOTS_PAGE_ID := by
    intro h; rw [h, hrp] at hold; cases hold
  have hnew_zero : new ≠ INDEX_ROOTS_PAGE_ID := by
    intro h; rw [h, hrp] at hnew; cases hnew
  have hgp : t.buffer_pool_manager_.GetParentPageId old = some INVALID_PAGE_ID := by
    unfold BufferPoolManager.GetParentPageId
    rw [hold]
    simp only [hpar]
  -- the pool after the new root has been written
  let n1 := t.buffer_pool_manager_.next_page_id_
  let new_root := (InternalPage.Init n1 INVALID_PAGE_ID KM.GetKeySize
    t.internal_max_size_).PopulateNewRoot old key new
  let b0 := t.buffer_pool_manager_.NewPage.2.put n1 (Page.internal new_root)
  have hb0_old : b0.pageAt old = some (Page.leaf oldp) := by
    rw [BufferPoolManager.pageAt_put, if_neg hn1_old, BufferPoolManager.pageAt_NewPage, hold]
  have h1 := BufferPoolManager.SetParentPageId_leaf n1 hb0_old
  let b1 := b0.put old (Page.leaf { oldp with parent_page_id_ := n1 })
  have hb1_new : b1.pageAt new = some (Page.leaf newp) := by
    rw [BufferPoolManager.pageAt_put, if_neg (Ne.symm hne), BufferPoolManager.pageAt_put,
      if_neg hn1_new, BufferPoolManager.pageAt_NewPage, hnew]
  have h2 := BufferPoolManager.SetParentPageId_leaf n1 hb1_new
  let b2 := b1.put new (Page.leaf { newp with parent_page_id_ := n1 })
  have hb2_zero : b2.pageAt INDEX_ROOTS_PAGE_ID = some (Page.index_roots rp) := by
    rw [BufferPoolManager.pageAt_put, if_neg (Ne.symm hnew_zero), BufferPoolManager.pageAt_put,
      if_neg (Ne.symm hold_zero), BufferPoolManager.pageAt_put, if_neg (Ne.symm hn1_zero),
      BufferPoolManager.pageAt_NewPage, hrp]
  obtain ⟨t1, ht1, ht1root, ht1pages⟩ := UpdateRootPageId_spec
    { t with root_page_id_ := n1, buffer_pool_manager_ := b2 } false rp hb2_zero
  refine ⟨{ t1 with buffer_pool_manager_ :=
      ((t1.buffer_pool_manager_.UnpinPage n1).UnpinPage old).UnpinPage new }, ?_, ht1root, ?_, ?_, ?_⟩
  · unfold InsertIntoParent
    rw [hgp]
    simp only [Option.bind_eq_bind, Option.some_bind, beq_self_eq_true, if_true]
    show (b0.SetParentPageId old n1).bind _ = _
    rw [h1]
    simp only [Option.some_bind]
    show (b1.SetParentPageId new n1).bind _ = _
    rw [h2]
    simp only [Option.some_bind]
    show (UpdateRootPageId { t with root_page_id_ := n1, buffer_pool_manager_ := b2 } false).bind _
      = _
    rw [ht1]
    rfl
  · simp only [BufferPoolManager.pageAt_UnpinPage]
    rw [ht1pages _ hn1_zero]
    show b2.pageAt n1 = _
    rw [BufferPoolManager.pageAt_put, if_neg (Ne.symm hn1_new), BufferPoolManager.pageAt_put,
      if_neg (Ne.symm hn1_old), BufferPoolManager.pageAt_put, if_pos rfl]
  · simp only [BufferPoolManager.pageAt_UnpinPage]
    rw [ht1pages _ hold_zero]
    show b2.pageAt old = _
    rw [BufferPoolManager.pageAt_put, if_neg hne, BufferPoolManager.pageAt_put, if_pos rfl]
  · simp only [BufferPoolManager.pageAt_UnpinPage]
    rw [ht1pages _ hnew_zero]
    show b2.pageAt new = _
    rw [BufferPoolManager.pageAt_put, if_pos rfl]

end BPlusTree

namespace LeafPage

theorem insertEntry_length (KM : KeyManager) (key : List Nat) (value : RowId) :
    ∀ es : List (List Nat × RowId), (insertEntry KM key value es).length = es.length + 1 := by
  intro es
  induction es with
  | nil => rfl
  | cons e es ih =>
    unfold insertEntry
    split
    · simp [ih]
    · simp

theorem mem_insertEntry (KM : KeyManager) (key : List Nat) (value : RowId) :
    ∀ (es : List (List Nat × RowId)) (x : List Nat × RowId),
      x ∈ insertEntry KM key value es → x = (key, value) ∨ x ∈ es := by
  intro es
  induction es with
  | nil => intro x hx; simpa [insertEntry] using hx
  | cons e es ih =>
    intro x hx
    unfold insertEntry at hx
    split at hx
    · rcases List.mem_cons.mp hx with h | h
      · exact Or.inr (by simp [h])
      · rcases ih x h with h1 | h1
        · exact Or.inl h1
        · exact Or.inr (List.mem_cons_of_mem _ h1)
    · rcases List.mem_cons.mp hx with h | h
      · exact Or.inl h
      · exact Or.inr h

theorem insertEntry_sorted (KM : KeyManager) (key : List Nat) (value : RowId)
    (htotal : ∀ a b, KM.CompareKeys a b < 0 ∨ KM.CompareKeys a b = 0 ∨ KM.CompareKeys b a < 0)
    (htrans : ∀ a b c, KM.CompareKeys a b < 0 → KM.CompareKeys b c < 0 → KM.CompareKeys a c < 0) :
    ∀ es : List (List Nat × RowId),
      es.Pairwise (fun a b => KM.CompareKeys a.1 b.1 < 0) →
      (∀ e ∈ es, KM.CompareKeys e.1 key ≠ 0) →
      (insertEntry KM key value es).Pairwise (fun a b => KM.CompareKeys a.1 b.1 < 0) := by
  intro es
  induction es with
  | nil => intro _ _; simp [insertEntry]
  | cons e es ih =>
    intro hs hne
    rw [List.pairwise_cons] at hs
    unfold insertEntry
    split
    · rename_i hlt
      rw [List.pairwise_cons]
      refine ⟨?_, ih hs.2 fun x hx => hne x (List.mem_cons_of_mem _ hx)⟩
      intro x hx
      rcases mem_insertEntry KM key value es x hx with h | h
      · rw [h]; exact hlt
      · exact hs.1 x h
    · rename_i hlt
      have hke : KM.CompareKeys key e.1 < 0 := by
        rcases htotal e.1 key with h | h | h
        · exact absurd h hlt
        · exact absurd h (hne e (List.mem_cons_self _ _))
        · exact h
      rw [List.pairwise_cons]
      refine ⟨?_, List.pairwise_cons.mpr hs⟩
      intro x hx
      rcases List.mem_cons.mp hx with h | h
      · rw [h]; exact hke
      · exact htrans _ _ _ hke (hs.1 x h)

theorem Lookup_eq_none {p : LeafPage} {key : List Nat} {KM : KeyManager}
    (h : p.Lookup key KM = none) : ∀ e ∈ p.entries_, KM.CompareKeys e.1 key ≠ 0 := by
  unfold Lookup at h
  simp only [Option.map_eq_none', List.find?_eq_none, decide_eq_true_eq] at h
  exact h

end LeafPage

namespace BPlusTree

theorem SplitLeaf_spec (t : BPlusTree) (node_id : Int) (KM : KeyManager) (node : LeafPage)
    (h : t.buffer_pool_manager_.pageAt node_id = some (Page.leaf node))
    (hfresh : t.buffer_pool_manager_.pageAt t.buffer_pool_manager_.next_page_id_ = none) :
    ∃ t1, t.SplitLeaf node_id KM = some (t.buffer_pool_manager_.next_page_id_, t1) ∧
      t1.internal_max_size_ = t.internal_max_size_ ∧
      t1.buffer_pool_manager_.next_page_id_ = t.buffer_pool_manager_.next_page_id_ + 1 ∧
      t1.buffer_pool_manager_.pageAt node_id = some (Page.leaf
        { node with next_page_id_ := t.buffer_pool_manager_.next_page_id_,
                    entries_ := node.entries_.take
                      (node.entries_.length - node.entries_.length / 2) }) ∧
      t1.buffer_pool_manager_.pageAt t.buffer_pool_manager_.next_page_id_ = some (Page.leaf
        { page_id_ := t.buffer_pool_manager_.next_page_id_,
          parent_page_id_ := node.parent_page_id_, next_page_id_ := node.next_page_id_,
          max_size_ := t.leaf_max_size_, key_size_ := KM.GetKeySize,
          entries_ := node.entries_.drop (node.entries_.length - node.entries_.length / 2) }) ∧
      ∀ q, q ≠ node_id → q ≠ t.buffer_pool_manager_.next_page_id_ →
        t1.buffer_pool_manager_.pageAt q = t.buffer_pool_manager_.pageAt q := by
  have hne : node_id ≠ t.buffer_pool_manager_.next_page_id_ := by
    intro e; rw [e, hfresh] at h; cases h
  have hl : t.buffer_pool_manager_.leafAt node_id = some node := by
    unfold BufferPoolManager.leafAt
    rw [h]
  unfold SplitLeaf
  rw [hl]
  refine ⟨_, rfl, rfl, ?_, ?_, ?_, ?_⟩
  · simp only [BufferPoolManager.UnpinPage_next, BufferPoolManager.put_next]
  · simp only [BufferPoolManager.pageAt_UnpinPage, BufferPoolManager.pageAt_put, if_pos]
  · simp only [BufferPoolManager.pageAt_UnpinPage, BufferPoolManager.pageAt_put]
    rw [if_neg (Ne.symm hne)]
    simp [BufferPoolManager.NewPage, LeafPage.MoveHalfTo, LeafPage.Init]
  · intro q hq1 hq2
    simp only [BufferPoolManager.pageAt_UnpinPage, BufferPoolManager.pageAt_put]
    rw [if_neg hq1, if_neg hq2]
    rfl

end BPlusTree

set_option maxRecDepth 100000 in
/-- C1 (fails on the code): with 4-byte keys, `leaf_max_size = 2` and
`internal_max_size = 16`, after the eighteen Insert calls of `keysC1` on the empty
tree the key 1020 is not stored (`GetValue` returns false), `Insert(1020, v)`
returns true, and the following `GetValue(1020)` returns false with an empty
result vector: the root split by `InternalPage::MoveHalfTo` drops the leaf that
received the key. -/
theorem C1_Insert_then_GetValue_misses_key :
    ((runOps (numKM 4) (insertAll keysC1) (emptyTree 2 16)).bind fun t =>
      (lookup (numKM 4) 1020 t).bind fun before =>
        (t.Insert (numKey 1020) ⟨1020, 0⟩ (numKM 4)).bind fun r =>
          (lookup (numKM 4) 1020 r.2).map fun after => (before, r.1, after))
      = some ((false, []), true, (false, [])) := by
  decide!

set_option maxRecDepth 100000 in
/-- C2 (fails on the code): with 4-byte keys, `leaf_max_size = 2` and
`internal_max_size = 16`, in the state reached from the empty tree by the calls
`opsC2`, `GetValue(870)` returns false; `Insert(870, (7, 7))` returns true; and
after the following `Remove(870)`, `GetValue(870)` returns true and appends the
rid `(870, 0)` of an earlier insertion. -/
theorem C2_GetValue_finds_key_after_Insert_Remove :
    ((runOps (numKM 4) opsC2 (emptyTree 2 16)).bind fun t =>
      (lookup (numKM 4) 870 t).bind fun before =>
        (t.Insert (numKey 870) ⟨7, 7⟩ (numKM 4)).bind fun r =>
          (r.2.Remove (numKey 870) (numKM 4)).bind fun t2 =>
            (lookup (numKM 4) 870 t2).map fun after => (before, r.1, after))
      = some ((false, []), true, (true, [⟨870, 0⟩])) := by
  decide!

/-- C3: when `GetValue(k)` finds the key `k` with rid `v` (the key is stored),
`Insert(k, w)` returns false and leaves the tree as that lookup left it: the root
page id and the content of every page are unchanged, and `GetValue(k)` still
returns true with exactly `[v]`. -/
theorem C3_duplicate_Insert_changes_nothing (KM : KeyManager) (t t1 : BPlusTree)
    (key : List Nat) (v w : RowId) (h : t.GetValue key [] KM = some (true, [v], t1)) :
    t.Insert key w KM = some (false, t1) ∧
    t1.root_page_id_ = t.root_page_id_ ∧
    t1.buffer_pool_manager_.pages_ = t.buffer_pool_manager_.pages_ ∧
    ∃ t2, t1.GetValue key [] KM = some (true, [v], t2) := by
  unfold BPlusTree.GetValue at h
  by_cases he : t.IsEmpty = true
  · rw [if_pos he] at h
    simp at h
  · rw [if_neg he] at h
    cases hf : t.FindLeafPage key t.root_page_id_ false KM with
    | none => rw [hf] at h; cases h
    | some r =>
      obtain ⟨leaf_id, b⟩ := r
      rw [hf] at h
      simp only at h
      cases hl : b.leafAt leaf_id with
      | none => rw [hl] at h; cases h
      | some leaf =>
        rw [hl] at h
        simp only at h
        cases hk : leaf.Lookup key KM with
        | none => rw [hk] at h; simp at h
        | some value =>
          rw [hk] at h
          simp only [List.nil_append, Option.some.injEq, Prod.mk.injEq, true_and,
            List.cons.injEq, and_true] at h
          obtain ⟨hv, ht1⟩ := h
          subst hv
          have hpages : t1.buffer_pool_manager_.pages_ = t.buffer_pool_manager_.pages_ := by
            rw [← ht1]
            simp only
            rw [BufferPoolManager.UnpinPage_pages, BPlusTree.FindLeafPage_pages hf]
          have hroot : t1.root_page_id_ = t.root_page_id_ := by rw [← ht1]
          refine ⟨?_, hroot, hpages, ?_⟩
          · unfold BPlusTree.Insert BPlusTree.InsertIntoLeaf
            rw [if_neg he, hf]
            simp only
            rw [hl]
            simp only
            rw [hk]
            simp only [ht1]
          · obtain ⟨c1, hc1, hc1p⟩ := BPlusTree.FindLeafPage_congr hroot hpages hf
            have he1 : ¬ t1.IsEmpty = true := by
              unfold BPlusTree.IsEmpty at he ⊢
              rw [hroot]
              exact he
            unfold BPlusTree.GetValue
            rw [if_neg he1, hroot, hc1]
            simp only
            rw [BufferPoolManager.leafAt_congr hc1p, hl]
            simp only
            rw [hk]
            exact ⟨_, rfl⟩

/-- C3, at the root leaf holding the keys 10, 20, 30: `GetValue(20)` finds the
rid `(20, 0)`, and `Insert(20, (9, 9))` returns false and changes nothing. -/
theorem C3_duplicate_Insert_witness :
    (leafTree [10, 20, 30]).GetValue (numKey 20) [] (numKM 4)
        = some (true, [⟨20, 0⟩], leafTree [10, 20, 30]) ∧
      (leafTree [10, 20, 30]).Insert (numKey 20) ⟨9, 9⟩ (numKM 4)
        = some (false, leafTree [10, 20, 30]) :=
  ⟨by decide, (C3_duplicate_Insert_changes_nothing (numKM 4) _ _ (numKey 20) ⟨20, 0⟩ ⟨9, 9⟩
    (by decide)).1⟩

/-- C4 (fails on the code): in scenario S6 the index on `a` returns `{r1, r2}` and
the index on `b` returns `{r1, r3}`, yet `Init` buffers no row and no rid instead
of `r1`: the first rid set is intersected with the empty `result_rid`. -/
theorem C4_Init_buffers_nothing_in_S6 :
    (indexS6 0).ScanKey 3 ComparisonType.eq = [⟨2, 0⟩, ⟨2, 1⟩] ∧
    (indexS6 1).ScanKey 7 ComparisonType.eq = [⟨2, 0⟩, ⟨2, 2⟩] ∧
    (IndexScanExecutor.new.Init planS6).map (fun e => (e.result_row, e.result_rid))
      = some ([], []) := by
  decide

/-- C5 (fails on the code): with one buffered pair, the first call of `Next`
stores the buffered row and rid in its outputs and advances the cursor, but
returns false. -/
theorem C5_Next_returns_false_on_buffered_row :
    IndexScanExecutor.Next { result_rid := [⟨2, 0⟩], result_row := [⟨⟨2, 0⟩, [3, 7]⟩], cursor_ := 0 }
        ⟨⟨0, 0⟩, []⟩ ⟨0, 0⟩
      = (false, ⟨⟨2, 0⟩, [3, 7]⟩, ⟨2, 0⟩,
          { result_rid := [⟨2, 0⟩], result_row := [⟨⟨2, 0⟩, [3, 7]⟩], cursor_ := 1 }) := by
  decide

set_option maxRecDepth 100000 in
/-- C6 (fails on the code): with `leaf_max_size = 4`, after Insert of 10, 20, 30
every page is unpinned; after the following `Remove(30)` has returned, the root
leaf is still pinned once and `CheckAllUnpinned()` is false. -/
theorem C6_Remove_leaves_leaf_pinned :
    ((runOps (numKM 4) (insertAll [10, 20, 30]) (emptyTree 4 4)).bind fun t =>
      (t.Remove (numKey 30) (numKM 4)).map fun t1 =>
        (t.buffer_pool_manager_.CheckAllUnpinned, t1.buffer_pool_manager_.CheckAllUnpinned,
          t1.buffer_pool_manager_.pinCount t1.root_page_id_))
      = some (true, false, 1) := by
  decide

set_option maxRecDepth 100000 in
/-- C7 (fails on the code): with `leaf_max_size = 4` (`min_size = 2`) and
`internal_max_size = 2`, after the calls `opsC7` the root is the internal page 4
with the single child 2, and the leaf 2, which is not the root, holds only the
key 40: its size 1 is below its `min_size = 2`. -/
theorem C7_non_root_leaf_below_min_size :
    (runOps (numKM 4) opsC7 (emptyTree 4 2)).map (fun t =>
      (t.root_page_id_, view t 4, view t 2,
        (t.buffer_pool_manager_.leafAt 2).map fun leaf => (leaf.GetSize, leaf.GetMinSize)))
      = some (4, some ⟨-1, [], [2]⟩, some ⟨4, [40], []⟩, some (1, 2)) := by
  decide

set_option maxRecDepth 100000 in
/-- C8 (fails on the code): with 4-byte keys, `leaf_max_size = 2` and
`internal_max_size = 16`, after the nineteen Insert calls of C1 followed by
`Remove(875)` and `Remove(860)`, the leaf 17 is a node of the tree (child 2 of
page 4, which is child 0 of the root 21), its `parent_page_id` is 20, and the
child list of page 20 does not contain 17. -/
theorem C8_parent_does_not_list_child :
    (runOps (numKM 4) (insertAll (keysC1 ++ [1020]) ++ [Op.Remove 875, Op.Remove 860])
        (emptyTree 2 16)).map (fun t =>
      [some [t.root_page_id_], (view t 21).map NodeView.children,
        (view t 4).map (fun n => n.children.take 3), (view t 17).map (fun n => [n.parent]),
        (view t 20).map NodeView.children])
      = some [some [21], some [4, 20], some [2, 18, 17], some [20],
          some [18, 16, 15, 14, 13, 12, 11, 10]] := by
  decide!

set_option maxRecDepth 100000 in
/-- C9 (fails on the code): after `Insert(1)` the directory records the root page
2; after `Remove(1)` both the directory and the handle hold `INVALID_PAGE_ID`;
after `Insert(2)` the handle has root page 3 while the directory still records
`INVALID_PAGE_ID`. -/
theorem C9_directory_stale_after_restart :
    [[Op.Insert 1 ⟨1, 0⟩], [Op.Insert 1 ⟨1, 0⟩, Op.Remove 1],
      [Op.Insert 1 ⟨1, 0⟩, Op.Remove 1, Op.Insert 2 ⟨2, 0⟩]].map (fun ops =>
        (runOps (numKM 4) ops (emptyTree 4 4)).map fun t => (t.root_page_id_, recordedRoot t))
      = [some (2, some 2), some (-1, some (-1)), some (3, some (-1))] := by
  decide

/-- C10: when the root is a leaf `L` (non-empty, with ascending keys of the key
width) and `Insert(key, value)` of a key not in `L` makes its size exceed
`leaf_max_size`, then Insert returns true and afterwards the root is an internal
page `N` of size 2 without parent whose two children are leaves `left` (the old
root page) and `right`, with `left.next = right`, both with parent `N`, the key 1
of `N` equal to the first key of `right`, both leaves non-empty, and
`left ++ right` the ascending insertion of the pair into the pairs of `L`. The
page ids are taken within the range of `page_id_t`, the index-roots page
resident and the two next page ids of the disk manager unused. -/
theorem C10_root_leaf_split (KM : KeyManager) (t : BPlusTree) (L : LeafPage)
    (rp : IndexRootsPage) (key : List Nat) (value : RowId)
    (hroot : t.root_page_id_ ≠ INVALID_PAGE_ID)
    (hL : t.buffer_pool_manager_.pageAt t.root_page_id_ = some (Page.leaf L))
    (hLroot : L.IsRootPage = true)
    (hrp : t.buffer_pool_manager_.pageAt INDEX_ROOTS_PAGE_ID = some (Page.index_roots rp))
    (hfresh1 : t.buffer_pool_manager_.pageAt t.buffer_pool_manager_.next_page_id_ = none)
    (hfresh2 : t.buffer_pool_manager_.pageAt (t.buffer_pool_manager_.next_page_id_ + 1) = none)
    (hrange1 : 0 ≤ t.root_page_id_ ∧ t.root_page_id_ < 2147483648)
    (hrange2 : 0 ≤ t.buffer_pool_manager_.next_page_id_ ∧
      t.buffer_pool_manager_.next_page_id_ < 2147483648)
    (hnew : L.Lookup key KM = none)
    (hover : L.GetMaxSize < L.GetSize + 1)
    (hsize : 1 ≤ L.GetSize)
    (hklen : key.length = KM.GetKeySize)
    (hLlen : ∀ e ∈ L.entries_, e.1.length = KM.GetKeySize)
    (hsorted : L.entries_.Pairwise (fun a b => KM.CompareKeys a.1 b.1 < 0))
    (htotal : ∀ a b, KM.CompareKeys a b < 0 ∨ KM.CompareKeys a b = 0 ∨ KM.CompareKeys b a < 0)
    (htrans : ∀ a b c, KM.CompareKeys a b < 0 → KM.CompareKeys b c < 0 → KM.CompareKeys a c < 0) :
    ∃ t1, t.Insert key value KM = some (true, t1) ∧
      IsRootLeafSplit KM t.root_page_id_ L key value t1 := by
  -- the leaf after the insertion
  have hes_len := LeafPage.insertEntry_length KM key value L.entries_
  have hLsize : 1 ≤ L.entries_.length := hsize
  have hpar : L.parent_page_id_ = INVALID_PAGE_ID := by
    simpa [LeafPage.IsRootPage] using hLroot
  have he : ¬ t.IsEmpty = true := by
    unfold BPlusTree.IsEmpty
    simpa using hroot
  have hr_n0 : t.root_page_id_ ≠ t.buffer_pool_manager_.next_page_id_ := by
    intro h; rw [h, hfresh1] at hL; cases hL
  have hr_n1 : t.root_page_id_ ≠ t.buffer_pool_manager_.next_page_id_ + 1 := by
    intro h; rw [h, hfresh2] at hL; cases hL
  have hr_zero : t.root_page_id_ ≠ INDEX_ROOTS_PAGE_ID := by
    intro h; rw [h, hrp] at hL; cases hL
  have hn0_zero : t.buffer_pool_manager_.next_page_id_ ≠ INDEX_ROOTS_PAGE_ID := by
    intro h; rw [h, hrp] at hfresh1; cases hfresh1
  -- FindLeafPage returns the root leaf
  let b1 := t.buffer_pool_manager_.setPin t.root_page_id_
    (t.buffer_pool_manager_.pinCount t.root_page_id_ + 1)
  have hfind := BPlusTree.FindLeafPage_root_leaf t key KM L hroot hL
  have hleaf : b1.leafAt t.root_page_id_ = some L := by
    unfold BufferPoolManager.leafAt
    rw [BufferPoolManager.pageAt_setPin, hL]
  -- the pool after the pair has been inserted into the leaf
  let L1 : LeafPage := (L.Insert key value KM).1
  let b2 := b1.put t.root_page_id_ (Page.leaf L1)
  have hb2_root : b2.pageAt t.root_page_id_ = some (Page.leaf L1) := by
    rw [BufferPoolManager.pageAt_put, if_pos rfl]
  have hb2_next : b2.next_page_id_ = t.buffer_pool_manager_.next_page_id_ := by
    rw [BufferPoolManager.put_next]
    rfl
  have hb2_fresh : b2.pageAt b2.next_page_id_ = none := by
    rw [hb2_next, BufferPoolManager.pageAt_put, if_neg (Ne.symm hr_n0),
      BufferPoolManager.pageAt_setPin, hfresh1]
  obtain ⟨t2, hsplit, ht2max, ht2next, ht2_root, ht2_new, ht2_other⟩ :=
    BPlusTree.SplitLeaf_spec { t with buffer_pool_manager_ := b2 } t.root_page_id_ KM L1
      hb2_root hb2_fresh
  simp only [hb2_next] at hsplit ht2next ht2_root ht2_new ht2_other
  -- the first key of the new leaf
  have hL1 : L1.entries_ = LeafPage.insertEntry KM key value L.entries_ := rfl
  have hL1len : L1.entries_.length = L.entries_.length + 1 := by rw [hL1, hes_len]
  have hkeep_pos : 0 < L1.entries_.length - L1.entries_.length / 2 := by omega
  have hkeep_lt : L1.entries_.length - L1.entries_.length / 2 < L1.entries_.length := by omega
  obtain ⟨e0, hdrop⟩ : ∃ e0, (L1.entries_.drop
      (L1.entries_.length - L1.entries_.length / 2)).get? 0 = some e0 := by
    refine ⟨(L1.entries_.drop (L1.entries_.length - L1.entries_.length / 2)).get
      ⟨0, by rw [List.length_drop]; omega⟩, ?_⟩
    rw [List.get?_eq_get]
  have he0_mem : e0 ∈ L1.entries_ :=
    List.mem_of_mem_drop (List.get?_mem hdrop)
  have he0_len : e0.1.length = KM.GetKeySize := by
    rcases LeafPage.mem_insertEntry KM key value L.entries_ e0 he0_mem with h | h
    · rw [h]; exact hklen
    · exact hLlen e0 h
  have hkey0 : ((t2.buffer_pool_manager_.leafAt t.buffer_pool_manager_.next_page_id_).bind
      fun p => p.KeyAt 0) = some e0.1 := by
    unfold BufferPoolManager.leafAt
    rw [ht2_new]
    simp only [Option.some_bind, LeafPage.KeyAt]
    rw [hdrop]
    rfl
  -- the new root
  have ht2_zero : t2.buffer_pool_manager_.pageAt INDEX_ROOTS_PAGE_ID
      = some (Page.index_roots rp) := by
    rw [ht2_other _ (Ne.symm hr_zero) (Ne.symm hn0_zero), BufferPoolManager.pageAt_put,
      if_neg (Ne.symm hr_zero), BufferPoolManager.pageAt_setPin, hrp]
  have ht2_fresh : t2.buffer_pool_manager_.pageAt t2.buffer_pool_manager_.next_page_id_
      = none := by
    rw [ht2next, ht2_other _ (Ne.symm hr_n1) (by omega), BufferPoolManager.pageAt_put,
      if_neg (Ne.symm hr_n1), BufferPoolManager.pageAt_setPin, hfresh2]
  obtain ⟨t3, hparent, ht3root, ht3_new_root, ht3_old, ht3_new⟩ :=
    BPlusTree.InsertIntoParent_root KM t2.buffer_pool_manager_.pages_.length t2
      t.root_page_id_ t.buffer_pool_manager_.next_page_id_ e0.1 _ _ rp ht2_root ht2_new hpar
      ht2_zero ht2_fresh hr_n0
  rw [ht2next] at ht3root ht3_new_root ht3_old ht3_new
  rw [ht2max] at ht3_new_root
  simp only at ht3_new_root
  let b4 := (t3.buffer_pool_manager_.UnpinPage L.page_id_).UnpinPage
    t.buffer_pool_manager_.next_page_id_
  let N := (InternalPage.Init (t.buffer_pool_manager_.next_page_id_ + 1) INVALID_PAGE_ID
    KM.GetKeySize t.internal_max_size_).PopulateNewRoot t.root_page_id_ e0.1
      t.buffer_pool_manager_.next_page_id_
  have hN0 : N.ValueAt 0 = t.root_page_id_ :=
    InternalPage.PopulateNewRoot_ValueAt_zero _ _ _ _ _ _ _ (by omega) (by omega)
  have hN1 : N.ValueAt 1 = t.buffer_pool_manager_.next_page_id_ :=
    InternalPage.PopulateNewRoot_ValueAt_one _ _ _ _ _ _ _ (by omega) (by omega)
  have hNk : N.KeyAt 1 = e0.1 := InternalPage.PopulateNewRoot_KeyAt_one _ _ _ _ _ _ _ he0_len
  have hInsert : t.Insert key value KM = some (true, { t3 with buffer_pool_manager_ := b4 }) := by
    unfold BPlusTree.Insert BPlusTree.InsertIntoLeaf
    rw [if_neg he, hfind]
    simp only
    rw [hleaf]
    simp only
    rw [hnew]
    simp only
    have hnot : ¬ (L.Insert key value KM).2 ≤ (L.Insert key value KM).1.GetMaxSize := by
      simp only [LeafPage.Insert, LeafPage.GetMaxSize, hes_len]
      simp only [LeafPage.GetMaxSize, LeafPage.GetSize] at hover
      omega
    rw [if_neg hnot]
    rw [hsplit]
    simp only
    rw [hkey0]
    simp only
    rw [hparent]
  have hpN : b4.pageAt t3.root_page_id_ = some (Page.internal N) := by
    simp only [b4, BufferPoolManager.pageAt_UnpinPage]
    rw [ht3root]
    exact ht3_new_root
  let left : LeafPage :=
    { page_id_ := L1.page_id_, parent_page_id_ := t.buffer_pool_manager_.next_page_id_ + 1,
      next_page_id_ := t.buffer_pool_manager_.next_page_id_, max_size_ := L1.max_size_,
      key_size_ := L1.key_size_,
      entries_ := L1.entries_.take (L1.entries_.length - L1.entries_.length / 2) }
  let right : LeafPage :=
    { page_id_ := t.buffer_pool_manager_.next_page_id_,
      parent_page_id_ := t.buffer_pool_manager_.next_page_id_ + 1,
      next_page_id_ := L1.next_page_id_, max_size_ := t.leaf_max_size_,
      key_size_ := KM.GetKeySize,
      entries_ := L1.entries_.drop (L1.entries_.length - L1.entries_.length / 2) }
  have hpl : b4.pageAt (N.ValueAt 0) = some (Page.leaf left) := by
    rw [hN0]
    simp only [b4, BufferPoolManager.pageAt_UnpinPage]
    exact ht3_old
  have hpr : b4.pageAt (N.ValueAt 1) = some (Page.leaf right) := by
    rw [hN1]
    simp only [b4, BufferPoolManager.pageAt_UnpinPage]
    exact ht3_new
  refine ⟨{ t3 with buffer_pool_manager_ := b4 }, hInsert, N, left, right, hpN, rfl, rfl, hN0,
    hpl, hpr, ?_, ?_, ?_, ?_, ?_, ?_, ?_, ?_⟩
  · exact hN1.symm
  · exact ht3root.symm
  · exact ht3root.symm
  · rw [hNk]
    show (right.entries_.get? 0).map Prod.fst = _
    rw [hdrop]
    rfl
  · intro h
    have := congrArg List.length h
    simp only [left, List.length_take, List.length_nil] at this
    omega
  · intro h
    have := congrArg List.length h
    simp only [right, List.length_drop, List.length_nil] at this
    omega
  · show L1.entries_.take _ ++ L1.entries_.drop _ = _
    rw [List.take_append_drop]
    rfl
  · show (L1.entries_.take _ ++ L1.entries_.drop _).Pairwise _
    rw [List.take_append_drop]
    show (LeafPage.insertEntry KM key value L.entries_).Pairwise _
    exact LeafPage.insertEntry_sorted KM key value htotal htrans L.entries_ hsorted
      (LeafPage.Lookup_eq_none hnew)

/-- C10, at the witness of the claim: the root leaf holds 10, 20, 30, 40 with
`leaf_max_size = 4` and 50 is inserted. -/
theorem C10_root_leaf_split_witness :
    (leafTree [10, 20, 30, 40]).buffer_pool_manager_.pageAt 2
        = some (Page.leaf (leafPage [10, 20, 30, 40])) ∧
      (leafPage [10, 20, 30, 40]).Lookup (numKey 50) (numKM 4) = none ∧
      (leafPage [10, 20, 30, 40]).GetMaxSize < (leafPage [10, 20, 30, 40]).GetSize + 1 ∧
      ∃ t1, (leafTree [10, 20, 30, 40]).Insert (numKey 50) ⟨50, 0⟩ (numKM 4) = some (true, t1) ∧
        IsRootLeafSplit (numKM 4) 2 (leafPage [10, 20, 30, 40]) (numKey 50) ⟨50, 0⟩ t1 :=
  ⟨by decide, by decide, by decide,
    C10_root_leaf_split (numKM 4) (leafTree [10, 20, 30, 40]) (leafPage [10, 20, 30, 40])
      ⟨[(0, 2)]⟩ (numKey 50) ⟨50, 0⟩ (by decide) (by decide) (by decide) (by decide) (by decide)
      (by decide) (by decide) (by decide) (by decide) (by decide) (by decide) (by decide)
      (by decide) (by decide)
      (fun a b => by simp only [numKM]; omega)
      (fun a b c => by simp only [numKM]; omega)⟩

set_option maxRecDepth 100000 in
/-- Scenario S1 evaluated: with `leaf_max_size = 4`, after Insert of 10, 20, 30, 40,
50 the root is the internal page 4 with separator 40 over the leaves 2 and 3,
which hold 10, 20, 30 and 40, 50; leaf 2 is linked to leaf 3; `GetValue(30)`
returns true with the rid of 30. -/
theorem S1_leaf_split_layout :
    (runOps (numKM 4) (insertAll [10, 20, 30, 40, 50]) (emptyTree 4 4)).map (fun t =>
      (t.root_page_id_, view t 4, view t 2, view t 3))
      = some (4, some ⟨-1, [40], [2, 3]⟩, some ⟨4, [10, 20, 30], []⟩, some ⟨4, [40, 50], []⟩) ∧
    (runOps (numKM 4) (insertAll [10, 20, 30, 40, 50]) (emptyTree 4 4)).bind (fun t =>
      (t.buffer_pool_manager_.leafAt 2).map (fun p => (p.next_page_id_, lookup (numKM 4) 30 t)))
      = some (3, some (true, [⟨30, 0⟩])) := by
  decide

/-! ## C11 and C12: the scenarios S2 and S3 -/

set_option maxRecDepth 100000 in
/-- C11, the claim as stated fails: with `leaf_max_size = 4`, after the keys 10
to 50 have been inserted and `Remove(10)` has returned, the root is still the
internal page 4 with the two leaves 2 and 3 as children; the root is no leaf. -/
theorem C11_root_stays_internal_after_Remove_10 :
    treeAfter 4 4 (insertAll [10, 20, 30, 40, 50] ++ [Op.Remove 10]) [4] =
        some (4, [some ⟨-1, [40], [2, 3]⟩]) ∧
      (runOps (numKM 4) (insertAll [10, 20, 30, 40, 50] ++ [Op.Remove 10])
        (emptyTree 4 4)).map (fun t => (t.buffer_pool_manager_.leafAt t.root_page_id_).isSome)
        = some false := by
  decide

set_option maxRecDepth 100000 in
/-- C11, amended: with `leaf_max_size = 4` (`min_size = 2`), after the keys 10 to
50 have been inserted, `Remove(10)` leaves the left leaf with the two keys 20
and 30, which is `min_size` and not below it, so nothing is coalesced: the
internal root keeps the separator 40 over the leaves `[20, 30]` and `[40, 50]`
and `GetValue` finds 20 to 50. The leaves are coalesced by the next call
`Remove(20)`, which leaves one key in the left leaf: then the root is the single
leaf holding `[30, 40, 50]`. -/
theorem C11_coalesce_only_below_min_size :
    treeAfter 4 4 (insertAll [10, 20, 30, 40, 50] ++ [Op.Remove 10]) [4, 2, 3] =
        some (4, [some ⟨-1, [40], [2, 3]⟩, some ⟨4, [20, 30], []⟩, some ⟨4, [40, 50], []⟩]) ∧
      lookupsAfter 4 4 (insertAll [10, 20, 30, 40, 50] ++ [Op.Remove 10]) [10, 20, 30, 40, 50] =
        some [some (false, []), some (true, [⟨20, 0⟩]), some (true, [⟨30, 0⟩]),
          some (true, [⟨40, 0⟩]), some (true, [⟨50, 0⟩])] ∧
      treeAfter 4 4 (insertAll [10, 20, 30, 40, 50] ++ [Op.Remove 10, Op.Remove 20]) [2] =
        some (2, [some ⟨-1, [30, 40, 50], []⟩]) := by
  decide

set_option maxRecDepth 100000 in
/-- C12, the claim as stated fails: with `leaf_max_size = internal_max_size = 3`,
after the keys 1 to 7 the root is the internal page 4 with three children, and
`Insert(8)` splits the leaf `[5, 6, 7]` and gives the root a fourth child:
`InsertNodeAfter` returns 4, which is larger than `GetMaxSize() = 3`, so
`Split` is called on the root at the insertion of key 8, not only at key 16. -/
theorem C12_root_is_split_at_key_8 :
    treeAfter 3 3 (insertAll [1, 2, 3, 4, 5, 6, 7]) [4] =
        some (4, [some ⟨-1, [3, 5], [2, 3, 5]⟩]) ∧
      (runOps (numKM 4) (insertAll [1, 2, 3, 4, 5, 6, 7]) (emptyTree 3 3)).bind
        (fun t => parentSizeAfterLeafSplit (numKM 4) t 8 ⟨8, 0⟩) = some (4, 4, 3) := by
  decide

set_option maxRecDepth 100000 in
/-- C12, amended: with `leaf_max_size = internal_max_size = 3`, inserting the
keys 1 to 7 in ascending order gives a tree of height 2: the root is the
internal page 4 over the leaves `[1, 2]`, `[3, 4]` and `[5, 6, 7]`, and every key
1 to 7 is returned by `GetValue`. None of the leaf splits at the keys 4 and 6
overflows its parent (there is none at key 4, and at key 6 the root gets its
third child), and the root overflows first at the insertion of key 8, which
gives it a fourth child. -/
theorem C12_root_overflows_first_at_key_8 :
    treeAfter 3 3 (insertAll [1, 2, 3, 4, 5, 6, 7]) [4, 2, 3, 5] =
        some (4, [some ⟨-1, [3, 5], [2, 3, 5]⟩, some ⟨4, [1, 2], []⟩, some ⟨4, [3, 4], []⟩,
          some ⟨4, [5, 6, 7], []⟩]) ∧
      lookupsAfter 3 3 (insertAll [1, 2, 3, 4, 5, 6, 7]) [1, 2, 3, 4, 5, 6, 7] =
        some [some (true, [⟨1, 0⟩]), some (true, [⟨2, 0⟩]), some (true, [⟨3, 0⟩]),
          some (true, [⟨4, 0⟩]), some (true, [⟨5, 0⟩]), some (true, [⟨6, 0⟩]),
          some (true, [⟨7, 0⟩])] ∧
      ((List.range 8).map fun n =>
        (runOps (numKM 4) (insertAll ((List.range n).map fun i => i + 1)) (emptyTree 3 3)).bind
          fun t => parentSizeAfterLeafSplit (numKM 4) t (n + 1) ⟨n + 1, 0⟩) =
        [none, none, none, none, none, some (4, 3, 3), none, some (4, 4, 3)] := by
  decide

namespace LRUKReplacer

theorem Victim.scan_fst (ev : Int → Bool) (l : List Int) :
    (Victim.scan ev l).map Prod.fst = l.find? ev := by
  induction l with
  | nil => rfl
  | cons a l ih =>
    by_cases ha : ev a = true
    · simp [Victim.scan, ha, List.find?_cons]
    · have ha' : ev a = false := by simpa using ha
      cases hs : Victim.scan ev l with
      | none => simp [Victim.scan, ha', List.find?_cons, ← ih, hs]
      | some p => simp [Victim.scan, ha', List.find?_cons, ← ih, hs]

theorem Victim.scan_eq_none (ev : Int → Bool) (l : List Int) :
    Victim.scan ev l = none ↔ ∀ f ∈ l, ev f = false := by
  have h := Victim.scan_fst ev l
  constructor
  · intro hn f hf
    rw [hn] at h
    have h2 : l.find? ev = none := by simpa using h.symm
    have h3 := List.find?_eq_none.1 h2 f hf
    simpa using h3
  · intro hall
    have h2 : l.find? ev = none := List.find?_eq_none.2 (fun f hf => by simp [hall f hf])
    rw [h2] at h
    cases hs : Victim.scan ev l with
    | none => rfl
    | some p => rw [hs] at h; simp at h

theorem Victim.scan_evictable {ev : Int → Bool} {l : List Int} {g : Int} {rest : List Int}
    (h : Victim.scan ev l = some (g, rest)) : ev g = true := by
  have h1 := Victim.scan_fst ev l
  rw [h] at h1
  exact List.find?_some h1.symm

theorem Victim_fst (r : LRUKReplacer) :
    r.Victim.1 = ((r.history_list_.find? r.is_evictable_).orElse
      fun _ => r.cache_list_.find? r.is_evictable_) := by
  have h1 := Victim.scan_fst r.is_evictable_ r.history_list_
  have h2 := Victim.scan_fst r.is_evictable_ r.cache_list_
  unfold Victim
  cases hs : Victim.scan r.is_evictable_ r.history_list_ with
  | some p =>
    rw [hs] at h1
    simp [← h1]
  | none =>
    rw [hs] at h1
    cases hc : Victim.scan r.is_evictable_ r.cache_list_ with
    | some p => rw [hc] at h2; simp [← h1, ← h2]
    | none => rw [hc] at h2; simp [← h1, ← h2]

theorem Victim_evictable {r : LRUKReplacer} {g : Int} (h : r.Victim.1 = some g) :
    r.is_evictable_ g = true := by
  rw [Victim_fst] at h
  cases hh : r.history_list_.find? r.is_evictable_ with
  | some x =>
    rw [hh] at h
    have : x = g := by simpa using h
    subst this
    exact List.find?_some hh
  | none =>
    rw [hh] at h
    have h2 : r.cache_list_.find? r.is_evictable_ = some g := by simpa using h
    exact List.find?_some h2

end LRUKReplacer

namespace LRUKReplacer

theorem runOps_append (a b : List Op) (r : LRUKReplacer) :
    runOps (a ++ b) r = (runOps a r).bind (runOps b) := by
  induction a generalizing r with
  | nil => rfl
  | cons op a ih =>
    simp only [List.cons_append, runOps]
    cases h : op.apply r with
    | none => rfl
    | some r1 => simp [ih]

theorem Counted_new (f : Int) (k : Nat) : Counted f 0 (new k) := by
  simp [Counted, new]

theorem Unpin_access {r r1 : LRUKReplacer} {g : Int} (h : r.Unpin g = some r1) (f : Int) :
    r1.access_time_ f = Function.update r.access_time_ g
      ((r.access_time_ g + 1) % 4294967296) f ∧
    r1.is_evictable_ f = Function.update r.is_evictable_ g true f := by
  unfold Unpin at h
  simp only at h
  split at h
  · split at h
    · cases h; exact ⟨rfl, rfl⟩
    · cases h
  · split at h
    · cases h; exact ⟨rfl, rfl⟩
    · split at h
      · cases h; exact ⟨rfl, rfl⟩
      · cases h; exact ⟨rfl, rfl⟩

theorem Victim_access (r : LRUKReplacer) (f : Int) :
    (r.Victim.2.access_time_ f = r.access_time_ f ∧
      r.Victim.2.is_evictable_ f = r.is_evictable_ f) ∨
    (r.Victim.2.access_time_ f = 0 ∧ r.Victim.2.is_evictable_ f = false) := by
  unfold Victim
  cases hs : Victim.scan r.is_evictable_ r.history_list_ with
  | some p =>
    by_cases hf : f = p.1
    · right; subst hf; simp
    · left; simp [Function.update_noteq hf]
  | none =>
    cases hc : Victim.scan r.is_evictable_ r.cache_list_ with
    | some p =>
      by_cases hf : f = p.1
      · right; subst hf; simp
      · left; simp [Function.update_noteq hf]
    | none => left; simp

theorem Counted_step {f : Int} {n : Nat} {r r1 : LRUKReplacer} (op : Op)
    (hc : Counted f n r) (h : op.apply r = some r1) :
    (op ≠ Op.Unpin f → Counted f n r1) ∧
    (op = Op.Unpin f → n + 1 < 4294967296 → Counted f (n + 1) r1) := by
  obtain ⟨hle, hpos⟩ := hc
  cases op with
  | Pin g =>
    refine ⟨fun _ => ?_, fun he => by cases he⟩
    simp only [Op.apply, Option.some.injEq] at h
    subst h
    unfold Pin
    split
    · exact ⟨hle, hpos⟩
    · refine ⟨hle, ?_⟩
      by_cases hg : f = g
      · subst hg; simp
      · simpa [Function.update_noteq hg] using hpos
  | Victim =>
    refine ⟨fun _ => ?_, fun he => by cases he⟩
    simp only [Op.apply, Option.some.injEq] at h
    subst h
    rcases Victim_access r f with ⟨ha, he⟩ | ⟨ha, he⟩
    · exact ⟨by rw [ha]; exact hle, by rw [ha, he]; exact hpos⟩
    · exact ⟨by rw [ha]; exact Nat.zero_le _, by rw [he]; intro hh; cases hh⟩
  | Unpin g =>
    simp only [Op.apply] at h
    obtain ⟨ha, he⟩ := Unpin_access h f
    constructor
    · intro hne
      have hg : f ≠ g := fun hfg => hne (by rw [hfg])
      exact ⟨by rw [ha, Function.update_noteq hg]; exact hle,
        by rw [ha, he, Function.update_noteq hg, Function.update_noteq hg]; exact hpos⟩
    · intro heq hn
      have hg : g = f := by cases heq; rfl
      subst hg
      have hmod : (r.access_time_ g + 1) % 4294967296 = r.access_time_ g + 1 :=
        Nat.mod_eq_of_lt (by omega)
      refine ⟨by rw [ha, Function.update_same, hmod]; omega, ?_⟩
      intro _
      rw [ha, Function.update_same, hmod]
      omega

theorem Counted_runOps {f : Int} (ops : List Op) (n : Nat) (r r1 : LRUKReplacer)
    (hc : Counted f n r) (hn : n + ops.count (Op.Unpin f) < 4294967296)
    (h : runOps ops r = some r1) : Counted f (n + ops.count (Op.Unpin f)) r1 := by
  induction ops generalizing n r with
  | nil =>
    simp only [runOps, Option.some.injEq] at h
    subst h
    simpa using hc
  | cons op ops ih =>
    simp only [runOps] at h
    cases hop : op.apply r with
    | none => rw [hop] at h; cases h
    | some r2 =>
      rw [hop] at h
      simp only [Option.some_bind] at h
      have hstep := Counted_step op hc hop
      by_cases he : op = Op.Unpin f
      · have hcnt : (op :: ops).count (Op.Unpin f) = ops.count (Op.Unpin f) + 1 := by
          rw [he]; simp
        rw [hcnt] at hn ⊢
        have := ih (n + 1) r2 (hstep.2 he (by omega)) (by omega) h
        have e : n + 1 + ops.count (Op.Unpin f) = n + (ops.count (Op.Unpin f) + 1) := by omega
        rw [← e]
        exact this
      · have hcnt : (op :: ops).count (Op.Unpin f) = ops.count (Op.Unpin f) := by
          rw [List.count_cons]
          simp [he]
        rw [hcnt] at hn ⊢
        exact ih n r2 (hstep.1 he) hn h

theorem Pin_not_evictable {f : Int} {n : Nat} {r : LRUKReplacer} (hc : Counted f n r) :
    (r.Pin f).is_evictable_ f = false := by
  unfold Pin
  split
  · rename_i h0
    cases hev : r.is_evictable_ f with
    | false => rfl
    | true =>
      have := hc.2 hev
      omega
  · simp

theorem not_evictable_step {f : Int} {r r1 : LRUKReplacer} (op : Op)
    (hf : r.is_evictable_ f = false) (hne : op ≠ Op.Unpin f) (h : op.apply r = some r1) :
    r1.is_evictable_ f = false := by
  cases op with
  | Pin g =>
    simp only [Op.apply, Option.some.injEq] at h
    subst h
    unfold Pin
    split
    · exact hf
    · by_cases hg : f = g
      · subst hg; simp
      · simpa [Function.update_noteq hg] using hf
  | Victim =>
    simp only [Op.apply, Option.some.injEq] at h
    subst h
    rcases Victim_access r f with ⟨_, he⟩ | ⟨_, he⟩
    · rw [he]; exact hf
    · exact he
  | Unpin g =>
    simp only [Op.apply] at h
    have hg : f ≠ g := fun hfg => hne (by rw [hfg])
    rw [(Unpin_access h f).2, Function.update_noteq hg]
    exact hf

theorem not_evictable_runOps {f : Int} (ops : List Op) (r r1 : LRUKReplacer)
    (hf : r.is_evictable_ f = false) (hne : Op.Unpin f ∉ ops) (h : runOps ops r = some r1) :
    r1.is_evictable_ f = false := by
  induction ops generalizing r with
  | nil =>
    simp only [runOps, Option.some.injEq] at h
    subst h
    exact hf
  | cons op ops ih =>
    simp only [runOps] at h
    cases hop : op.apply r with
    | none => rw [hop] at h; cases h
    | some r2 =>
      rw [hop] at h
      simp only [Option.some_bind] at h
      have h1 : op ≠ Op.Unpin f := fun he => hne (by rw [he]; exact List.mem_cons_self _ _)
      have h2 : Op.Unpin f ∉ ops := fun hm => hne (List.mem_cons_of_mem _ hm)
      exact ih r2 (not_evictable_step op hf h1 hop) h2 h

end LRUKReplacer

namespace LRUKReplacer

theorem Hot_Unpin {n : Nat} {r : LRUKReplacer} (h : Hot n r) (h2 : 2 ≤ n)
    (hn : n + 1 < 4294967296) : ∃ r1, r.Unpin 0 = some r1 ∧ Hot (n + 1) r1 := by
  obtain ⟨hk, ha, hcm, hhm, hhl, hcl⟩ := h
  have hmod : (n + 1) % 4294967296 = n + 1 := Nat.mod_eq_of_lt hn
  have h1 : ¬ (n + 1 = 2) := by omega
  have h3 : n + 1 > 2 := by omega
  unfold Unpin
  simp only [ha, hmod, hk, if_neg h1, if_pos h3, hcm, hcl]
  refine ⟨_, rfl, ?_⟩
  simp [Hot, hk, hhm, hhl]

theorem Hot_runOps (m : Nat) : ∀ (n : Nat) (r : LRUKReplacer), Hot n r → 2 ≤ n →
    n + m < 4294967296 →
    ∃ r1, runOps (List.replicate m (Op.Unpin 0)) r = some r1 ∧ Hot (n + m) r1 := by
  induction m with
  | zero => intro n r h _ _; exact ⟨r, rfl, h⟩
  | succ m ih =>
    intro n r h h2 hn
    obtain ⟨r1, hu, h1⟩ := Hot_Unpin h h2 (by omega)
    obtain ⟨r2, hr, hh⟩ := ih (n + 1) r1 h1 (by omega) (by omega)
    refine ⟨r2, ?_, ?_⟩
    · simp only [List.replicate_succ, runOps, Op.apply, hu, Option.some_bind]
      exact hr
    · have e : n + 1 + m = n + (m + 1) := by omega
      rw [← e]
      exact hh

theorem Hot_two : ∃ r, runOps (List.replicate 2 (Op.Unpin 0)) (new 2) = some r ∧ Hot 2 r := by
  simp only [List.replicate, runOps, Op.apply, Unpin, new]
  simp
  simp [Hot]

end LRUKReplacer

/-! ## C13 to C15: the LRU-K replacer -/

/-- C13, the claim as stated fails: after 2^32 calls of `Unpin(0)` on a replacer
with `k_ = 2` the `unsigned int` counter of frame 0 is 0 again while the frame
is evictable, `Pin(0)` returns early, and the next `Victim` returns frame 0
although no `Unpin(0)` followed the `Pin(0)`. -/
theorem C13_counter_wrap_evicts_pinned_frame :
    ∃ r, LRUKReplacer.runOps
        (List.replicate 4294967296 (LRUKReplacer.Op.Unpin 0) ++ [LRUKReplacer.Op.Pin 0])
        (LRUKReplacer.new 2) = some r ∧
      r.Victim.1 = some 0 := by
  obtain ⟨r2, hr2, hot2⟩ := LRUKReplacer.Hot_two
  obtain ⟨r3, hr3, hot3⟩ := LRUKReplacer.Hot_runOps 4294967293 2 r2 hot2 (by omega) (by omega)
  obtain ⟨hk, ha, hcm, hhm, hhl, hcl⟩ := hot3
  have hsplit : (4294967296 : Nat) = 2 + (4294967293 + 1) := by omega
  have hrun : LRUKReplacer.runOps (List.replicate 4294967296 (LRUKReplacer.Op.Unpin 0))
      (LRUKReplacer.new 2) = r3.Unpin 0 := by
    rw [hsplit, List.replicate_add, LRUKReplacer.runOps_append, hr2, Option.some_bind,
      List.replicate_add, LRUKReplacer.runOps_append, hr3, Option.some_bind]
    simp only [List.replicate, LRUKReplacer.runOps, LRUKReplacer.Op.apply]
    cases r3.Unpin 0 <;> rfl
  have hmod : (2 + 4294967293 + 1) % 4294967296 = 0 := by omega
  have hun : ∃ r4, r3.Unpin 0 = some r4 ∧ r4.access_time_ 0 = 0 ∧
      r4.is_evictable_ 0 = true ∧ r4.history_list_ = [0] := by
    unfold LRUKReplacer.Unpin
    simp only [ha, hmod, hk, hhm]
    refine ⟨_, rfl, ?_⟩
    simp [hhl]
  obtain ⟨r4, hr4, ha4, he4, hh4⟩ := hun
  refine ⟨r4, ?_, ?_⟩
  · rw [LRUKReplacer.runOps_append, hrun, hr4, Option.some_bind]
    simp [LRUKReplacer.runOps, LRUKReplacer.Op.apply, LRUKReplacer.Pin, ha4]
  · rw [LRUKReplacer.Victim_fst, hh4]
    simp [List.find?_cons, he4]

/-- C13, amended: in every run of `Pin`, `Unpin` and `Victim` calls from a new
replacer in which frame `f` was returned (`Unpin(f)`) fewer than 2^32 times
before `Pin(f)` is called, no `Victim` call that follows the `Pin(f)` without an
`Unpin(f)` in between returns `f`. -/
theorem C13_pinned_frame_is_no_victim (k : Nat) (pre mid : List LRUKReplacer.Op) (f : Int)
    (r : LRUKReplacer)
    (hcount : pre.count (LRUKReplacer.Op.Unpin f) < 4294967296)
    (hmid : LRUKReplacer.Op.Unpin f ∉ mid)
    (hrun : LRUKReplacer.runOps (pre ++ LRUKReplacer.Op.Pin f :: mid) (LRUKReplacer.new k)
      = some r) :
    r.Victim.1 ≠ some f := by
  rw [LRUKReplacer.runOps_append] at hrun
  cases hpre : LRUKReplacer.runOps pre (LRUKReplacer.new k) with
  | none => rw [hpre] at hrun; cases hrun
  | some r0 =>
    rw [hpre] at hrun
    simp only [Option.some_bind, LRUKReplacer.runOps, LRUKReplacer.Op.apply] at hrun
    have hc := LRUKReplacer.Counted_runOps pre 0 (LRUKReplacer.new k) r0
      (LRUKReplacer.Counted_new f k) (by omega) hpre
    have hp := LRUKReplacer.Pin_not_evictable hc
    have hr := LRUKReplacer.not_evictable_runOps mid (r0.Pin f) r hp hmid hrun
    intro hv
    have := LRUKReplacer.Victim_evictable hv
    rw [hr] at this
    cases this

/-- C13 at a concrete run on a replacer with `k_ = 3`: the frames 0 and 1 are
returned, frame 0 is pinned, frame 1 is returned again; the next `Victim` does
not return frame 0. -/
theorem C13_pinned_frame_witness :
    ∃ r, LRUKReplacer.runOps ([LRUKReplacer.Op.Unpin 0, LRUKReplacer.Op.Unpin 1] ++
        LRUKReplacer.Op.Pin 0 :: [LRUKReplacer.Op.Unpin 1]) (LRUKReplacer.new 3) = some r ∧
      r.Victim.1 ≠ some 0 := by
  have h : (LRUKReplacer.runOps ([LRUKReplacer.Op.Unpin 0, LRUKReplacer.Op.Unpin 1] ++
      LRUKReplacer.Op.Pin 0 :: [LRUKReplacer.Op.Unpin 1]) (LRUKReplacer.new 3)).isSome = true := by
    decide
  obtain ⟨r, hr⟩ := Option.isSome_iff_exists.1 h
  exact ⟨r, hr, C13_pinned_frame_is_no_victim 3
    [LRUKReplacer.Op.Unpin 0, LRUKReplacer.Op.Unpin 1] [LRUKReplacer.Op.Unpin 1] 0 r
    (by decide) (by decide) hr⟩

/-- C14: `Victim` returns the first evictable entry of `history_list_` in
front-to-back order, without one the first evictable entry of `cache_list_`; it
returns false exactly when neither list holds an evictable frame, and then the
replacer is unchanged. -/
theorem C14_Victim_first_evictable (r : LRUKReplacer) :
    r.Victim.1 = ((r.history_list_.find? r.is_evictable_).orElse
      fun _ => r.cache_list_.find? r.is_evictable_) ∧
    (r.Victim.1 = none ↔
      ∀ f ∈ r.history_list_ ++ r.cache_list_, r.is_evictable_ f = false) ∧
    (r.Victim.1 = none → r.Victim.2 = r) := by
  refine ⟨LRUKReplacer.Victim_fst r, ?_, ?_⟩
  · unfold LRUKReplacer.Victim
    cases hs : LRUKReplacer.Victim.scan r.is_evictable_ r.history_list_ with
    | some p =>
      have hev := LRUKReplacer.Victim.scan_evictable (show _ = some (p.1, p.2) from hs)
      have hmem : p.1 ∈ r.history_list_ := by
        have h1 := LRUKReplacer.Victim.scan_fst r.is_evictable_ r.history_list_
        rw [hs] at h1
        exact List.mem_of_find?_eq_some h1.symm
      simp only [false_iff, reduceCtorEq]
      intro hall
      have := hall p.1 (List.mem_append_left _ hmem)
      rw [hev] at this
      cases this
    | none =>
      have hh := (LRUKReplacer.Victim.scan_eq_none _ _).1 hs
      cases hc : LRUKReplacer.Victim.scan r.is_evictable_ r.cache_list_ with
      | some p =>
        have hev := LRUKReplacer.Victim.scan_evictable (show _ = some (p.1, p.2) from hc)
        have hmem : p.1 ∈ r.cache_list_ := by
          have h1 := LRUKReplacer.Victim.scan_fst r.is_evictable_ r.cache_list_
          rw [hc] at h1
          exact List.mem_of_find?_eq_some h1.symm
        simp only [false_iff, reduceCtorEq]
        intro hall
        have := hall p.1 (List.mem_append_right _ hmem)
        rw [hev] at this
        cases this
      | none =>
        have hcc := (LRUKReplacer.Victim.scan_eq_none _ _).1 hc
        simp only [true_iff]
        intro f hf
        rcases List.mem_append.1 hf with h | h
        · exact hh f h
        · exact hcc f h
  · unfold LRUKReplacer.Victim
    cases hs : LRUKReplacer.Victim.scan r.is_evictable_ r.history_list_ with
    | some p => intro h; simp at h
    | none =>
      cases hc : LRUKReplacer.Victim.scan r.is_evictable_ r.cache_list_ with
      | some p => intro h; simp at h
      | none => intro _; rfl

/-- C15: in a replacer with `k_ = 2`, after the frames `A`, `B`, `C` have each
been returned once and `A` and `B` have then been pinned and returned a second
time, the cache list holds `A` and `B`, the history list holds only `C`, and
`Victim` returns true with frame `C`. -/
theorem C15_k2_victim_is_C (A B C : Int) (hAB : A ≠ B) (hAC : A ≠ C) (hBC : B ≠ C) :
    ∃ r, LRUKReplacer.runOps
        [LRUKReplacer.Op.Unpin A, LRUKReplacer.Op.Unpin B, LRUKReplacer.Op.Unpin C,
         LRUKReplacer.Op.Pin A, LRUKReplacer.Op.Unpin A,
         LRUKReplacer.Op.Pin B, LRUKReplacer.Op.Unpin B] (LRUKReplacer.new 2) = some r ∧
      r.cache_list_ = [B, A] ∧ r.history_list_ = [C] ∧ r.Victim.1 = some C := by
  have hBA : B ≠ A := fun h => hAB h.symm
  have hCA : C ≠ A := fun h => hAC h.symm
  have hCB : C ≠ B := fun h => hBC h.symm
  simp [LRUKReplacer.runOps, LRUKReplacer.Op.apply, LRUKReplacer.Unpin, LRUKReplacer.Pin,
    LRUKReplacer.new, LRUKReplacer.Victim_fst, Function.update_apply, hAB, hAC, hBC, hBA, hCA,
    hCB, List.find?_cons]

/-- C15 at the frames 0, 1, 2. -/
theorem C15_k2_victim_witness :
    ((0 : Int) ≠ 1 ∧ (0 : Int) ≠ 2 ∧ (1 : Int) ≠ 2) ∧
    ∃ r, LRUKReplacer.runOps
        [LRUKReplacer.Op.Unpin 0, LRUKReplacer.Op.Unpin 1, LRUKReplacer.Op.Unpin 2,
         LRUKReplacer.Op.Pin 0, LRUKReplacer.Op.Unpin 0,
         LRUKReplacer.Op.Pin 1, LRUKReplacer.Op.Unpin 1] (LRUKReplacer.new 2) = some r ∧
      r.cache_list_ = [1, 0] ∧ r.history_list_ = [2] ∧ r.Victim.1 = some 2 :=
  ⟨⟨by decide, by decide, by decide⟩,
    C15_k2_victim_is_C 0 1 2 (by decide) (by decide) (by decide)⟩

/-- The scenario S4 with the replacer of a pool of three frames: the
constructor sets `k_ = 3`, so after the same calls the frames 0 and 1 are
still in the history list with frame 2, the cache list is empty, and `Victim`
returns frame 2, the front of the history list. -/
theorem S4_replacer_of_three_frames :
    (LRUKReplacer.runOps
      [LRUKReplacer.Op.Unpin 0, LRUKReplacer.Op.Unpin 1, LRUKReplacer.Op.Unpin 2,
       LRUKReplacer.Op.Pin 0, LRUKReplacer.Op.Unpin 0,
       LRUKReplacer.Op.Pin 1, LRUKReplacer.Op.Unpin 1] (LRUKReplacer.new 3)).map
      (fun r => (r.history_list_, r.cache_list_, r.Victim.1)) = some ([2, 1, 0], [], some 2) := by
  decide

/-! ### The maps of the catalog -/

namespace Map

theorem find_append_single {κ ν : Type} [BEq κ] [LawfulBEq κ] [DecidableEq κ] (m : List (κ × ν)) (k q : κ)
    (v : ν) : find (m ++ [(k, v)]) q = if (find m q).isSome then find m q
      else if q = k then some v else none := by
  unfold find
  induction m with
  | nil =>
    by_cases hq : q = k
    · subst hq; simp
    · have hb : (k == q) = false := by simpa using fun h => hq h.symm
      simp [List.find?_cons, hb, hq]
  | cons e es ih =>
    simp only [List.cons_append, List.find?_cons]
    cases he : (e.1 == q) with
    | true => simp
    | false => simpa using ih

theorem find_map_assign {κ ν : Type} [BEq κ] [LawfulBEq κ] [DecidableEq κ] (k q : κ) (v : ν) :
    ∀ m : List (κ × ν),
      find (m.map fun e => if e.1 == k then (k, v) else e) q =
        if q = k then (find m k).map (fun _ => v) else find m q := by
  intro m
  unfold find
  induction m with
  | nil => simp
  | cons e es ih =>
    simp only [List.map_cons, List.find?_cons]
    by_cases hq : q = k
    · subst hq
      simp only [if_true] at ih ⊢
      cases he : (e.1 == q) with
      | true => simp [he]
      | false => simpa [he] using ih
    · simp only [if_neg hq] at ih ⊢
      have hkq : (k == q) = false := by simpa using fun h => hq h.symm
      cases he : (e.1 == k) with
      | true => simpa [he, hkq, (by simpa using he : e.1 = k)] using ih
      | false =>
        simp only [Bool.false_eq_true, if_false]
        cases he2 : (e.1 == q) with
        | true => simp
        | false => simpa using ih

theorem find_assign {κ ν : Type} [BEq κ] [LawfulBEq κ] [DecidableEq κ] (m : List (κ × ν)) (k q : κ) (v : ν) :
    find (assign m k v) q = if q = k then some v else find m q := by
  unfold assign
  by_cases hs : (find m k).isSome = true
  · rw [if_pos hs, find_map_assign]
    by_cases hq : q = k
    · obtain ⟨w, hw⟩ := Option.isSome_iff_exists.1 hs
      simp [hq, hw]
    · simp [hq]
  · rw [if_neg hs, find_append_single]
    by_cases hq : q = k
    · subst hq
      simp [hs]
    · simp only [if_neg hq]
      cases hf : find m q with
      | none => simp
      | some w => simp

theorem find_erase {κ ν : Type} [BEq κ] [LawfulBEq κ] [DecidableEq κ] (m : List (κ × ν)) (k q : κ) :
    find (erase m k) q = if q = k then none else find m q := by
  unfold erase find
  induction m with
  | nil => simp
  | cons e es ih =>
    by_cases hq : q = k
    · subst hq
      simp only [if_true] at ih ⊢
      simp only [List.filter_cons]
      cases he : (e.1 == q) with
      | true => simp [ih]
      | false => simp [List.find?_cons, he, ih]
    · simp only [if_neg hq] at ih ⊢
      simp only [List.filter_cons]
      cases he : (e.1 == k) with
      | true =>
        have hek : e.1 = k := by simpa using he
        have heq : (e.1 == q) = false := by
          rw [hek]; simpa using fun h => hq h.symm
        simpa [List.find?_cons, heq] using ih
      | false =>
        simp only [Bool.not_false, if_true, List.find?_cons]
        cases he2 : (e.1 == q) with
        | true => rfl
        | false => simpa using ih

theorem find_touch {κ ν : Type} [BEq κ] [LawfulBEq κ] [DecidableEq κ] (m : List (κ × ν)) (k q : κ) (d : ν) :
    find (touch m k d) q = if (find m q).isSome then find m q
      else if q = k then some d else none := by
  unfold touch
  by_cases hs : (find m k).isSome = true
  · rw [if_pos hs]
    by_cases hq : (find m q).isSome = true
    · rw [if_pos hq]
    · rw [if_neg hq]
      have hne : q ≠ k := fun h => hq (h ▸ hs)
      rw [if_neg hne]
      cases hf : find m q with
      | none => rfl
      | some w => simp [hf] at hq
  · rw [if_neg hs, find_append_single]

end Map

/-! ### The catalog -/

namespace Catalog

namespace CatalogManager

theorem FlushCatalogMetaPage_fields {cm cm2 : CatalogManager}
    (h : cm.FlushCatalogMetaPage = some cm2) :
    cm2 = { cm with buffer_pool_manager_ := cm2.buffer_pool_manager_ } ∧
    ∀ q, q ≠ CATALOG_META_PAGE_ID →
      cm2.buffer_pool_manager_.pageAt q = cm.buffer_pool_manager_.pageAt q := by
  unfold FlushCatalogMetaPage at h
  split at h
  · rename_i data b hf
    split at h
    · cases h
    · rename_i data1 hs
      simp only [Option.some.injEq] at h
      subst h
      refine ⟨rfl, fun q hq => ?_⟩
      have hb := (BufferPoolManager.FetchPage_eq_some hf).2
      simp only
      rw [BufferPoolManager.pageAt_UnpinPage, BufferPoolManager.pageAt_put, if_neg hq, hb,
        BufferPoolManager.pageAt_setPin]
  · cases h

theorem FlushCatalogMetaPage_some (cm : CatalogManager) (data : List Nat)
    (hp : cm.buffer_pool_manager_.pageAt CATALOG_META_PAGE_ID = some (Page.catalog_meta data))
    (hfit : 12 + 8 * (cm.catalog_meta_.table_meta_pages_.length +
      cm.catalog_meta_.index_meta_pages_.length) ≤ PAGE_SIZE) :
    ∃ cm2, cm.FlushCatalogMetaPage = some cm2 := by
  unfold FlushCatalogMetaPage
  rw [BufferPoolManager.FetchPage_of_pageAt hp]
  simp only
  have hsz : cm.catalog_meta_.GetSerializedSize ≤ PAGE_SIZE := by
    unfold CatalogMeta.GetSerializedSize
    exact le_trans (Nat.mod_le _ _) hfit
  unfold CatalogMeta.SerializeTo
  rw [if_pos hsz]
  exact ⟨_, rfl⟩

end CatalogManager

end Catalog

/-! ## C16 to C20: the catalog -/

/-- C16: `CreateTable` with a table name that already exists returns
`DB_TABLE_ALREADY_EXIST`; the catalog (the maps, `next_table_id_`, the catalog
meta, the pool) and the output parameter `table_info` are as before the call. -/
theorem C16_CreateTable_existing_name (cm : Catalog.CatalogManager) (table_name : String)
    (schema : List String) (table_info : Option Catalog.TableInfo) (table_id : Nat)
    (h : Map.find cm.table_names_ table_name = some table_id) :
    cm.CreateTable table_name schema table_info =
      some (dberr_t.DB_TABLE_ALREADY_EXIST, cm, table_info) := by
  unfold Catalog.CatalogManager.CreateTable
  rw [h]
  rfl

theorem Map.length_assign_le {κ ν : Type} [BEq κ] (m : List (κ × ν)) (k : κ) (v : ν) :
    (Map.assign m k v).length ≤ m.length + 1 := by
  unfold Map.assign
  split <;> simp

theorem BPlusTree.new_of_roots (index_id : Nat) (b : BufferPoolManager) (l m : Nat)
    (rp : IndexRootsPage)
    (h : b.pageAt INDEX_ROOTS_PAGE_ID = some (Page.index_roots rp)) :
    ∃ t, BPlusTree.new index_id b l m = some t ∧
      (∀ q, t.buffer_pool_manager_.pageAt q = b.pageAt q) ∧
      t.buffer_pool_manager_.next_page_id_ = b.next_page_id_ := by
  unfold BPlusTree.new
  rw [BufferPoolManager.FetchPage_of_pageAt h]
  refine ⟨_, rfl, fun q => ?_, ?_⟩
  · simp only
    rw [BufferPoolManager.pageAt_UnpinPage, BufferPoolManager.pageAt_setPin]
  · simp only
    rw [BufferPoolManager.UnpinPage_next]
    rfl

namespace Catalog

theorem GetColumnIndex_isSome (schema : List String) (key : String) :
    (GetColumnIndex schema key).isSome = schema.contains key := by
  unfold GetColumnIndex
  by_cases h : key ∈ schema
  · rw [if_pos (List.indexOf_lt_length.2 h)]
    simp [h]
  · rw [if_neg (fun hl => h (List.indexOf_lt_length.1 hl))]
    simp [h]

theorem CatalogManager.CreateIndex.key_map_isSome (schema : List String) (keys : List String) :
    (CatalogManager.CreateIndex.key_map schema keys).isSome =
      keys.all fun key => schema.contains key := by
  induction keys with
  | nil => rfl
  | cons k ks ih =>
    have hk := GetColumnIndex_isSome schema k
    unfold CatalogManager.CreateIndex.key_map
    cases hg : GetColumnIndex schema k with
    | none =>
      rw [hg] at hk
      simp only [List.all_cons]
      rw [← hk]
      rfl
    | some i =>
      rw [hg] at hk
      simp only [List.all_cons]
      rw [← hk, ← ih]
      cases CatalogManager.CreateIndex.key_map schema ks <;> rfl

namespace CatalogManager

theorem GetIndex_touch (cm : CatalogManager) (table_name : String) (n : Nat) (t i : String)
    (o : Option IndexInfo) :
    GetIndex { cm with index_names_ := Map.touch cm.index_names_ table_name [],
                       next_index_id_ := n } t i o = cm.GetIndex t i o := by
  unfold GetIndex
  simp only
  cases ht : Map.find cm.table_names_ t with
  | none => rfl
  | some id =>
    simp only
    rw [Map.find_touch]
    cases hf : Map.find cm.index_names_ t with
    | some names => simp
    | none =>
      by_cases htt : t = table_name
      · simp [htt, Map.find]
      · simp [htt]

theorem GetTableIndexes_touch (cm : CatalogManager) (table_name : String) (n : Nat) (t : String)
    (o : List IndexInfo) :
    GetTableIndexes { cm with index_names_ := Map.touch cm.index_names_ table_name [],
                              next_index_id_ := n } t o = cm.GetTableIndexes t o := by
  unfold GetTableIndexes
  simp only
  cases ht : Map.find cm.table_names_ t with
  | none => rfl
  | some id =>
    simp only
    rw [Map.find_touch]
    cases hf : Map.find cm.index_names_ t with
    | some names => simp
    | none =>
      by_cases htt : t = table_name
      · simp [htt, GetTableIndexes.loop]
      · simp [htt]

end CatalogManager

end Catalog

/-- C18: `CreateIndex` returns `DB_TABLE_NOT_EXIST` when the table is absent,
otherwise `DB_INDEX_ALREADY_EXIST` when the table has an index of that name,
otherwise `DB_COLUMN_NAME_NOT_EXIST` when a key column name is not in the schema
of the table, otherwise `DB_SUCCESS`. With a failure code the index page map of
the catalog meta is unchanged, and `GetIndex` and `GetTableIndexes` return for
every table and name what they returned before. The catalog is taken with a
`TableInfo` for the named table, with the pages 0 and 1 in the pool, with room
for one more entry on the meta page and with page ids allocated from 2 on. -/
theorem C18_CreateIndex_result_codes (cm : Catalog.CatalogManager)
    (table_name index_name : String) (index_keys : List String)
    (index_info : Option Catalog.IndexInfo) (data : List Nat) (rp : IndexRootsPage)
    (hinfo : ∀ id, Map.find cm.table_names_ table_name = some id →
      ((Map.find cm.tables_ id).bind Catalog.TableInfo.GetSchema).isSome = true)
    (hroots : cm.buffer_pool_manager_.pageAt INDEX_ROOTS_PAGE_ID = some (Page.index_roots rp))
    (hpage : cm.buffer_pool_manager_.pageAt CATALOG_META_PAGE_ID = some (Page.catalog_meta data))
    (hnext : 2 ≤ cm.buffer_pool_manager_.next_page_id_)
    (hfit : 12 + 8 * (cm.catalog_meta_.table_meta_pages_.length +
      (cm.catalog_meta_.index_meta_pages_.length + 1)) ≤ PAGE_SIZE) :
    ∃ err cm1 out,
      cm.CreateIndex table_name index_name index_keys index_info = some (err, cm1, out) ∧
      err = Catalog.CatalogManager.CreateIndex.expected cm table_name index_name index_keys ∧
      (err ≠ dberr_t.DB_SUCCESS →
        cm1.catalog_meta_.index_meta_pages_ = cm.catalog_meta_.index_meta_pages_ ∧
        (∀ t i o, cm1.GetIndex t i o = cm.GetIndex t i o) ∧
        (∀ t o, cm1.GetTableIndexes t o = cm.GetTableIndexes t o)) := by
  unfold Catalog.CatalogManager.CreateIndex Catalog.CatalogManager.CreateIndex.expected
  cases ht : Map.find cm.table_names_ table_name with
  | none => exact ⟨_, _, _, rfl, rfl, fun _ => ⟨rfl, fun _ _ _ => rfl, fun _ _ => rfl⟩⟩
  | some table_id =>
    simp only
    have hnames : (Map.find (Map.touch cm.index_names_ table_name []) table_name).getD [] =
        ((Map.find cm.index_names_ table_name).getD []) := by
      rw [Map.find_touch]
      cases Map.find cm.index_names_ table_name <;> simp
    have hex : ((Map.find cm.index_names_ table_name).bind fun names =>
        Map.find names index_name).isSome =
        (Map.find ((Map.find cm.index_names_ table_name).getD []) index_name).isSome := by
      cases Map.find cm.index_names_ table_name <;> simp [Map.find]
    rw [hnames, hex]
    by_cases hidx : (Map.find ((Map.find cm.index_names_ table_name).getD []) index_name).isSome
        = true
    · rw [if_pos hidx, if_pos hidx]
      refine ⟨_, _, _, rfl, rfl, fun _ => ⟨rfl, fun t i o => ?_, fun t o => ?_⟩⟩
      · exact Catalog.CatalogManager.GetIndex_touch cm table_name cm.next_index_id_ t i o
      · exact Catalog.CatalogManager.GetTableIndexes_touch cm table_name cm.next_index_id_ t o
    · rw [if_neg hidx, if_neg hidx]
      have hi := hinfo table_id ht
      cases hti : Map.find cm.tables_ table_id with
      | none => rw [hti] at hi; cases hi
      | some table_info =>
        rw [hti] at hi
        simp only [Option.some_bind] at hi ⊢
        obtain ⟨schema, hsc⟩ := Option.isSome_iff_exists.1 hi
        (
          simp only [hsc, Option.getD_some]
          have hkm := Catalog.CatalogManager.CreateIndex.key_map_isSome schema index_keys
          cases hk : Catalog.CatalogManager.CreateIndex.key_map schema index_keys with
          | none =>
            rw [hk] at hkm
            have hall : (index_keys.all fun key => schema.contains key) = false := by
              rw [← hkm]; rfl
            rw [if_neg (by rw [hall]; decide)]
            refine ⟨_, _, _, rfl, rfl, fun _ => ⟨rfl, fun t i o => ?_, fun t o => ?_⟩⟩
            · exact Catalog.CatalogManager.GetIndex_touch cm table_name _ t i o
            · exact Catalog.CatalogManager.GetTableIndexes_touch cm table_name _ t o
          | some key_map =>
            rw [hk] at hkm
            have hall : (index_keys.all fun key => schema.contains key) = true := by
              rw [← hkm]; rfl
            rw [if_pos hall]
            simp only
            obtain ⟨t, hnew, hpg, hnx⟩ := BPlusTree.new_of_roots cm.next_index_id_
              cm.buffer_pool_manager_ 0 0 rp hroots
            unfold Catalog.IndexInfo.Init
            rw [hnew]
            simp only
            have hp1 : CATALOG_META_PAGE_ID ≠ t.buffer_pool_manager_.NewPage.1 := by
              show CATALOG_META_PAGE_ID ≠ t.buffer_pool_manager_.next_page_id_
              rw [hnx]; unfold CATALOG_META_PAGE_ID; omega
            generalize (match Map.find (Map.touch cm.index_names_ table_name []) table_name with
              | none => Map.assign (Map.touch cm.index_names_ table_name []) table_name
                  [(index_name, cm.next_index_id_)]
              | some names1 => Map.assign (Map.touch cm.index_names_ table_name []) table_name
                  (Map.assign names1 index_name cm.next_index_id_)) = index_names2
            obtain ⟨cm3, h3⟩ := Catalog.CatalogManager.FlushCatalogMetaPage_some
              { cm with
                buffer_pool_manager_ :=
                  (t.buffer_pool_manager_.NewPage.2.put t.buffer_pool_manager_.NewPage.1
                    (Page.index_meta ⟨cm.next_index_id_, index_name, table_id, key_map⟩)).UnpinPage
                    t.buffer_pool_manager_.NewPage.1
                index_names_ := index_names2
                next_index_id_ := (cm.next_index_id_ + 1) % 4294967296
                indexes_ := Map.assign cm.indexes_ cm.next_index_id_
                  ⟨some ⟨cm.next_index_id_, index_name, table_id, key_map⟩, some table_info,
                    some ⟨t.index_id_, t.root_page_id_⟩⟩
                catalog_meta_ :=
                  { cm.catalog_meta_ with
                    index_meta_pages_ := Map.assign cm.catalog_meta_.index_meta_pages_
                      cm.next_index_id_ t.buffer_pool_manager_.NewPage.1 } } data
              (by
                simp only
                rw [BufferPoolManager.pageAt_UnpinPage, BufferPoolManager.pageAt_put,
                  if_neg hp1, BufferPoolManager.pageAt_NewPage, hpg, hpage])
              (by
                have := Map.length_assign_le cm.catalog_meta_.index_meta_pages_
                  cm.next_index_id_ t.buffer_pool_manager_.NewPage.1
                simp only
                omega)
            rw [h3]
            exact ⟨_, _, _, rfl, rfl, fun h => absurd rfl h⟩
        )

namespace Catalog

namespace CatalogManager

end CatalogManager

end Catalog

set_option maxRecDepth 100000 in
theorem catalogT_reached :
    (Catalog.runCalls [Catalog.Call.CreateTable "t" ["a", "b"]] emptyCatalog).map
        (fun r => (r.1, r.2.table_names_, r.2.catalog_meta_)) =
      some ([dberr_t.DB_SUCCESS], [("t", 0)], ⟨[(0, 3)], []⟩) ∧
    catalogT.table_names_ = [("t", 0)] := by
  decide

set_option maxRecDepth 100000 in
theorem catalogTU_reached :
    (Catalog.runCalls
      [Catalog.Call.CreateTable "t" ["a", "b"], Catalog.Call.CreateIndex "t" "i" ["a"],
       Catalog.Call.CreateTable "u" ["c"], Catalog.Call.CreateIndex "u" "j" ["c"]]
      emptyCatalog).map (fun r => r.1) =
      some [dberr_t.DB_SUCCESS, dberr_t.DB_SUCCESS, dberr_t.DB_SUCCESS, dberr_t.DB_SUCCESS] ∧
    catalogTU.table_names_ = [("t", 0), ("u", 1)] ∧
    catalogTU.index_names_ = [("t", [("i", 0)]), ("u", [("j", 1)])] ∧
    catalogTU.catalog_meta_ = ⟨[(0, 3), (1, 6)], [(0, 4), (1, 7)]⟩ := by
  decide

set_option maxRecDepth 100000 in
theorem catalogTIK_reached :
    catalogTIK.table_names_ = [("t", 0)] ∧
    catalogTIK.index_names_ = [("t", [("i", 0)])] ∧
    catalogTIK.catalog_meta_ = ⟨[(0, 3)], [(0, 4)]⟩ ∧
    catalogTIK.buffer_pool_manager_.pages_.map Prod.fst = [0, 1, 2, 3, 4, 5] ∧
    catalogTIK.buffer_pool_manager_.pageAt 0 = some (Page.index_roots ⟨[(0, 5)]⟩) ∧
    catalogTIK.buffer_pool_manager_.pageAt 4 = some (Page.index_meta ⟨0, "i", 0, [0]⟩) ∧
    (catalogTIK.buffer_pool_manager_.leafAt 5).map (fun p => p.entries_) =
      some [(numKey 7, ⟨2, 0⟩)] := by
  decide

/-- C16 at the catalog with the table `t`: a second `CreateTable("t", ...)`. -/
theorem C16_CreateTable_existing_witness :
    Map.find catalogT.table_names_ "t" = some 0 ∧
    catalogT.CreateTable "t" ["x"] none = some (dberr_t.DB_TABLE_ALREADY_EXIST, catalogT, none) :=
  ⟨by decide, C16_CreateTable_existing_name catalogT "t" ["x"] none 0 (by decide)⟩

set_option maxRecDepth 100000 in
/-- C18 at the catalog with the table `t` of the columns `(a, b)`: an index on
the column `c` is refused with `DB_COLUMN_NAME_NOT_EXIST`. -/
theorem C18_CreateIndex_witness :
    ∃ cm1 out,
      catalogT.CreateIndex "t" "i" ["c"] none =
        some (dberr_t.DB_COLUMN_NAME_NOT_EXIST, cm1, out) ∧
      cm1.catalog_meta_.index_meta_pages_ = catalogT.catalog_meta_.index_meta_pages_ ∧
      cm1.GetIndex "t" "i" none = catalogT.GetIndex "t" "i" none := by
  have hexp : Catalog.CatalogManager.CreateIndex.expected catalogT "t" "i" ["c"] =
      dberr_t.DB_COLUMN_NAME_NOT_EXIST := by decide
  have hnames : catalogT.table_names_ = [("t", 0)] := by decide
  have hpage : ∃ data, catalogT.buffer_pool_manager_.pageAt CATALOG_META_PAGE_ID =
      some (Page.catalog_meta data) := by
    have h : (match catalogT.buffer_pool_manager_.pageAt CATALOG_META_PAGE_ID with
        | some (Page.catalog_meta _) => true
        | _ => false) = true := by decide
    split at h
    · exact ⟨_, by assumption⟩
    · cases h
  obtain ⟨data, hdata⟩ := hpage
  obtain ⟨err, cm1, out, h1, h2, h3⟩ :=
    C18_CreateIndex_result_codes catalogT "t" "i" ["c"] none data ⟨[]⟩
      (by
        intro id hid
        rw [hnames] at hid
        have : id = 0 := by simpa [Map.find] using hid.symm
        subst this
        decide)
      (by decide) hdata (by decide) (by decide)
  rw [hexp] at h2
  subst h2
  exact ⟨cm1, out, h1, (h3 (by decide)).1, (h3 (by decide)).2.1 "t" "i" none⟩

set_option maxRecDepth 100000 in
/-- C20, the code at a failing input: the table `t` has the index `i` with the
metadata page 4, and the B+ tree of the index consists of the root leaf page 5.
`DropTable("t")` returns `DB_SUCCESS` and erases the index from the maps and
from the catalog meta, but it deletes the heap page 2 and the table metadata
page 3 only: the pages 4 and 5 of the index stay in the pool, and the
index-roots page still records the root 5 for the index id 0. -/
theorem C20_DropTable_keeps_index_pages :
    (catalogTIK.DropTable "t").map (fun r => r.1) = some dberr_t.DB_SUCCESS ∧
    (catalogTIK.DropTable "t").map (fun r => r.2.catalog_meta_.index_meta_pages_) = some [] ∧
    (catalogTIK.DropTable "t").map (fun r => r.2.indexes_.map Prod.fst) = some [] ∧
    (catalogTIK.DropTable "t").map (fun r => r.2.buffer_pool_manager_.pages_.map Prod.fst) =
      some [0, 1, 4, 5] ∧
    (catalogTIK.DropTable "t").map (fun r => r.2.buffer_pool_manager_.pageAt 4) =
      some (some (Page.index_meta ⟨0, "i", 0, [0]⟩)) ∧
    (catalogTIK.DropTable "t").map (fun r =>
        (r.2.buffer_pool_manager_.leafAt 5).map fun p => p.entries_) =
      some (some [(numKey 7, ⟨2, 0⟩)]) ∧
    (catalogTIK.DropTable "t").map (fun r => r.2.buffer_pool_manager_.pageAt 0) =
      some (some (Page.index_roots ⟨[(0, 5)]⟩)) := by
  decide

/-! ### Reading bytes after a write -/

theorem getD_memWrite (d bs : List Nat) (off i : Nat) :
    (memWrite d off bs).getD i 0 =
      if i < off then d.getD i 0
      else if i < off + bs.length then bs.getD (i - off) 0 else d.getD i 0 := by
  have hl : (List.take off d ++ List.replicate (off - d.length) 0).length = off := by
    simp only [List.length_append, List.length_take, List.length_replicate]
    omega
  unfold memWrite
  by_cases h1 : i < off
  · rw [if_pos h1, List.append_assoc, List.getD_append _ _ _ _ (by rw [hl]; exact h1)]
    by_cases h2 : i < d.length
    · rw [List.getD_append _ _ _ _ (by simp only [List.length_take]; omega)]
      simp only [List.getD_eq_getElem?_getD]
      rw [List.getElem?_take_of_lt h1]
    · rw [List.getD_append_right _ _ _ _ (by simp only [List.length_take]; omega)]
      have hz : ∀ k j : Nat, (List.replicate k 0).getD j 0 = 0 := by
        intro k j
        simp only [List.getD_eq_getElem?_getD, List.getElem?_replicate]
        split <;> rfl
      have hd : d.getD i 0 = 0 := by
        simp only [List.getD_eq_getElem?_getD]
        rw [List.getElem?_eq_none (by omega)]
        rfl
      rw [hz, hd]
  · rw [if_neg h1, List.append_assoc, List.getD_append_right _ _ _ _ (by rw [hl]; omega), hl]
    by_cases h2 : i < off + bs.length
    · rw [if_pos h2, List.getD_append _ _ _ _ (by omega)]
    · rw [if_neg h2, List.getD_append_right _ _ _ _ (by omega)]
      simp only [List.getD_eq_getElem?_getD, List.getElem?_drop]
      congr 2
      omega

theorem getD_memRead (d : List Nat) (a n i : Nat) :
    (memRead d a n).getD i 0 = if i < n then d.getD (a + i) 0 else 0 := by
  unfold memRead
  simp only [List.getD_eq_getElem?_getD, List.getElem?_map]
  by_cases h : i < n
  · rw [if_pos h, List.getElem?_range h]
    rfl
  · rw [if_neg h, List.getElem?_eq_none (by simp only [List.length_range]; omega)]
    rfl

theorem memRead_congr (d1 d2 : List Nat) (a1 a2 n : Nat)
    (h : ∀ i, i < n → d1.getD (a1 + i) 0 = d2.getD (a2 + i) 0) :
    memRead d1 a1 n = memRead d2 a2 n := by
  unfold memRead
  apply List.map_congr_left
  intro i hi
  exact h i (List.mem_range.1 hi)

/-- Bytes before the written range are read as before. -/
theorem memRead_memWrite_before (d bs : List Nat) (off o n : Nat) (h : o + n ≤ off) :
    memRead (memWrite d off bs) o n = memRead d o n := by
  apply memRead_congr
  intro i hi
  rw [getD_memWrite, if_pos (by omega)]

/-- Bytes behind the written range are read as before. -/
theorem memRead_memWrite_after (d bs : List Nat) (off o n : Nat) (h : off + bs.length ≤ o) :
    memRead (memWrite d off bs) o n = memRead d o n := by
  apply memRead_congr
  intro i hi
  rw [getD_memWrite, if_neg (by omega), if_neg (by omega)]

/-- Bytes inside the written range are those written. -/
theorem memRead_memWrite_inside (d bs : List Nat) (off o n : Nat)
    (h : o + n ≤ bs.length) :
    memRead (memWrite d off bs) (off + o) n = memRead bs o n := by
  apply memRead_congr
  intro i hi
  rw [getD_memWrite, if_neg (by omega), if_pos (by omega)]
  congr 1
  omega

theorem memRead_memRead (d : List Nat) (a n o k : Nat) (h : o + k ≤ n) :
    memRead (memRead d a n) o k = memRead d (a + o) k := by
  apply memRead_congr
  intro i hi
  rw [getD_memRead, if_pos (by omega), Nat.add_assoc]

/-! ### Bytes of the catalog meta page -/

theorem memWrite_append (d : List Nat) (off : Nat) (a b : List Nat) :
    memWrite (memWrite d off a) (off + a.length) b = memWrite d off (a ++ b) := by
  have hl : (List.take off d ++ List.replicate (off - d.length) 0).length = off := by
    simp only [List.length_append, List.length_take, List.length_replicate]
    omega
  unfold memWrite
  have h1 : List.take (off + a.length)
      (List.take off d ++ List.replicate (off - d.length) 0 ++ a ++
        List.drop (off + a.length) d) =
      List.take off d ++ List.replicate (off - d.length) 0 ++ a := by
    rw [List.take_append_of_le_length (by simp only [List.length_append, hl]; omega)]
    rw [List.take_of_length_le (by simp only [List.length_append, hl]; omega)]
  have h2 : off + a.length -
      (List.take off d ++ List.replicate (off - d.length) 0 ++ a ++
        List.drop (off + a.length) d).length = 0 := by
    simp only [List.length_append, hl]
    omega
  have h3 : List.drop (off + a.length + b.length)
      (List.take off d ++ List.replicate (off - d.length) 0 ++ a ++
        List.drop (off + a.length) d) = List.drop (off + (a ++ b).length) d := by
    have hla : (List.take off d ++ List.replicate (off - d.length) 0 ++ a).length =
        off + a.length := by
      simp only [List.length_append, hl]
    rw [List.drop_append_eq_append_drop, hla]
    rw [List.drop_of_length_le (by rw [hla]; omega)]
    simp only [List.nil_append, List.drop_drop, List.length_append]
    congr 1
    omega
  rw [h1, h2, h3]
  simp only [List.replicate_zero, List.append_nil, List.append_assoc]

theorem memWrite_zero (d bs : List Nat) : memWrite d 0 bs = bs ++ d.drop bs.length := by
  simp [memWrite]

theorem memWrite_idem (d bs : List Nat) : memWrite (memWrite d 0 bs) 0 bs = memWrite d 0 bs := by
  simp [memWrite_zero]

theorem memRead_mid (a b c : List Nat) : memRead (a ++ b ++ c) a.length b.length = b := by
  have h := memRead_append_right a (b ++ c) 0 b.length
  rw [Nat.add_zero] at h
  rw [List.append_assoc, h, memRead_append_left _ _ _ (le_refl _), memRead_self]

theorem decodeU32_encode32 (n : Nat) (h : n < 4294967296) :
    decodeU32 (encode32 (n : Int)) = n := by
  unfold decodeU32 encode32
  simp only [List.getD_cons_zero, List.getD_cons_succ]
  have h1 : ((n : Int) % 4294967296).toNat = n := by omega
  rw [h1]
  omega

namespace CatalogMeta

theorem layout.entries_length (l : List (Nat × Int)) :
    (layout.entries l).length = 8 * l.length := by
  induction l with
  | nil => rfl
  | cons e rest ih =>
    simp only [layout.entries, List.flatMap_cons, List.length_append, encode32_length,
      List.length_cons] at ih ⊢
    omega

theorem layout_length (m : CatalogMeta) :
    m.layout.length = 12 + 8 * (m.table_meta_pages_.length + m.index_meta_pages_.length) := by
  simp only [layout, List.length_append, encode32_length, layout.entries_length]
  omega

theorem SerializeTo.entries_writes (l : List (Nat × Int)) : ∀ (d pre : List Nat),
    SerializeTo.entries l (memWrite d 0 pre) pre.length =
      (memWrite d 0 (pre ++ layout.entries l), pre.length + 8 * l.length) := by
  induction l with
  | nil =>
    intro d pre
    simp [SerializeTo.entries, layout.entries]
  | cons e rest ih =>
    intro d pre
    have h1 := memWrite_append d 0 pre (encode32 e.1)
    rw [Nat.zero_add] at h1
    have h2 := memWrite_append d 0 (pre ++ encode32 e.1) (encode32 e.2)
    rw [Nat.zero_add, List.length_append, encode32_length] at h2
    have h3 := ih d (pre ++ encode32 e.1 ++ encode32 e.2)
    simp only [List.length_append, encode32_length] at h3
    simp only [SerializeTo.entries]
    rw [h1, h2, h3]
    simp only [layout.entries, List.flatMap_cons, List.append_assoc, List.length_cons]
    congr 1
    omega

/-- The bytes that `SerializeTo` leaves in the buffer: the layout of the
specification over the first bytes, the buffer as it was behind them. -/
theorem SerializeTo_eq (m : CatalogMeta) (data : List Nat)
    (h : m.GetSerializedSize ≤ PAGE_SIZE) :
    m.SerializeTo data = some (memWrite data 0 m.layout) := by
  unfold SerializeTo
  rw [if_pos h]
  simp only [Option.some.injEq]
  have h1 := memWrite_append data 0 (encode32 CATALOG_METADATA_MAGIC_NUM)
    (encode32 m.table_meta_pages_.length)
  rw [Nat.zero_add, encode32_length] at h1
  have h2 := memWrite_append data 0
    (encode32 CATALOG_METADATA_MAGIC_NUM ++ encode32 m.table_meta_pages_.length)
    (encode32 m.index_meta_pages_.length)
  rw [Nat.zero_add, List.length_append, encode32_length, encode32_length] at h2
  rw [h1, h2]
  have h3 := SerializeTo.entries_writes m.table_meta_pages_ data
    (encode32 CATALOG_METADATA_MAGIC_NUM ++ encode32 m.table_meta_pages_.length ++
      encode32 m.index_meta_pages_.length)
  simp only [List.length_append, encode32_length] at h3
  rw [h3]
  have h4 := SerializeTo.entries_writes m.index_meta_pages_ data
    (encode32 CATALOG_METADATA_MAGIC_NUM ++ encode32 m.table_meta_pages_.length ++
      encode32 m.index_meta_pages_.length ++ layout.entries m.table_meta_pages_)
  simp only [List.length_append, encode32_length, layout.entries_length] at h4
  simp only
  rw [h4]
  rfl

/-- Serializing into a buffer that holds the serialized catalog meta changes
nothing. -/
theorem SerializeTo_idem {m : CatalogMeta} {data data1 : List Nat}
    (h : m.SerializeTo data = some data1) : m.SerializeTo data1 = some data1 := by
  have hs : m.GetSerializedSize ≤ PAGE_SIZE := by
    by_contra hn
    unfold SerializeTo at h
    rw [if_neg hn] at h
    cases h
  rw [SerializeTo_eq m data hs] at h
  simp only [Option.some.injEq] at h
  subst h
  rw [SerializeTo_eq _ _ hs, memWrite_idem]

end CatalogMeta

namespace Map

theorem find_eq_none_of_not_mem {κ ν : Type} [BEq κ] [LawfulBEq κ] (m : List (κ × ν)) (k : κ)
    (h : k ∉ m.map Prod.fst) : find m k = none := by
  unfold find
  rw [Option.map_eq_none', List.find?_eq_none]
  intro e he hk
  apply h
  rw [List.mem_map]
  exact ⟨e, he, by simpa using hk⟩

theorem foldl_emplace {κ ν : Type} [BEq κ] [LawfulBEq κ] (l : List (κ × ν)) :
    ∀ acc : List (κ × ν), ((acc ++ l).map Prod.fst).Nodup →
      l.foldl (fun pages e => emplace pages e.1 e.2) acc = acc ++ l := by
  induction l with
  | nil => intro acc _; simp
  | cons e rest ih =>
    intro acc hn
    have hk : e.1 ∉ acc.map Prod.fst := by
      rw [List.map_append, List.map_cons] at hn
      have h1 := (List.nodup_append.1 hn).2.2
      intro hmem
      exact h1 hmem (List.mem_cons_self _ _)
    have he : emplace acc e.1 e.2 = acc ++ [e] := by
      unfold emplace
      rw [find_eq_none_of_not_mem acc e.1 hk]
      rfl
    rw [List.foldl_cons, he, ih (acc ++ [e]) (by simpa using hn)]
    simp

end Map

namespace CatalogMeta

theorem DeserializeFrom.entries_reads (l : List (Nat × Int)) :
    ∀ (pre post : List Nat) (acc : List (Nat × Int)),
      (∀ e ∈ l, e.1 < 4294967296 ∧ -2147483648 ≤ e.2 ∧ e.2 < 2147483648) →
      DeserializeFrom.entries (pre ++ layout.entries l ++ post) l.length pre.length acc =
        (l.foldl (fun pages e => Map.emplace pages e.1 e.2) acc, pre.length + 8 * l.length) := by
  induction l with
  | nil => intro pre post acc _; rfl
  | cons e rest ih =>
    intro pre post acc hr
    have he := hr e (List.mem_cons_self _ _)
    have hd : pre ++ layout.entries (e :: rest) ++ post =
        pre ++ encode32 e.1 ++ encode32 e.2 ++ layout.entries rest ++ post := by
      simp [layout.entries]
    have h1 : memRead (pre ++ layout.entries (e :: rest) ++ post) pre.length 4 =
        encode32 e.1 := by
      have := memRead_mid pre (encode32 (e.1 : Int))
        (encode32 e.2 ++ layout.entries rest ++ post)
      rw [encode32_length] at this
      rw [hd]
      simp only [List.append_assoc] at this ⊢
      exact this
    have h2 : memRead (pre ++ layout.entries (e :: rest) ++ post) (pre.length + 4) 4 =
        encode32 e.2 := by
      have := memRead_mid (pre ++ encode32 (e.1 : Int)) (encode32 e.2)
        (layout.entries rest ++ post)
      rw [encode32_length, List.length_append, encode32_length] at this
      rw [hd]
      simp only [List.append_assoc] at this ⊢
      exact this
    have h3 := ih (pre ++ encode32 e.1 ++ encode32 e.2) post
      (Map.emplace acc e.1 e.2) (fun x hx => hr x (List.mem_cons_of_mem _ hx))
    simp only [List.length_append, encode32_length] at h3
    simp only [List.length_cons, DeserializeFrom.entries, h1, h2,
      decodeU32_encode32 e.1 he.1, decode32_encode32 e.2 he.2.1 he.2.2, List.foldl_cons]
    rw [hd, h3]
    congr 1
    omega

end CatalogMeta

/-! ### The catalog meta page and the calls of the catalog -/

namespace BufferPoolManager

theorem pageAt_DeletePage_of_ne (b : BufferPoolManager) (pid q : Int) (h : q ≠ pid) :
    (b.DeletePage pid).pageAt q = b.pageAt q := by
  unfold DeletePage
  split
  · rfl
  · unfold pageAt
    simp only
    congr 1
    rw [List.find?_filter]
    congr 1
    funext e
    by_cases hq : e.1 = q
    · have he : ¬ e.1 = pid := fun h2 => h (hq.symm.trans h2)
      simp [hq, he]
      intro h3
      exact absurd h3 h
    · simp [hq]

end BufferPoolManager

namespace Catalog

namespace CatalogManager

/-- The catalog meta page before and after `FlushCatalogMetaPage`. -/
theorem FlushCatalogMetaPage_page {cm cm2 : CatalogManager}
    (h : cm.FlushCatalogMetaPage = some cm2) :
    ∃ data data1,
      cm.buffer_pool_manager_.pageAt CATALOG_META_PAGE_ID = some (Page.catalog_meta data) ∧
      cm.catalog_meta_.SerializeTo data = some data1 ∧
      cm2.buffer_pool_manager_.pageAt CATALOG_META_PAGE_ID = some (Page.catalog_meta data1) ∧
      cm2.catalog_meta_ = cm.catalog_meta_ := by
  unfold FlushCatalogMetaPage at h
  split at h
  · rename_i data b hf
    split at h
    · cases h
    · rename_i data1 hs
      simp only [Option.some.injEq] at h
      subst h
      refine ⟨data, data1, (BufferPoolManager.FetchPage_eq_some hf).1, hs, ?_, rfl⟩
      simp only
      rw [BufferPoolManager.pageAt_UnpinPage, BufferPoolManager.pageAt_put, if_pos rfl]
  · cases h

/-- After `FlushCatalogMetaPage` the catalog meta page holds the serialized
catalog meta. -/
theorem FlushCatalogMetaPage_current {cm cm2 : CatalogManager}
    (h : cm.FlushCatalogMetaPage = some cm2) : cm2.MetaPageCurrent = true := by
  obtain ⟨data, data1, _, hs, hp2, hm⟩ := FlushCatalogMetaPage_page h
  unfold MetaPageCurrent
  rw [hp2, hm]
  simp only [decide_eq_true_eq]
  exact CatalogMeta.SerializeTo_idem hs

theorem MetaPageCurrent_of_eq {cm cm1 : CatalogManager}
    (hb : cm1.buffer_pool_manager_.pageAt CATALOG_META_PAGE_ID =
      cm.buffer_pool_manager_.pageAt CATALOG_META_PAGE_ID)
    (hm : cm1.catalog_meta_ = cm.catalog_meta_) (h : cm.MetaPageCurrent = true) :
    cm1.MetaPageCurrent = true := by
  unfold MetaPageCurrent at h ⊢
  rw [hb, hm]
  exact h

end CatalogManager

end Catalog

namespace Map

theorem mem_of_find {κ ν : Type} [BEq κ] [LawfulBEq κ] {m : List (κ × ν)} {k : κ} {v : ν}
    (h : find m k = some v) : (k, v) ∈ m := by
  unfold find at h
  rw [Option.map_eq_some'] at h
  obtain ⟨e, he, hv⟩ := h
  have h1 := List.mem_of_find?_eq_some he
  have h2 := List.find?_some he
  have h3 : e.1 = k := by simpa using h2
  rw [← h3, ← hv]
  exact h1

theorem touch_of_isSome {κ ν : Type} [BEq κ] (m : List (κ × ν)) (k : κ) (d : ν)
    (h : (find m k).isSome = true) : touch m k d = m := by
  unfold touch
  rw [if_pos h]

end Map

namespace BPlusTree

/-- The method `Destroy` does not touch a page that is no tree page, such as the
catalog meta page. -/
theorem Destroy_pageAt (q : Int) (data : List Nat) :
    ∀ (fuel : Nat) (p : Int) (b b1 : BufferPoolManager),
      Destroy fuel p b = some b1 → b.pageAt q = some (Page.catalog_meta data) →
      b1.pageAt q = some (Page.catalog_meta data) := by
  intro fuel
  induction fuel with
  | zero => intro p b b1 h; cases h
  | succ fuel ih =>
    intro p b b1 h hq
    unfold Destroy at h
    split at h
    · rename_i lf b2 hf
      obtain ⟨hp, hb2⟩ := BufferPoolManager.FetchPage_eq_some hf
      have hne : q ≠ p := by
        intro e
        rw [e, hp] at hq
        cases hq
      simp only [Option.some.injEq] at h
      rw [← h, BufferPoolManager.pageAt_DeletePage_of_ne _ _ _ hne,
        BufferPoolManager.pageAt_UnpinPage, hb2, BufferPoolManager.pageAt_setPin, hq]
    · rename_i inter b2 hf
      obtain ⟨hp, hb2⟩ := BufferPoolManager.FetchPage_eq_some hf
      have hne : q ≠ p := by
        intro e
        rw [e, hp] at hq
        cases hq
      have hloop : ∀ (l : List Nat) (c c1 : BufferPoolManager),
          l.foldlM (fun acc i => Destroy fuel (inter.ValueAt i) acc) c = some c1 →
          c.pageAt q = some (Page.catalog_meta data) →
          c1.pageAt q = some (Page.catalog_meta data) := by
        intro l
        induction l with
        | nil =>
          intro c c1 hl hc
          simp only [List.foldlM_nil, pure, Option.some.injEq] at hl
          rw [← hl]
          exact hc
        | cons i rest ihl =>
          intro c c1 hl hc
          rw [List.foldlM_cons] at hl
          cases hd : Destroy fuel (inter.ValueAt i) c with
          | none => rw [hd] at hl; cases hl
          | some c2 =>
            rw [hd] at hl
            exact ihl c2 c1 hl (ih _ c c2 hd hc)
      split at h
      · cases h
      · rename_i b3 hfold
        simp only [Option.some.injEq] at h
        have h3 := hloop _ b2 b3 hfold (by rw [hb2, BufferPoolManager.pageAt_setPin, hq])
        rw [← h, BufferPoolManager.pageAt_DeletePage_of_ne _ _ _ hne,
          BufferPoolManager.pageAt_UnpinPage, h3]
    · cases h

end BPlusTree

namespace Catalog

namespace CatalogManager

theorem CreateTable_current {cm cm1 : CatalogManager} {table_name : String}
    {schema : List String} {table_info out : Option TableInfo} {code : dberr_t}
    (h : cm.CreateTable table_name schema table_info = some (code, cm1, out))
    (hc : cm.MetaPageCurrent = true) : cm1.MetaPageCurrent = true := by
  unfold CreateTable at h
  split at h
  · cases h
    exact hc
  · simp only at h
    split at h
    · cases h
    · rename_i cm2 hf
      cases h
      exact FlushCatalogMetaPage_current hf

theorem CreateIndex_current {cm cm1 : CatalogManager} {table_name index_name : String}
    {index_keys : List String} {index_info out : Option IndexInfo} {code : dberr_t}
    (h : cm.CreateIndex table_name index_name index_keys index_info = some (code, cm1, out))
    (hc : cm.MetaPageCurrent = true) : cm1.MetaPageCurrent = true := by
  unfold CreateIndex at h
  split at h
  · cases h
    exact hc
  · simp only at h
    split at h
    · cases h
      exact MetaPageCurrent_of_eq rfl rfl hc
    · split at h
      · cases h
      · split at h
        · cases h
        · split at h
          · cases h
            exact MetaPageCurrent_of_eq rfl rfl hc
          · split at h
            · cases h
            · split at h
              · cases h
              · rename_i cm3 hf
                cases h
                exact FlushCatalogMetaPage_current hf

theorem DropTable_current {cm cm1 : CatalogManager} {table_name : String} {code : dberr_t}
    (h : cm.DropTable table_name = some (code, cm1))
    (hc : cm.MetaPageCurrent = true) (hl : cm.Listed) : cm1.MetaPageCurrent = true := by
  unfold DropTable at h
  split at h
  · cases h
    exact hc
  · rename_i table_id ht
    split at h
    · cases h
    · rename_i root_page_id hr
      split at h
      · cases h
        exact hc
      · simp only at h
        have htouch := Map.touch_of_isSome cm.catalog_meta_.table_meta_pages_ table_id 0
          (hl.1 (table_name, table_id) (Map.mem_of_find ht))
        have hroot : CATALOG_META_PAGE_ID ≠ root_page_id := by
          cases hti : Map.find cm.tables_ table_id with
          | none => rw [hti] at hr; cases hr
          | some info =>
            rw [hti] at hr
            simp only [Option.some_bind] at hr
            intro e
            exact hl.2.2 (table_id, info) (Map.mem_of_find hti) (by rw [hr, e])
        split at h
        · cases h
          refine MetaPageCurrent_of_eq ?_ ?_ hc
          · exact BufferPoolManager.pageAt_DeletePage_of_ne _ _ _ hroot
          · simp only [htouch]
        · split at h
          · cases h
          · rename_i cm2 hf
            cases h
            exact FlushCatalogMetaPage_current hf

theorem DropIndex_current {cm cm1 : CatalogManager} {table_name index_name : String}
    {code : dberr_t} (h : cm.DropIndex table_name index_name = some (code, cm1))
    (hc : cm.MetaPageCurrent = true) (hl : cm.Listed) : cm1.MetaPageCurrent = true := by
  unfold DropIndex at h
  split at h
  · cases h
    exact hc
  · split at h
    · cases h
      exact hc
    · rename_i names hn
      split at h
      · cases h
        exact hc
      · rename_i index_id hi
        split at h
        · cases h
        · rename_i index hx
          split at h
          · cases h
          · rename_i b1 hd
            simp only at h
            have htouch := Map.touch_of_isSome cm.catalog_meta_.index_meta_pages_ index_id 0
              (hl.2.1 (table_name, names) (Map.mem_of_find hn) (index_name, index_id)
                (Map.mem_of_find hi))
            split at h
            · cases h
              refine MetaPageCurrent_of_eq ?_ ?_ hc
              · simp only
                unfold MetaPageCurrent at hc
                split at hc
                · rename_i data hp
                  rw [hp]
                  unfold BPlusTreeIndex.Destroy at hd
                  split at hd
                  · cases hd
                    exact hp
                  · exact BPlusTree.Destroy_pageAt _ data _ _ _ _ hd hp
                · cases hc
              · simp only [htouch]
            · split at h
              · cases h
              · rename_i cm2 hf
                cases h
                exact FlushCatalogMetaPage_current hf

end CatalogManager

end Catalog

/-- The catalog after a successful `DropIndex`: the maps without the index. -/
theorem Catalog.CatalogManager.DropIndex_success {cm cm1 : Catalog.CatalogManager}
    {table_name index_name : String}
    (h : cm.DropIndex table_name index_name = some (dberr_t.DB_SUCCESS, cm1)) :
    ∃ table_id names index_id,
      Map.find cm.table_names_ table_name = some table_id ∧
      Map.find cm.index_names_ table_name = some names ∧
      Map.find names index_name = some index_id ∧
      cm1.table_names_ = cm.table_names_ ∧
      cm1.index_names_ =
        (if names.length = 1 then Map.erase cm.index_names_ table_name
         else Map.assign cm.index_names_ table_name (Map.erase names index_name)) ∧
      cm1.indexes_ = Map.erase cm.indexes_ index_id ∧
      cm1.catalog_meta_.index_meta_pages_ =
        Map.erase (Map.touch cm.catalog_meta_.index_meta_pages_ index_id 0) index_id ∧
      cm1.catalog_meta_.table_meta_pages_ = cm.catalog_meta_.table_meta_pages_ := by
  unfold Catalog.CatalogManager.DropIndex at h
  split at h
  · cases h
  · rename_i table_id ht
    split at h
    · cases h
    · rename_i names hn
      split at h
      · cases h
      · rename_i index_id hi
        split at h
        · cases h
        · split at h
          · cases h
          · simp only at h
            split at h
            · cases h
            · split at h
              · cases h
              · rename_i cm2 hflush
                simp only [Option.some.injEq, Prod.mk.injEq, true_and] at h
                subst h
                have hf := (Catalog.CatalogManager.FlushCatalogMetaPage_fields hflush).1
                refine ⟨table_id, names, index_id, ht, hn, hi, ?_, ?_, ?_, ?_, ?_⟩ <;> rw [hf]

theorem Map.find_singleton_of_ne {ν : Type} (names : List (String × ν)) (k i : String) (v : ν)
    (hlen : names.length = 1) (hk : Map.find names k = some v) (hne : i ≠ k) :
    Map.find names i = none := by
  match names, hlen with
  | [e], _ =>
    unfold Map.find at hk ⊢
    by_cases he : e.1 = k
    · have : (e.1 == i) = false := by
        rw [he]
        simpa using fun h => hne h.symm
      simp [List.find?_cons, this]
    · have : (e.1 == k) = false := by simpa using he
      simp [List.find?_cons, this] at hk

/-! ## C21 to C24: the catalog meta page -/

/-- The call `DropIndex(table, index_name)` on a catalog in which no other index
has the id of the dropped one: it returns `DB_TABLE_NOT_EXIST` for a table that
is absent and `DB_INDEX_NOT_FOUND` for a table without an index of that name,
and the catalog is unchanged in both cases. After it has returned `DB_SUCCESS`,
`GetIndex(table, index_name)` returns `DB_INDEX_NOT_FOUND`, the catalog meta has
no entry for the id of the index, and `GetIndex` of every other pair of a table
and an index name returns what it returned before. -/
theorem Catalog.CatalogManager.DropIndex_of_distinct_ids (cm : Catalog.CatalogManager)
    (table_name index_name : String)
    (huniq : ∀ names index_id t names1 i,
      Map.find cm.index_names_ table_name = some names →
      Map.find names index_name = some index_id →
      Map.find cm.index_names_ t = some names1 → Map.find names1 i = some index_id →
      t = table_name ∧ i = index_name) :
    (Map.find cm.table_names_ table_name = none →
      cm.DropIndex table_name index_name = some (dberr_t.DB_TABLE_NOT_EXIST, cm)) ∧
    ((Map.find cm.table_names_ table_name).isSome = true →
      ((Map.find cm.index_names_ table_name).bind fun names => Map.find names index_name) =
        none →
      cm.DropIndex table_name index_name = some (dberr_t.DB_INDEX_NOT_FOUND, cm)) ∧
    ∀ cm1, cm.DropIndex table_name index_name = some (dberr_t.DB_SUCCESS, cm1) →
      (∀ info0, cm1.GetIndex table_name index_name info0 =
        (dberr_t.DB_INDEX_NOT_FOUND, info0)) ∧
      (∀ names index_id, Map.find cm.index_names_ table_name = some names →
        Map.find names index_name = some index_id →
        Map.find cm1.catalog_meta_.index_meta_pages_ index_id = none) ∧
      (∀ t i, (t ≠ table_name ∨ i ≠ index_name) → ∀ info0,
        cm1.GetIndex t i info0 = cm.GetIndex t i info0) := by
  refine ⟨?_, ?_, ?_⟩
  · intro h
    unfold Catalog.CatalogManager.DropIndex
    rw [h]
  · intro ht hidx
    unfold Catalog.CatalogManager.DropIndex
    obtain ⟨table_id, htid⟩ := Option.isSome_iff_exists.1 ht
    rw [htid]
    simp only
    cases hn : Map.find cm.index_names_ table_name with
    | none => rfl
    | some names =>
      rw [hn] at hidx
      simp only [Option.some_bind] at hidx
      simp only [hidx]
  · intro cm1 h
    obtain ⟨table_id, names, index_id, ht, hn, hi, h1, h2, h3, h4, _⟩ :=
      Catalog.CatalogManager.DropIndex_success h
    refine ⟨?_, ?_, ?_⟩
    · intro info0
      unfold Catalog.CatalogManager.GetIndex
      rw [h1, ht, h2]
      simp only
      by_cases hlen : names.length = 1
      · rw [if_pos hlen, Map.find_erase, if_pos rfl]
      · rw [if_neg hlen, Map.find_assign, if_pos rfl]
        simp only
        rw [Map.find_erase, if_pos rfl]
    · intro names2 index_id2 hn2 hi2
      rw [hn] at hn2
      cases hn2
      rw [hi] at hi2
      cases hi2
      rw [h4, Map.find_erase, if_pos rfl]
    · intro t i hne info0
      unfold Catalog.CatalogManager.GetIndex
      rw [h1]
      cases htt : Map.find cm.table_names_ t with
      | none => rfl
      | some tid =>
        simp only
        have hidx : ∀ names1 id1, Map.find cm.index_names_ t = some names1 →
            Map.find names1 i = some id1 →
            Map.find cm1.indexes_ id1 = Map.find cm.indexes_ id1 := by
          intro names1 id1 hn1 hi1
          have hid : id1 ≠ index_id := by
            intro e
            rw [e] at hi1
            have := huniq names index_id t names1 i hn hi hn1 hi1
            rcases hne with hne | hne
            · exact hne this.1
            · exact hne this.2
          rw [h3, Map.find_erase, if_neg hid]
        by_cases htn : t = table_name
        · subst htn
          have hi_ne : i ≠ index_name := by
            rcases hne with hne | hne
            · exact absurd rfl hne
            · exact hne
          rw [h2, hn]
          simp only
          by_cases hlen : names.length = 1
          · rw [if_pos hlen, Map.find_erase, if_pos rfl]
            simp only
            rw [Map.find_singleton_of_ne names index_name i index_id hlen hi hi_ne]
          · rw [if_neg hlen, Map.find_assign, if_pos rfl]
            simp only
            rw [Map.find_erase, if_neg hi_ne]
            cases hfi : Map.find names i with
            | none => rfl
            | some id1 =>
              simp only
              rw [hidx names id1 hn hfi]
        · have hsame : Map.find cm1.index_names_ t = Map.find cm.index_names_ t := by
            rw [h2]
            by_cases hlen : names.length = 1
            · rw [if_pos hlen, Map.find_erase, if_neg htn]
            · rw [if_neg hlen, Map.find_assign, if_neg htn]
          rw [hsame]
          cases hn1 : Map.find cm.index_names_ t with
          | none => rfl
          | some names1 =>
            simp only
            cases hfi : Map.find names1 i with
            | none => rfl
            | some id1 =>
              simp only
              rw [hidx names1 id1 hn1 hfi]

/-- On the catalog whose index `i` has a tree with the root leaf page 5,
`DropIndex("t", "i")` frees the leaf through `Destroy` and the index metadata
page 4: the pool keeps the pages 0 to 3. The index-roots page still records the
root 5 for the index id 0. -/
theorem DropIndex_frees_tree_pages :
    ((catalogTIKOpen.DropIndex "t" "i").map fun r =>
      (r.1, r.2.buffer_pool_manager_.pages_.map Prod.fst)) =
      some (dberr_t.DB_SUCCESS, [0, 1, 2, 3]) ∧
    ((catalogTIKOpen.DropIndex "t" "i").bind fun r =>
      r.2.buffer_pool_manager_.pageAt 0) = some (Page.index_roots ⟨[(0, 5)]⟩) := by
  decide!

/-- C22: when the catalog meta page holds the serialized catalog meta before a
call of `CreateTable`, `CreateIndex`, `DropTable` or `DropIndex`, it holds the
serialized catalog meta of the catalog after the call has returned, whatever
the result code. The catalog is taken with a catalog meta entry for every id
that its name maps list and with no table heap on page 1. -/
theorem C22_meta_page_is_current (cm cm1 : Catalog.CatalogManager) (call : Catalog.Call)
    (code : dberr_t) (hc : cm.MetaPageCurrent = true) (hl : cm.Listed)
    (h : call.apply cm = some (code, cm1)) : cm1.MetaPageCurrent = true := by
  cases call with
  | CreateTable table_name schema =>
    simp only [Catalog.Call.apply, Option.map_eq_some'] at h
    obtain ⟨r, hr, he⟩ := h
    cases he
    exact Catalog.CatalogManager.CreateTable_current hr hc
  | CreateIndex table_name index_name index_keys =>
    simp only [Catalog.Call.apply, Option.map_eq_some'] at h
    obtain ⟨r, hr, he⟩ := h
    cases he
    exact Catalog.CatalogManager.CreateIndex_current hr hc
  | DropTable table_name => exact Catalog.CatalogManager.DropTable_current h hc hl
  | DropIndex table_name index_name => exact Catalog.CatalogManager.DropIndex_current h hc hl

set_option maxRecDepth 100000 in
/-- C22 at the catalog with the tables `t` and `u`: page 1 holds the serialized
catalog meta before and after `DropIndex("t", "i")`, which succeeds. -/
theorem C22_meta_page_witness :
    catalogTU.MetaPageCurrent = true ∧ catalogTU.Listed ∧
    ∃ cm1, catalogTU.DropIndex "t" "i" = some (dberr_t.DB_SUCCESS, cm1) ∧
      cm1.MetaPageCurrent = true := by
  have hc : catalogTU.MetaPageCurrent = true := by decide!
  have hl : catalogTU.Listed := by
    unfold Catalog.CatalogManager.Listed
    decide!
  have hcode : (catalogTU.DropIndex "t" "i").map Prod.fst = some dberr_t.DB_SUCCESS := by
    decide!
  cases hd : catalogTU.DropIndex "t" "i" with
  | none => rw [hd] at hcode; cases hcode
  | some r =>
    rw [hd] at hcode
    obtain ⟨err, cm1⟩ := r
    have herr : err = dberr_t.DB_SUCCESS := by simpa using hcode
    subst herr
    exact ⟨hc, hl, cm1, rfl,
      C22_meta_page_is_current catalogTU cm1 (Catalog.Call.DropIndex "t" "i")
        dberr_t.DB_SUCCESS hc hl hd⟩

/-- C23: for every catalog meta `m` whose maps hold 32-bit ids and page ids, one
entry for a key, with `12 + 8 * (n_t + n_i) ≤ PAGE_SIZE`: `SerializeTo` writes
into any buffer, `DeserializeFrom` on the written buffer returns a catalog meta
with the two maps of `m`, the first `GetSerializedSize() = 12 + 8 * (n_t + n_i)`
bytes of the buffer are the magic number, `n_t`, `n_i` and the entries, and the
bytes behind them are those that the buffer held before. -/
theorem C23_DeserializeFrom_SerializeTo (m : CatalogMeta) (data : List Nat)
    (ht : CatalogMeta.WellTyped m.table_meta_pages_)
    (hi : CatalogMeta.WellTyped m.index_meta_pages_)
    (hfit : 12 + 8 * (m.table_meta_pages_.length + m.index_meta_pages_.length) ≤ PAGE_SIZE) :
    ∃ data1, m.SerializeTo data = some data1 ∧
      CatalogMeta.DeserializeFrom data1 = some m ∧
      m.GetSerializedSize =
        12 + 8 * (m.table_meta_pages_.length + m.index_meta_pages_.length) ∧
      memRead data1 0 m.GetSerializedSize =
        encode32 CATALOG_METADATA_MAGIC_NUM ++ encode32 m.table_meta_pages_.length ++
          encode32 m.index_meta_pages_.length ++
          CatalogMeta.layout.entries m.table_meta_pages_ ++
          CatalogMeta.layout.entries m.index_meta_pages_ ∧
      data1.drop m.GetSerializedSize = data.drop m.GetSerializedSize := by
  have hP : PAGE_SIZE = 4096 := rfl
  rw [hP] at hfit
  have hsz : m.GetSerializedSize =
      12 + 8 * (m.table_meta_pages_.length + m.index_meta_pages_.length) := by
    unfold CatalogMeta.GetSerializedSize
    exact Nat.mod_eq_of_lt (by omega)
  have hle : m.GetSerializedSize ≤ PAGE_SIZE := by rw [hsz, hP]; exact hfit
  have hll := CatalogMeta.layout_length m
  refine ⟨memWrite data 0 m.layout, CatalogMeta.SerializeTo_eq m data hle, ?_, hsz, ?_, ?_⟩
  · rw [memWrite_zero]
    generalize List.drop m.layout.length data = post
    have hmagic : decodeU32 (encode32 (CATALOG_METADATA_MAGIC_NUM : Nat)) =
        CATALOG_METADATA_MAGIC_NUM := decodeU32_encode32 _ (by decide)
    have h0 : memRead (m.layout ++ post) 0 4 = encode32 CATALOG_METADATA_MAGIC_NUM := by
      have := memRead_mid [] (encode32 (CATALOG_METADATA_MAGIC_NUM : Nat))
        (encode32 m.table_meta_pages_.length ++ encode32 m.index_meta_pages_.length ++
          CatalogMeta.layout.entries m.table_meta_pages_ ++
          CatalogMeta.layout.entries m.index_meta_pages_ ++ post)
      rw [encode32_length, List.length_nil] at this
      simp only [CatalogMeta.layout, List.append_assoc, List.nil_append] at this ⊢
      exact this
    have h4 : memRead (m.layout ++ post) 4 4 = encode32 m.table_meta_pages_.length := by
      have := memRead_mid (encode32 (CATALOG_METADATA_MAGIC_NUM : Nat))
        (encode32 m.table_meta_pages_.length)
        (encode32 m.index_meta_pages_.length ++
          CatalogMeta.layout.entries m.table_meta_pages_ ++
          CatalogMeta.layout.entries m.index_meta_pages_ ++ post)
      rw [encode32_length, encode32_length] at this
      simp only [CatalogMeta.layout, List.append_assoc] at this ⊢
      exact this
    have h8 : memRead (m.layout ++ post) 8 4 = encode32 m.index_meta_pages_.length := by
      have := memRead_mid (encode32 (CATALOG_METADATA_MAGIC_NUM : Nat) ++
          encode32 m.table_meta_pages_.length)
        (encode32 m.index_meta_pages_.length)
        (CatalogMeta.layout.entries m.table_meta_pages_ ++
          CatalogMeta.layout.entries m.index_meta_pages_ ++ post)
      rw [List.length_append, encode32_length, encode32_length, encode32_length] at this
      simp only [CatalogMeta.layout, List.append_assoc] at this ⊢
      exact this
    have ht1 := CatalogMeta.DeserializeFrom.entries_reads m.table_meta_pages_
      (encode32 (CATALOG_METADATA_MAGIC_NUM : Nat) ++ encode32 m.table_meta_pages_.length ++
        encode32 m.index_meta_pages_.length)
      (CatalogMeta.layout.entries m.index_meta_pages_ ++ post) [] ht.2
    have hi1 := CatalogMeta.DeserializeFrom.entries_reads m.index_meta_pages_
      (encode32 (CATALOG_METADATA_MAGIC_NUM : Nat) ++ encode32 m.table_meta_pages_.length ++
        encode32 m.index_meta_pages_.length ++ CatalogMeta.layout.entries m.table_meta_pages_)
      post [] hi.2
    rw [Map.foldl_emplace _ [] (by simpa using ht.1), List.nil_append] at ht1
    rw [Map.foldl_emplace _ [] (by simpa using hi.1), List.nil_append] at hi1
    simp only [List.length_append, encode32_length, CatalogMeta.layout.entries_length] at ht1 hi1
    have hd1 : m.layout ++ post =
        encode32 (CATALOG_METADATA_MAGIC_NUM : Nat) ++ encode32 m.table_meta_pages_.length ++
          encode32 m.index_meta_pages_.length ++
          CatalogMeta.layout.entries m.table_meta_pages_ ++
          (CatalogMeta.layout.entries m.index_meta_pages_ ++ post) := by
      simp only [CatalogMeta.layout, List.append_assoc]
    have hd2 : m.layout ++ post =
        encode32 (CATALOG_METADATA_MAGIC_NUM : Nat) ++ encode32 m.table_meta_pages_.length ++
          encode32 m.index_meta_pages_.length ++
          CatalogMeta.layout.entries m.table_meta_pages_ ++
          CatalogMeta.layout.entries m.index_meta_pages_ ++ post := by
      simp only [CatalogMeta.layout, List.append_assoc]
    rw [← hd1] at ht1
    rw [← hd2] at hi1
    unfold CatalogMeta.DeserializeFrom
    simp only [h0, h4, h8, hmagic, if_true,
      decodeU32_encode32 m.table_meta_pages_.length (by omega),
      decodeU32_encode32 m.index_meta_pages_.length (by omega)]
    have e1 : (4 + 4 + 4 : Nat) = 12 := rfl
    rw [e1] at ht1 hi1
    rw [ht1]
    simp only
    rw [hi1]
  · rw [memWrite_zero, hsz, ← hll]
    have := memRead_mid [] m.layout (List.drop m.layout.length data)
    simp only [List.nil_append, List.length_nil] at this
    rw [this]
    rfl
  · rw [memWrite_zero, hsz, ← hll, List.drop_left]

/-- C23 on the catalog meta with the table entries (0, 3), (1, 5) and the index
entry (0, 4), serialized into a buffer of 64 zero bytes: 36 bytes are written. -/
theorem C23_DeserializeFrom_SerializeTo_witness :
    CatalogMeta.WellTyped [(0, 3), (1, 5)] ∧ CatalogMeta.WellTyped [(0, 4)] ∧
    ∃ data1,
      CatalogMeta.SerializeTo ⟨[(0, 3), (1, 5)], [(0, 4)]⟩ (List.replicate 64 0) = some data1 ∧
      CatalogMeta.DeserializeFrom data1 = some ⟨[(0, 3), (1, 5)], [(0, 4)]⟩ ∧
      CatalogMeta.GetSerializedSize ⟨[(0, 3), (1, 5)], [(0, 4)]⟩ = 36 ∧
      data1.drop 36 = List.replicate 28 0 :=
  ⟨⟨by decide, by decide⟩, ⟨by decide, by decide⟩,
    (C23_DeserializeFrom_SerializeTo ⟨[(0, 3), (1, 5)], [(0, 4)]⟩ (List.replicate 64 0)
      ⟨by decide, by decide⟩ ⟨by decide, by decide⟩ (by decide)).imp
      fun _ hd => ⟨hd.1, hd.2.1, hd.2.2.1, hd.2.2.2.2⟩⟩

/-- C24: serializing the catalog meta into a buffer that holds its serialized
bytes leaves the buffer as it is, and so a second `FlushCatalogMetaPage` right
after a first one succeeds and leaves page 1 with the content that the first
call has written; neither call changes the catalog meta. -/
theorem C24_flush_twice_same_page (cm cm1 : Catalog.CatalogManager)
    (h : cm.FlushCatalogMetaPage = some cm1) :
    (∀ data data1, cm.catalog_meta_.SerializeTo data = some data1 →
      cm.catalog_meta_.SerializeTo data1 = some data1) ∧
    cm1.catalog_meta_ = cm.catalog_meta_ ∧
    ∃ cm2, cm1.FlushCatalogMetaPage = some cm2 ∧
      cm2.buffer_pool_manager_.pageAt CATALOG_META_PAGE_ID =
        cm1.buffer_pool_manager_.pageAt CATALOG_META_PAGE_ID ∧
      cm2.catalog_meta_ = cm.catalog_meta_ := by
  obtain ⟨data, data1, _, hs, hp1, hm⟩ := Catalog.CatalogManager.FlushCatalogMetaPage_page h
  refine ⟨fun _ _ h1 => CatalogMeta.SerializeTo_idem h1, hm, ?_⟩
  have hs1 : cm1.catalog_meta_.SerializeTo data1 = some data1 := by
    rw [hm]
    exact CatalogMeta.SerializeTo_idem hs
  have hf : ∃ cm2, cm1.FlushCatalogMetaPage = some cm2 ∧
      cm2.buffer_pool_manager_ =
        ((cm1.buffer_pool_manager_.setPin CATALOG_META_PAGE_ID
          (cm1.buffer_pool_manager_.pinCount CATALOG_META_PAGE_ID + 1)).put
            CATALOG_META_PAGE_ID (Page.catalog_meta data1)).UnpinPage CATALOG_META_PAGE_ID ∧
      cm2.catalog_meta_ = cm1.catalog_meta_ := by
    unfold Catalog.CatalogManager.FlushCatalogMetaPage
    rw [BufferPoolManager.FetchPage_of_pageAt hp1]
    simp only [hs1]
    exact ⟨_, rfl, rfl, rfl⟩
  obtain ⟨cm2, h2, hb2, hm2⟩ := hf
  refine ⟨cm2, h2, ?_, hm2.trans hm⟩
  rw [hb2, BufferPoolManager.pageAt_UnpinPage, BufferPoolManager.pageAt_put, if_pos rfl, hp1]

/-- C24 on the catalog of a new database: the first flush succeeds, and the
second one leaves page 1 as the first one has written it. -/
theorem C24_flush_twice_witness :
    ∃ cm1, emptyCatalog.FlushCatalogMetaPage = some cm1 ∧
      ∃ cm2, cm1.FlushCatalogMetaPage = some cm2 ∧
        cm2.buffer_pool_manager_.pageAt CATALOG_META_PAGE_ID =
          cm1.buffer_pool_manager_.pageAt CATALOG_META_PAGE_ID ∧
        cm2.catalog_meta_ = emptyCatalog.catalog_meta_ :=
  (Catalog.CatalogManager.FlushCatalogMetaPage_some emptyCatalog (List.replicate PAGE_SIZE 0)
    rfl (by decide)).imp
    fun cm1 h1 => ⟨h1, (C24_flush_twice_same_page emptyCatalog cm1 h1).2.2⟩

/-! ### Pairs copied between internal pages -/

theorem copy_read_old (rdata bytes : List Nat) (m ps i o len : Nat) (hi : i < m)
    (ho : o + len ≤ ps) :
    memRead (memWrite rdata (m * ps) bytes) (i * ps + o) len = memRead rdata (i * ps + o) len := by
  apply memRead_memWrite_before
  have h1 := Nat.mul_le_mul_right ps (Nat.succ_le_of_lt hi)
  rw [Nat.succ_mul] at h1
  omega

theorem copy_read_new (rdata dd : List Nat) (m n ps j o len : Nat) (hj : j < n)
    (ho : o + len ≤ ps) :
    memRead (memWrite rdata (m * ps) (memRead dd 0 (n * ps))) ((m + j) * ps + o) len =
      memRead dd (j * ps + o) len := by
  have h1 := Nat.mul_le_mul_right ps (Nat.succ_le_of_lt hj)
  rw [Nat.succ_mul] at h1
  have e : (m + j) * ps + o = m * ps + (j * ps + o) := by
    rw [Nat.add_mul]
    omega
  rw [e, memRead_memWrite_inside _ _ _ _ _ (by rw [memRead_length]; omega),
    memRead_memRead _ _ _ _ _ (by omega), Nat.zero_add]

namespace BufferPoolManager

theorem internalAt_put (b : BufferPoolManager) (pid : Int) (p : InternalPage) (q : Int) :
    (b.put pid (Page.internal p)).internalAt q = if q = pid then some p else b.internalAt q := by
  unfold internalAt
  rw [pageAt_put]
  by_cases h : q = pid
  · rw [if_pos h, if_pos h]
  · rw [if_neg h, if_neg h]

theorem internalAt_of_pageAt {b c : BufferPoolManager} {q : Int} (h : c.pageAt q = b.pageAt q) :
    c.internalAt q = b.internalAt q := by
  unfold internalAt
  rw [h]

theorem GetParentPageId_of_pageAt {b c : BufferPoolManager} {q : Int}
    (h : c.pageAt q = b.pageAt q) : c.GetParentPageId q = b.GetParentPageId q := by
  unfold GetParentPageId
  rw [h]

theorem GetParentPageId_put_internal (b : BufferPoolManager) (pid : Int) (p : InternalPage)
    (q : Int) (h : q ≠ pid) :
    (b.put pid (Page.internal p)).GetParentPageId q = b.GetParentPageId q :=
  GetParentPageId_of_pageAt (by rw [pageAt_put, if_neg h])

/-- One round of the loop of `CopyNFrom`: the tree page `c` is fetched, gets the
parent `par` and is unpinned; no other page changes. -/
theorem adopt_spec (b : BufferPoolManager) (c par : Int)
    (h : (b.GetParentPageId c).isSome = true) :
    ∃ pg b1 b2, b.FetchPage c = some (pg, b1) ∧ b1.SetParentPageId c par = some b2 ∧
      (b2.UnpinPage c).GetParentPageId c = some par ∧
      (∀ q, q ≠ c → (b2.UnpinPage c).pageAt q = b.pageAt q) ∧
      (∀ q, (b.GetParentPageId q).isSome = true →
        ((b2.UnpinPage c).GetParentPageId q).isSome = true) := by
  have key : ∀ (pg pg2 : Page) (b2 : BufferPoolManager),
      b.pageAt c = some pg →
      b2 = (b.setPin c (b.pinCount c + 1)).put c pg2 →
      (b.setPin c (b.pinCount c + 1)).SetParentPageId c par = some b2 →
      (∀ b3 : BufferPoolManager, b3.pageAt c = some pg2 → b3.GetParentPageId c = some par) →
      ∃ pg b1 b2, b.FetchPage c = some (pg, b1) ∧ b1.SetParentPageId c par = some b2 ∧
        (b2.UnpinPage c).GetParentPageId c = some par ∧
        (∀ q, q ≠ c → (b2.UnpinPage c).pageAt q = b.pageAt q) ∧
        (∀ q, (b.GetParentPageId q).isSome = true →
          ((b2.UnpinPage c).GetParentPageId q).isSome = true) := by
    intro pg pg2 b2 hp hb2 hset hpar
    have hq : ∀ q, q ≠ c → (b2.UnpinPage c).pageAt q = b.pageAt q := by
      intro q hq
      rw [pageAt_UnpinPage, hb2, pageAt_put, if_neg hq, pageAt_setPin]
    have hc : (b2.UnpinPage c).GetParentPageId c = some par :=
      hpar _ (by rw [pageAt_UnpinPage, hb2, pageAt_put, if_pos rfl])
    refine ⟨pg, _, b2, FetchPage_of_pageAt hp, hset, hc, hq, ?_⟩
    intro q hs
    by_cases hqc : q = c
    · rw [hqc, hc]
      rfl
    · rw [GetParentPageId_of_pageAt (hq q hqc)]
      exact hs
  unfold GetParentPageId at h
  cases hp : b.pageAt c with
  | none => rw [hp] at h; cases h
  | some pg =>
    cases pg with
    | leaf p =>
      refine key _ (Page.leaf { p with parent_page_id_ := par }) _ hp rfl ?_ ?_
      · unfold SetParentPageId
        rw [pageAt_setPin, hp]
      · intro b3 h3
        unfold GetParentPageId
        rw [h3]
    | internal p =>
      refine key _ (Page.internal { p with parent_page_id_ := par }) _ hp rfl ?_ ?_
      · unfold SetParentPageId
        rw [pageAt_setPin, hp]
      · intro b3 h3
        unfold GetParentPageId
        rw [h3]
    | index_roots r => rw [hp] at h; cases h
    | catalog_meta d => rw [hp] at h; cases h
    | table_meta m => rw [hp] at h; cases h
    | index_meta m => rw [hp] at h; cases h
    | table_page => rw [hp] at h; cases h

end BufferPoolManager

namespace InternalPage

/-- The loop of `CopyNFrom` on a page `self` whose pairs from `i` on name tree
pages other than `self`: it returns, the page `self` is as before, each of these
children has the page id of `self` as its parent, and no other page changes. -/
theorem CopyNFrom.loop_spec (self : Int) (r1 : InternalPage) :
    ∀ (n i : Nat) (b : BufferPoolManager),
      b.internalAt self = some r1 →
      (∀ j, j < n → (b.GetParentPageId (r1.ValueAt (i + j))).isSome = true ∧
        r1.ValueAt (i + j) ≠ self) →
      ∃ b1, CopyNFrom.loop self n i b = some b1 ∧ b1.internalAt self = some r1 ∧
        (∀ q, (∀ j, j < n → q ≠ r1.ValueAt (i + j)) → b1.pageAt q = b.pageAt q) ∧
        (∀ j, j < n → b1.GetParentPageId (r1.ValueAt (i + j)) = some r1.page_id_) ∧
        (∀ q, (b.GetParentPageId q).isSome = true → (b1.GetParentPageId q).isSome = true) := by
  intro n
  induction n with
  | zero =>
    intro i b hs _
    exact ⟨b, rfl, hs, fun _ _ => rfl, fun j hj => absurd hj (Nat.not_lt_zero j),
      fun _ h => h⟩
  | succ n ih =>
    intro i b hs hch
    have h0 := hch 0 (Nat.succ_pos n)
    rw [Nat.add_zero] at h0
    obtain ⟨pg, b1, b2, hf, hset, hpar, hother, hkeep⟩ :=
      BufferPoolManager.adopt_spec b (r1.ValueAt i) r1.page_id_ h0.1
    have hs2 : (b2.UnpinPage (r1.ValueAt i)).internalAt self = some r1 := by
      rw [BufferPoolManager.internalAt_of_pageAt (hother self (fun e => h0.2 e.symm)), hs]
    have hch2 : ∀ j, j < n →
        ((b2.UnpinPage (r1.ValueAt i)).GetParentPageId (r1.ValueAt (i + 1 + j))).isSome = true ∧
          r1.ValueAt (i + 1 + j) ≠ self := by
      intro j hj
      have := hch (j + 1) (Nat.succ_lt_succ hj)
      have e : i + (j + 1) = i + 1 + j := by omega
      rw [e] at this
      exact ⟨hkeep _ this.1, this.2⟩
    obtain ⟨b3, hl, hs3, hother3, hpar3, hkeep3⟩ :=
      ih (i + 1) (b2.UnpinPage (r1.ValueAt i)) hs2 hch2
    refine ⟨b3, ?_, hs3, ?_, ?_, fun q h => hkeep3 q (hkeep q h)⟩
    · simp only [CopyNFrom.loop, hs, hf, hset, Option.bind_eq_bind, Option.some_bind, bind]
      exact hl
    · intro q hq
      have hq0 := hq 0 (Nat.succ_pos n)
      rw [Nat.add_zero] at hq0
      rw [hother3 q (fun j hj => by
        have := hq (j + 1) (Nat.succ_lt_succ hj)
        have e : i + (j + 1) = i + 1 + j := by omega
        rw [e] at this
        exact this), hother q hq0]
    · intro j hj
      cases j with
      | zero =>
        rw [Nat.add_zero]
        by_cases hex : ∃ k, k < n ∧ r1.ValueAt i = r1.ValueAt (i + 1 + k)
        · obtain ⟨k, hk, hek⟩ := hex
          rw [hek]
          exact hpar3 k hk
        · rw [BufferPoolManager.GetParentPageId_of_pageAt
            (hother3 _ (fun k hk e => hex ⟨k, hk, e⟩)), hpar]
      | succ j =>
        have e : i + (j + 1) = i + 1 + j := by omega
        rw [e]
        exact hpar3 j (Nat.lt_of_succ_lt_succ hj)

end InternalPage

namespace InternalPage

/-- The call `CopyNFrom` when the copied pairs name tree pages other than the
two pages involved: it returns, the page has the copied bytes behind its former
pairs and the larger size, the source page is as before, and the children named
by the copied pairs have the page as their parent. -/
theorem CopyNFrom_spec (b : BufferPoolManager) (self src_page : Int) (src_off size : Nat)
    (R S r1 : InternalPage) (hR : b.internalAt self = some R)
    (hS : b.internalAt src_page = some S) (hne : src_page ≠ self)
    (hr1 : r1 = ⟨R.page_id_, R.parent_page_id_, R.size_, R.max_size_, R.key_size_,
      memWrite R.data_ (R.size_ * R.pair_size)
        (memRead S.data_ src_off (size * R.pair_size))⟩)
    (hch : ∀ j, j < size → (b.GetParentPageId (r1.ValueAt (R.size_ + j))).isSome = true ∧
      r1.ValueAt (R.size_ + j) ≠ self ∧ r1.ValueAt (R.size_ + j) ≠ src_page) :
    ∃ b1, CopyNFrom b self src_page src_off size = some b1 ∧
      b1.internalAt self = some { r1 with size_ := R.size_ + size } ∧
      b1.internalAt src_page = some S ∧
      (∀ j, j < size → b1.GetParentPageId (r1.ValueAt (R.size_ + j)) = some R.page_id_) ∧
      (∀ q, (b.GetParentPageId q).isSome = true → (b1.GetParentPageId q).isSome = true) := by
  have hput : (b.put self (Page.internal r1)).internalAt self = some r1 := by
    rw [BufferPoolManager.internalAt_put, if_pos rfl]
  have hkeep0 : ∀ q, (b.GetParentPageId q).isSome = true →
      ((b.put self (Page.internal r1)).GetParentPageId q).isSome = true := by
    intro q hq
    by_cases hqs : q = self
    · subst hqs
      unfold BufferPoolManager.GetParentPageId
      rw [BufferPoolManager.pageAt_put, if_pos rfl]
      rfl
    · rw [BufferPoolManager.GetParentPageId_put_internal _ _ _ _ hqs]
      exact hq
  obtain ⟨b2, hl, hs2, hother, hpar, hkeep⟩ :=
    CopyNFrom.loop_spec self r1 size R.size_ (b.put self (Page.internal r1)) hput
      (fun j hj => ⟨hkeep0 _ (hch j hj).1, (hch j hj).2.1⟩)
  have hsize : r1.size_ = R.size_ := by rw [hr1]
  have hpid : r1.page_id_ = R.page_id_ := by rw [hr1]
  refine ⟨b2.put self (Page.internal { r1 with size_ := R.size_ + size }), ?_, ?_, ?_, ?_, ?_⟩
  · unfold CopyNFrom
    simp only [hR, hS, Option.bind_eq_bind, Option.some_bind, bind, GetSize]
    rw [← hr1]
    simp only [hl, hs2, Option.some_bind, hsize]
  · rw [BufferPoolManager.internalAt_put, if_pos rfl]
  · rw [BufferPoolManager.internalAt_put, if_neg hne,
      BufferPoolManager.internalAt_of_pageAt (hother src_page
        (fun j hj e => (hch j hj).2.2 e.symm)),
      BufferPoolManager.internalAt_put, if_neg hne, hS]
  · intro j hj
    rw [BufferPoolManager.GetParentPageId_put_internal _ _ _ _ (hch j hj).2.1, hpar j hj, hpid]
  · intro q hq
    by_cases hqs : q = self
    · subst hqs
      unfold BufferPoolManager.GetParentPageId
      rw [BufferPoolManager.pageAt_put, if_pos rfl]
      rfl
    · rw [BufferPoolManager.GetParentPageId_put_internal _ _ _ _ hqs]
      exact hkeep q (hkeep0 q hq)

end InternalPage

/-! ## C25 to C30: moves between internal pages, the root and the ancestors -/

/-- C25: `MoveHalfTo` on an internal page with `max_size = 16` and 17 pairs (4-byte
keys) and an empty recipient: the recipient receives the nine pairs 1 to 9 of
the page and not the pairs 8 to 16, the page keeps the pairs 0 to 7, and the
children 11 to 19 are adopted by the recipient while the children 20 to 26 of
the upper half keep the page as their parent and are listed by no page. -/
theorem C25_MoveHalfTo_moves_pairs_1_to_9 :
    ((InternalPage.MoveHalfTo (poolOf [fullPage, InternalPage.Init 3 (-1) 4 16]) 2 3).bind
      fun b => pairsAt b 3) =
      some (9, [(110, 11), (120, 12), (130, 13), (140, 14), (150, 15), (160, 16), (170, 17),
                (180, 18), (190, 19)]) ∧
    ((InternalPage.MoveHalfTo (poolOf [fullPage, InternalPage.Init 3 (-1) 4 16]) 2 3).bind
      fun b => pairsAt b 2) =
      some (8, [(0, 10), (110, 11), (120, 12), (130, 13), (140, 14), (150, 15), (160, 16),
                (170, 17)]) ∧
    ((InternalPage.MoveHalfTo (poolOf [fullPage, InternalPage.Init 3 (-1) 4 16]) 2 3).map
      fun b => parentsAt b [11, 19, 20, 26]) = some [some 3, some 3, some 2, some 2] := by
  decide

/-- C26: `MoveFirstToEndOf` on an internal donor with three pairs and a recipient
with two pairs moves all three pairs: the donor is left with size 0 and the
recipient with size 5, and all three children of the donor are adopted by the
recipient. -/
theorem C26_MoveFirstToEndOf_moves_all_pairs :
    ((InternalPage.MoveFirstToEndOf (poolOf [recipientLeft, donorRight]) 3 2 (numKey 20)).bind
      fun b => pairsAt b 3) = some (0, []) ∧
    ((InternalPage.MoveFirstToEndOf (poolOf [recipientLeft, donorRight]) 3 2 (numKey 20)).bind
      fun b => pairsAt b 2) = some (5, [(0, 10), (10, 11), (20, 20), (30, 21), (40, 22)]) ∧
    ((InternalPage.MoveFirstToEndOf (poolOf [recipientLeft, donorRight]) 3 2 (numKey 20)).map
      fun b => parentsAt b [20, 21, 22]) = some [some 2, some 2, some 2] := by
  decide

/-- C27: `MoveLastToFrontOf` on an internal donor with three pairs and a recipient
with two pairs appends the last pair of the donor at the end of the recipient:
the child 0 of the recipient is still its former child 0, now under the key
`middle_key`, its former pair 1 is still pair 1, and the moved pair (20, 12) is
pair 2. -/
theorem C27_MoveLastToFrontOf_appends_at_end :
    ((InternalPage.MoveLastToFrontOf (poolOf [donorLeft, recipientRight]) 2 3 (numKey 30)).bind
      fun b => pairsAt b 2) = some (2, [(0, 10), (10, 11)]) ∧
    ((InternalPage.MoveLastToFrontOf (poolOf [donorLeft, recipientRight]) 2 3 (numKey 30)).bind
      fun b => pairsAt b 3) = some (3, [(30, 20), (40, 21), (20, 12)]) ∧
    ((InternalPage.MoveLastToFrontOf (poolOf [donorLeft, recipientRight]) 2 3 (numKey 30)).map
      fun b => parentsAt b [12]) = some [some 3] := by
  decide

/-- C28: `MoveAllTo(recipient, middle_key)` on an internal donor page, for two
distinct internal pages of the same key size with
`donor.size + recipient.size ≤ max_size`, when the children of the donor are
tree pages other than the two pages: the call returns, the donor has size 0,
the recipient has its former pairs, then the pair of `middle_key` and the
former child 0 of the donor, then the former pairs 1 to size - 1 of the donor in
order, and each moved child has the page id of the recipient as its parent. -/
theorem C28_MoveAllTo_appends_donor (b : BufferPoolManager) (donor recipient : Int)
    (middle_key : List Nat) (D R : InternalPage)
    (hD : b.internalAt donor = some D) (hR : b.internalAt recipient = some R)
    (hne : donor ≠ recipient) (hks : D.key_size_ = R.key_size_)
    (_hfit : D.size_ + R.size_ ≤ R.max_size_)
    (hch : ∀ j, j < D.size_ → (b.GetParentPageId (D.ValueAt j)).isSome = true ∧
      D.ValueAt j ≠ donor ∧ D.ValueAt j ≠ recipient) :
    ∃ b1 D1 R1, InternalPage.MoveAllTo b donor recipient middle_key = some b1 ∧
      b1.internalAt donor = some D1 ∧ b1.internalAt recipient = some R1 ∧
      D1.size_ = 0 ∧ R1.size_ = R.size_ + D.size_ ∧
      (∀ i, i < R.size_ → R1.KeyAt i = R.KeyAt i ∧ R1.ValueAt i = R.ValueAt i) ∧
      (0 < D.size_ → R1.KeyAt R.size_ = memRead middle_key 0 R.key_size_ ∧
        R1.ValueAt R.size_ = D.ValueAt 0) ∧
      (∀ j, 0 < j → j < D.size_ →
        R1.KeyAt (R.size_ + j) = D.KeyAt j ∧ R1.ValueAt (R.size_ + j) = D.ValueAt j) ∧
      (∀ j, j < D.size_ → b1.GetParentPageId (D.ValueAt j) = some R.page_id_) := by
  obtain ⟨did, dpar, n, dmax, dks, dd⟩ := D
  obtain ⟨rid, rpar, m, rmax, ks, rd⟩ := R
  simp only at hks
  subst hks
  simp only [InternalPage.KeyAt, InternalPage.ValueAt, InternalPage.pair_size] at hch ⊢
  -- the bytes of the donor after `SetKeyAt(0, middle_key)`
  obtain ⟨dd1, hdd1⟩ : ∃ x, x = memWrite dd (0 * (dks + 4)) (memRead middle_key 0 dks) :=
    ⟨_, rfl⟩
  have hkb : (memRead middle_key 0 dks).length = dks := memRead_length _ _ _
  have hdd_after : ∀ x len, dks ≤ x → memRead dd1 x len = memRead dd x len := by
    intro x len hx
    rw [hdd1]
    apply memRead_memWrite_after
    rw [hkb]
    omega
  have hdd_key : memRead dd1 0 dks = memRead middle_key 0 dks := by
    have h := memRead_memWrite_inside dd (memRead middle_key 0 dks) (0 * (dks + 4)) 0 dks
      (by rw [hkb]; omega)
    rw [Nat.zero_mul, Nat.add_zero] at h
    rw [hdd1, Nat.zero_mul, h]
    have h2 := memRead_self (memRead middle_key 0 dks)
    rw [hkb] at h2
    exact h2
  -- the bytes of the recipient after the copy
  obtain ⟨rd1, hrd1⟩ : ∃ x, x = memWrite rd (m * (dks + 4)) (memRead dd1 0 (n * (dks + 4))) :=
    ⟨_, rfl⟩
  have hold : ∀ i o len, i < m → o + len ≤ dks + 4 →
      memRead rd1 (i * (dks + 4) + o) len = memRead rd (i * (dks + 4) + o) len := by
    intro i o len hi ho
    rw [hrd1]
    exact copy_read_old rd _ m (dks + 4) i o len hi ho
  have hnew : ∀ j o len, j < n → o + len ≤ dks + 4 →
      memRead rd1 ((m + j) * (dks + 4) + o) len = memRead dd1 (j * (dks + 4) + o) len := by
    intro j o len hj ho
    rw [hrd1]
    exact copy_read_new rd dd1 m n (dks + 4) j o len hj ho
  have hval : ∀ j, j < n →
      decode32 (memRead rd1 ((m + j) * (dks + 4) + dks) 4) =
        decode32 (memRead dd (j * (dks + 4) + dks) 4) := by
    intro j hj
    rw [hnew j dks 4 hj (by omega), hdd_after _ _ (by omega)]
  have hSet : InternalPage.SetKeyAt ⟨did, dpar, n, dmax, dks, dd⟩ 0 middle_key =
      ⟨did, dpar, n, dmax, dks, dd1⟩ := by
    rw [hdd1]
    rfl
  have hb1R : (b.put donor (Page.internal ⟨did, dpar, n, dmax, dks, dd1⟩)).internalAt recipient =
      some ⟨rid, rpar, m, rmax, dks, rd⟩ := by
    rw [BufferPoolManager.internalAt_put, if_neg (fun e => hne e.symm), hR]
  have hb1D : (b.put donor (Page.internal ⟨did, dpar, n, dmax, dks, dd1⟩)).internalAt donor =
      some ⟨did, dpar, n, dmax, dks, dd1⟩ := by
    rw [BufferPoolManager.internalAt_put, if_pos rfl]
  obtain ⟨b2, hcopy, h2R, h2D, h2par, _⟩ :=
    InternalPage.CopyNFrom_spec (b.put donor (Page.internal ⟨did, dpar, n, dmax, dks, dd1⟩))
      recipient donor 0 n ⟨rid, rpar, m, rmax, dks, rd⟩ ⟨did, dpar, n, dmax, dks, dd1⟩
      ⟨rid, rpar, m, rmax, dks, rd1⟩ hb1R hb1D hne
      (by rw [hrd1]; rfl)
      (fun j hj => by
        simp only [InternalPage.ValueAt, InternalPage.pair_size]
        rw [hval j hj]
        refine ⟨?_, (hch j hj).2.2, (hch j hj).2.1⟩
        rw [BufferPoolManager.GetParentPageId_put_internal _ _ _ _ (hch j hj).2.1]
        exact (hch j hj).1)
  simp only [InternalPage.ValueAt, InternalPage.pair_size] at h2par
  refine ⟨b2.put donor (Page.internal ⟨did, dpar, 0, dmax, dks, dd1⟩),
    ⟨did, dpar, 0, dmax, dks, dd1⟩, ⟨rid, rpar, m + n, rmax, dks, rd1⟩, ?_, ?_, ?_, rfl, rfl,
    ?_, ?_, ?_, ?_⟩
  · unfold InternalPage.MoveAllTo
    simp only [hD, Option.bind_eq_bind, Option.some_bind, bind, InternalPage.GetSize, hSet,
      hcopy, h2D]
  · rw [BufferPoolManager.internalAt_put, if_pos rfl]
  · rw [BufferPoolManager.internalAt_put, if_neg (fun e => hne e.symm), h2R]
  · intro i hi
    have h1 := hold i 0 dks hi (by omega)
    simp only [Nat.add_zero] at h1
    exact ⟨h1, congrArg decode32 (hold i dks 4 hi (by omega))⟩
  · intro hpos
    have h1 := hnew 0 0 dks hpos (by omega)
    simp only [Nat.add_zero, Nat.zero_mul] at h1
    have h2 := hval 0 hpos
    simp only [Nat.add_zero] at h2
    exact ⟨h1.trans hdd_key, h2⟩
  · intro j hj0 hj
    have h1 := hnew j 0 dks hj (by omega)
    simp only [Nat.add_zero] at h1
    have hge : dks ≤ j * (dks + 4) := by
      have := Nat.mul_le_mul_right (dks + 4) (Nat.succ_le_of_lt hj0)
      rw [Nat.one_mul] at this
      omega
    exact ⟨h1.trans (hdd_after _ _ hge), hval j hj⟩
  · intro j hj
    rw [BufferPoolManager.GetParentPageId_put_internal _ _ _ _ (hch j hj).2.1]
    have := h2par j hj
    rw [hval j hj] at this
    exact this

/-- C28 on the donor page 3 with the pairs (_, 20), (30, 21) and the recipient
page 2 with the pairs (_, 10), (10, 11), with `middle_key` 20: the recipient
then holds (_, 10), (10, 11), (20, 20), (30, 21), and the leaves 20 and 21 have
the parent 2. -/
theorem C28_MoveAllTo_witness :
    ∃ b1 D1 R1,
      InternalPage.MoveAllTo (poolOf [recipientLeft, donorSmall]) 3 2 (numKey 20) = some b1 ∧
      b1.internalAt 3 = some D1 ∧ b1.internalAt 2 = some R1 ∧
      D1.size_ = 0 ∧ R1.size_ = recipientLeft.size_ + donorSmall.size_ ∧
      (∀ i, i < recipientLeft.size_ →
        R1.KeyAt i = recipientLeft.KeyAt i ∧ R1.ValueAt i = recipientLeft.ValueAt i) ∧
      (0 < donorSmall.size_ →
        R1.KeyAt recipientLeft.size_ = memRead (numKey 20) 0 recipientLeft.key_size_ ∧
        R1.ValueAt recipientLeft.size_ = donorSmall.ValueAt 0) ∧
      (∀ j, 0 < j → j < donorSmall.size_ →
        R1.KeyAt (recipientLeft.size_ + j) = donorSmall.KeyAt j ∧
        R1.ValueAt (recipientLeft.size_ + j) = donorSmall.ValueAt j) ∧
      (∀ j, j < donorSmall.size_ →
        b1.GetParentPageId (donorSmall.ValueAt j) = some recipientLeft.page_id_) :=
  C28_MoveAllTo_appends_donor (poolOf [recipientLeft, donorSmall]) 3 2 (numKey 20) donorSmall
    recipientLeft (by decide) (by decide) (by decide) (by decide) (by decide) (by decide)

/-- The pages of this example after the call, evaluated. -/
theorem MoveAllTo_small_pairs :
    ((InternalPage.MoveAllTo (poolOf [recipientLeft, donorSmall]) 3 2 (numKey 20)).bind
      fun b => pairsAt b 2) = some (4, [(0, 10), (10, 11), (20, 20), (30, 21)]) ∧
    ((InternalPage.MoveAllTo (poolOf [recipientLeft, donorSmall]) 3 2 (numKey 20)).bind
      fun b => pairsAt b 3) = some (0, []) ∧
    ((InternalPage.MoveAllTo (poolOf [recipientLeft, donorSmall]) 3 2 (numKey 20)).map
      fun b => parentsAt b [20, 21]) = some [some 2, some 2] := by
  decide

/-- C29: `AdjustRoot` on a root leaf that holds exactly one entry does not take
the branch that returns false: the test `GetSize() == 1` of the second branch
holds, the leaf is read as an internal page, and the call has no defined result.
`Remove(10)` on the tree of the keys 10 and 20 reaches this call. -/
theorem C29_AdjustRoot_root_leaf_of_size_1 :
    (leafTree [10]).AdjustRoot 2 = none ∧
    (leafTree [10]).AdjustRoot 2 ≠ some (false, leafTree [10]) ∧
    runOps (numKM 4) [Op.Insert 10 ⟨10, 0⟩, Op.Insert 20 ⟨20, 0⟩] (emptyTree 4 4) =
      some (leafTree [10, 20]) ∧
    (leafTree [10, 20]).Remove (numKey 10) (numKM 4) = none := by
  decide

set_option maxRecDepth 100000 in
/-- C30: in the tree of height 3, `Remove(50)` deletes the entry at index 0 of
the leaf 7 = [50, 60, 70], which lies under child 0 of page 4, which is child 1
of the root: the walk looks the leaf up in the root, does not find it and stops,
so the key 1 of the root is still 50 and not the new first key 60 of the leaf.
The same happens in a tree that `Insert` has built: with leaves of two keys,
after the keys of `keysC1`, 1020 and 865, `Remove(860)` leaves the key 1 of the
root 21 at 860 while the leaf 18 under child 0 of its child 20 begins with 865. -/
theorem C30_ancestor_key_not_updated :
    ((treeOfHeight3.Remove (numKey 50) (numKM 4)).map fun t => [2, 4, 7].map (view t)) =
      some [some ⟨-1, [50], [3, 4]⟩, some ⟨2, [80], [7, 8]⟩, some ⟨4, [60, 70], []⟩] ∧
    treeAfter 2 16 (insertAll (keysC1 ++ [1020, 865]) ++ [Op.Remove 860]) [21, 20, 18] =
      some (21, [some ⟨-1, [860], [4, 20]⟩,
                 some ⟨21, [870, 880, 890, 900, 910, 920, 930, 940],
                       [18, 17, 16, 15, 14, 13, 12, 11, 10]⟩,
                 some ⟨20, [865], []⟩]) := by
  decide

namespace BufferPoolManager

theorem pageAt_of_leafAt {b : BufferPoolManager} {pid : Int} {p : LeafPage}
    (h : b.leafAt pid = some p) : b.pageAt pid = some (Page.leaf p) := by
  unfold leafAt at h
  split at h
  · rename_i q hq
    cases h
    exact hq
  · cases h

theorem pageAt_of_internalAt {b : BufferPoolManager} {pid : Int} {p : InternalPage}
    (h : b.internalAt pid = some p) : b.pageAt pid = some (Page.internal p) := by
  unfold internalAt at h
  split at h
  · rename_i q hq
    cases h
    exact hq
  · cases h

end BufferPoolManager

theorem BPlusTree.header_pageAt {isLeaf : Bool} {b : BufferPoolManager} {pid : Int}
    {r : Int × Nat × Nat} (h : BPlusTree.header isLeaf b pid = some r) :
    ∃ pg, b.pageAt pid = some pg := by
  unfold BPlusTree.header at h
  cases isLeaf with
  | true =>
    simp only [if_true] at h
    cases hl : b.leafAt pid with
    | none => rw [hl] at h; cases h
    | some p => exact ⟨_, BufferPoolManager.pageAt_of_leafAt hl⟩
  | false =>
    simp only [Bool.false_eq_true, if_false] at h
    cases hl : b.internalAt pid with
    | none => rw [hl] at h; cases h
    | some p => exact ⟨_, BufferPoolManager.pageAt_of_internalAt hl⟩

/-! ## C31: the choice of `CoalesceOrRedistribute` -/

/-- C31: for a node `N` of the pool whose parent `P ≠ INVALID_PAGE_ID` is an
internal page that lists `N` first at index `i`, and whose sibling page `S`,
the child `i - 1` of the parent when `i > 0` and the child 1 when `i = 0`, is in
the pool as a page of the same kind, `CoalesceOrRedistribute(N)` fetches the
three pages and then, when `N.size + S.size > N.max_size`, calls
`Redistribute(S, N, i)`, unpins the three pages and returns `false`, and
otherwise calls `Coalesce(S, N, parent, i)` and returns `true`; it returns no
result exactly when the call it makes returns none. -/
theorem C31_CoalesceOrRedistribute_choice (fuel : Nat) (isLeaf : Bool) (t : BPlusTree)
    (N P : Int) (parent : InternalPage) (i : Nat) (n_size n_max : Nat)
    (s_parent : Int) (s_size s_max : Nat)
    (hN : BPlusTree.header isLeaf t.buffer_pool_manager_ N = some (P, n_size, n_max))
    (hroot : P ≠ INVALID_PAGE_ID)
    (hP : t.buffer_pool_manager_.internalAt P = some parent)
    (hi : parent.ValueIndex N = (i : Int))
    (hS : BPlusTree.header isLeaf t.buffer_pool_manager_
      (parent.ValueAt (if i = 0 then 1 else i - 1)) = some (s_parent, s_size, s_max)) :
    t.CoalesceOrRedistribute (fuel + 1) isLeaf N =
      let S := parent.ValueAt (if i = 0 then 1 else i - 1)
      let b1 := t.buffer_pool_manager_.setPin N (t.buffer_pool_manager_.pinCount N + 1)
      let b2 := b1.setPin P (b1.pinCount P + 1)
      let b3 := b2.setPin S (b2.pinCount S + 1)
      if n_size + s_size > n_max then
        (if isLeaf then BPlusTree.RedistributeLeaf b3 S N i
         else BPlusTree.RedistributeInternal b3 S N i).map fun b4 =>
          (false, { t with buffer_pool_manager_ :=
            ((b4.UnpinPage N).UnpinPage P).UnpinPage S })
      else
        (BPlusTree.Coalesce fuel isLeaf { t with buffer_pool_manager_ := b3 } S N P i).map
          fun r => (true, r.2) := by
  obtain ⟨pgN, hpN⟩ := BPlusTree.header_pageAt hN
  obtain ⟨pgS, hpS⟩ := BPlusTree.header_pageAt hS
  have hpP := BufferPoolManager.pageAt_of_internalAt hP
  have hne : (P == INVALID_PAGE_ID) = false := by simpa using hroot
  have hsi : (if (i : Int) = 0 then (i : Int) + 1 else (i : Int) - 1)
      = ((if i = 0 then 1 else i - 1 : Nat) : Int) := by
    split_ifs <;> omega
  have hnn : ¬ (((if i = 0 then 1 else i - 1 : Nat) : Int) < 0) :=
    Int.not_lt.2 (Int.ofNat_nonneg _)
  have hN1 := hN
  unfold BPlusTree.header at hN1
  have hsz : (if isLeaf = true
      then Option.map (fun p => p.GetSize)
        (t.buffer_pool_manager_.leafAt (parent.ValueAt (if i = 0 then 1 else i - 1)))
      else Option.map (fun p => p.GetSize)
        (t.buffer_pool_manager_.internalAt (parent.ValueAt (if i = 0 then 1 else i - 1))))
      = some s_size := by
    unfold BPlusTree.header at hS
    cases isLeaf with
    | true =>
      simp only [if_true] at hS ⊢
      cases hl : t.buffer_pool_manager_.leafAt (parent.ValueAt (if i = 0 then 1 else i - 1)) with
      | none => rw [hl] at hS; cases hS
      | some p => rw [hl] at hS; simp only [Option.map_some', Option.some.injEq,
          Prod.mk.injEq] at hS ⊢; exact hS.2.1
    | false =>
      simp only [Bool.false_eq_true, if_false] at hS ⊢
      cases hl : t.buffer_pool_manager_.internalAt
          (parent.ValueAt (if i = 0 then 1 else i - 1)) with
      | none => rw [hl] at hS; cases hS
      | some p => rw [hl] at hS; simp only [Option.map_some', Option.some.injEq,
          Prod.mk.injEq] at hS ⊢; exact hS.2.1
  dsimp only
  generalize hSdef : parent.ValueAt (if i = 0 then 1 else i - 1) = S at hS hpS hsz ⊢
  have hfN := BufferPoolManager.FetchPage_of_pageAt hpN
  generalize hb1 : t.buffer_pool_manager_.setPin N (t.buffer_pool_manager_.pinCount N + 1)
    = b1 at hfN ⊢
  have hpg1 : b1.pages_ = t.buffer_pool_manager_.pages_ := by rw [← hb1]; rfl
  have hfP := BufferPoolManager.FetchPage_of_pageAt
    ((BufferPoolManager.pageAt_congr hpg1 P).trans hpP)
  generalize hb2 : b1.setPin P (b1.pinCount P + 1) = b2 at hfP ⊢
  have hpg2 : b2.pages_ = t.buffer_pool_manager_.pages_ := by rw [← hb2]; exact hpg1
  have hfS := BufferPoolManager.FetchPage_of_pageAt
    ((BufferPoolManager.pageAt_congr hpg2 S).trans hpS)
  generalize hb3 : b2.setPin S (b2.pinCount S + 1) = b3 at hfS ⊢
  have hpg3 : b3.pages_ = t.buffer_pool_manager_.pages_ := by rw [← hb3]; exact hpg2
  have hI2 : b2.internalAt P = some parent :=
    (BufferPoolManager.internalAt_of_pageAt (BufferPoolManager.pageAt_congr hpg2 P)).trans hP
  have hI3 : b3.internalAt P = some parent :=
    (BufferPoolManager.internalAt_of_pageAt (BufferPoolManager.pageAt_congr hpg3 P)).trans hP
  have hsz3 : (if isLeaf = true then Option.map (fun p => p.GetSize) (b3.leafAt S)
      else Option.map (fun p => p.GetSize) (b3.internalAt S)) = some s_size := by
    rw [BufferPoolManager.leafAt_congr hpg3,
      BufferPoolManager.internalAt_of_pageAt (BufferPoolManager.pageAt_congr hpg3 S)]
    exact hsz
  rw [BPlusTree.CoalesceOrRedistribute]
  simp only [hN1, Option.bind_eq_bind, Option.some_bind, hne, Bool.false_eq_true, if_false,
    hfN, hfP, hI2, hi, hsi, hnn, Int.toNat_ofNat, hSdef, hfS, hsz3]
  by_cases hgt : n_size + s_size > n_max
  · simp only [if_pos hgt, Option.map_eq_bind]
    rfl
  · simp only [if_neg hgt, BPlusTree.Coalesce, Option.bind_eq_bind, hI3, Option.some_bind]
    simp only [Int.toNat_ofNat]
    rw [Option.map_eq_bind, Option.bind_assoc]
    congr 1
    funext b4
    rw [Option.bind_assoc]
    congr 1
    funext parent6
    by_cases hc : parent6.GetSize < parent6.GetMinSize
    · simp only [if_pos hc]; rfl
    · simp only [if_neg hc]; rfl

/-- C31 at the leaf 4 of a root with the leaves 3, 4 and 5: the leaf is listed
at index 1, the sibling is the left leaf 3, and since 1 + 2 ≤ 4 the call
coalesces. -/
theorem C31_CoalesceOrRedistribute_witness :
    BPlusTree.header true (siblingsTree [10, 20] [30] [50, 60, 70, 80]).buffer_pool_manager_ 4
      = some (2, 1, 4) ∧
    (2 : Int) ≠ INVALID_PAGE_ID ∧
    (siblingsTree [10, 20] [30] [50, 60, 70, 80]).buffer_pool_manager_.internalAt 2
      = some (internalPage 2 (-1) 4 [(0, 3), (30, 4), (50, 5)]) ∧
    (internalPage 2 (-1) 4 [(0, 3), (30, 4), (50, 5)]).ValueIndex 4 = ((1 : Nat) : Int) ∧
    BPlusTree.header true (siblingsTree [10, 20] [30] [50, 60, 70, 80]).buffer_pool_manager_
      ((internalPage 2 (-1) 4 [(0, 3), (30, 4), (50, 5)]).ValueAt (if 1 = 0 then 1 else 1 - 1))
      = some (2, 2, 4) ∧
    (siblingsTree [10, 20] [30] [50, 60, 70, 80]).CoalesceOrRedistribute (7 + 1) true 4 =
      let t := siblingsTree [10, 20] [30] [50, 60, 70, 80]
      let S := (internalPage 2 (-1) 4 [(0, 3), (30, 4), (50, 5)]).ValueAt
        (if 1 = 0 then 1 else 1 - 1)
      let b1 := t.buffer_pool_manager_.setPin 4 (t.buffer_pool_manager_.pinCount 4 + 1)
      let b2 := b1.setPin 2 (b1.pinCount 2 + 1)
      let b3 := b2.setPin S (b2.pinCount S + 1)
      if 1 + 2 > 4 then
        (if true then BPlusTree.RedistributeLeaf b3 S 4 (1 : Nat)
         else BPlusTree.RedistributeInternal b3 S 4 (1 : Nat)).map fun b4 =>
          (false, { t with buffer_pool_manager_ :=
            ((b4.UnpinPage 4).UnpinPage 2).UnpinPage S })
      else
        (BPlusTree.Coalesce 7 true { t with buffer_pool_manager_ := b3 } S 4 2 (1 : Nat)).map
          fun r => (true, r.2) :=
  ⟨by decide, by decide, by decide, by decide, by decide,
    C31_CoalesceOrRedistribute_choice 7 true (siblingsTree [10, 20] [30] [50, 60, 70, 80]) 4 2
      (internalPage 2 (-1) 4 [(0, 3), (30, 4), (50, 5)]) 1 1 4 2 2 4
      (by decide) (by decide) (by decide) (by decide) (by decide)⟩

/-- The six cases on the tree of three leaves: a leaf at index 0 uses the right
sibling 4, the leaves at the indexes 1 and 2 their left siblings 3 and 4; the
call redistributes and returns `false` when the two sizes exceed 4, and merges
into the left page of the two and returns `true` otherwise. -/
theorem siblingsTree_rebalanced :
    rebalanced (siblingsTree [10] [30, 35, 40, 45] [50, 60]) 3
      = some (false, [some ⟨-1, [35, 50], [3, 4, 5]⟩, some ⟨2, [10, 30], []⟩,
          some ⟨2, [35, 40, 45], []⟩, some ⟨2, [50, 60], []⟩]) ∧
    rebalanced (siblingsTree [10] [30, 35] [50, 60]) 3
      = some (true, [some ⟨-1, [50], [3, 5]⟩, some ⟨2, [10, 30, 35], []⟩,
          none, some ⟨2, [50, 60], []⟩]) ∧
    rebalanced (siblingsTree [10, 15, 20, 25] [30] [50, 60]) 4
      = some (false, [some ⟨-1, [25, 50], [3, 4, 5]⟩, some ⟨2, [10, 15, 20], []⟩,
          some ⟨2, [25, 30], []⟩, some ⟨2, [50, 60], []⟩]) ∧
    rebalanced (siblingsTree [10, 20] [30] [50, 60, 70, 80]) 4
      = some (true, [some ⟨-1, [50], [3, 5]⟩, some ⟨2, [10, 20, 30], []⟩,
          none, some ⟨2, [50, 60, 70, 80], []⟩]) ∧
    rebalanced (siblingsTree [10, 20] [30, 35, 40, 45] [50]) 5
      = some (false, [some ⟨-1, [30, 45], [3, 4, 5]⟩, some ⟨2, [10, 20], []⟩,
          some ⟨2, [30, 35, 40], []⟩, some ⟨2, [45, 50], []⟩]) ∧
    rebalanced (siblingsTree [10, 20] [30, 35] [50]) 5
      = some (true, [some ⟨-1, [30], [3, 4]⟩, some ⟨2, [10, 20], []⟩,
          some ⟨2, [30, 35, 50], []⟩, none]) := by
  decide

/-! ## C32: the lookup in an internal page -/

namespace InternalPage

/-- The loop of `Lookup` from index `i` on, when the search key is not below the
keys 1 to `i - 1`: it returns the child of the largest index whose key is not
above the search key. -/
theorem Lookup.loop_returns (p : InternalPage) (key : List Nat) (KM : KeyManager)
    (hsorted : ∀ b, b < p.size_ → ∀ a, a < b → 1 ≤ a →
      KM.CompareKeys (p.KeyAt a) (p.KeyAt b) < 0)
    (htrans : ∀ x y z : List Nat, KM.CompareKeys x y < 0 → KM.CompareKeys y z < 0 →
      KM.CompareKeys x z < 0) :
    ∀ (n i : Nat), 1 ≤ i → i + n = p.size_ →
      (∀ j, 1 ≤ j → j < i → 0 ≤ KM.CompareKeys key (p.KeyAt j)) →
      ∃ r, r < p.size_ ∧ Lookup.loop p key KM n i = p.ValueAt r ∧
        (r = 0 ∨ 0 ≤ KM.CompareKeys key (p.KeyAt r)) ∧
        ∀ j, r < j → j < p.size_ → KM.CompareKeys key (p.KeyAt j) < 0 := by
  intro n
  induction n with
  | zero =>
    intro i hi hsz hlow
    refine ⟨i - 1, by omega, rfl, ?_, fun j h1 h2 => by omega⟩
    by_cases h : i - 1 = 0
    · exact Or.inl h
    · exact Or.inr (hlow (i - 1) (by omega) (by omega))
  | succ n ih =>
    intro i hi hsz hlow
    unfold Lookup.loop
    by_cases hc : KM.CompareKeys key (p.KeyAt i) < 0
    · rw [if_pos hc]
      refine ⟨i - 1, by omega, rfl, ?_, ?_⟩
      · by_cases h : i - 1 = 0
        · exact Or.inl h
        · exact Or.inr (hlow (i - 1) (by omega) (by omega))
      · intro j h1 h2
        by_cases hj : j = i
        · rw [hj]
          exact hc
        · exact htrans _ _ _ hc (hsorted j h2 i (by omega) hi)
    · rw [if_neg hc]
      refine ih (i + 1) (by omega) (by omega) ?_
      intro j h1 h2
      by_cases hj : j = i
      · rw [hj]
        omega
      · exact hlow j h1 (by omega)

end InternalPage

/-- C32: for an internal page with at least one pair whose keys 1 to size - 1
are ascending under a transitive comparator, `Lookup` returns the child of the
largest index `i` below the size with `i = 0` or `key[i]` not above the search
key; every key behind it is above the search key, and the key 0 is not
compared. -/
theorem C32_Lookup_returns_last_child_not_above (p : InternalPage) (key : List Nat)
    (KM : KeyManager) (hsize : 1 ≤ p.size_)
    (hsorted : ∀ b, b < p.size_ → ∀ a, a < b → 1 ≤ a →
      KM.CompareKeys (p.KeyAt a) (p.KeyAt b) < 0)
    (htrans : ∀ x y z : List Nat, KM.CompareKeys x y < 0 → KM.CompareKeys y z < 0 →
      KM.CompareKeys x z < 0) :
    ∃ i, i < p.size_ ∧ p.Lookup key KM = some (p.ValueAt i) ∧
      (i = 0 ∨ 0 ≤ KM.CompareKeys key (p.KeyAt i)) ∧
      ∀ j, i < j → j < p.size_ → KM.CompareKeys key (p.KeyAt j) < 0 := by
  obtain ⟨r, h1, h2, h3, h4⟩ := InternalPage.Lookup.loop_returns p key KM hsorted htrans
    (p.size_ - 1) 1 (le_refl 1) (by omega) (fun j h1 h2 => by omega)
  refine ⟨r, h1, ?_, h3, h4⟩
  unfold InternalPage.Lookup
  rw [if_neg (by omega), h2]

theorem numKM_trans (x y z : List Nat) (h1 : (numKM 4).CompareKeys x y < 0)
    (h2 : (numKM 4).CompareKeys y z < 0) : (numKM 4).CompareKeys x z < 0 := by
  simp only [numKM] at h1 h2 ⊢
  omega

/-- C32 on the page with the children 10, 11, 12 and the keys 30 and 50: the
search key 40 is routed to the child 11 of index 1. -/
theorem C32_Lookup_witness :
    ∃ i, i < routingPage.size_ ∧
      routingPage.Lookup (numKey 40) (numKM 4) = some (routingPage.ValueAt i) ∧
      (i = 0 ∨ 0 ≤ (numKM 4).CompareKeys (numKey 40) (routingPage.KeyAt i)) ∧
      ∀ j, i < j → j < routingPage.size_ →
        (numKM 4).CompareKeys (numKey 40) (routingPage.KeyAt j) < 0 :=
  C32_Lookup_returns_last_child_not_above routingPage (numKey 40) (numKM 4) (by decide)
    (by decide) numKM_trans

/-- The lookups of the keys 20, 30, 40, 50 and 60 in this page, evaluated. -/
theorem routingPage_lookups :
    [20, 30, 40, 50, 60].map (fun k => routingPage.Lookup (numKey k) (numKM 4)) =
      [some 10, some 11, some 11, some 12, some 12] := by
  decide

/-! ### Pairs of an internal page after a write -/

theorem mul_succ_le_mul (i j ps : Nat) (h : i < j) : i * ps + ps ≤ j * ps := by
  have h1 := Nat.mul_le_mul_right ps (Nat.succ_le_of_lt h)
  rw [Nat.succ_mul] at h1
  exact h1

namespace InternalPage

theorem memRead_KeyAt (p : InternalPage) (i : Nat) :
    memRead (p.KeyAt i) 0 p.key_size_ = p.KeyAt i := by
  have h := memRead_self (p.KeyAt i)
  have hl : (p.KeyAt i).length = p.key_size_ := memRead_length _ _ _
  rw [hl] at h
  exact h

theorem KeyAt_SetKeyAt (p : InternalPage) (j : Nat) (key : List Nat) (i : Nat) :
    (p.SetKeyAt j key).KeyAt i = if i = j then memRead key 0 p.key_size_ else p.KeyAt i := by
  obtain ⟨pid, par, sz, mx, ks, d⟩ := p
  simp only [KeyAt, SetKeyAt, pair_size]
  have hl : (memRead key 0 ks).length = ks := memRead_length _ _ _
  by_cases h : i = j
  · rw [if_pos h, h]
    have h1 := memRead_memWrite_inside d (memRead key 0 ks) (j * (ks + 4)) 0 ks
      (by rw [hl]; omega)
    simp only [Nat.add_zero] at h1
    rw [h1]
    have h2 := memRead_self (memRead key 0 ks)
    rw [hl] at h2
    exact h2
  · rw [if_neg h]
    rcases Nat.lt_or_gt_of_ne h with hlt | hgt
    · have := mul_succ_le_mul i j (ks + 4) hlt
      exact memRead_memWrite_before _ _ _ _ _ (by omega)
    · have := mul_succ_le_mul j i (ks + 4) hgt
      exact memRead_memWrite_after _ _ _ _ _ (by rw [hl]; omega)

theorem ValueAt_SetKeyAt (p : InternalPage) (j : Nat) (key : List Nat) (i : Nat) :
    (p.SetKeyAt j key).ValueAt i = p.ValueAt i := by
  obtain ⟨pid, par, sz, mx, ks, d⟩ := p
  simp only [ValueAt, SetKeyAt, pair_size]
  have hl : (memRead key 0 ks).length = ks := memRead_length _ _ _
  congr 1
  by_cases h : i < j
  · have := mul_succ_le_mul i j (ks + 4) h
    exact memRead_memWrite_before _ _ _ _ _ (by omega)
  · have : j * (ks + 4) ≤ i * (ks + 4) := Nat.mul_le_mul_right _ (by omega)
    exact memRead_memWrite_after _ _ _ _ _ (by rw [hl]; omega)

theorem KeyAt_SetValueAt (p : InternalPage) (j : Nat) (v : Int) (i : Nat) :
    (p.SetValueAt j v).KeyAt i = p.KeyAt i := by
  obtain ⟨pid, par, sz, mx, ks, d⟩ := p
  simp only [KeyAt, SetValueAt, pair_size]
  by_cases h : j < i
  · have := mul_succ_le_mul j i (ks + 4) h
    exact memRead_memWrite_after _ _ _ _ _ (by rw [encode32_length]; omega)
  · have : i * (ks + 4) ≤ j * (ks + 4) := Nat.mul_le_mul_right _ (by omega)
    exact memRead_memWrite_before _ _ _ _ _ (by omega)

theorem ValueAt_SetValueAt (p : InternalPage) (j : Nat) (v : Int) (i : Nat) :
    (p.SetValueAt j v).ValueAt i = if i = j then decode32 (encode32 v) else p.ValueAt i := by
  obtain ⟨pid, par, sz, mx, ks, d⟩ := p
  simp only [ValueAt, SetValueAt, pair_size]
  by_cases h : i = j
  · rw [if_pos h, h]
    have h1 := memRead_memWrite_inside d (encode32 v) (j * (ks + 4) + ks) 0 4
      (by simp [encode32_length])
    simp only [Nat.add_zero] at h1
    rw [h1]
    have h2 := memRead_self (encode32 v)
    rw [encode32_length] at h2
    rw [h2]
  · rw [if_neg h]
    congr 1
    rcases Nat.lt_or_gt_of_ne h with hlt | hgt
    · have := mul_succ_le_mul i j (ks + 4) hlt
      exact memRead_memWrite_before _ _ _ _ _ (by omega)
    · have := mul_succ_le_mul j i (ks + 4) hgt
      exact memRead_memWrite_after _ _ _ _ _ (by rw [encode32_length]; omega)

/-- The pair `to` after the copy of pair `from_` to it, as the loops of
`InsertNodeAfter` and `Remove` make it, and the other pairs. -/
theorem copy_pair (p : InternalPage) (src dst : Nat)
    (hv : -2147483648 ≤ p.ValueAt src ∧ p.ValueAt src < 2147483648) (i : Nat) :
    ((p.SetKeyAt dst (p.KeyAt src)).SetValueAt dst (p.ValueAt src)).KeyAt i =
      (if i = dst then p.KeyAt src else p.KeyAt i) ∧
    ((p.SetKeyAt dst (p.KeyAt src)).SetValueAt dst (p.ValueAt src)).ValueAt i =
      (if i = dst then p.ValueAt src else p.ValueAt i) := by
  rw [KeyAt_SetValueAt, KeyAt_SetKeyAt, ValueAt_SetValueAt, ValueAt_SetKeyAt, memRead_KeyAt,
    decode32_encode32 _ hv.1 hv.2]
  exact ⟨rfl, rfl⟩

end InternalPage

namespace InternalPage

/-- The shifting loop of `InsertNodeAfter`: the pairs `lo` to `lo + n - 1` are
found one index higher, the other pairs are as before. -/
theorem InsertNodeAfter.shift_pairs (lo : Nat) : ∀ (n : Nat) (p : InternalPage),
    (∀ x, x < lo + n → lo ≤ x → -2147483648 ≤ p.ValueAt x ∧ p.ValueAt x < 2147483648) →
    (InsertNodeAfter.shift lo n p).size_ = p.size_ ∧
    (InsertNodeAfter.shift lo n p).key_size_ = p.key_size_ ∧
    ∀ i, (InsertNodeAfter.shift lo n p).KeyAt i =
        (if lo + 1 ≤ i ∧ i ≤ lo + n then p.KeyAt (i - 1) else p.KeyAt i) ∧
      (InsertNodeAfter.shift lo n p).ValueAt i =
        (if lo + 1 ≤ i ∧ i ≤ lo + n then p.ValueAt (i - 1) else p.ValueAt i) := by
  intro n
  induction n with
  | zero =>
    intro p _
    refine ⟨rfl, rfl, fun i => ?_⟩
    rw [if_neg (by omega), if_neg (by omega)]
    exact ⟨rfl, rfl⟩
  | succ n ih =>
    intro p hv
    have hcp := copy_pair p (lo + n) (lo + n + 1) (hv (lo + n) (by omega) (by omega))
    obtain ⟨h1, h2, h3⟩ := ih
      ((p.SetKeyAt (lo + n + 1) (p.KeyAt (lo + n))).SetValueAt (lo + n + 1) (p.ValueAt (lo + n)))
      (fun x hx1 hx2 => by
        rw [(hcp x).2, if_neg (by omega)]
        exact hv x (by omega) hx2)
    unfold InsertNodeAfter.shift
    refine ⟨h1, h2, fun i => ?_⟩
    rw [(h3 i).1, (h3 i).2]
    by_cases hi : lo + 1 ≤ i ∧ i ≤ lo + n
    · rw [if_pos hi, if_pos hi, if_pos (by omega), if_pos (by omega), (hcp (i - 1)).1,
        (hcp (i - 1)).2, if_neg (by omega), if_neg (by omega)]
      exact ⟨rfl, rfl⟩
    · rw [if_neg hi, if_neg hi, (hcp i).1, (hcp i).2]
      by_cases hl : i = lo + n + 1
      · rw [if_pos hl, if_pos hl, if_pos (by omega), if_pos (by omega), hl]
        exact ⟨rfl, rfl⟩
      · rw [if_neg hl, if_neg hl, if_neg (by omega), if_neg (by omega)]
        exact ⟨rfl, rfl⟩

/-- The shifting loop of `Remove`: the pairs `i` to `i + n - 1` are found one
index lower, the other pairs are as before. -/
theorem Remove.shift_closes : ∀ (n i : Nat) (p : InternalPage), 1 ≤ i →
    (∀ x, x < i + n → i ≤ x → -2147483648 ≤ p.ValueAt x ∧ p.ValueAt x < 2147483648) →
    (Remove.shift n i p).size_ = p.size_ ∧
    (Remove.shift n i p).key_size_ = p.key_size_ ∧
    ∀ j, (Remove.shift n i p).KeyAt j =
        (if i ≤ j + 1 ∧ j + 1 < i + n then p.KeyAt (j + 1) else p.KeyAt j) ∧
      (Remove.shift n i p).ValueAt j =
        (if i ≤ j + 1 ∧ j + 1 < i + n then p.ValueAt (j + 1) else p.ValueAt j) := by
  intro n
  induction n with
  | zero =>
    intro i p _ _
    refine ⟨rfl, rfl, fun j => ?_⟩
    rw [if_neg (by omega), if_neg (by omega)]
    exact ⟨rfl, rfl⟩
  | succ n ih =>
    intro i p hi hv
    have hcp := copy_pair p i (i - 1) (hv i (by omega) (le_refl i))
    obtain ⟨h1, h2, h3⟩ := ih (i + 1)
      ((p.SetKeyAt (i - 1) (p.KeyAt i)).SetValueAt (i - 1) (p.ValueAt i)) (by omega)
      (fun x hx1 hx2 => by
        rw [(hcp x).2, if_neg (by omega)]
        exact hv x (by omega) (by omega))
    unfold Remove.shift
    refine ⟨h1, h2, fun j => ?_⟩
    rw [(h3 j).1, (h3 j).2]
    by_cases hj : i + 1 ≤ j + 1 ∧ j + 1 < i + 1 + n
    · rw [if_pos hj, if_pos hj, if_pos (by omega), if_pos (by omega), (hcp (j + 1)).1,
        (hcp (j + 1)).2, if_neg (by omega), if_neg (by omega)]
      exact ⟨rfl, rfl⟩
    · rw [if_neg hj, if_neg hj, (hcp j).1, (hcp j).2]
      by_cases hl : j = i - 1
      · rw [if_pos hl, if_pos hl, if_pos (by omega), if_pos (by omega), hl]
        have e : i - 1 + 1 = i := by omega
        rw [e]
        exact ⟨rfl, rfl⟩
      · rw [if_neg hl, if_neg hl, if_neg (by omega), if_neg (by omega)]
        exact ⟨rfl, rfl⟩

theorem ValueIndex.loop_lt (p : InternalPage) (value : Int) : ∀ (n i : Nat) (r : Nat),
    ValueIndex.loop p value n i = (r : Int) → i ≤ r ∧ r < i + n ∧ p.ValueAt r = value := by
  intro n
  induction n with
  | zero =>
    intro i r h
    unfold ValueIndex.loop at h
    omega
  | succ n ih =>
    intro i r h
    unfold ValueIndex.loop at h
    by_cases hv : p.ValueAt i = value
    · rw [if_pos hv] at h
      have : i = r := by omega
      subst this
      exact ⟨le_refl _, by omega, hv⟩
    · rw [if_neg hv] at h
      have := ih (i + 1) r h
      exact ⟨by omega, by omega, this.2.2⟩

end InternalPage

/-! ## C33 and C40: insertion into and removal from an internal page -/

/-- C33: for an internal page of size `n` whose `ValueIndex(old_value)` is `idx`
(the first index that lists `old_value`), with children and `new_value` in the
range of `page_id_t`: `InsertNodeAfter(old_value, new_key, new_value)` returns
`n + 1`, the page has size `n + 1`, the pairs 0 to `idx` are unchanged, the pair
`idx + 1` holds `new_key` and `new_value`, and each former pair `i` from
`idx + 1` to `n - 1` is the pair `i + 1`. -/
theorem C33_InsertNodeAfter_inserts_behind (p : InternalPage) (old_value : Int)
    (new_key : List Nat) (new_value : Int) (idx : Nat)
    (hidx : p.ValueIndex old_value = (idx : Int))
    (hv : ∀ x, x < p.size_ → -2147483648 ≤ p.ValueAt x ∧ p.ValueAt x < 2147483648)
    (hnew : -2147483648 ≤ new_value ∧ new_value < 2147483648) :
    idx < p.size_ ∧ p.ValueAt idx = old_value ∧
    (p.InsertNodeAfter old_value new_key new_value).2 = p.size_ + 1 ∧
    (p.InsertNodeAfter old_value new_key new_value).1.size_ = p.size_ + 1 ∧
    (∀ i, i ≤ idx →
      (p.InsertNodeAfter old_value new_key new_value).1.KeyAt i = p.KeyAt i ∧
      (p.InsertNodeAfter old_value new_key new_value).1.ValueAt i = p.ValueAt i) ∧
    (p.InsertNodeAfter old_value new_key new_value).1.KeyAt (idx + 1) =
      memRead new_key 0 p.key_size_ ∧
    (p.InsertNodeAfter old_value new_key new_value).1.ValueAt (idx + 1) = new_value ∧
    (∀ i, idx + 1 ≤ i → i < p.size_ →
      (p.InsertNodeAfter old_value new_key new_value).1.KeyAt (i + 1) = p.KeyAt i ∧
      (p.InsertNodeAfter old_value new_key new_value).1.ValueAt (i + 1) = p.ValueAt i) := by
  have hlt := InternalPage.ValueIndex.loop_lt p old_value p.size_ 0 idx hidx
  have hat : (p.ValueIndex old_value + 1).toNat = idx + 1 := by
    rw [hidx]
    omega
  obtain ⟨h1, h2, h3⟩ := InternalPage.InsertNodeAfter.shift_pairs (idx + 1)
    (p.size_ - (idx + 1)) p (fun x hx _ => hv x (by omega))
  have hK : ∀ i, (p.InsertNodeAfter old_value new_key new_value).1.KeyAt i =
      if i = idx + 1 then memRead new_key 0 p.key_size_
      else (InternalPage.InsertNodeAfter.shift (idx + 1) (p.size_ - (idx + 1)) p).KeyAt i := by
    intro i
    unfold InternalPage.InsertNodeAfter
    simp only [InternalPage.GetSize, hat]
    show (((InternalPage.InsertNodeAfter.shift (idx + 1) (p.size_ - (idx + 1)) p).SetKeyAt
      (idx + 1) new_key).SetValueAt (idx + 1) new_value).KeyAt i = _
    rw [InternalPage.KeyAt_SetValueAt, InternalPage.KeyAt_SetKeyAt, h2]
  have hV : ∀ i, (p.InsertNodeAfter old_value new_key new_value).1.ValueAt i =
      if i = idx + 1 then new_value
      else (InternalPage.InsertNodeAfter.shift (idx + 1) (p.size_ - (idx + 1)) p).ValueAt i := by
    intro i
    unfold InternalPage.InsertNodeAfter
    simp only [InternalPage.GetSize, hat]
    show (((InternalPage.InsertNodeAfter.shift (idx + 1) (p.size_ - (idx + 1)) p).SetKeyAt
      (idx + 1) new_key).SetValueAt (idx + 1) new_value).ValueAt i = _
    rw [InternalPage.ValueAt_SetValueAt, InternalPage.ValueAt_SetKeyAt,
      decode32_encode32 _ hnew.1 hnew.2]
  have hS : (p.InsertNodeAfter old_value new_key new_value).1.size_ = p.size_ + 1 := by
    unfold InternalPage.InsertNodeAfter
    simp only [InternalPage.GetSize, hat]
    show (InternalPage.InsertNodeAfter.shift (idx + 1) (p.size_ - (idx + 1)) p).size_ + 1 = _
    rw [h1]
  have hR : (p.InsertNodeAfter old_value new_key new_value).2 = p.size_ + 1 := by
    unfold InternalPage.InsertNodeAfter
    simp only [InternalPage.GetSize, hat]
    show (InternalPage.InsertNodeAfter.shift (idx + 1) (p.size_ - (idx + 1)) p).size_ + 1 = _
    rw [h1]
  refine ⟨by omega, hlt.2.2, hR, hS, ?_, ?_, ?_, ?_⟩
  · intro i hi
    rw [hK, hV, if_neg (by omega), if_neg (by omega), (h3 i).1, (h3 i).2, if_neg (by omega),
      if_neg (by omega)]
    exact ⟨rfl, rfl⟩
  · rw [hK, if_pos rfl]
  · rw [hV, if_pos rfl]
  · intro i hi1 hi2
    rw [hK, hV, if_neg (by omega), if_neg (by omega), (h3 (i + 1)).1, (h3 (i + 1)).2,
      if_pos (by omega), if_pos (by omega)]
    exact ⟨rfl, rfl⟩

/-- C33 on the page with the children 10, 11, 12: the pair (40, 15) is inserted
behind the child 11. -/
theorem C33_InsertNodeAfter_witness :
    (routingPage.InsertNodeAfter 11 (numKey 40) 15).2 = 4 ∧
    (routingPage.InsertNodeAfter 11 (numKey 40) 15).1.pairs =
      [(0, 10), (30, 11), (40, 15), (50, 12)] ∧
    (routingPage.InsertNodeAfter 11 (numKey 40) 15).1.ValueAt (1 + 1) = 15 :=
  ⟨by decide, by decide,
    (C33_InsertNodeAfter_inserts_behind routingPage 11 (numKey 40) 15 1 (by decide)
      (by decide) (by decide)).2.2.2.2.2.2.1⟩

/-- C40: for an internal page of size `n` with children in the range of
`page_id_t`, `Remove(index)` with `0 ≤ index < n` leaves the page with size
`n - 1`, the pairs before `index` unchanged and each former pair `j + 1` from
`index + 1` to `n - 1` as the pair `j`; with `index < 0` or `index ≥ n` the page
is unchanged. -/
theorem C40_Remove_closes_the_gap (p : InternalPage)
    (hv : ∀ x, x < p.size_ → -2147483648 ≤ p.ValueAt x ∧ p.ValueAt x < 2147483648) :
    (∀ index : Nat, index < p.size_ →
      (p.Remove index).size_ = p.size_ - 1 ∧
      (∀ j, j < index →
        (p.Remove index).KeyAt j = p.KeyAt j ∧ (p.Remove index).ValueAt j = p.ValueAt j) ∧
      (∀ j, index ≤ j → j + 1 < p.size_ →
        (p.Remove index).KeyAt j = p.KeyAt (j + 1) ∧
        (p.Remove index).ValueAt j = p.ValueAt (j + 1))) ∧
    (∀ index : Int, index < 0 ∨ (p.size_ : Int) ≤ index → p.Remove index = p) := by
  refine ⟨?_, ?_⟩
  · intro index hi
    obtain ⟨h1, _, h3⟩ := InternalPage.Remove.shift_closes (p.size_ - (index + 1)) (index + 1) p
      (by omega) (fun x hx _ => hv x (by omega))
    have hc : (0 : Int) ≤ (index : Int) ∧ (index : Int) < (p.size_ : Int) := by
      omega
    have hK : ∀ j, (p.Remove index).KeyAt j =
        (InternalPage.Remove.shift (p.size_ - (index + 1)) (index + 1) p).KeyAt j := by
      intro j
      unfold InternalPage.Remove
      simp only [InternalPage.GetSize, if_pos hc, Int.toNat_ofNat]
      rfl
    have hV : ∀ j, (p.Remove index).ValueAt j =
        (InternalPage.Remove.shift (p.size_ - (index + 1)) (index + 1) p).ValueAt j := by
      intro j
      unfold InternalPage.Remove
      simp only [InternalPage.GetSize, if_pos hc, Int.toNat_ofNat]
      rfl
    have hS : (p.Remove index).size_ = p.size_ - 1 := by
      unfold InternalPage.Remove
      simp only [InternalPage.GetSize, if_pos hc, Int.toNat_ofNat]
      rw [h1]
    refine ⟨hS, ?_, ?_⟩
    · intro j hj
      rw [hK, hV, (h3 j).1, (h3 j).2, if_neg (by omega), if_neg (by omega)]
      exact ⟨rfl, rfl⟩
    · intro j hj1 hj2
      rw [hK, hV, (h3 j).1, (h3 j).2, if_pos (by omega), if_pos (by omega)]
      exact ⟨rfl, rfl⟩
  · intro index hi
    unfold InternalPage.Remove
    rw [if_neg (by unfold InternalPage.GetSize; omega)]

/-- C40 on the page with the children 10, 11, 12: `Remove(1)` leaves the pairs
(_, 10) and (50, 12), and `Remove(3)` changes nothing. -/
theorem C40_Remove_witness :
    (routingPage.Remove 1).size_ = 2 ∧
    (routingPage.Remove 1).pairs = [(0, 10), (50, 12)] ∧
    routingPage.Remove 3 = routingPage ∧
    (routingPage.Remove (1 : Nat)).KeyAt 1 = routingPage.KeyAt (1 + 1) :=
  ⟨by decide, by decide,
    (C40_Remove_closes_the_gap routingPage (by decide)).2 3 (Or.inr (by decide)),
    (((C40_Remove_closes_the_gap routingPage (by decide)).1 1 (by decide)).2.2 1
      (le_refl 1) (by decide)).1⟩

/-! ### The lists of the LRU-K replacer below the wrap of the counters -/

namespace LRUKReplacer

theorem Victim.scan_erase {ev : Int → Bool} : ∀ {l : List Int} {g : Int} {rest : List Int},
    Victim.scan ev l = some (g, rest) → g ∈ l ∧ rest = l.erase g
  | [], g, rest, h => by simp [Victim.scan] at h
  | a :: l, g, rest, h => by
    by_cases ha : ev a = true
    · simp [Victim.scan, ha] at h
      obtain ⟨rfl, rfl⟩ := h
      simp
    · have ha' : ev a = false := by simpa using ha
      cases hs : Victim.scan ev l with
      | none => simp [Victim.scan, ha', hs] at h
      | some p =>
        obtain ⟨found, rest1⟩ := p
        simp [Victim.scan, ha', hs] at h
        obtain ⟨rfl, rfl⟩ := h
        have ih := Victim.scan_erase hs
        have hev := Victim.scan_evictable hs
        have hne : a ≠ found := by intro e; subst e; rw [ha'] at hev; cases hev
        refine ⟨List.mem_cons_of_mem _ ih.1, ?_⟩
        rw [List.erase_cons_tail (by simpa using hne), ← ih.2]

theorem Tracked_new (k : Nat) (hk : 2 ≤ k) : Tracked k 0 (new k) := by
  refine ⟨rfl, hk, fun _ => Nat.le_refl _, ?_, ?_, List.nodup_nil, List.nodup_nil, ?_, ?_⟩
  · intro f; simp [new]
  · intro f; simp [new]; omega
  · intro f; simp [new]
  · intro f; simp [new]

theorem Tracked_Pin {k n : Nat} {r : LRUKReplacer} (h : Tracked k n r) (f : Int) :
    Tracked k n (r.Pin f) := by
  unfold Pin
  split
  · exact h
  · exact h

theorem Tracked_Victim {k n : Nat} {r : LRUKReplacer} (h : Tracked k n r) :
    Tracked k n r.Victim.2 ∧ ∀ g, r.Victim.1 = some g → r.Victim.2.access_time_ g = 0 := by
  obtain ⟨hkk, hk, hb, hh, hc, hnh, hnc, hmh, hmc⟩ := h
  unfold Victim
  cases hs : Victim.scan r.is_evictable_ r.history_list_ with
  | some p =>
    obtain ⟨g, rest⟩ := p
    obtain ⟨hg, rfl⟩ := Victim.scan_erase hs
    have hag := (hh g).1 hg
    refine ⟨⟨hkk, hk, ?_, ?_, ?_, hnh.erase g, hnc, ?_, hmc⟩, ?_⟩
    · intro f
      by_cases hf : f = g
      · subst hf; simp
      · simp [Function.update_noteq hf, hb f]
    · intro f
      by_cases hf : f = g
      · subst hf; simp [hnh.not_mem_erase]
      · simp only [Function.update_noteq hf]
        rw [List.mem_erase_of_ne hf]
        exact hh f
    · intro f
      by_cases hf : f = g
      · subst hf
        simp only [Function.update_same]
        rw [hc f]
        constructor <;> intro h1 <;> omega
      · simp only [Function.update_noteq hf]
        exact hc f
    · intro f
      by_cases hf : f = g
      · subst hf; simp [hnh.not_mem_erase]
      · simp only [Function.update_noteq hf]
        rw [List.mem_erase_of_ne hf]
        exact hmh f
    · intro g1 h1
      have : g = g1 := by simpa using h1
      subst this
      simp
  | none =>
    cases hs2 : Victim.scan r.is_evictable_ r.cache_list_ with
    | some p =>
      obtain ⟨g, rest⟩ := p
      obtain ⟨hg, rfl⟩ := Victim.scan_erase hs2
      have hag := (hc g).1 hg
      refine ⟨⟨hkk, hk, ?_, ?_, ?_, hnh, hnc.erase g, hmh, ?_⟩, ?_⟩
      · intro f
        by_cases hf : f = g
        · subst hf; simp
        · simp [Function.update_noteq hf, hb f]
      · intro f
        by_cases hf : f = g
        · subst hf
          simp only [Function.update_same]
          rw [hh f]
          constructor <;> intro h1 <;> omega
        · simp only [Function.update_noteq hf]
          exact hh f
      · intro f
        by_cases hf : f = g
        · subst hf
          simp only [Function.update_same]
          constructor
          · intro h1; exact absurd h1 hnc.not_mem_erase
          · intro h1; omega
        · simp only [Function.update_noteq hf]
          rw [List.mem_erase_of_ne hf]
          exact hc f
      · intro f
        by_cases hf : f = g
        · subst hf; simp [hnc.not_mem_erase]
        · simp only [Function.update_noteq hf]
          rw [List.mem_erase_of_ne hf]
          exact hmc f
      · intro g1 h1
        have : g = g1 := by simpa using h1
        subst this
        simp
    | none =>
      exact ⟨⟨hkk, hk, hb, hh, hc, hnh, hnc, hmh, hmc⟩, fun g h1 => by simp at h1⟩

end LRUKReplacer

namespace LRUKReplacer

theorem Tracked_Unpin {k n : Nat} {r : LRUKReplacer} (h : Tracked k n r)
    (hn : n + 1 < 4294967296) (f : Int) :
    ∃ r1, r.Unpin f = some r1 ∧ Tracked k (n + 1) r1 := by
  obtain ⟨hkk, hk, hb, hh, hc, hnh, hnc, hmh, hmc⟩ := h
  have hmod : (r.access_time_ f + 1) % 4294967296 = r.access_time_ f + 1 :=
    Nat.mod_eq_of_lt (by have := hb f; omega)
  have hacc : ∀ g, Function.update r.access_time_ f (r.access_time_ f + 1) g ≤ n + 1 := by
    intro g
    by_cases hg : g = f
    · subst hg; simp [hb g]
    · simp only [Function.update_noteq hg]
      have := hb g
      omega
  unfold Unpin
  simp only [hmod]
  by_cases h1 : r.access_time_ f + 1 = r.k_
  · have hfh : f ∈ r.history_list_ := (hh f).2 ⟨by omega, by omega⟩
    have hm : r.history_map_ f = true := (hmh f).2 hfh
    have hfc : f ∉ r.cache_list_ := fun hx => by have := (hc f).1 hx; omega
    simp only [if_pos h1, hm, if_true]
    refine ⟨_, rfl, hkk, hk, hacc, ?_, ?_, hnh.erase f, List.nodup_cons.2 ⟨hfc, hnc⟩, ?_, ?_⟩
    · intro g
      by_cases hg : g = f
      · subst hg
        simp only [Function.update_same]
        constructor
        · intro hx; exact absurd hx hnh.not_mem_erase
        · intro hx; omega
      · simp only [Function.update_noteq hg]
        rw [List.mem_erase_of_ne hg]
        exact hh g
    · intro g
      by_cases hg : g = f
      · subst hg
        simp only [Function.update_same, List.mem_cons, true_or, true_iff]
        omega
      · simp only [Function.update_noteq hg, List.mem_cons, hg, false_or]
        exact hc g
    · intro g
      by_cases hg : g = f
      · subst hg; simp [hnh.not_mem_erase]
      · simp only [Function.update_noteq hg]
        rw [List.mem_erase_of_ne hg]
        exact hmh g
    · intro g
      by_cases hg : g = f
      · subst hg; simp
      · simp only [Function.update_noteq hg, List.mem_cons, hg, false_or]
        exact hmc g
  · by_cases h2 : r.access_time_ f + 1 > r.k_
    · have hfc : f ∈ r.cache_list_ := (hc f).2 (by omega)
      have hm : r.cache_map_ f = true := (hmc f).2 hfc
      have hfh : f ∉ r.history_list_ := fun hx => by have := (hh f).1 hx; omega
      simp only [if_neg h1, if_pos h2, hm, if_true]
      refine ⟨_, rfl, hkk, hk, hacc, ?_, ?_, hnh,
        List.nodup_cons.2 ⟨hnc.not_mem_erase, hnc.erase f⟩, hmh, ?_⟩
      · intro g
        by_cases hg : g = f
        · subst hg
          simp only [Function.update_same]
          constructor
          · intro hx; exact absurd hx hfh
          · intro hx; omega
        · simp only [Function.update_noteq hg]
          exact hh g
      · intro g
        by_cases hg : g = f
        · subst hg
          simp only [Function.update_same, List.mem_cons, true_or, true_iff]
          omega
        · simp only [Function.update_noteq hg, List.mem_cons, hg, false_or]
          rw [List.mem_erase_of_ne hg]
          exact hc g
      · intro g
        by_cases hg : g = f
        · subst hg; simp
        · simp only [Function.update_noteq hg, List.mem_cons, hg, false_or]
          rw [List.mem_erase_of_ne hg]
          exact hmc g
    · have hfc : f ∉ r.cache_list_ := fun hx => by have := (hc f).1 hx; omega
      simp only [if_neg h1, if_neg h2]
      by_cases hm : r.history_map_ f = true
      · have hfh : f ∈ r.history_list_ := (hmh f).1 hm
        simp only [hm, if_true]
        refine ⟨_, rfl, hkk, hk, hacc, ?_, ?_, hnh, hnc, hmh, hmc⟩
        · intro g
          by_cases hg : g = f
          · subst hg
            simp only [Function.update_same]
            constructor
            · intro _; omega
            · intro _; exact hfh
          · simp only [Function.update_noteq hg]
            exact hh g
        · intro g
          by_cases hg : g = f
          · subst hg
            simp only [Function.update_same]
            constructor
            · intro hx; exact absurd hx hfc
            · intro hx; omega
          · simp only [Function.update_noteq hg]
            exact hc g
      · have hfh : f ∉ r.history_list_ := fun hx => hm ((hmh f).2 hx)
        simp only [hm]
        refine ⟨_, rfl, hkk, hk, hacc, ?_, ?_, List.nodup_cons.2 ⟨hfh, hnh⟩, hnc, ?_, hmc⟩
        · intro g
          by_cases hg : g = f
          · subst hg
            simp only [Function.update_same, List.mem_cons, true_or, true_iff]
            omega
          · simp only [Function.update_noteq hg, List.mem_cons, hg, false_or]
            exact hh g
        · intro g
          by_cases hg : g = f
          · subst hg
            simp only [Function.update_same]
            constructor
            · intro hx; exact absurd hx hfc
            · intro hx; omega
          · simp only [Function.update_noteq hg]
            exact hc g
        · intro g
          by_cases hg : g = f
          · subst hg; simp
          · simp only [Function.update_noteq hg, List.mem_cons, hg, false_or]
            exact hmh g

theorem Tracked_step {k n : Nat} {r : LRUKReplacer} (h : Tracked k n r)
    (hn : n + 1 < 4294967296) (op : Op) :
    ∃ r1, op.apply r = some r1 ∧ Tracked k (n + 1) r1 := by
  have hmono : ∀ r1, Tracked k n r1 → Tracked k (n + 1) r1 := by
    intro r1 h1
    obtain ⟨hkk, hk, hb, rest⟩ := h1
    exact ⟨hkk, hk, fun g => Nat.le_succ_of_le (hb g), rest⟩
  cases op with
  | Pin g => exact ⟨_, rfl, hmono _ (Tracked_Pin h g)⟩
  | Unpin g => exact Tracked_Unpin h hn g
  | Victim => exact ⟨_, rfl, hmono _ (Tracked_Victim h).1⟩

theorem Tracked_runOps {k : Nat} (ops : List Op) : ∀ (n : Nat) (r : LRUKReplacer),
    Tracked k n r →
    n + ops.length < 4294967296 →
    ∃ r1, runOps ops r = some r1 ∧ Tracked k (n + ops.length) r1 := by
  induction ops with
  | nil => intro n r h _; exact ⟨r, rfl, h⟩
  | cons op ops ih =>
    intro n r h hn
    simp only [List.length_cons] at hn ⊢
    obtain ⟨r1, h1, ht1⟩ := Tracked_step h (by omega) op
    obtain ⟨r2, h2, ht2⟩ := ih (n + 1) r1 ht1 (by omega)
    refine ⟨r2, ?_, ?_⟩
    · simp only [runOps, h1, Option.some_bind, h2]
    · have e : n + (ops.length + 1) = n + 1 + ops.length := by omega
      rw [e]; exact ht2

end LRUKReplacer

namespace LRUKReplacer

theorem filter_ne_erase (f : Int) : ∀ l : List Int,
    (l.erase f).filter (fun g => decide (g ≠ f)) = l.filter (fun g => decide (g ≠ f))
  | [] => rfl
  | a :: l => by
    by_cases ha : a = f
    · subst ha; simp
    · rw [List.erase_cons_tail (by simpa using ha)]
      simp only [List.filter_cons, filter_ne_erase f l]

theorem Hot_before_wrap :
    ∃ r, runOps (List.replicate 4294967295 (Op.Unpin 0)) (new 2) = some r ∧
      Hot 4294967295 r := by
  obtain ⟨r2, hr2, hot2⟩ := Hot_two
  obtain ⟨r3, hr3, hot3⟩ := Hot_runOps 4294967293 2 r2 hot2 (by omega) (by omega)
  have hsplit : (4294967295 : Nat) = 2 + 4294967293 := by omega
  refine ⟨r3, ?_, hot3⟩
  rw [hsplit, List.replicate_add, runOps_append, hr2, Option.some_bind, hr3]

theorem Hot_wrap {r : LRUKReplacer} (h : Hot 4294967295 r) :
    ∃ r1, r.Unpin 0 = some r1 ∧ r1.k_ = 2 ∧ r1.access_time_ 0 = 0 ∧
      r1.history_list_ = [0] ∧ r1.cache_list_ = [0] := by
  obtain ⟨hk, ha, hcm, hhm, hhl, hcl⟩ := h
  have hmod : (4294967295 + 1) % 4294967296 = 0 := by omega
  unfold Unpin
  simp only [ha, hmod, hk, hhm]
  refine ⟨_, rfl, ?_⟩
  simp [hhl, hcl, hk]

end LRUKReplacer

/-! ## C34 and C35: the lists of the LRU-K replacer -/

/-- C34, the claim as stated fails: after 4294967295 calls of `Unpin(0)` on a
replacer with `k_ = 2` frame 0 is in the cache list with counter 4294967295; the
next `Unpin(0)` wraps the `unsigned int` counter to 0 instead of incrementing
it, leaves frame 0 in the cache list and inserts it into the history list,
although this is not its first return. -/
theorem C34_Unpin_wraps_counter :
    ∃ r r1, LRUKReplacer.runOps (List.replicate 4294967295 (LRUKReplacer.Op.Unpin 0))
        (LRUKReplacer.new 2) = some r ∧
      r.k_ = 2 ∧ r.access_time_ 0 = 4294967295 ∧
      r.history_list_ = [] ∧ r.cache_list_ = [0] ∧
      r.Unpin 0 = some r1 ∧ r1.access_time_ 0 = 0 ∧
      r1.history_list_ = [0] ∧ r1.cache_list_ = [0] := by
  obtain ⟨r, hr, hot⟩ := LRUKReplacer.Hot_before_wrap
  obtain ⟨r1, hr1, _, ha1, hh1, hc1⟩ := LRUKReplacer.Hot_wrap hot
  obtain ⟨hk, ha, _, _, hhl, hcl⟩ := hot
  exact ⟨r, r1, hr, hk, ha, hhl, hcl, hr1, ha1, hh1, hc1⟩

/-- C34, amended: when the counter of `f` is below 4294967295 and, in case the
incremented counter equals `k_`, `f` has an entry in `history_map_`, the call
`Unpin(f)` returns, increments `access_time_[f]` by one and sets
`is_evictable_[f]`; if the counter has reached `k_` the frame is erased from the
history list and pushed to the front of the cache list; if it exceeds `k_` the
frame is erased from the cache list, when it has an entry in `cache_map_`, and
pushed to its front; if it is below `k_` the frame is pushed to the front of the
history list when it has no entry in `history_map_` and the lists stay as they
are otherwise. The counter and the flag of every other frame, and the order of
the other frames in both lists, are unchanged. -/
theorem C34_Unpin_moves_only_its_frame (r : LRUKReplacer) (f : Int)
    (hwrap : r.access_time_ f + 1 < 4294967296)
    (hentry : r.access_time_ f + 1 = r.k_ → r.history_map_ f = true) :
    ∃ r1, r.Unpin f = some r1 ∧
      r1.access_time_ f = r.access_time_ f + 1 ∧ r1.is_evictable_ f = true ∧
      (r1.access_time_ f = r.k_ →
        r1.history_list_ = r.history_list_.erase f ∧ r1.cache_list_ = f :: r.cache_list_) ∧
      (r.k_ < r1.access_time_ f →
        r1.history_list_ = r.history_list_ ∧
        r1.cache_list_ =
          f :: (if r.cache_map_ f = true then r.cache_list_.erase f else r.cache_list_)) ∧
      (r1.access_time_ f < r.k_ →
        r1.cache_list_ = r.cache_list_ ∧
        r1.history_list_ =
          if r.history_map_ f = true then r.history_list_ else f :: r.history_list_) ∧
      (∀ g, g ≠ f → r1.access_time_ g = r.access_time_ g ∧
        r1.is_evictable_ g = r.is_evictable_ g) ∧
      r1.history_list_.filter (fun g => decide (g ≠ f)) =
        r.history_list_.filter (fun g => decide (g ≠ f)) ∧
      r1.cache_list_.filter (fun g => decide (g ≠ f)) =
        r.cache_list_.filter (fun g => decide (g ≠ f)) := by
  have hmod : (r.access_time_ f + 1) % 4294967296 = r.access_time_ f + 1 :=
    Nat.mod_eq_of_lt hwrap
  have hother : ∀ g, g ≠ f →
      Function.update r.access_time_ f (r.access_time_ f + 1) g = r.access_time_ g ∧
      Function.update r.is_evictable_ f true g = r.is_evictable_ g :=
    fun g hg => ⟨Function.update_noteq hg _ _, Function.update_noteq hg _ _⟩
  have hcons : ∀ l : List Int,
      (f :: l).filter (fun g => decide (g ≠ f)) = l.filter (fun g => decide (g ≠ f)) := by
    intro l; simp
  unfold LRUKReplacer.Unpin
  simp only [hmod]
  by_cases h1 : r.access_time_ f + 1 = r.k_
  · simp only [if_pos h1, hentry h1, if_true]
    refine ⟨_, rfl, Function.update_same _ _ _, Function.update_same _ _ _, ?_, ?_, ?_,
      hother, LRUKReplacer.filter_ne_erase f _, hcons _⟩
    · intro _; exact ⟨rfl, rfl⟩
    · intro hx; simp only [Function.update_same] at hx; omega
    · intro hx; simp only [Function.update_same] at hx; omega
  · by_cases h2 : r.access_time_ f + 1 > r.k_
    · simp only [if_neg h1, if_pos h2]
      refine ⟨_, rfl, Function.update_same _ _ _, Function.update_same _ _ _, ?_, ?_, ?_,
        hother, rfl, ?_⟩
      · intro hx; simp only [Function.update_same] at hx; exact absurd hx h1
      · intro _; exact ⟨rfl, rfl⟩
      · intro hx; simp only [Function.update_same] at hx; omega
      · rw [hcons]
        by_cases hm : r.cache_map_ f = true
        · simp only [hm, if_true]; exact LRUKReplacer.filter_ne_erase f _
        · simp only [hm]; rfl
    · simp only [if_neg h1, if_neg h2]
      by_cases hm : r.history_map_ f = true
      · simp only [hm, if_true]
        refine ⟨_, rfl, Function.update_same _ _ _, Function.update_same _ _ _, ?_, ?_, ?_,
          hother, rfl, rfl⟩
        · intro hx; simp only [Function.update_same] at hx; exact absurd hx h1
        · intro hx; simp only [Function.update_same] at hx; omega
        · intro _; exact ⟨rfl, rfl⟩
      · simp only [hm]
        refine ⟨_, rfl, Function.update_same _ _ _, Function.update_same _ _ _, ?_, ?_, ?_,
          hother, hcons _, rfl⟩
        · intro hx; simp only [Function.update_same] at hx; exact absurd hx h1
        · intro hx; simp only [Function.update_same] at hx; omega
        · intro _; exact ⟨rfl, rfl⟩

/-- C35, the claim as stated fails: after 4294967296 calls of `Unpin(0)` on a
replacer with `k_ = 2` the `unsigned int` counter of frame 0 is 0 again, yet
frame 0 is in the cache list, and it is in the history list as well. -/
theorem C35_wrapped_frame_in_both_lists :
    ∃ r, LRUKReplacer.runOps (List.replicate 4294967296 (LRUKReplacer.Op.Unpin 0))
        (LRUKReplacer.new 2) = some r ∧
      r.k_ = 2 ∧ r.access_time_ 0 = 0 ∧ 0 ∈ r.cache_list_ ∧ 0 ∈ r.history_list_ := by
  obtain ⟨r, hr, hot⟩ := LRUKReplacer.Hot_before_wrap
  obtain ⟨r1, hr1, hk1, ha1, hh1, hc1⟩ := LRUKReplacer.Hot_wrap hot
  have hsplit : (4294967296 : Nat) = 4294967295 + 1 := by omega
  refine ⟨r1, ?_, hk1, ha1, ?_, ?_⟩
  · rw [hsplit, List.replicate_add, LRUKReplacer.runOps_append, hr, Option.some_bind]
    simp only [List.replicate, LRUKReplacer.runOps, LRUKReplacer.Op.apply, hr1,
      Option.some_bind]
  · rw [hc1]; simp
  · rw [hh1]; simp

/-- C35, amended: for a replacer with `k_ = k ≥ 2`, every sequence of fewer than
2^32 `Pin`, `Unpin` and `Victim` calls from the initial state returns, and in the
state it reaches a frame is in `history_list_` iff `1 ≤ access_time_[f] < k`, it
is in `cache_list_` iff `access_time_[f] ≥ k`, no frame occurs twice in or across
the two lists, a frame evicted by a following `Victim` has `access_time_` 0 and
is in neither list, and the keys of `history_map_` and `cache_map_` are the
members of their lists. -/
theorem C35_lists_agree_with_counters (k : Nat) (hk : 2 ≤ k) (ops : List LRUKReplacer.Op)
    (hlen : ops.length < 4294967296) :
    ∃ r, LRUKReplacer.runOps ops (LRUKReplacer.new k) = some r ∧
      (∀ f, f ∈ r.history_list_ ↔ 1 ≤ r.access_time_ f ∧ r.access_time_ f < k) ∧
      (∀ f, f ∈ r.cache_list_ ↔ k ≤ r.access_time_ f) ∧
      r.history_list_.Nodup ∧ r.cache_list_.Nodup ∧
      (∀ f, f ∈ r.history_list_ → f ∉ r.cache_list_) ∧
      (∀ f, r.Victim.1 = some f → r.Victim.2.access_time_ f = 0 ∧
        f ∉ r.Victim.2.history_list_ ∧ f ∉ r.Victim.2.cache_list_) ∧
      (∀ f, r.history_map_ f = true ↔ f ∈ r.history_list_) ∧
      (∀ f, r.cache_map_ f = true ↔ f ∈ r.cache_list_) := by
  obtain ⟨r, hr, ht⟩ := LRUKReplacer.Tracked_runOps ops 0 (LRUKReplacer.new k)
    (LRUKReplacer.Tracked_new k hk) (by omega)
  obtain ⟨hv, hv0⟩ := LRUKReplacer.Tracked_Victim ht
  obtain ⟨hkk, hk2, hb, hh, hc, hnh, hnc, hmh, hmc⟩ := ht
  obtain ⟨hkk1, hk1, _, hh1, hc1, _⟩ := hv
  subst hkk
  refine ⟨r, hr, hh, hc, hnh, hnc, ?_, ?_, hmh, hmc⟩
  · intro f hf hf2
    have := (hh f).1 hf
    have := (hc f).1 hf2
    omega
  · intro f hf
    have h0 := hv0 f hf
    refine ⟨h0, ?_, ?_⟩
    · intro hx; have := (hh1 f).1 hx; omega
    · intro hx; have := (hc1 f).1 hx; omega

/-- C34, the amended statement at the second `Unpin(1)` of a replacer with
`k_ = 2`: the counter of frame 1 reaches `k_` and the frame moves from the
history list to the cache list. -/
theorem C34_Unpin_witness :
    (LRUKReplacer.returnedOnce.access_time_ 1 + 1 < 4294967296) ∧
    (LRUKReplacer.returnedOnce.access_time_ 1 + 1 = LRUKReplacer.returnedOnce.k_ →
      LRUKReplacer.returnedOnce.history_map_ 1 = true) ∧
    ∃ r1, LRUKReplacer.returnedOnce.Unpin 1 = some r1 ∧
      r1.access_time_ 1 = LRUKReplacer.returnedOnce.access_time_ 1 + 1 ∧
      r1.is_evictable_ 1 = true ∧
      (r1.access_time_ 1 = LRUKReplacer.returnedOnce.k_ →
        r1.history_list_ = LRUKReplacer.returnedOnce.history_list_.erase 1 ∧
        r1.cache_list_ = 1 :: LRUKReplacer.returnedOnce.cache_list_) ∧
      (LRUKReplacer.returnedOnce.k_ < r1.access_time_ 1 →
        r1.history_list_ = LRUKReplacer.returnedOnce.history_list_ ∧
        r1.cache_list_ =
          1 :: (if LRUKReplacer.returnedOnce.cache_map_ 1 = true
                then LRUKReplacer.returnedOnce.cache_list_.erase 1
                else LRUKReplacer.returnedOnce.cache_list_)) ∧
      (r1.access_time_ 1 < LRUKReplacer.returnedOnce.k_ →
        r1.cache_list_ = LRUKReplacer.returnedOnce.cache_list_ ∧
        r1.history_list_ =
          if LRUKReplacer.returnedOnce.history_map_ 1 = true
          then LRUKReplacer.returnedOnce.history_list_
          else 1 :: LRUKReplacer.returnedOnce.history_list_) ∧
      (∀ g, g ≠ 1 → r1.access_time_ g = LRUKReplacer.returnedOnce.access_time_ g ∧
        r1.is_evictable_ g = LRUKReplacer.returnedOnce.is_evictable_ g) ∧
      r1.history_list_.filter (fun g => decide (g ≠ 1)) =
        LRUKReplacer.returnedOnce.history_list_.filter (fun g => decide (g ≠ 1)) ∧
      r1.cache_list_.filter (fun g => decide (g ≠ 1)) =
        LRUKReplacer.returnedOnce.cache_list_.filter (fun g => decide (g ≠ 1)) :=
  ⟨by decide, by decide,
    C34_Unpin_moves_only_its_frame LRUKReplacer.returnedOnce 1 (by decide) (by decide)⟩

/-- The three branches of `Unpin` on the states of the example: frame 3 enters
the history list in front of 2 and 1, frame 1 moves from the history list to the
cache list, and frame 1 stays where it is in the cache list of one frame. -/
theorem returnedOnce_Unpin :
    (LRUKReplacer.returnedOnce.history_list_, LRUKReplacer.returnedOnce.cache_list_)
      = ([2, 1], []) ∧
    (LRUKReplacer.returnedOnce.Unpin 3).map
      (fun r => (r.access_time_ 3, r.history_list_, r.cache_list_))
      = some (1, [3, 2, 1], []) ∧
    (LRUKReplacer.returnedOnce.Unpin 1).map
      (fun r => (r.access_time_ 1, r.history_list_, r.cache_list_)) = some (2, [2], [1]) ∧
    ((LRUKReplacer.returnedOnce.Unpin 1).bind fun r => r.Unpin 1).map
      (fun r => (r.access_time_ 1, r.history_list_, r.cache_list_)) = some (3, [2], [1]) := by
  decide

/-- C35, the amended statement for six calls on a replacer with `k_ = 2`. -/
theorem C35_lists_witness :
    2 ≤ 2 ∧ LRUKReplacer.exampleCalls.length < 4294967296 ∧
    ∃ r, LRUKReplacer.runOps LRUKReplacer.exampleCalls (LRUKReplacer.new 2) = some r ∧
      (∀ f, f ∈ r.history_list_ ↔ 1 ≤ r.access_time_ f ∧ r.access_time_ f < 2) ∧
      (∀ f, f ∈ r.cache_list_ ↔ 2 ≤ r.access_time_ f) ∧
      r.history_list_.Nodup ∧ r.cache_list_.Nodup ∧
      (∀ f, f ∈ r.history_list_ → f ∉ r.cache_list_) ∧
      (∀ f, r.Victim.1 = some f → r.Victim.2.access_time_ f = 0 ∧
        f ∉ r.Victim.2.history_list_ ∧ f ∉ r.Victim.2.cache_list_) ∧
      (∀ f, r.history_map_ f = true ↔ f ∈ r.history_list_) ∧
      (∀ f, r.cache_map_ f = true ↔ f ∈ r.cache_list_) :=
  ⟨by decide, by decide,
    C35_lists_agree_with_counters 2 (by decide) LRUKReplacer.exampleCalls (by decide)⟩

/-- The state after the six calls of the example: frame 3 was evicted, frame 2
is in the history list with one access, frame 1 in the cache list with two. -/
theorem exampleCalls_state :
    (LRUKReplacer.runOps LRUKReplacer.exampleCalls (LRUKReplacer.new 2)).map
      (fun r => (r.history_list_, r.cache_list_,
        [1, 2, 3].map r.access_time_, r.Victim.1))
      = some ([2], [1], [2, 1, 0], some 1) := by
  decide

/-! ## C36, C38 and C39: failing inputs -/

/-- C36: on a replacer with `k_ = 2`, after `Unpin(1)`, `Unpin(2)` both frames
are evictable with one access, the history list is [2, 1], and `Victim` returns
frame 2, which entered the history list last, and not frame 1. After
`Unpin(1)`, `Unpin(1)`, `Unpin(2)`, `Unpin(2)` both frames are evictable with two
accesses, the cache list is [2, 1], and `Victim` returns frame 2, whose return
is the most recent one, and not frame 1. -/
theorem C36_Victim_returns_newest :
    ((LRUKReplacer.runOps [LRUKReplacer.Op.Unpin 1, LRUKReplacer.Op.Unpin 2]
      (LRUKReplacer.new 2)).map fun r =>
        (r.history_list_, r.cache_list_, [1, 2].map r.is_evictable_, r.Victim.1)) =
      some ([2, 1], [], [true, true], some 2) ∧
    ((LRUKReplacer.runOps
      [LRUKReplacer.Op.Unpin 1, LRUKReplacer.Op.Unpin 1, LRUKReplacer.Op.Unpin 2,
       LRUKReplacer.Op.Unpin 2] (LRUKReplacer.new 2)).map fun r =>
        (r.history_list_, r.cache_list_, [1, 2].map r.is_evictable_, r.Victim.1)) =
      some ([], [2, 1], [true, true], some 2) := by
  decide

/-- C38: `Insert(10)`, `Insert(20)` on the empty tree with `leaf_max_size = 4`
give the root leaf with the keys 10 and 20, on which `GetValue(20)` finds the row
id of 20; `Remove(10)` leaves the root leaf with one entry, below `min_size = 2`,
calls `CoalesceOrRedistribute` and with it `AdjustRoot` on the leaf, which reads
the leaf as an internal page with one child and has no defined result: there is
no state after the call in which `GetValue(20)` returns the row id. -/
theorem C38_Remove_loses_other_keys :
    runOps (numKM 4) (insertAll [10, 20]) (emptyTree 4 4) = some (leafTree [10, 20]) ∧
    lookup (numKM 4) 20 (leafTree [10, 20]) = some (true, [⟨20, 0⟩]) ∧
    (leafTree [10, 20]).Remove (numKey 10) (numKM 4) = none ∧
    runOps (numKM 4) (insertAll [10, 20] ++ [Op.Remove 10]) (emptyTree 4 4) = none := by
  decide

/-- C39: `MoveHalfTo` on the internal page with `max_size = 16` and 17 pairs
leaves the page with the children 10 to 17 and gives the recipient the children
11 to 19: the children 11 to 17 are held by both pages and the children 20 to 26
by none. On the page with `max_size = 17` and 18 pairs the page keeps 9 pairs
and the recipient receives 10, together 19 and not 18. -/
theorem C39_MoveHalfTo_is_no_partition :
    ((InternalPage.MoveHalfTo (poolOf [fullPage, InternalPage.Init 3 (-1) 4 16]) 2 3).bind
      fun b => childrenAt b 2) = some (8, [10, 11, 12, 13, 14, 15, 16, 17]) ∧
    ((InternalPage.MoveHalfTo (poolOf [fullPage, InternalPage.Init 3 (-1) 4 16]) 2 3).bind
      fun b => childrenAt b 3) = some (9, [11, 12, 13, 14, 15, 16, 17, 18, 19]) ∧
    ((InternalPage.MoveHalfTo (poolOf [oddPage, InternalPage.Init 3 (-1) 4 17]) 2 3).bind
      fun b => childrenAt b 2) = some (9, [10, 11, 12, 13, 14, 15, 16, 17, 18]) ∧
    ((InternalPage.MoveHalfTo (poolOf [oddPage, InternalPage.Init 3 (-1) 4 17]) 2 3).bind
      fun b => childrenAt b 3) = some (10, [11, 12, 13, 14, 15, 16, 17, 18, 19, 20]) := by
  decide

/-! ## C37: the flattening of the predicate -/

mutual
theorem dfs_flattens {τ : Type} : ∀ (curr : Predicate τ) (vec : List Comparison),
    dfs vec curr.toExpression =
      if curr.isLogicTree then some (vec ++ curr.comparisons) else none
  | Predicate.LogicExpression _ children, vec => by
    rw [Predicate.toExpression, dfs, Predicate.isLogicTree, Predicate.comparisons]
    exact dfsChildren_flattens children vec
  | Predicate.ComparisonExpression c o k, vec => by
    simp [Predicate.toExpression, dfs, Predicate.isLogicTree, Predicate.comparisons]
  | Predicate.OtherExpression, vec => by
    simp [Predicate.toExpression, dfs, Predicate.isLogicTree]
theorem dfsChildren_flattens {τ : Type} :
    ∀ (children : List (Predicate τ)) (vec : List Comparison),
    dfsChildren vec (Predicate.toExpressions children) =
      if Predicate.areLogicTrees children then
        some (vec ++ Predicate.comparisonsOfList children)
      else none
  | [], vec => by
    simp [Predicate.toExpressions, dfsChildren, Predicate.areLogicTrees,
      Predicate.comparisonsOfList]
  | child :: rest, vec => by
    rw [Predicate.toExpressions, dfsChildren, dfs_flattens child vec,
      Predicate.areLogicTrees, Predicate.comparisonsOfList]
    by_cases hc : child.isLogicTree = true
    · simp only [hc, if_true, Bool.true_and]
      rw [dfsChildren_flattens rest (vec ++ child.comparisons)]
      simp only [List.append_assoc]
    · simp [hc]
end

mutual
theorem isLogicTree_of_isConjunction {τ : Type} (isAnd : τ → Bool) :
    ∀ curr : Predicate τ, curr.isConjunction isAnd = true → curr.isLogicTree = true
  | Predicate.LogicExpression _ children, h => by
    rw [Predicate.isConjunction, Bool.and_eq_true] at h
    rw [Predicate.isLogicTree]
    exact areLogicTrees_of_areConjunctions isAnd children h.2
  | Predicate.ComparisonExpression _ _ _, _ => by rw [Predicate.isLogicTree]
  | Predicate.OtherExpression, h => by rw [Predicate.isConjunction] at h; cases h
theorem areLogicTrees_of_areConjunctions {τ : Type} (isAnd : τ → Bool) :
    ∀ children : List (Predicate τ), Predicate.areConjunctions isAnd children = true →
      Predicate.areLogicTrees children = true
  | [], _ => by rw [Predicate.areLogicTrees]
  | child :: rest, h => by
    rw [Predicate.areConjunctions, Bool.and_eq_true] at h
    rw [Predicate.areLogicTrees, Bool.and_eq_true]
    exact ⟨isLogicTree_of_isConjunction isAnd child h.1,
      areLogicTrees_of_areConjunctions isAnd rest h.2⟩
end

/-- C37, the claim as stated fails: the tree `a = 3 OR b = 7` contains an
internal operator other than `AND`, and `dfs`, which tests only `GetType()` of a
node, returns its two comparisons and throws nothing. -/
theorem C37_dfs_accepts_other_operator :
    disjunction.isConjunction (fun o => decide (o = LogicType.And)) = false ∧
    disjunction.isLogicTree = true ∧
    dfs [] disjunction.toExpression
      = some [⟨0, ComparisonType.eq, 3⟩, ⟨1, ComparisonType.eq, 7⟩] := by
  decide

/-- C37, amended: on a predicate tree whose nodes are all logic nodes, of
whatever operator, or comparisons, `dfs` appends exactly the comparison leaves
of the tree in left-to-right depth-first order to the vector; this holds for
every tree of `AND` nodes and comparisons; `dfs` throws if and only if the tree
contains a node that is neither a logic node nor a comparison. -/
theorem C37_dfs_collects_comparisons {τ : Type} (isAnd : τ → Bool) (curr : Predicate τ)
    (vec : List Comparison) :
    (dfs vec curr.toExpression =
      if curr.isLogicTree then some (vec ++ curr.comparisons) else none) ∧
    (curr.isConjunction isAnd = true →
      dfs vec curr.toExpression = some (vec ++ curr.comparisons)) ∧
    (dfs vec curr.toExpression = none ↔ curr.isLogicTree = false) := by
  have h := dfs_flattens curr vec
  refine ⟨h, ?_, ?_⟩
  · intro hc
    rw [h, isLogicTree_of_isConjunction isAnd curr hc]
    rfl
  · rw [h]
    by_cases hl : curr.isLogicTree = true
    · simp [hl]
    · simp [hl]

/-- C37, the amended statement on the tree `(a = 3 AND b = 7) AND a < 9`. -/
theorem C37_dfs_witness :
    conjunction.isConjunction (fun o => decide (o = LogicType.And)) = true ∧
    dfs [] conjunction.toExpression
      = some ([] ++ [⟨0, ComparisonType.eq, 3⟩, ⟨1, ComparisonType.eq, 7⟩,
          ⟨0, ComparisonType.lt, 9⟩]) :=
  ⟨by decide,
    (C37_dfs_collects_comparisons (fun o => decide (o = LogicType.And)) conjunction []).2.1
      (by decide)⟩

/-- A tree with a node that is neither a logic node nor a comparison: `dfs`
throws, also when comparisons precede the node. -/
theorem dfs_throws :
    dfs [] (Predicate.LogicExpression LogicType.And
      [Predicate.ComparisonExpression 0 ComparisonType.eq 3,
       Predicate.OtherExpression]).toExpression = none ∧
    dfs [] (Predicate.OtherExpression : Predicate LogicType).toExpression = none := by
  decide

/-! ### The ids of the catalog below the wrap of its counters -/

namespace Map

theorem mem_assign {κ ν : Type} [BEq κ] {m : List (κ × ν)} {k : κ} {v : ν} {e : κ × ν}
    (h : e ∈ assign m k v) : e ∈ m ∨ e = (k, v) := by
  unfold assign at h
  split at h
  · obtain ⟨a, ha, hae⟩ := List.mem_map.1 h
    split at hae
    · right; exact hae.symm
    · left; rw [← hae]; exact ha
  · rcases List.mem_append.1 h with h1 | h1
    · left; exact h1
    · right; simpa using h1

theorem mem_erase {κ ν : Type} [BEq κ] {m : List (κ × ν)} {k : κ} {e : κ × ν}
    (h : e ∈ erase m k) : e ∈ m :=
  (List.mem_filter.1 h).1

end Map

namespace Catalog

theorem TableIds_assign {next : Nat} {m : List (String × Nat)} (h : TableIds next m)
    (t : String) : TableIds (next + 1) (Map.assign m t next) := by
  obtain ⟨h1, h2⟩ := h
  constructor
  · intro q id hq
    rw [Map.find_assign] at hq
    split at hq
    · cases hq; omega
    · have := h1 q id hq; omega
  · intro t1 t2 id ht1 ht2
    rw [Map.find_assign] at ht1 ht2
    split at ht1
    · rename_i e1
      split at ht2
      · rename_i e2; rw [e1, e2]
      · cases ht1
        have := h1 t2 _ ht2
        omega
    · split at ht2
      · cases ht2
        have := h1 t1 _ ht1
        omega
      · exact h2 t1 t2 id ht1 ht2

theorem TableIds_erase {next : Nat} {m : List (String × Nat)} (h : TableIds next m)
    (t : String) : TableIds next (Map.erase m t) := by
  obtain ⟨h1, h2⟩ := h
  constructor
  · intro q id hq
    rw [Map.find_erase] at hq
    split at hq
    · cases hq
    · exact h1 q id hq
  · intro t1 t2 id ht1 ht2
    rw [Map.find_erase] at ht1 ht2
    split at ht1
    · cases ht1
    · split at ht2
      · cases ht2
      · exact h2 t1 t2 id ht1 ht2

theorem IndexIds_mono {next next1 : Nat} {m : List (String × List (String × Nat))}
    (h : IndexIds next m) (hle : next ≤ next1) : IndexIds next1 m :=
  ⟨fun t names ht e he => Nat.lt_of_lt_of_le (h.1 t names ht e he) hle, h.2⟩

theorem IndexIds_touch {next : Nat} {m : List (String × List (String × Nat))}
    (h : IndexIds next m) (t : String) : IndexIds next (Map.touch m t []) := by
  have hfind : ∀ q names, Map.find (Map.touch m t []) q = some names →
      names = [] ∨ Map.find m q = some names := by
    intro q names hq
    rw [Map.find_touch] at hq
    split at hq
    · right; exact hq
    · split at hq
      · left; cases hq; rfl
      · cases hq
  obtain ⟨h1, h2⟩ := h
  constructor
  · intro q names hq e he
    rcases hfind q names hq with h0 | h0
    · rw [h0] at he; cases he
    · exact h1 q names h0 e he
  · intro t1 names1 t2 names2 ht1 ht2 e1 he1 e2 he2 he
    rcases hfind t1 names1 ht1 with h0 | h0
    · rw [h0] at he1; cases he1
    · rcases hfind t2 names2 ht2 with h3 | h3
      · rw [h3] at he2; cases he2
      · exact h2 t1 names1 t2 names2 h0 h3 e1 he1 e2 he2 he

theorem IndexIds_assign {next next1 : Nat} {m : List (String × List (String × Nat))}
    (h : IndexIds next m) (hle : next ≤ next1) (t i : String)
    (newnames : List (String × Nat))
    (hnew : ∀ e ∈ newnames, (e = (i, next) ∧ next < next1) ∨
      ∃ names, Map.find m t = some names ∧ e ∈ names) :
    IndexIds next1 (Map.assign m t newnames) := by
  obtain ⟨h1, h2⟩ := h
  -- an entry of the new map is the new index or an entry of the old map
  have hold : ∀ q names e, Map.find (Map.assign m t newnames) q = some names → e ∈ names →
      (q = t ∧ e = (i, next) ∧ next < next1) ∨
      ∃ names0, Map.find m q = some names0 ∧ e ∈ names0 := by
    intro q names e hq he
    rw [Map.find_assign] at hq
    split at hq
    · rename_i hqt
      cases hq
      rcases hnew e he with h0 | ⟨names0, h0, h3⟩
      · left; exact ⟨hqt, h0⟩
      · right; exact ⟨names0, by rw [hqt]; exact h0, h3⟩
    · right; exact ⟨names, hq, he⟩
  constructor
  · intro q names hq e he
    rcases hold q names e hq he with ⟨_, h0, h3⟩ | ⟨names0, h0, h3⟩
    · rw [h0]; exact h3
    · have := h1 q names0 h0 e h3
      omega
  · intro t1 names1 t2 names2 ht1 ht2 e1 he1 e2 he2 he
    rcases hold t1 names1 e1 ht1 he1 with ⟨ha, hb, _⟩ | ⟨n1, ha, hb⟩
    · rcases hold t2 names2 e2 ht2 he2 with ⟨hc, hd, _⟩ | ⟨n2, hc, hd⟩
      · rw [ha, hc, hb, hd]
        exact ⟨rfl, rfl⟩
      · have := h1 t2 n2 hc e2 hd
        rw [hb] at he
        simp only at he
        omega
    · rcases hold t2 names2 e2 ht2 he2 with ⟨hc, hd, _⟩ | ⟨n2, hc, hd⟩
      · have := h1 t1 n1 ha e1 hb
        rw [hd] at he
        simp only at he
        omega
      · exact h2 t1 n1 t2 n2 ha hc e1 hb e2 hd he

theorem IndexIds_erase {next : Nat} {m : List (String × List (String × Nat))}
    (h : IndexIds next m) (t : String) : IndexIds next (Map.erase m t) := by
  have hfind : ∀ q names, Map.find (Map.erase m t) q = some names →
      Map.find m q = some names := by
    intro q names hq
    rw [Map.find_erase] at hq
    split at hq
    · cases hq
    · exact hq
  obtain ⟨h1, h2⟩ := h
  exact ⟨fun q names hq e he => h1 q names (hfind q names hq) e he,
    fun t1 names1 t2 names2 ht1 ht2 e1 he1 e2 he2 he =>
      h2 t1 names1 t2 names2 (hfind _ _ ht1) (hfind _ _ ht2) e1 he1 e2 he2 he⟩

end Catalog

namespace Catalog

namespace CatalogManager

theorem Numbered_emptyCatalog : Numbered 0 emptyCatalog := by
  refine ⟨Nat.le_refl _, Nat.le_refl _, ⟨?_, ?_⟩, ⟨?_, ?_⟩⟩
  · intro t id h; cases h
  · intro t1 t2 id h; cases h
  · intro t names h; cases h
  · intro t1 names1 t2 names2 h; cases h

theorem Numbered_of_fields {n : Nat} {cm cm1 : CatalogManager} (h : Numbered n cm)
    (h1 : cm1.next_table_id_ = cm.next_table_id_) (h2 : cm1.next_index_id_ = cm.next_index_id_)
    (h3 : cm1.table_names_ = cm.table_names_) (h4 : cm1.index_names_ = cm.index_names_) :
    Numbered (n + 1) cm1 := by
  obtain ⟨ht, hi, hT, hI⟩ := h
  unfold Numbered
  rw [h1, h2, h3, h4]
  exact ⟨by omega, by omega, hT, hI⟩

theorem Numbered_CreateTable {n : Nat} {cm cm1 : CatalogManager} {table_name : String}
    {schema : List String} {table_info out : Option TableInfo} {code : dberr_t}
    (h : cm.CreateTable table_name schema table_info = some (code, cm1, out))
    (hn : Numbered n cm) (hlt : n + 1 < 4294967296) : Numbered (n + 1) cm1 := by
  unfold CreateTable at h
  split at h
  · cases h
    exact Numbered_of_fields hn rfl rfl rfl rfl
  · simp only at h
    split at h
    · cases h
    · rename_i cm2 hf
      cases h
      have e := (FlushCatalogMetaPage_fields hf).1
      obtain ⟨ht, hi, hT, hI⟩ := hn
      have hmod : (cm.next_table_id_ + 1) % 4294967296 = cm.next_table_id_ + 1 :=
        Nat.mod_eq_of_lt (by omega)
      unfold Numbered
      rw [e]
      simp only [hmod]
      exact ⟨by omega, by omega, TableIds_assign hT table_name, hI⟩

theorem Numbered_CreateIndex {n : Nat} {cm cm1 : CatalogManager}
    {table_name index_name : String} {index_keys : List String}
    {index_info out : Option IndexInfo} {code : dberr_t}
    (h : cm.CreateIndex table_name index_name index_keys index_info = some (code, cm1, out))
    (hn : Numbered n cm) (hlt : n + 1 < 4294967296) : Numbered (n + 1) cm1 := by
  obtain ⟨ht, hi, hT, hI⟩ := hn
  have hmod : (cm.next_index_id_ + 1) % 4294967296 = cm.next_index_id_ + 1 :=
    Nat.mod_eq_of_lt (by omega)
  have htouch := IndexIds_touch hI table_name
  unfold CreateIndex at h
  split at h
  · cases h
    exact Numbered_of_fields ⟨ht, hi, hT, hI⟩ rfl rfl rfl rfl
  · simp only at h
    split at h
    · cases h
      exact ⟨by simp only; omega, by simp only; omega, hT, htouch⟩
    · split at h
      · cases h
      · split at h
        · cases h
        · split at h
          · cases h
            unfold Numbered
            simp only [hmod]
            exact ⟨by omega, by omega, hT, IndexIds_mono htouch (by omega)⟩
          · split at h
            · cases h
            · split at h
              · cases h
              · rename_i cm3 hf
                cases h
                have e := (FlushCatalogMetaPage_fields hf).1
                unfold Numbered
                rw [e]
                simp only [hmod]
                refine ⟨by omega, by omega, hT, ?_⟩
                split
                · refine IndexIds_assign htouch (by omega) table_name index_name _ ?_
                  intro e0 he0
                  left
                  have : e0 = (index_name, cm.next_index_id_) := by simpa using he0
                  exact ⟨this, by omega⟩
                · rename_i names1 hfind
                  refine IndexIds_assign htouch (by omega) table_name index_name _ ?_
                  intro e0 he0
                  rcases Map.mem_assign he0 with h0 | h0
                  · right; exact ⟨names1, hfind, h0⟩
                  · left; exact ⟨h0, by omega⟩

theorem Numbered_DropTable {n : Nat} {cm cm1 : CatalogManager} {table_name : String}
    {code : dberr_t} (h : cm.DropTable table_name = some (code, cm1))
    (hn : Numbered n cm) : Numbered (n + 1) cm1 := by
  unfold DropTable at h
  split at h
  · cases h
    exact Numbered_of_fields hn rfl rfl rfl rfl
  · split at h
    · cases h
    · split at h
      · cases h
        exact Numbered_of_fields hn rfl rfl rfl rfl
      · simp only at h
        split at h
        · cases h
          exact Numbered_of_fields hn rfl rfl rfl rfl
        · split at h
          · cases h
          · rename_i cm2 hf
            cases h
            have e := (FlushCatalogMetaPage_fields hf).1
            obtain ⟨ht, hi, hT, hI⟩ := hn
            unfold Numbered
            rw [e]
            exact ⟨by simp only; omega, by simp only; omega, TableIds_erase hT table_name,
              IndexIds_erase hI table_name⟩

theorem Numbered_DropIndex {n : Nat} {cm cm1 : CatalogManager}
    {table_name index_name : String} {code : dberr_t}
    (h : cm.DropIndex table_name index_name = some (code, cm1))
    (hn : Numbered n cm) : Numbered (n + 1) cm1 := by
  unfold DropIndex at h
  split at h
  · cases h
    exact Numbered_of_fields hn rfl rfl rfl rfl
  · split at h
    · cases h
      exact Numbered_of_fields hn rfl rfl rfl rfl
    · rename_i names hnames
      split at h
      · cases h
        exact Numbered_of_fields hn rfl rfl rfl rfl
      · split at h
        · cases h
        · split at h
          · cases h
          · simp only at h
            split at h
            · cases h
              exact Numbered_of_fields hn rfl rfl rfl rfl
            · split at h
              · cases h
              · rename_i cm2 hf
                cases h
                have e := (FlushCatalogMetaPage_fields hf).1
                obtain ⟨ht, hi, hT, hI⟩ := hn
                unfold Numbered
                rw [e]
                refine ⟨by simp only; omega, by simp only; omega, hT, ?_⟩
                simp only
                split
                · exact IndexIds_erase hI table_name
                · refine IndexIds_assign hI (Nat.le_refl _) table_name index_name _ ?_
                  intro e0 he0
                  right
                  exact ⟨names, hnames, Map.mem_erase he0⟩

end CatalogManager

theorem Numbered_apply {n : Nat} {cm : CatalogManager} {call : Call}
    {r : dberr_t × CatalogManager} (h : call.apply cm = some r)
    (hn : cm.Numbered n) (hlt : n + 1 < 4294967296) : r.2.Numbered (n + 1) := by
  cases call with
  | CreateTable table_name schema =>
    simp only [Call.apply] at h
    cases hc : cm.CreateTable table_name schema none with
    | none => rw [hc] at h; cases h
    | some x =>
      rw [hc] at h
      obtain ⟨code, cm1, out⟩ := x
      cases h
      exact CatalogManager.Numbered_CreateTable hc hn hlt
  | CreateIndex table_name index_name index_keys =>
    simp only [Call.apply] at h
    cases hc : cm.CreateIndex table_name index_name index_keys none with
    | none => rw [hc] at h; cases h
    | some x =>
      rw [hc] at h
      obtain ⟨code, cm1, out⟩ := x
      cases h
      exact CatalogManager.Numbered_CreateIndex hc hn hlt
  | DropTable table_name =>
    obtain ⟨code, cm1⟩ := r
    exact CatalogManager.Numbered_DropTable h hn
  | DropIndex table_name index_name =>
    obtain ⟨code, cm1⟩ := r
    exact CatalogManager.Numbered_DropIndex h hn

theorem Numbered_runCalls (calls : List Call) : ∀ (n : Nat) (cm : CatalogManager)
    (r : List dberr_t × CatalogManager), cm.Numbered n → n + calls.length < 4294967296 →
    runCalls calls cm = some r → r.2.Numbered (n + calls.length) := by
  induction calls with
  | nil =>
    intro n cm r hn _ h
    cases h
    exact hn
  | cons call calls ih =>
    intro n cm r hn hlt h
    simp only [List.length_cons] at hlt ⊢
    simp only [runCalls] at h
    cases hc : call.apply cm with
    | none => rw [hc] at h; cases h
    | some r1 =>
      rw [hc] at h
      simp only [Option.some_bind] at h
      cases hr : runCalls calls r1.2 with
      | none => rw [hr] at h; cases h
      | some r2 =>
        rw [hr] at h
        cases h
        have h1 := Numbered_apply hc hn (by omega)
        have h2 := ih (n + 1) r1.2 r2 h1 (by omega) hr
        have e : n + (calls.length + 1) = n + 1 + calls.length := by omega
        rw [e]
        exact h2

end Catalog

/-! ### Pin counts and the pool under the calls of the catalog -/

namespace BufferPoolManager

end BufferPoolManager

namespace Catalog

namespace CatalogManager

end CatalogManager

end Catalog

/-! ### Calls of the catalog that return `DB_SUCCESS` -/

namespace Map

end Map

namespace Catalog

namespace CatalogManager

end CatalogManager

end Catalog

namespace Catalog

namespace CatalogManager

end CatalogManager

end Catalog

/-! ### The table id counter after 2^32 creations -/

namespace Catalog

namespace CatalogManager

theorem runCalls_cons (call : Call) (calls : List Call) (cm : CatalogManager)
    (r : dberr_t × CatalogManager) (h : call.apply cm = some r) :
    runCalls (call :: calls) cm =
      (runCalls calls r.2).map fun rs => (r.1 :: rs.1, rs.2) := by
  show (call.apply cm).bind _ = _
  rw [h]
  rfl

end CatalogManager

end Catalog

/-! ### The index id counter after 2^32 calls of `CreateIndex` -/

namespace Catalog

namespace CatalogManager

theorem CreateIndex_bad_column (cm : CatalogManager) (table_name index_name : String)
    (index_keys : List String) (index_info : Option IndexInfo) (table_id : Nat)
    (names : List (String × Nat)) (table_info : TableInfo) (schema : List String)
    (ht : Map.find cm.table_names_ table_name = some table_id)
    (hn : Map.find cm.index_names_ table_name = some names)
    (hi : Map.find names index_name = none)
    (hinfo : Map.find cm.tables_ table_id = some table_info)
    (hs : table_info.GetSchema = some schema)
    (hk : CreateIndex.key_map schema index_keys = none) :
    cm.CreateIndex table_name index_name index_keys index_info =
      some (dberr_t.DB_COLUMN_NAME_NOT_EXIST,
        { cm with next_index_id_ := (cm.next_index_id_ + 1) % 4294967296 },
        some IndexInfo.Create) := by
  have htouch := Map.touch_of_isSome cm.index_names_ table_name [] (by rw [hn]; rfl)
  unfold CreateIndex
  rw [ht]
  simp only [htouch, hn, Option.getD_some, hi, Option.isSome_none, Bool.false_eq_true, if_false,
    hinfo, hs, hk]

end CatalogManager

set_option maxRecDepth 100000 in
theorem catalogTI_reached :
    (Call.CreateTable "t" ["a", "b"]).apply emptyCatalog =
      some (dberr_t.DB_SUCCESS, catalogT) ∧
    (Call.CreateIndex "t" "i" ["a"]).apply catalogT = some (dberr_t.DB_SUCCESS, catalogTI) ∧
    catalogTI.table_names_ = [("t", 0)] ∧ catalogTI.tables_ = [(0, tableT)] ∧
    catalogTI.index_names_ = [("t", [("i", 0)])] ∧ catalogTI.next_index_id_ = 1 := by
  decide!

theorem catalogTIAt_CreateIndex (next : Nat) :
    (Call.CreateIndex "t" "j" ["z"]).apply (catalogTIAt next) =
      some (dberr_t.DB_COLUMN_NAME_NOT_EXIST, catalogTIAt ((next + 1) % 4294967296)) := by
  obtain ⟨_, _, h1, h2, h3, _⟩ := catalogTI_reached
  have h := CatalogManager.CreateIndex_bad_column (catalogTIAt next) "t" "j" ["z"] none 0
    [("i", 0)] tableT ["a", "b"]
    (by show Map.find catalogTI.table_names_ "t" = _; rw [h1]; decide)
    (by show Map.find catalogTI.index_names_ "t" = _; rw [h3]; decide)
    (by decide)
    (by show Map.find catalogTI.tables_ 0 = _; rw [h2]; decide)
    (by decide) (by decide)
  simp only [Call.apply, h, Option.map_some']
  rfl

theorem catalogTIAt_runCalls (k : Nat) : ∀ next : Nat, next < 4294967296 →
    runCalls (List.replicate k (Call.CreateIndex "t" "j" ["z"])) (catalogTIAt next) =
      some (List.replicate k dberr_t.DB_COLUMN_NAME_NOT_EXIST,
        catalogTIAt ((next + k) % 4294967296)) := by
  induction k with
  | zero =>
    intro next hlt
    rw [Nat.add_zero, Nat.mod_eq_of_lt hlt]
    rfl
  | succ k ih =>
    intro next hlt
    have hstep := catalogTIAt_CreateIndex next
    have hc := ih ((next + 1) % 4294967296) (Nat.mod_lt _ (by omega))
    show runCalls (Call.CreateIndex "t" "j" ["z"] ::
      List.replicate k (Call.CreateIndex "t" "j" ["z"])) (catalogTIAt next) = _
    rw [CatalogManager.runCalls_cons _ _ _ _ hstep, hc]
    have e : ((next + 1) % 4294967296 + k) % 4294967296 = (next + (k + 1)) % 4294967296 := by
      omega
    rw [e]
    rfl

theorem catalogTIAt_wrapped :
    runCalls
      (Call.CreateTable "t" ["a", "b"] :: Call.CreateIndex "t" "i" ["a"] ::
        List.replicate 4294967295 (Call.CreateIndex "t" "j" ["z"])) emptyCatalog =
      some (dberr_t.DB_SUCCESS :: dberr_t.DB_SUCCESS ::
        List.replicate 4294967295 dberr_t.DB_COLUMN_NAME_NOT_EXIST, catalogTIAt 0) := by
  obtain ⟨h1, h2, _, _, _, h6⟩ := catalogTI_reached
  have hc := catalogTIAt_runCalls 4294967295 1 (by omega)
  have e : catalogTIAt 1 = catalogTI := by
    show ({ catalogTI with next_index_id_ := 1 } : CatalogManager) = catalogTI
    rw [← h6]
  rw [CatalogManager.runCalls_cons _ _ _ _ h1, CatalogManager.runCalls_cons _ _ _ _ h2]
  show (Option.map _ (runCalls _ catalogTI)).map _ = _
  rw [← e, hc]
  rfl

end Catalog

/-! ### The catalog below and at the wrap of its id counters -/

/-- A catalog reached from the new catalog by fewer than 2^32 calls has ids that
were handed out by counters that have not wrapped. -/
theorem Catalog.Numbered_reached {calls : List Catalog.Call} {codes : List dberr_t}
    {cm : Catalog.CatalogManager}
    (hreach : Catalog.runCalls calls emptyCatalog = some (codes, cm))
    (hcalls : calls.length < 4294967296) : cm.Numbered calls.length := by
  have h := Catalog.Numbered_runCalls calls 0 emptyCatalog (codes, cm)
    Catalog.CatalogManager.Numbered_emptyCatalog (by omega) hreach
  rw [Nat.zero_add] at h
  exact h

/-- The catalog `catalogTU` is the new catalog after its four calls, each of
which has returned `DB_SUCCESS`. -/
theorem catalogTU_run :
    Catalog.runCalls
      [Catalog.Call.CreateTable "t" ["a", "b"], Catalog.Call.CreateIndex "t" "i" ["a"],
       Catalog.Call.CreateTable "u" ["c"], Catalog.Call.CreateIndex "u" "j" ["c"]]
      emptyCatalog =
      some ([dberr_t.DB_SUCCESS, dberr_t.DB_SUCCESS, dberr_t.DB_SUCCESS, dberr_t.DB_SUCCESS],
        catalogTU) := by
  have h := catalogTU_reached.1
  cases hr : Catalog.runCalls
      [Catalog.Call.CreateTable "t" ["a", "b"], Catalog.Call.CreateIndex "t" "i" ["a"],
       Catalog.Call.CreateTable "u" ["c"], Catalog.Call.CreateIndex "u" "j" ["c"]]
      emptyCatalog with
  | none => rw [hr] at h; cases h
  | some r =>
    rw [hr] at h
    obtain ⟨c, cm⟩ := r
    have hc : c = [dberr_t.DB_SUCCESS, dberr_t.DB_SUCCESS, dberr_t.DB_SUCCESS,
        dberr_t.DB_SUCCESS] := by simpa using h
    have hcm : catalogTU = cm := by
      unfold catalogTU
      rw [hr]
      rfl
    rw [hc, hcm]

set_option maxRecDepth 100000 in
/-- C21 counterexample: the counter `next_index_id_` has 32 bits, and
`CreateIndex` increments it before it checks the columns. On the new catalog,
`CreateTable("t", (a, b))` and `CreateIndex("t", "i", (a))` return `DB_SUCCESS`,
and `i` has the id 0; 4294967295 calls of `CreateIndex("t", "j", (z))` return
`DB_COLUMN_NAME_NOT_EXIST` and leave the counter at 0. `CreateIndex("t", "j",
(b))` then returns `DB_SUCCESS` and gives `j` the id 0 of `i`. `DropIndex("t",
"j")` returns `DB_SUCCESS` and erases `indexes_[0]`: `GetIndex("t", "i")`, which
returned `DB_SUCCESS` before the call, returns `DB_FAILED` after it, although
`i` is still listed under `t`. -/
theorem C21_DropIndex_after_wrap_loses_other_index :
    Catalog.runCalls
      (Catalog.Call.CreateTable "t" ["a", "b"] :: Catalog.Call.CreateIndex "t" "i" ["a"] ::
        List.replicate 4294967295 (Catalog.Call.CreateIndex "t" "j" ["z"])) emptyCatalog =
      some (dberr_t.DB_SUCCESS :: dberr_t.DB_SUCCESS ::
        List.replicate 4294967295 dberr_t.DB_COLUMN_NAME_NOT_EXIST, catalogTIAt 0) ∧
    (catalogTIAt 0).GetIndex "t" "i" none =
      (dberr_t.DB_SUCCESS, some ⟨some ⟨0, "i", 0, [0]⟩, some tableT, some ⟨0, -1⟩⟩) ∧
    ∃ cm1 info cm2,
      (catalogTIAt 0).CreateIndex "t" "j" ["b"] none =
        some (dberr_t.DB_SUCCESS, cm1, some info) ∧
      info.meta_data_ = some ⟨0, "j", 0, [1]⟩ ∧
      cm1.index_names_ = [("t", [("i", 0), ("j", 0)])] ∧
      cm1.GetIndex "t" "i" none = (dberr_t.DB_SUCCESS, some info) ∧
      cm1.DropIndex "t" "j" = some (dberr_t.DB_SUCCESS, cm2) ∧
      cm2.index_names_ = [("t", [("i", 0)])] ∧
      cm2.GetIndex "t" "i" none = (dberr_t.DB_FAILED, none) := by
  refine ⟨Catalog.catalogTIAt_wrapped, by decide!, ?_⟩
  have h : (match (catalogTIAt 0).CreateIndex "t" "j" ["b"] none with
    | some (dberr_t.DB_SUCCESS, cm1, some info) =>
      decide (info.meta_data_ = some ⟨0, "j", 0, [1]⟩) &&
      decide (cm1.index_names_ = [("t", [("i", 0), ("j", 0)])]) &&
      decide (cm1.GetIndex "t" "i" none = (dberr_t.DB_SUCCESS, some info)) &&
      (match cm1.DropIndex "t" "j" with
       | some (dberr_t.DB_SUCCESS, cm2) =>
         decide (cm2.index_names_ = [("t", [("i", 0)])]) &&
         decide (cm2.GetIndex "t" "i" none = (dberr_t.DB_FAILED, none))
       | _ => false)
    | _ => false) = true := by decide!
  split at h
  · rename_i cm1 info hc
    simp only [Bool.and_eq_true, decide_eq_true_eq] at h
    obtain ⟨⟨⟨h1, h2⟩, h3⟩, h4⟩ := h
    split at h4
    · rename_i cm2 hd
      simp only [Bool.and_eq_true, decide_eq_true_eq] at h4
      exact ⟨cm1, info, cm2, hc, h1, h2, h3, hd, h4.1, h4.2⟩
    · cases h4
  · cases h

/-- C21: on a catalog reached from the new catalog by fewer than 2^32 calls of
`CreateTable`, `CreateIndex`, `DropTable` and `DropIndex`,
`DropIndex(table, index_name)` returns `DB_TABLE_NOT_EXIST` for a table that is
absent and `DB_INDEX_NOT_FOUND` for a table without an index of that name, and
the catalog is unchanged in both cases. After it has returned `DB_SUCCESS`,
`GetIndex(table, index_name)` returns `DB_INDEX_NOT_FOUND`, the catalog meta has
no entry for the id of the index, and `GetIndex` of every other pair of a table
and an index name returns what it returned before. -/
theorem C21_DropIndex_below_the_wrap (calls : List Catalog.Call) (codes : List dberr_t)
    (cm : Catalog.CatalogManager) (table_name index_name : String)
    (hreach : Catalog.runCalls calls emptyCatalog = some (codes, cm))
    (hcalls : calls.length < 4294967296) :
    (Map.find cm.table_names_ table_name = none →
      cm.DropIndex table_name index_name = some (dberr_t.DB_TABLE_NOT_EXIST, cm)) ∧
    ((Map.find cm.table_names_ table_name).isSome = true →
      ((Map.find cm.index_names_ table_name).bind fun names => Map.find names index_name) =
        none →
      cm.DropIndex table_name index_name = some (dberr_t.DB_INDEX_NOT_FOUND, cm)) ∧
    ∀ cm1, cm.DropIndex table_name index_name = some (dberr_t.DB_SUCCESS, cm1) →
      (∀ info0, cm1.GetIndex table_name index_name info0 =
        (dberr_t.DB_INDEX_NOT_FOUND, info0)) ∧
      (∀ names index_id, Map.find cm.index_names_ table_name = some names →
        Map.find names index_name = some index_id →
        Map.find cm1.catalog_meta_.index_meta_pages_ index_id = none) ∧
      (∀ t i, (t ≠ table_name ∨ i ≠ index_name) → ∀ info0,
        cm1.GetIndex t i info0 = cm.GetIndex t i info0) := by
  obtain ⟨_, _, _, hI⟩ := Catalog.Numbered_reached hreach hcalls
  exact Catalog.CatalogManager.DropIndex_of_distinct_ids cm table_name index_name
    (by
      intro names index_id t names1 i h1 h2 h3 h4
      exact hI.2 t names1 table_name names h3 h1 (i, index_id) (Map.mem_of_find h4)
        (index_name, index_id) (Map.mem_of_find h2) rfl)

set_option maxRecDepth 100000 in
/-- C21 at the catalog with the tables `t` and `u`, reached by four calls from
the new catalog: `DropIndex("t", "i")` succeeds, the index `i` of `t` is gone,
and the index `j` of `u` resolves as before; `DropIndex` of an absent table or
index name changes nothing. -/
theorem C21_DropIndex_two_tables_witness :
    ∃ cm1, catalogTU.DropIndex "t" "i" = some (dberr_t.DB_SUCCESS, cm1) ∧
      cm1.GetIndex "t" "i" none = (dberr_t.DB_INDEX_NOT_FOUND, none) ∧
      Map.find cm1.catalog_meta_.index_meta_pages_ 0 = none ∧
      cm1.GetIndex "u" "j" none = catalogTU.GetIndex "u" "j" none ∧
      catalogTU.DropIndex "v" "i" = some (dberr_t.DB_TABLE_NOT_EXIST, catalogTU) ∧
      catalogTU.DropIndex "t" "k" = some (dberr_t.DB_INDEX_NOT_FOUND, catalogTU) := by
  have hnames : catalogTU.table_names_ = [("t", 0), ("u", 1)] := by decide!
  have hinames : catalogTU.index_names_ = [("t", [("i", 0)]), ("u", [("j", 1)])] := by decide!
  have hcode : (catalogTU.DropIndex "t" "i").map Prod.fst = some dberr_t.DB_SUCCESS := by
    decide!
  cases hd : catalogTU.DropIndex "t" "i" with
  | none => rw [hd] at hcode; cases hcode
  | some r =>
    rw [hd] at hcode
    obtain ⟨err, cm1⟩ := r
    have herr : err = dberr_t.DB_SUCCESS := by simpa using hcode
    subst herr
    have hs := (C21_DropIndex_below_the_wrap _ _ catalogTU "t" "i" catalogTU_run
      (by decide)).2.2 cm1 hd
    exact ⟨cm1, rfl, hs.1 none, hs.2.1 [("i", 0)] 0 (by rw [hinames]; decide) (by decide),
      hs.2.2 "u" "j" (Or.inl (by decide)) none,
      (C21_DropIndex_below_the_wrap _ _ catalogTU "v" "i" catalogTU_run (by decide)).1
        (by rw [hnames]; decide),
      (C21_DropIndex_below_the_wrap _ _ catalogTU "t" "k" catalogTU_run (by decide)).2.1
        (by rw [hnames]; decide) (by rw [hinames]; decide)⟩

end MiniSQL
